import Mathlib

/-!
# tdp-lite backend: request signing, replay protection, idempotency, search cursors

A shallow embedding of the correctness-critical parts of the tdp-lite backend
(`backend/internal/auth`, `backend/internal/store`, `backend/internal/api`) together with
theorems about them.

Conventions of the embedding.

* A Go `string` is a Lean `String` (a sequence of Unicode scalar values, that is, a
  well-formed UTF-8 byte string); a Go `[]byte` is a `List Nat` whose entries are below 256.
* Functions of the Go standard library that the code calls (`crypto/sha256`, `crypto/hmac`,
  `encoding/hex`, `strings`, ...) are written out as executable definitions in the section
  "Go standard library".
* Database tables are finite lists of rows; a store method is a function from a table (and
  the clock reading) to the new table and the method's result.
-/

namespace TdpLite

/-! ## Go standard library -/

/-! ### `encoding/hex` -/

/-- The table `hextable = "0123456789abcdef"` of `encoding/hex`, as a function of the nibble. -/
def hexDigit (n : Nat) : Char :=
  if n < 10 then Char.ofNat (48 + n) else Char.ofNat (87 + n)

/-- The function `fromHexChar` of `encoding/hex`: the value of a hexadecimal digit, in either
case, `none` for any other character. -/
def fromHexChar (c : Char) : Option Nat :=
  if 48 ≤ c.toNat ∧ c.toNat ≤ 57 then some (c.toNat - 48)
  else if 97 ≤ c.toNat ∧ c.toNat ≤ 102 then some (c.toNat - 87)
  else if 65 ≤ c.toNat ∧ c.toNat ≤ 70 then some (c.toNat - 55)
  else none

/-- The characters `hex.EncodeToString` writes for a byte slice: two digits a byte, high
nibble first. -/
def hexEncodeChars : List Nat → List Char
  | [] => []
  | b :: bs => hexDigit (b / 16 % 16) :: hexDigit (b % 16) :: hexEncodeChars bs

/-- The function `hex.EncodeToString`. -/
def hexEncode (bs : List Nat) : String := ⟨hexEncodeChars bs⟩

/-- The bytes `hex.DecodeString` reads: `none` stands for its errors (`ErrLength` on an odd
number of characters, `InvalidByteError` on a character that is no hexadecimal digit). -/
def hexDecodeChars : List Char → Option (List Nat)
  | [] => some []
  | [_] => none
  | hi :: lo :: rest =>
    match fromHexChar hi, fromHexChar lo, hexDecodeChars rest with
    | some h, some l, some bs => some ((h * 16 + l) :: bs)
    | _, _, _ => none

/-- The function `hex.DecodeString`. -/
def hexDecode (s : String) : Option (List Nat) := hexDecodeChars s.data

/-! ### `crypto/sha256` and `crypto/hmac` -/

/-- Addition of 32-bit words. -/
def add32 (a b : Nat) : Nat := (a + b) % 2 ^ 32

/-- Rotation of a 32-bit word to the right (`bits.RotateLeft32(x, -n)`). -/
def rotr32 (x n : Nat) : Nat := (x >>> n ||| x <<< (32 - n)) % 2 ^ 32

/-- The round constants of SHA-256. -/
def sha256K : List Nat :=
  [0x428a2f98, 0x71374491, 0xb5c0fbcf, 0xe9b5dba5, 0x3956c25b, 0x59f111f1, 0x923f82a4, 0xab1c5ed5,
   0xd807aa98, 0x12835b01, 0x243185be, 0x550c7dc3, 0x72be5d74, 0x80deb1fe, 0x9bdc06a7, 0xc19bf174,
   0xe49b69c1, 0xefbe4786, 0x0fc19dc6, 0x240ca1cc, 0x2de92c6f, 0x4a7484aa, 0x5cb0a9dc, 0x76f988da,
   0x983e5152, 0xa831c66d, 0xb00327c8, 0xbf597fc7, 0xc6e00bf3, 0xd5a79147, 0x06ca6351, 0x14292967,
   0x27b70a85, 0x2e1b2138, 0x4d2c6dfc, 0x53380d13, 0x650a7354, 0x766a0abb, 0x81c2c92e, 0x92722c85,
   0xa2bfe8a1, 0xa81a664b, 0xc24b8b70, 0xc76c51a3, 0xd192e819, 0xd6990624, 0xf40e3585, 0x106aa070,
   0x19a4c116, 0x1e376c08, 0x2748774c, 0x34b0bcb5, 0x391c0cb3, 0x4ed8aa4a, 0x5b9cca4f, 0x682e6ff3,
   0x748f82ee, 0x78a5636f, 0x84c87814, 0x8cc70208, 0x90befffa, 0xa4506ceb, 0xbef9a3f7, 0xc67178f2]

/-- The initial hash value of SHA-256. -/
def sha256Init : List Nat :=
  [0x6a09e667, 0xbb67ae85, 0x3c6ef372, 0xa54ff53a, 0x510e527f, 0x9b05688c, 0x1f83d9ab, 0x5be0cd19]

/-- The padding of SHA-256: the byte `0x80`, zero bytes up to 56 modulo 64, and the length of
the message in bits as eight big-endian bytes. -/
def sha256Pad (msg : List Nat) : List Nat :=
  let bits := 8 * msg.length
  msg ++ [0x80] ++ List.replicate ((119 - msg.length % 64) % 64) 0
    ++ (List.range 8).map (fun i => bits / 2 ^ (8 * (7 - i)) % 256)

/-- The big-endian 32-bit words of a byte list (a trailing group of fewer than four bytes is
dropped; a padded message has none). -/
def wordsBE : List Nat → List Nat
  | a :: b :: c :: d :: rest => (a * 2 ^ 24 + b * 2 ^ 16 + c * 2 ^ 8 + d) :: wordsBE rest
  | _ => []

/-- The four big-endian bytes of a 32-bit word. -/
def bytesBE (w : Nat) : List Nat :=
  [w / 2 ^ 24 % 256, w / 2 ^ 16 % 256, w / 2 ^ 8 % 256, w % 256]

/-- The message schedule of one block: the sixteen words of the block, extended to 64. -/
def sha256Schedule (block : List Nat) : List Nat :=
  (List.range 48).foldl (fun w i =>
    let w15 := w.getD (i + 1) 0
    let w2 := w.getD (i + 14) 0
    let s0 := rotr32 w15 7 ^^^ rotr32 w15 18 ^^^ (w15 >>> 3)
    let s1 := rotr32 w2 17 ^^^ rotr32 w2 19 ^^^ (w2 >>> 10)
    w ++ [add32 (add32 (add32 (w.getD i 0) s0) (w.getD (i + 9) 0)) s1]) block

/-- One round of the compression function on the working variables `a .. h`. -/
def sha256Round (v : List Nat) (kw : Nat × Nat) : List Nat :=
  match v with
  | [a, b, c, d, e, f, g, h] =>
    let s1 := rotr32 e 6 ^^^ rotr32 e 11 ^^^ rotr32 e 25
    let ch := (e &&& f) ^^^ ((2 ^ 32 - 1 - e) &&& g)
    let t1 := add32 (add32 (add32 (add32 h s1) ch) kw.1) kw.2
    let s0 := rotr32 a 2 ^^^ rotr32 a 13 ^^^ rotr32 a 22
    let maj := (a &&& b) ^^^ (a &&& c) ^^^ (b &&& c)
    let t2 := add32 s0 maj
    [add32 t1 t2, a, b, c, add32 d t1, e, f, g]
  | _ => v

/-- The compression function: the hash value after one more sixteen-word block. -/
def sha256Block (h : List Nat) (block : List Nat) : List Nat :=
  List.zipWith add32 h ((sha256K.zip (sha256Schedule block)).foldl sha256Round h)

/-- The sixteen-word blocks of a word list. -/
def blocks16 : Nat → List Nat → List (List Nat)
  | 0, _ => []
  | n + 1, ws => ws.take 16 :: blocks16 n (ws.drop 16)

/-- The function `sha256.Sum256`, as a list of 32 bytes. -/
def sha256 (msg : List Nat) : List Nat :=
  let ws := wordsBE (sha256Pad msg)
  ((blocks16 (ws.length / 16) ws).foldl sha256Block sha256Init).flatMap bytesBE

/-- The UTF-8 encoding of one character (`utf8.AppendRune`). -/
def charBytes (c : Char) : List Nat :=
  let n := c.toNat
  if n < 0x80 then [n]
  else if n < 0x800 then [0xC0 + n / 64, 0x80 + n % 64]
  else if n < 0x10000 then [0xE0 + n / 4096, 0x80 + n / 64 % 64, 0x80 + n % 64]
  else [0xF0 + n / 262144, 0x80 + n / 4096 % 64, 0x80 + n / 64 % 64, 0x80 + n % 64]

/-- The bytes of a Go string: its UTF-8 encoding (`[]byte(s)`). -/
def stringBytes (s : String) : List Nat := s.data.flatMap charBytes

/-- The function `utf8.DecodeRune` on a byte list that is not empty: the first character
and the bytes after it. A byte sequence that is not the UTF-8 encoding of a character gives
U+FFFD (`utf8.RuneError`) and takes one byte. -/
def decodeRune (b0 : Nat) (rest : List Nat) : Char × List Nat :=
  let cont := fun (b : Nat) => 0x80 ≤ b ∧ b ≤ 0xBF
  if b0 < 0x80 then (Char.ofNat b0, rest)
  else
    match rest with
    | b1 :: r1 =>
      if 0xC2 ≤ b0 ∧ b0 ≤ 0xDF ∧ cont b1 then
        (Char.ofNat ((b0 - 0xC0) * 64 + (b1 - 0x80)), r1)
      else
        match r1 with
        | b2 :: r2 =>
          if 0xE0 ≤ b0 ∧ b0 ≤ 0xEF ∧ cont b1 ∧ cont b2 ∧ (b0 = 0xE0 → 0xA0 ≤ b1)
              ∧ (b0 = 0xED → b1 ≤ 0x9F) then
            (Char.ofNat ((b0 - 0xE0) * 4096 + (b1 - 0x80) * 64 + (b2 - 0x80)), r2)
          else
            match r2 with
            | b3 :: r3 =>
              if 0xF0 ≤ b0 ∧ b0 ≤ 0xF4 ∧ cont b1 ∧ cont b2 ∧ cont b3 ∧ (b0 = 0xF0 → 0x90 ≤ b1)
                  ∧ (b0 = 0xF4 → b1 ≤ 0x8F) then
                (Char.ofNat ((b0 - 0xF0) * 262144 + (b1 - 0x80) * 4096 + (b2 - 0x80) * 64
                  + (b3 - 0x80)), r3)
              else (Char.ofNat 0xFFFD, rest)
            | [] => (Char.ofNat 0xFFFD, rest)
        | [] => (Char.ofNat 0xFFFD, rest)
    | [] => (Char.ofNat 0xFFFD, rest)

/-- The characters of a byte string as Go reads them (`[]rune(string(bytes))`), with U+FFFD
for every byte that is not part of a well-formed encoding. `fuel` bounds the number of
characters and is the number of bytes. -/
def utf8DecodeAux : Nat → List Nat → List Char
  | _, [] => []
  | 0, _ :: _ => []
  | fuel + 1, b0 :: rest => (decodeRune b0 rest).1 :: utf8DecodeAux fuel (decodeRune b0 rest).2

/-- The characters of a byte string as Go reads them. -/
def utf8Decode (bytes : List Nat) : List Char := utf8DecodeAux bytes.length bytes

/-- The MAC `hmac.New(sha256.New, key)` computes over `msg` (RFC 2104 with block size 64). -/
def hmacSHA256 (key msg : List Nat) : List Nat :=
  let k := if key.length > 64 then sha256 key else key
  let k := k ++ List.replicate (64 - k.length) 0
  sha256 (k.map (· ^^^ 0x5c) ++ sha256 (k.map (· ^^^ 0x36) ++ msg))

/-- The function `subtle.ConstantTimeCompare`: 1 when the two slices have equal contents, 0
otherwise (and 0 at once when the lengths differ). -/
def ConstantTimeCompare (x y : List Nat) : Nat :=
  if x.length ≠ y.length then 0
  else if (List.zipWith (· ^^^ ·) x y).foldl (· ||| ·) 0 = 0 then 1 else 0

/-! ### `strings` and `sort` -/

/-- The predicate `unicode.IsSpace`: the white space characters of Unicode. -/
def isSpace (c : Char) : Bool :=
  let n := c.toNat
  (9 ≤ n && n ≤ 13) || n == 0x20 || n == 0x85 || n == 0xA0 || n == 0x1680
    || (0x2000 ≤ n && n ≤ 0x200A) || n == 0x2028 || n == 0x2029 || n == 0x202F
    || n == 0x205F || n == 0x3000

/-- The function `strings.TrimSpace` on the characters of a string. -/
def trimSpaceChars (l : List Char) : List Char :=
  ((l.dropWhile isSpace).reverse.dropWhile isSpace).reverse

/-- The function `strings.TrimSpace`: the string without its leading and trailing white
space. -/
def TrimSpace (s : String) : String := ⟨trimSpaceChars s.data⟩

/-- Upper case of one character. The letters `a`..`z` are mapped as Go maps them; the case
tables of Go's `unicode` package for characters outside ASCII are not part of this
development, and such characters are left as they are. -/
def upperChar (c : Char) : Char :=
  if 97 ≤ c.toNat ∧ c.toNat ≤ 122 then Char.ofNat (c.toNat - 32) else c

/-- Lower case of one character (see `upperChar` for characters outside ASCII). -/
def lowerChar (c : Char) : Char :=
  if 65 ≤ c.toNat ∧ c.toNat ≤ 90 then Char.ofNat (c.toNat + 32) else c

/-- The function `strings.ToUpper`. -/
def ToUpper (s : String) : String := ⟨s.data.map upperChar⟩

/-- The function `strings.ToLower`. -/
def ToLower (s : String) : String := ⟨s.data.map lowerChar⟩

/-- The pieces of a character list between the occurrences of `sep`
(`strings.Split(s, sep)` for a one-character separator): one more piece than separators. -/
def splitChars (sep : Char) : List Char → List (List Char)
  | [] => [[]]
  | c :: cs =>
    match splitChars sep cs with
    | [] => [[]]
    | p :: ps => if c = sep then [] :: p :: ps else (c :: p) :: ps

/-- The function `strings.Cut(s, sep)` for a one-character separator: the text before the
first `sep` and the text after it (all of `s` and nothing when there is no `sep`). -/
def cutChars (sep : Char) : List Char → List Char × List Char
  | [] => ([], [])
  | c :: cs => if c = sep then ([], cs) else ((c :: (cutChars sep cs).1), (cutChars sep cs).2)

/-- The function `strings.Join` on character lists. -/
def joinChars (sep : List Char) : List (List Char) → List Char
  | [] => []
  | [p] => p
  | p :: q :: ps => p ++ sep ++ joinChars sep (q :: ps)

/-- The function `strings.Join`. -/
def Join (parts : List String) (sep : String) : String :=
  ⟨joinChars sep.data (parts.map String.data)⟩

/-- Byte-wise order of Go strings held as byte lists (`a <= b`). -/
def bytesLe : List Nat → List Nat → Bool
  | [], _ => true
  | _ :: _, [] => false
  | a :: as, b :: bs => a < b || (a == b && bytesLe as bs)

/-- The function `sort.Strings` on strings held as byte lists: the ascending arrangement. -/
def sortBytes (l : List (List Nat)) : List (List Nat) :=
  l.insertionSort (fun a b => bytesLe a b = true)

/-- The function `sort.Strings` on strings: Go orders strings by their bytes, which for
UTF-8 is the order of their encodings. -/
def sortStrings (l : List (List Char)) : List (List Char) :=
  l.insertionSort (fun a b => bytesLe (a.flatMap charBytes) (b.flatMap charBytes) = true)

/-- The loop of `strings.ReplaceAll` for an `old` that is not empty: from left to right, an
occurrence of `old` is replaced by `new` and the search goes on after it. `fuel` bounds the
steps and is the length of the text, as each step takes at least one character. -/
def replaceAllChars (old new : List Char) : Nat → List Char → List Char
  | _, [] => []
  | 0, c :: cs => c :: cs
  | fuel + 1, c :: cs =>
    if old.isPrefixOf (c :: cs) then
      new ++ replaceAllChars old new fuel ((c :: cs).drop old.length)
    else c :: replaceAllChars old new fuel cs

/-- The function `strings.ReplaceAll`; an empty `old` matches at the beginning of the text
and after each character. -/
def ReplaceAll (s old new : String) : String :=
  if old.data = [] then ⟨new.data ++ s.data.flatMap (fun c => c :: new.data)⟩
  else ⟨replaceAllChars old.data new.data s.data.length s.data⟩

/-! ### `net/url` -/

/-- The table `upperhex = "0123456789ABCDEF"` of `net/url`. -/
def upperHexDigit (n : Nat) : Char :=
  if n < 10 then Char.ofNat (48 + n) else Char.ofNat (55 + n)

/-- Whether `url.QueryEscape` leaves a byte as it is: letters, digits and `-`, `_`, `.`, `~`
(`shouldEscape(c, encodeQueryComponent)` is false). -/
def queryUnreserved (b : Nat) : Bool :=
  (97 ≤ b && b ≤ 122) || (65 ≤ b && b ≤ 90) || (48 ≤ b && b ≤ 57)
    || b == 45 || b == 95 || b == 46 || b == 126

/-- The characters `url.QueryEscape` writes for a string held as bytes: a space becomes `+`,
an unreserved byte stays, every other byte becomes `%XX` in upper-case hexadecimal. -/
def queryEscapeChars : List Nat → List Char
  | [] => []
  | b :: bs =>
    if b = 32 then '+' :: queryEscapeChars bs
    else if queryUnreserved b then Char.ofNat b :: queryEscapeChars bs
    else '%' :: upperHexDigit (b / 16 % 16) :: upperHexDigit (b % 16) :: queryEscapeChars bs

/-- The function `url.QueryUnescape`: `%XX` becomes the byte `XX`, `+` a space, any other
character its own bytes; `none` stands for the `EscapeError` of a `%` that is not followed
by two hexadecimal digits. The result need not be UTF-8, so it is a byte list. -/
def queryUnescape : List Char → Option (List Nat)
  | [] => some []
  | c :: cs =>
    if c = '%' then
      match cs with
      | h :: l :: rest =>
        match fromHexChar h, fromHexChar l, queryUnescape rest with
        | some x, some y, some bs => some ((x * 16 + y) :: bs)
        | _, _, _ => none
      | _ => none
    else
      match queryUnescape cs with
      | some bs => some ((if c = '+' then [32] else charBytes c) ++ bs)
      | none => none

/-- The type `url.Values`, a map from a key to the list of its values, as an association
list with one entry for each key. -/
abbrev Values := List (List Nat × List (List Nat))

/-- The statement `m[key] = append(m[key], value)`. -/
def Values.add : Values → List Nat → List Nat → Values
  | [], k, v => [(k, [v])]
  | (k', vs) :: rest, k, v =>
    if k' = k then (k', vs ++ [v]) :: rest else (k', vs) :: Values.add rest k v

/-- The values of a key (`m[key]`), empty when the key is absent. -/
def Values.get : Values → List Nat → List (List Nat)
  | [], _ => []
  | (k', vs) :: rest, k => if k' = k then vs else Values.get rest k

/-- The loop of `url.ParseQuery` over the `&`-separated pieces of the query: a piece holding
`;` or a malformed escape is an error (the function then reports an error, `none`), an
empty piece is skipped, any other piece is cut at its first `=` and both sides are
unescaped. -/
def parseQueryPieces : List (List Char) → Values → Option Values
  | [], m => some m
  | piece :: rest, m =>
    if ';' ∈ piece then none
    else if piece = [] then parseQueryPieces rest m
    else
      match queryUnescape (cutChars '=' piece).1, queryUnescape (cutChars '=' piece).2 with
      | some k, some v => parseQueryPieces rest (m.add k v)
      | _, _ => none

/-- The function `url.ParseQuery`, `none` when it reports an error. -/
def ParseQuery (raw : String) : Option Values :=
  parseQueryPieces (splitChars '&' raw.data) []

/-! ### `encoding/base64` -/

/-- The alphabet of `base64.RawURLEncoding`: `A`..`Z`, `a`..`z`, `0`..`9`, `-`, `_`. -/
def base64Char (n : Nat) : Char :=
  if n < 26 then Char.ofNat (65 + n)
  else if n < 52 then Char.ofNat (71 + n)
  else if n < 62 then Char.ofNat (n - 4)
  else if n = 62 then '-'
  else '_'

/-- The decoding table of `base64.RawURLEncoding`: the value of a character of the alphabet,
`none` for any other character. -/
def base64Index (c : Char) : Option Nat :=
  let n := c.toNat
  if 65 ≤ n ∧ n ≤ 90 then some (n - 65)
  else if 97 ≤ n ∧ n ≤ 122 then some (n - 71)
  else if 48 ≤ n ∧ n ≤ 57 then some (n + 4)
  else if c = '-' then some 62
  else if c = '_' then some 63
  else none

/-- The characters `base64.RawURLEncoding.EncodeToString` writes: four for every three bytes,
two or three for a last group of one or two bytes, no padding. -/
def base64Encode : List Nat → List Char
  | b0 :: b1 :: b2 :: rest =>
    base64Char (b0 / 4 % 64) :: base64Char (b0 % 4 * 16 + b1 / 16 % 16)
      :: base64Char (b1 % 16 * 4 + b2 / 64 % 4) :: base64Char (b2 % 64) :: base64Encode rest
  | [b0, b1] =>
    [base64Char (b0 / 4 % 64), base64Char (b0 % 4 * 16 + b1 / 16 % 16), base64Char (b1 % 16 * 4)]
  | [b0] => [base64Char (b0 / 4 % 64), base64Char (b0 % 4 * 16)]
  | [] => []

/-- The values of the characters of a base64 text; the decoder skips `\r` and `\n`, and any
other character outside the alphabet (the padding `=` too) is a `CorruptInputError`. -/
def base64Sextets : List Char → Option (List Nat)
  | [] => some []
  | c :: cs =>
    if c = '\r' ∨ c = '\n' then base64Sextets cs
    else
      match base64Index c, base64Sextets cs with
      | some v, some vs => some (v :: vs)
      | _, _ => none

/-- The bytes of a list of six-bit values: three for every four values, one or two for a last
group of two or three values (the bits left over are dropped); a last group of one value is
a `CorruptInputError`. -/
def base64Bytes : List Nat → Option (List Nat)
  | s0 :: s1 :: s2 :: s3 :: rest =>
    match base64Bytes rest with
    | some bs => some ((s0 * 4 + s1 / 16) :: (s1 % 16 * 16 + s2 / 4) :: (s2 % 4 * 64 + s3) :: bs)
    | none => none
  | [s0, s1, s2] => some [s0 * 4 + s1 / 16, s1 % 16 * 16 + s2 / 4]
  | [s0, s1] => some [s0 * 4 + s1 / 16]
  | [_] => none
  | [] => some []

/-- The function `base64.RawURLEncoding.DecodeString`, `none` for its error. -/
def base64Decode (s : List Char) : Option (List Nat) :=
  match base64Sextets s with
  | some vs => base64Bytes vs
  | none => none

/-- The six-bit values a byte list is encoded with. -/
def base64Values : List Nat → List Nat
  | b0 :: b1 :: b2 :: rest =>
    (b0 / 4 % 64) :: (b0 % 4 * 16 + b1 / 16 % 16) :: (b1 % 16 * 4 + b2 / 64 % 4) :: (b2 % 64)
      :: base64Values rest
  | [b0, b1] => [b0 / 4 % 64, b0 % 4 * 16 + b1 / 16 % 16, b1 % 16 * 4]
  | [b0] => [b0 / 4 % 64, b0 % 4 * 16]
  | [] => []

/-! ### `time` -/

/-- A `time.Time`: the instant, in nanoseconds since the Unix epoch. An instant has no
location here; `t.UTC()` is the identity. -/
abbrev Time := Int

/-- A `time.Duration`: a signed 64-bit count of nanoseconds. -/
abbrev Duration := Int

/-- The largest `time.Duration` (`math.MaxInt64`). -/
def maxDuration : Int := 2 ^ 63 - 1

/-- The smallest `time.Duration` (`math.MinInt64`). -/
def minDuration : Int := -(2 ^ 63)

/-- The value a signed 64-bit computation keeps of an integer (two's complement wrap). -/
def wrap64 (x : Int) : Int := (x + 2 ^ 63) % 2 ^ 64 - 2 ^ 63

/-- The function `leadingInt` of package `time`: the number written by the leading digits
and the rest of the text; `none` when the number passes `1 << 63`. `x` is the number read so
far. -/
def leadingInt : List Char → Nat → Option (Nat × List Char)
  | [], x => some (x, [])
  | c :: cs, x =>
    if 48 ≤ c.toNat ∧ c.toNat ≤ 57 then
      if x > 2 ^ 63 / 10 then none
      else if x * 10 + (c.toNat - 48) > 2 ^ 63 then none
      else leadingInt cs (x * 10 + (c.toNat - 48))
    else some (x, c :: cs)

/-- The function `leadingFraction` of package `time`: the number written by the leading
digits, the scale (a power of ten, one factor for each digit that was taken in) and the rest
of the text; once a digit would take the number past `1 << 63` the remaining digits are
skipped. `x`, `scale` and `overflow` are the loop variables. -/
def leadingFraction : List Char → Nat → Nat → Bool → Nat × Nat × List Char
  | [], x, scale, _ => (x, scale, [])
  | c :: cs, x, scale, overflow =>
    if 48 ≤ c.toNat ∧ c.toNat ≤ 57 then
      if overflow then leadingFraction cs x scale true
      else if x > (2 ^ 63 - 1) / 10 then leadingFraction cs x scale true
      else if x * 10 + (c.toNat - 48) > 2 ^ 63 then leadingFraction cs x scale true
      else leadingFraction cs (x * 10 + (c.toNat - 48)) (scale * 10) false
    else (x, scale, c :: cs)

/-- The table `unitMap` of package `time`: the nanoseconds of a unit. -/
def unitMap (u : List Char) : Option Nat :=
  if u = "ns".data then some 1
  else if u = "us".data ∨ u = [Char.ofNat 0xB5, 's'] ∨ u = [Char.ofNat 0x3BC, 's'] then some 1000
  else if u = "ms".data then some 1000000
  else if u = "s".data then some 1000000000
  else if u = "m".data then some 60000000000
  else if u = "h".data then some 3600000000000
  else none

/-- Whether a character continues a number of a duration: a digit or the period. -/
def isNumberChar (c : Char) : Bool := c = '.' ∨ (48 ≤ c.toNat ∧ c.toNat ≤ 57)

/-- The part `(\.[0-9]*)?` of a term of a duration: the number after the period, its scale,
the rest of the text, and whether a digit was read; without a period the fraction is 0. -/
def parseFraction : List Char → Nat × Nat × List Char × Bool
  | '.' :: s2 =>
    ((leadingFraction s2 0 1 false).1, (leadingFraction s2 0 1 false).2.1,
      (leadingFraction s2 0 1 false).2.2,
      decide (s2.length ≠ (leadingFraction s2 0 1 false).2.2.length))
  | s1 => (0, 1, s1, false)

/-- The nanoseconds of one term of a duration, `v` units and the fraction `f / scale` of a
unit, as an unsigned 64-bit number; `none` when the term passes `1 << 63`. The contribution
of the fraction, which Go computes in `float64`, is computed in exact arithmetic. -/
def termNanos (v f scale unit : Nat) : Option Nat :=
  if v > 2 ^ 63 / unit then none
  else if f > 0 then
    if (v * unit + f * unit / scale) % 2 ^ 64 > 2 ^ 63 then none
    else some ((v * unit + f * unit / scale) % 2 ^ 64)
  else some (v * unit)

/-- The loop of `time.ParseDuration` over the terms `number unit` of a duration: the sum of
the terms in nanoseconds as an unsigned 64-bit number, `none` for a malformed term, an
unknown unit or a sum past `1 << 63`. `d` is the sum so far; `fuel` bounds the number of
terms and is the length of the text, as each term takes at least one character. -/
def parseDurationTerms : Nat → List Char → Nat → Option Nat
  | _, [], d => some d
  | 0, _ :: _, _ => none
  | fuel + 1, c :: cs, d =>
    if ¬ isNumberChar c then none
    else
      match leadingInt (c :: cs) 0 with
      | none => none
      | some (v, s1) =>
        match parseFraction s1 with
        | (f, scale, s3, post) =>
          if s1.length = (c :: cs).length ∧ post = false then none
          else if s3.takeWhile (fun c => ¬ isNumberChar c) = [] then none
          else
            match unitMap (s3.takeWhile (fun c => ¬ isNumberChar c)) with
            | none => none
            | some unit =>
              match termNanos v f scale unit with
              | none => none
              | some v1 =>
                if (d + v1) % 2 ^ 64 > 2 ^ 63 then none
                else parseDurationTerms fuel (s3.dropWhile (fun c => ¬ isNumberChar c))
                  ((d + v1) % 2 ^ 64)

/-- The text of a duration after its sign, if it has one. -/
def stripSign : List Char → List Char
  | '-' :: rest => rest
  | '+' :: rest => rest
  | other => other

/-- The function `time.ParseDuration`: the duration in nanoseconds, `none` for its errors. -/
def ParseDuration (s : String) : Option Duration :=
  let neg := s.data.head? = some '-'
  let body := stripSign s.data
  if body = ['0'] then some 0
  else if body = [] then none
  else
    match parseDurationTerms body.length body 0 with
    | none => none
    | some d =>
      if neg then some (wrap64 (-(wrap64 d)))
      else if d > 2 ^ 63 - 1 then none
      else some d

/-- The method `Time.Sub`: the difference of two instants as a `Duration`, the largest or
smallest `Duration` when the difference is out of its range. -/
def timeSub (t u : Time) : Duration :=
  if t - u > maxDuration then maxDuration
  else if t - u < minDuration then minDuration
  else t - u

/-- The number a string of decimal digits writes (what `atoi` of package `time` returns
for it; for a timestamp header, its epoch milliseconds). -/
def decimalValue (digits : List Char) : Nat :=
  digits.foldl (fun x c => x * 10 + (c.toNat - 48)) 0

/-- Whether a character is a decimal digit. -/
def isDigitChar (c : Char) : Bool := 48 ≤ c.toNat ∧ c.toNat ≤ 57

/-- The year of a day within a cycle of 400 years that starts on a first of March, and the
day within that year: cycles of 100 years (at most three), then of 4 years, then single
years (at most three) are cut off, as `Time.Date` does. -/
def eraYear (doe : Nat) : Nat × Nat :=
  let n100 := min (doe / 36524) 3
  let d1 := doe - 36524 * n100
  let n4 := d1 / 1461
  let d2 := d1 - 1461 * n4
  let n1 := min (d2 / 365) 3
  (100 * n100 + 4 * n4 + n1, d2 - 365 * n1)

/-- The civil date of a day, where day 0 is 1970-01-01: year, month (1..12) and day of the
month (1..31) in the proleptic Gregorian calendar, which is the calendar of `time.Time`.
The day is counted from 0000-03-01, and the month is read off the day of the year that
starts in March. -/
def civilFromDays (z : Int) : Int × Nat × Nat :=
  let era := (z + 719468) / 146097
  let doe := ((z + 719468) % 146097).toNat
  let yoe := (eraYear doe).1
  let doy := (eraYear doe).2
  let mp := (5 * doy + 2) / 153
  (era * 400 + (yoe : Int) + (if mp < 10 then 0 else 1),
    if mp < 10 then mp + 3 else mp - 9, doy - (153 * mp + 2) / 5 + 1)

/-- The day of a civil date of the proleptic Gregorian calendar, where day 0 is 1970-01-01
(what `time.Date` computes for a month in 1..12 and a day of that month). -/
def daysFromCivil (year : Int) (month day : Nat) : Int :=
  let y := if month ≤ 2 then year - 1 else year
  let era := y / 400
  let yoe := (y % 400).toNat
  let mp := if month ≤ 2 then month + 9 else month - 3
  era * 146097 + ((yoe * 365 + yoe / 4 - yoe / 100 + (153 * mp + 2) / 5 + (day - 1) : Nat) : Int)
    - 719468

/-- The function `isLeap` of package `time`. -/
def isLeap (year : Int) : Bool := year % 4 = 0 ∧ (year % 100 ≠ 0 ∨ year % 400 = 0)

/-- The function `daysIn` of package `time`: the number of days of a month of a year. -/
def daysIn (month : Nat) (year : Int) : Nat :=
  if month = 2 then (if isLeap year then 29 else 28)
  else if month = 4 ∨ month = 6 ∨ month = 9 ∨ month = 11 then 30
  else 31

/-- The decimal digit of the units of a number. -/
def digitChar (n : Nat) : Char := Char.ofNat (48 + n % 10)

/-- The last `width` decimal digits of a number. -/
def lastDigits : Nat → Nat → List Char
  | 0, _ => []
  | width + 1, n => lastDigits width (n / 10) ++ [digitChar n]

/-- The decimal digits of a number, at least `width` of them (`appendInt` of package `time`
for a number that is not negative). -/
def padDigits (width n : Nat) : List Char :=
  if n < 10 ^ width then lastDigits width n else Nat.toDigits 10 n

/-- The function `appendInt` of package `time`: the decimal digits of an integer, at least
`width` of them, after a minus sign when it is negative. -/
def appendInt (x : Int) (width : Nat) : List Char :=
  if x < 0 then '-' :: padDigits width (-x).toNat else padDigits width x.toNat

/-- The function `appendNano` of package `time` for the layout `.999999999`: nothing for a
whole second, otherwise the period and the nine digits of the nanoseconds without the zeros
at their end. -/
def appendNano (nsec : Nat) : List Char :=
  if nsec = 0 then [] else '.' :: (padDigits 9 nsec).rdropWhile (fun c => c = '0')

/-- The text `t.UTC().Format(time.RFC3339Nano)`. -/
def formatRFC3339Nano (t : Time) : String :=
  let secs := t / 1000000000
  let nsec := (t % 1000000000).toNat
  let days := secs / 86400
  let sod := (secs % 86400).toNat
  let date := civilFromDays days
  ⟨appendInt date.1 4 ++ '-' :: (padDigits 2 date.2.1 ++ '-' :: (padDigits 2 date.2.2
    ++ 'T' :: (padDigits 2 (sod / 3600) ++ ':' :: (padDigits 2 (sod / 60 % 60)
    ++ ':' :: (padDigits 2 (sod % 60) ++ (appendNano nsec ++ ['Z']))))))⟩

/-- The function `getnum` of package `time`: a number of two digits, or of one digit when
`fixed` is false and no second digit follows, and the rest of the text. -/
def getnum (s : List Char) (fixed : Bool) : Option (Nat × List Char) :=
  match s with
  | [] => none
  | a :: rest =>
    if ¬ isDigitChar a then none
    else
      match rest with
      | [] => if fixed then none else some (a.toNat - 48, [])
      | b :: rest2 =>
        if isDigitChar b then some ((a.toNat - 48) * 10 + (b.toNat - 48), rest2)
        else if fixed then none else some (a.toNat - 48, rest)

/-- The function `skip` of package `time` for a layout text of one character that is not a
space: the rest of the value after that character. -/
def skipChar (c : Char) : List Char → Option (List Char)
  | [] => none
  | d :: rest => if d = c then some rest else none

/-- The year of the layout element `2006`: four digits. -/
def parseYear : List Char → Option (Nat × List Char)
  | a :: b :: c :: d :: rest =>
    if isDigitChar a ∧ isDigitChar b ∧ isDigitChar c ∧ isDigitChar d then
      some (decimalValue [a, b, c, d], rest)
    else none
  | _ => none

/-- The fraction of a second that `time.Parse` reads after the seconds, under the layout
`RFC3339Nano` (element `.999999999`) and under the layout `RFC3339` (no element, by the
special case after the seconds) alike: when the value goes on with a period or comma and a
digit, every digit that follows is taken and the first nine count; otherwise there is no
fraction. The result is in nanoseconds, with the rest of the value. -/
def parseFracSecond (value : List Char) : Nat × List Char :=
  match value with
  | p :: d :: rest =>
    if (p = '.' ∨ p = ',') ∧ isDigitChar d then
      (decimalValue (((d :: rest).takeWhile isDigitChar).take 9)
          * 10 ^ (9 - (((d :: rest).takeWhile isDigitChar).take 9).length),
        (d :: rest).dropWhile isDigitChar)
    else (0, value)
  | _ => (0, value)

/-- The zone of the layout element `Z07:00`: `Z`, or a sign, two digits of hours, a colon
and two digits of minutes (hours up to 24 and minutes up to 60, as of Go 1.20); the offset in
seconds east of UTC, with the rest of the value. -/
def parseZone : List Char → Option (Int × List Char)
  | 'Z' :: rest => some (0, rest)
  | s :: h1 :: h2 :: c :: m1 :: m2 :: rest =>
    if c ≠ ':' then none
    else if ¬ (isDigitChar h1 ∧ isDigitChar h2 ∧ isDigitChar m1 ∧ isDigitChar m2) then none
    else if decimalValue [h1, h2] > 24 ∨ decimalValue [m1, m2] > 60 then none
    else if s = '+' then some (((decimalValue [h1, h2] * 60 + decimalValue [m1, m2]) * 60 : Nat), rest)
    else if s = '-' then
      some (-(((decimalValue [h1, h2] * 60 + decimalValue [m1, m2]) * 60 : Nat) : Int), rest)
    else none
  | _ => none

/-- The date of the layout elements `2006-01-02`: a year of four digits, a month of two
digits in 1..12 and a day of two digits (checked against the month later), with the rest of
the value. -/
def parseDate (value : List Char) : Option (Nat × Nat × Nat × List Char) :=
  match parseYear value with
  | none => none
  | some (year, v1) =>
    match skipChar '-' v1 with
    | none => none
    | some v2 =>
      match getnum v2 true with
      | none => none
      | some (month, v3) =>
        if month < 1 ∨ 12 < month then none
        else
          match skipChar '-' v3 with
          | none => none
          | some v4 =>
            match getnum v4 true with
            | none => none
            | some (day, v5) => some (year, month, day, v5)

/-- The time of day of the layout elements `T15:04:05`: an hour of one or two digits below
24, a minute and a second of two digits below 60, with the rest of the value. -/
def parseClock (value : List Char) : Option (Nat × Nat × Nat × List Char) :=
  match skipChar 'T' value with
  | none => none
  | some v1 =>
    match getnum v1 false with
    | none => none
    | some (hour, v2) =>
      if 24 ≤ hour then none
      else
        match skipChar ':' v2 with
        | none => none
        | some v3 =>
          match getnum v3 true with
          | none => none
          | some (minute, v4) =>
            if 60 ≤ minute then none
            else
              match skipChar ':' v4 with
              | none => none
              | some v5 =>
                match getnum v5 true with
                | none => none
                | some (sec, v6) => if 60 ≤ sec then none else some (hour, minute, sec, v6)

/-- The instant `time.Date(year, month, day, hour, minute, sec, nsec, zone)` of a civil time
in a zone `offset` seconds east of UTC. -/
def dateInstant (year month day hour minute sec nsec : Nat) (offset : Int) : Time :=
  (daysFromCivil (Int.ofNat year) month day * 86400
      + Int.ofNat (hour * 3600 + minute * 60 + sec) - offset) * 1000000000 + Int.ofNat nsec

/-- The function `time.Parse(layout, value)` for the layouts `time.RFC3339Nano` and
`time.RFC3339`, which read the same values: the instant, `none` for an error. -/
def parseRFC3339 (value : List Char) : Option Time :=
  match parseDate value with
  | none => none
  | some (year, month, day, v1) =>
    match parseClock v1 with
    | none => none
    | some (hour, minute, sec, v2) =>
      match parseZone (parseFracSecond v2).2 with
      | none => none
      | some (offset, v3) =>
        if v3 ≠ [] then none
        else if day < 1 ∨ daysIn month (Int.ofNat year) < day then none
        else some (dateInstant year month day hour minute sec (parseFracSecond v2).1 offset)

/-- The year of an instant in UTC (`t.UTC().Year()`). -/
def utcYear (t : Time) : Int := (civilFromDays (t / 1000000000 / 86400)).1

/-! ## `backend/internal/auth/signature.go` -/

/-- The struct `SignatureInput`. -/
structure SignatureInput where
  Method : String
  Path : String
  RawQuery : String
  Timestamp : String
  Nonce : String
  BodyHash : String
  deriving DecidableEq, Repr

/-- The function `canonicalQuery`. -/
def canonicalQuery (raw : String) : String :=
  if raw = "" then ""
  else
    match ParseQuery raw with
    | none => ⟨joinChars ['&'] (sortStrings (splitChars '&' raw.data))⟩
    | some values =>
      let keys := sortBytes (values.map Prod.fst)
      let parts := keys.flatMap (fun key =>
        (sortBytes (values.get key)).map (fun value =>
          queryEscapeChars key ++ '=' :: queryEscapeChars value))
      ⟨joinChars ['&'] parts⟩

/-- The slice of six strings that `CanonicalString` joins. -/
def canonicalFields (input : SignatureInput) : List String :=
  [ToUpper (TrimSpace input.Method), input.Path, canonicalQuery input.RawQuery,
    input.Timestamp, input.Nonce, ToLower (TrimSpace input.BodyHash)]

/-- The function `CanonicalString`. -/
def CanonicalString (input : SignatureInput) : String :=
  Join (canonicalFields input) "\n"

/-- The function `Sign`. -/
def Sign (secret : String) (input : SignatureInput) : String :=
  hexEncode (hmacSHA256 (stringBytes secret) (stringBytes (CanonicalString input)))

/-- The function `Verify`. -/
def Verify (secret : String) (input : SignatureInput) (signature : String) : Bool :=
  let expected := Sign secret input
  match hexDecode expected, hexDecode (ToLower (TrimSpace signature)) with
  | some left, some right =>
    if left.length ≠ right.length then false else ConstantTimeCompare left right == 1
  | _, _ => false

/-- The function `ValidateTimestamp`. `time.Unix(0, n)` is the instant `n`. -/
def ValidateTimestamp (raw : String) (maxSkew : Duration) (now : Time) : Bool :=
  match ParseDuration (raw ++ "ms") with
  | none => false
  | some millis =>
    let clientTime : Time := millis
    let delta := timeSub now clientTime
    let delta := if delta < 0 then wrap64 (-delta) else delta
    decide (delta ≤ maxSkew)

/-- The function `SHA256Hex`. -/
def SHA256Hex (raw : List Nat) : String := hexEncode (sha256 raw)

/-! ### `encoding/json` -/

/-- A JSON value: what `encoding/json` writes for a Go value and what a `jsonb` column is
given. A number is held by its literal; the members of an object are held in the order of the
encoding. -/
inductive Json where
  | null : Json
  | bool (b : Bool) : Json
  | num (literal : String) : Json
  | str (s : String) : Json
  | arr (elems : List Json) : Json
  | obj (members : List (String × Json)) : Json
  deriving Repr

/-- The call `json.Unmarshal(raw, &values)` for a nil `values []string`: an array of strings
(a `null` element is the empty string), or `null` for the nil slice (`none`); anything else
is an `UnmarshalTypeError`. -/
def unmarshalStrings : Json → Except String (Option (List String))
  | .null => .ok none
  | .arr elems =>
    if elems.all (fun e => match e with | .str _ => true | .null => true | _ => false) then
      .ok (some (elems.map (fun e => match e with | .str s => s | _ => "")))
    else .error "json: cannot unmarshal into Go value of type string"
  | _ => .error "json: cannot unmarshal into Go value of type []string"

/-- The characters `encoding/json` writes for one character of a string: `"` and `\\` get a
backslash, the control characters below U+0020 and `<`, `>`, `&`, U+2028, U+2029 are written
as escapes, every other character stands for itself. -/
def jsonEscapeChar (c : Char) : List Char :=
  let n := c.toNat
  if c = '"' then ['\\', '"']
  else if c = '\\' then ['\\', '\\']
  else if n = 8 then ['\\', 'b']
  else if n = 12 then ['\\', 'f']
  else if n = 10 then ['\\', 'n']
  else if n = 13 then ['\\', 'r']
  else if n = 9 then ['\\', 't']
  else if n < 32 ∨ c = '<' ∨ c = '>' ∨ c = '&' ∨ n = 0x2028 ∨ n = 0x2029 then
    ['\\', 'u', hexDigit (n / 4096 % 16), hexDigit (n / 256 % 16), hexDigit (n / 16 % 16),
      hexDigit (n % 16)]
  else [c]

/-- The characters `encoding/json` writes for a string: the escaped characters between
double quotes. -/
def jsonQuote (s : String) : List Char :=
  '"' :: s.data.flatMap jsonEscapeChar ++ ['"']

mutual
/-- The text `json.Marshal` writes for a JSON value. -/
def Json.encode : Json → List Char
  | .null => "null".data
  | .bool true => "true".data
  | .bool false => "false".data
  | .num literal => literal.data
  | .str s => jsonQuote s
  | .arr elems => '[' :: Json.encodeElems elems ++ [']']
  | .obj members => '{' :: Json.encodeMembers members ++ ['}']
/-- The elements of an array, separated by commas. -/
def Json.encodeElems : List Json → List Char
  | [] => []
  | [e] => e.encode
  | e :: f :: rest => e.encode ++ ',' :: Json.encodeElems (f :: rest)
/-- The members of an object, separated by commas. -/
def Json.encodeMembers : List (String × Json) → List Char
  | [] => []
  | [(k, v)] => jsonQuote k ++ ':' :: v.encode
  | (k, v) :: m :: rest => jsonQuote k ++ ':' :: v.encode ++ ',' :: Json.encodeMembers (m :: rest)
end

/-- The white space of JSON: space, tab, carriage return, line feed. -/
def isJsonSpace (c : Char) : Bool := c = ' ' ∨ c = '\t' ∨ c = '\r' ∨ c = '\n'

/-- The number a text of four hexadecimal digits writes (`getu4`), `none` when a character
is no hexadecimal digit. -/
def hex4 (a b c d : Char) : Option Nat :=
  match fromHexChar a, fromHexChar b, fromHexChar c, fromHexChar d with
  | some x, some y, some z, some w => some (x * 4096 + y * 256 + z * 16 + w)
  | _, _, _, _ => none

/-- The character of a one-letter escape of a JSON string. -/
def simpleEscape (e : Char) : Option Char :=
  if e = '"' then some '"' else if e = '\\' then some '\\'
  else if e = '/' then some '/' else if e = 'b' then some (Char.ofNat 8)
  else if e = 'f' then some (Char.ofNat 12) else if e = 'n' then some '\n'
  else if e = 'r' then some '\r' else if e = 't' then some '\t' else none

/-- The characters of a JSON string after its opening quote, up to the closing quote, with
the escapes replaced (`unquote`), and the text after the closing quote. `none` for a string
that is not closed, a control character below U+0020, or a malformed escape. A `\u` escape
of a surrogate stands for U+FFFD unless it is the first half of a pair of escapes. `fuel`
bounds the number of characters and is more than the length of the text. -/
def parseStringBody : Nat → List Char → Option (List Char × List Char)
  | 0, _ => none
  | _ + 1, [] => none
  | fuel + 1, c :: rest =>
    if c = '"' then some ([], rest)
    else if c = '\\' then
      match rest with
      | [] => none
      | e :: r =>
        if e = 'u' then
          match r with
          | h1 :: h2 :: h3 :: h4 :: r1 =>
            match hex4 h1 h2 h3 h4 with
            | none => none
            | some rr =>
              if 0xD800 ≤ rr ∧ rr < 0xE000 then
                match r1 with
                | '\\' :: 'u' :: g1 :: g2 :: g3 :: g4 :: r2 =>
                  match hex4 g1 g2 g3 g4 with
                  | some rr1 =>
                    if rr < 0xDC00 ∧ 0xDC00 ≤ rr1 ∧ rr1 < 0xE000 then
                      match parseStringBody fuel r2 with
                      | some (s, out) =>
                        some (Char.ofNat (0x10000 + (rr - 0xD800) * 1024 + (rr1 - 0xDC00)) :: s, out)
                      | none => none
                    else
                      match parseStringBody fuel r1 with
                      | some (s, out) => some (Char.ofNat 0xFFFD :: s, out)
                      | none => none
                  | none =>
                    match parseStringBody fuel r1 with
                    | some (s, out) => some (Char.ofNat 0xFFFD :: s, out)
                    | none => none
                | _ =>
                  match parseStringBody fuel r1 with
                  | some (s, out) => some (Char.ofNat 0xFFFD :: s, out)
                  | none => none
              else
                match parseStringBody fuel r1 with
                | some (s, out) => some (Char.ofNat rr :: s, out)
                | none => none
          | _ => none
        else
          match simpleEscape e, parseStringBody fuel r with
          | some x, some (s, out) => some (x :: s, out)
          | _, _ => none
    else if c.toNat < 0x20 then none
    else
      match parseStringBody fuel rest with
      | some (s, out) => some (c :: s, out)
      | none => none

/-- A run of at least one digit at the head of a text, and the text after it. -/
def parseDigits (l : List Char) : Option (List Char × List Char) :=
  if l.takeWhile isDigitChar = [] then none
  else some (l.takeWhile isDigitChar, l.dropWhile isDigitChar)

/-- The literal of a JSON number at the head of a text, and the text after it: an optional
minus sign, `0` or a run of digits that starts with `1`..`9`, an optional fraction, an
optional exponent. -/
def parseNumber (l : List Char) : Option (List Char × List Char) :=
  let sign := match l with
    | '-' :: _ => ['-']
    | _ => []
  let l1 := match l with
    | '-' :: r => r
    | _ => l
  let intPart := match l1 with
    | '0' :: r => some (['0'], r)
    | _ => parseDigits l1
  match intPart with
  | none => none
  | some (ds, l2) =>
    let frac := match l2 with
      | '.' :: r =>
        match parseDigits r with
        | some (fs, l3) => some ('.' :: fs, l3)
        | none => none
      | _ => some ([], l2)
    match frac with
    | none => none
    | some (fs, l3) =>
      match l3 with
      | e :: r =>
        if e = 'e' ∨ e = 'E' then
          match r with
          | s :: r1 =>
            if s = '+' ∨ s = '-' then
              match parseDigits r1 with
              | some (es, l4) => some (sign ++ ds ++ fs ++ e :: s :: es, l4)
              | none => none
            else
              match parseDigits r with
              | some (es, l4) => some (sign ++ ds ++ fs ++ e :: es, l4)
              | none => none
          | [] => none
        else some (sign ++ ds ++ fs, l3)
      | [] => some (sign ++ ds ++ fs, l3)

mutual
/-- A JSON value at the head of a text (the first character is not white space), and the
text after it; `none` for a syntax error or a nesting deeper than 10000 (`maxNestingDepth`).
`fuel` bounds the chain of calls and is more than the length of the text. -/
def parseValue : Nat → Nat → List Char → Option (Json × List Char)
  | 0, _, _ => none
  | fuel + 1, depth, l =>
    match l with
    | [] => none
    | c :: rest =>
      if c = '"' then
        match parseStringBody (rest.length + 1) rest with
        | some (s, out) => some (.str ⟨s⟩, out)
        | none => none
      else if c = '[' then
        if depth ≥ 10000 then none
        else
          match rest.dropWhile isJsonSpace with
          | ']' :: out => some (.arr [], out)
          | l1 =>
            match parseElems fuel (depth + 1) l1 with
            | some (vs, out) => some (.arr vs, out)
            | none => none
      else if c = '{' then
        if depth ≥ 10000 then none
        else
          match rest.dropWhile isJsonSpace with
          | '}' :: out => some (.obj [], out)
          | l1 =>
            match parseMembers fuel (depth + 1) l1 with
            | some (ms, out) => some (.obj ms, out)
            | none => none
      else if c = '-' ∨ isDigitChar c then
        match parseNumber l with
        | some (lit, out) => some (.num ⟨lit⟩, out)
        | none => none
      else
        match l with
        | 'n' :: 'u' :: 'l' :: 'l' :: out => some (.null, out)
        | 't' :: 'r' :: 'u' :: 'e' :: out => some (.bool true, out)
        | 'f' :: 'a' :: 'l' :: 's' :: 'e' :: out => some (.bool false, out)
        | _ => none
/-- The elements of an array after its opening bracket, up to the closing bracket. -/
def parseElems : Nat → Nat → List Char → Option (List Json × List Char)
  | 0, _, _ => none
  | fuel + 1, depth, l =>
    match parseValue fuel depth l with
    | none => none
    | some (v, l1) =>
      match l1.dropWhile isJsonSpace with
      | c :: l2 =>
        if c = ']' then some ([v], l2)
        else if c = ',' then
          match parseElems fuel depth (l2.dropWhile isJsonSpace) with
          | some (vs, out) => some (v :: vs, out)
          | none => none
        else none
      | [] => none
/-- The members of an object after its opening brace, up to the closing brace. -/
def parseMembers : Nat → Nat → List Char → Option (List (String × Json) × List Char)
  | 0, _, _ => none
  | fuel + 1, depth, l =>
    match l with
    | [] => none
    | q :: l0 =>
      if q ≠ '"' then none
      else
        match parseStringBody (l0.length + 1) l0 with
        | none => none
        | some (k, l1) =>
          match l1.dropWhile isJsonSpace with
          | [] => none
          | c :: l2 =>
            if c ≠ ':' then none
            else
              match parseValue fuel depth (l2.dropWhile isJsonSpace) with
              | none => none
              | some (v, l3) =>
                match l3.dropWhile isJsonSpace with
                | [] => none
                | d :: l4 =>
                  if d = '}' then some ([(⟨k⟩, v)], l4)
                  else if d = ',' then
                    match parseMembers fuel depth (l4.dropWhile isJsonSpace) with
                    | some (ms, out) => some ((⟨k⟩, v) :: ms, out)
                    | none => none
                  else none
end

/-- The JSON value of a text (`checkValid` and the reading of `json.Unmarshal`): one value
between optional white space; `none` for a syntax error. The bytes are read as characters,
with U+FFFD for a byte that is not part of a well-formed encoding, as `unquote` does inside
strings; outside strings such a byte is a syntax error either way. -/
def parseJson (bytes : List Nat) : Option Json :=
  let text := utf8Decode bytes
  match parseValue (text.length + 1) 0 (text.dropWhile isJsonSpace) with
  | none => none
  | some (v, out) => if out.dropWhile isJsonSpace = [] then some v else none

/-! ### `strconv`: floating-point numbers -/

/-- The number of binary digits of a natural number; `fuel` is at least the number. -/
def bitLengthAux : Nat → Nat → Nat
  | 0, _ => 0
  | fuel + 1, n => if n = 0 then 0 else bitLengthAux fuel (n / 2) + 1

/-- The number of binary digits of a natural number (`bits.Len`). -/
def bitLength (n : Nat) : Nat := bitLengthAux n n

/-- The fraction `num / den` divided by `2 ^ e`, for an exponent of either sign. -/
def scalePow2 (num den : Nat) (e : Int) : Nat × Nat :=
  if 0 ≤ e then (num, den * 2 ^ e.toNat) else (num * 2 ^ (-e).toNat, den)

/-- The `float64` nearest to the fraction `num / den`, ties to the even mantissa (the rounding
of IEEE 754 that `strconv.ParseFloat` applies): the mantissa `m < 2 ^ 53` and the exponent
`e ≥ -1074` of the value `m * 2 ^ e`, with `2 ^ 52 ≤ m` unless `e = -1074`. `none` when the
rounded value is beyond the largest `float64` (`strconv.ErrRange`). -/
def roundFloat64 (num den : Nat) : Option (Nat × Int) :=
  if num = 0 then some (0, -1074)
  else
    let l : Int := (bitLength num : Int) - (bitLength den : Int)
    let atLeast := (scalePow2 num den l).2 ≤ (scalePow2 num den l).1
    let e : Int := max ((if atLeast then l else l - 1) - 52) (-1074)
    let n1 := (scalePow2 num den e).1
    let d1 := (scalePow2 num den e).2
    let q := n1 / d1
    let r := n1 % d1
    let q := if d1 < 2 * r ∨ (2 * r = d1 ∧ q % 2 = 1) then q + 1 else q
    let m := if q = 2 ^ 53 then 2 ^ 52 else q
    let e := if q = 2 ^ 53 then e + 1 else e
    if 971 < e then none else some (m, e)

/-- The parts of the literal of a JSON number: whether it has a minus sign, the digits before
the point, the digits after it, and the exponent. `none` for a text that is not the literal
of a JSON number. -/
def numberParts (literal : List Char) : Option (Bool × List Char × List Char × Int) :=
  match parseNumber literal with
  | some (_, []) =>
    let l1 := match literal with
      | '-' :: r => r
      | _ => literal
    let l2 := l1.dropWhile isDigitChar
    let fracDigits := match l2 with
      | '.' :: r => r.takeWhile isDigitChar
      | _ => []
    let l3 := match l2 with
      | '.' :: r => r.dropWhile isDigitChar
      | _ => l2
    let exp : Int := match l3 with
      | _ :: '-' :: r => -(decimalValue r : Int)
      | _ :: '+' :: r => (decimalValue r : Int)
      | _ :: r => (decimalValue r : Int)
      | [] => 0
    some (literal.head? = some '-', l1.takeWhile isDigitChar, fracDigits, exp)
  | _ => none

/-- The call `strconv.ParseFloat(s, 64)` for the literal of a JSON number: the sign, the
mantissa and the exponent of the nearest `float64`; `none` for `strconv.ErrRange` and for a
text that is not the literal of a JSON number. -/
def ParseFloat (literal : List Char) : Option (Bool × Nat × Int) :=
  match numberParts literal with
  | none => none
  | some (neg, intDigits, fracDigits, exp) =>
    let m := decimalValue (intDigits ++ fracDigits)
    let e : Int := exp - fracDigits.length
    match (if 0 ≤ e then roundFloat64 (m * 10 ^ e.toNat) 1
      else roundFloat64 m (10 ^ (-e).toNat)) with
    | none => none
    | some (mant, e2) => some (neg, mant, e2)

/-- The decimal digits of a natural number, the most significant first. -/
def natDigits (n : Nat) : List Nat := (Nat.toDigits 10 n).map (fun c => c.toNat - 48)

/-- The number a list of decimal digits writes. -/
def digitsValue (digits : List Nat) : Nat := digits.foldl (fun x d => x * 10 + d) 0

/-- A list of digits without the zeros at its end. -/
def trimZeros (digits : List Nat) : List Nat :=
  (digits.reverse.dropWhile (fun d => d = 0)).reverse

/-- The exact decimal expansion of the `float64` `m * 2 ^ e` with `m > 0`: its digits
`d1 d2 .. dn` without zeros at either end, and the position `dp` of the decimal point, the
value being `0.d1d2..dn * 10 ^ dp`. -/
def exactDecimal (m : Nat) (e : Int) : List Nat × Int :=
  if 0 ≤ e then
    (trimZeros (natDigits (m * 2 ^ e.toNat)), ((natDigits (m * 2 ^ e.toNat)).length : Int))
  else
    (trimZeros (natDigits (m * 5 ^ (-e).toNat)),
      ((natDigits (m * 5 ^ (-e).toNat)).length : Int) - (-e).toNat)

/-- The `float64` nearest to `c * 10 ^ x`. -/
def roundDecimal (c : Nat) (x : Int) : Option (Nat × Int) :=
  if 0 ≤ x then roundFloat64 (c * 10 ^ x.toNat) 1 else roundFloat64 c (10 ^ (-x).toNat)

/-- Whether a decimal is rounded up when it is cut before the digits `rest`, the digits kept
writing the number `kept` (`shouldRoundUp` of `strconv`): up from a half, a half exactly to
the even digit. -/
def shouldRoundUp (kept : Nat) (rest : List Nat) : Bool :=
  match rest with
  | [] => false
  | [d] => if d = 5 then kept % 2 = 1 else 5 ≤ d
  | d :: _ => 5 ≤ d

/-- The search of the shortest decimal that `strconv.ParseFloat` reads as the `float64`
`m * 2 ^ e` (`roundShortest`): with the first `n` digits of the exact expansion `digits`
kept, the decimal cut there and the next decimal above it are tried; when both are read as
the `float64` the nearer to the exact value is taken. `fuel` bounds the digits still to try.
The result is the digits and the position of the decimal point. -/
def shortestFrom (m : Nat) (e : Int) (digits : List Nat) (dp : Int) : Nat → Nat → List Nat × Int
  | 0, _ => (digits, dp)
  | fuel + 1, n =>
    if digits.length ≤ n then (digits, dp)
    else
      let kept := digitsValue (digits.take n)
      let okdown := decide (roundDecimal kept (dp - n) = some (m, e))
      let okup := decide (roundDecimal (kept + 1) (dp - n) = some (m, e))
      let chosen :=
        if okdown ∧ okup then
          (if shouldRoundUp kept (digits.drop n) then some (kept + 1) else some kept)
        else if okdown then some kept
        else if okup then some (kept + 1)
        else none
      match chosen with
      | some c => (trimZeros (natDigits c), dp - n + (natDigits c).length)
      | none => shortestFrom m e digits dp fuel (n + 1)

/-- The shortest decimal digits that identify the `float64` `m * 2 ^ e` with `m > 0`, and
the position of the decimal point (what `strconv.FormatFloat` computes for the precision
`-1`). -/
def shortestDecimal (m : Nat) (e : Int) : List Nat × Int :=
  shortestFrom m e (exactDecimal m e).1 (exactDecimal m e).2 ((exactDecimal m e).1.length + 1) 0

/-- The characters of a list of decimal digits. -/
def digitChars (digits : List Nat) : List Char := digits.map (fun d => Char.ofNat (48 + d))

/-- The format `%f` of `strconv.FormatFloat` with the shortest digits: the digits before the
decimal point (`0` when there is none), and the digits after it when there are any. -/
def formatF (digits : List Nat) (dp : Int) : List Char :=
  let intPart :=
    if 0 < dp then digitChars (digits.take dp.toNat) ++
      List.replicate (dp.toNat - digits.length) '0'
    else ['0']
  let fracPart :=
    if dp < 0 then List.replicate (-dp).toNat '0' ++ digitChars digits
    else digitChars (digits.drop dp.toNat)
  if fracPart = [] then intPart else intPart ++ '.' :: fracPart

/-- The format `%e` of `strconv.FormatFloat` with the shortest digits: the first digit, the
other digits after a point when there are any, then `e`, the sign of the exponent and at
least two digits of it. -/
def formatE (digits : List Nat) (dp : Int) : List Char :=
  let x : Int := dp - 1
  let mantissa := match digitChars digits with
    | [] => ['0']
    | [d] => [d]
    | d :: rest => d :: '.' :: rest
  let expDigits :=
    if x.natAbs < 10 then '0' :: Nat.toDigits 10 x.natAbs else Nat.toDigits 10 x.natAbs
  mantissa ++ 'e' :: (if x < 0 then '-' else '+') :: expDigits

/-- The last step of the float encoder of `encoding/json` for the format `%e`: an exponent
written `e-0X` or `e+0X` loses its zero. -/
def cleanExponent (text : List Char) : List Char :=
  match text.reverse with
  | d :: '0' :: s :: 'e' :: front =>
    if s = '-' ∨ s = '+' then (d :: s :: 'e' :: front).reverse else text
  | _ => text

/-- The text the float encoder of `encoding/json` writes for a `float64` that is neither
infinite nor a NaN: the shortest digits, in the format `%e` when the absolute value is below
`1e-6` or at least `1e21`, else in the format `%f`. -/
def encodeFloat64 (neg : Bool) (m : Nat) (e : Int) : List Char :=
  if m = 0 then (if neg then ['-', '0'] else ['0'])
  else
    let small : Bool := match roundFloat64 1 (10 ^ 6) with
      | some (cm, ce) =>
        decide (m * (scalePow2 cm 1 (e - ce)).2 < (scalePow2 cm 1 (e - ce)).1)
      | none => false
    let large : Bool :=
      decide ((scalePow2 (10 ^ 21) 1 e).1 ≤ m * (scalePow2 (10 ^ 21) 1 e).2)
    let body :=
      if small || large then
        cleanExponent (formatE (shortestDecimal m e).1 (shortestDecimal m e).2)
      else formatF (shortestDecimal m e).1 (shortestDecimal m e).2
    if neg then '-' :: body else body


/-! ### `encoding/json`: decoding into `any` -/

/-- The order of Go on strings (`strings.Compare(a, b) <= 0`): the order of their bytes. -/
def keyLe (a b : String) : Bool := bytesLe (stringBytes a) (stringBytes b)

/-- A member put into a list of members with distinct keys that ascends in the order `le`:
a member of the list with the same key stays and the new member is dropped. -/
def insertMember (le : String → String → Bool) (k : String) (v : Json) :
    List (String × Json) → List (String × Json)
  | [] => [(k, v)]
  | (k1, v1) :: rest =>
    if k = k1 then (k1, v1) :: rest
    else if le k k1 then (k, v) :: (k1, v1) :: rest
    else (k1, v1) :: insertMember le k v rest

/-- The float64 of a number literal as the float encoder writes it; `none` when
`strconv.ParseFloat` fails. -/
def float64Literal (literal : String) : Option String :=
  match ParseFloat literal.data with
  | none => none
  | some (neg, m, e) => some (String.mk (encodeFloat64 neg m e))

mutual
/-- The bracket that `checkValid` refuses: the scanner of `encoding/json` keeps a stack of
the arrays and objects that are open and fails with `exceeded max depth` at the bracket that
would make it higher than 10000. `room` is the number of brackets that may still be
opened; the result is the first bracket, in the order of the text, that opens without
room. -/
def deepBracket (room : Nat) : Json → Option Char
  | .arr elems => if room = 0 then some '[' else deepBracketElems (room - 1) elems
  | .obj members => if room = 0 then some '{' else deepBracketMembers (room - 1) members
  | _ => none
/-- The bracket that `checkValid` refuses among the elements of an array. -/
def deepBracketElems (room : Nat) : List Json → Option Char
  | [] => none
  | e :: rest =>
    match deepBracket room e with
    | some c => some c
    | none => deepBracketElems room rest
/-- The bracket that `checkValid` refuses among the members of an object. -/
def deepBracketMembers (room : Nat) : List (String × Json) → Option Char
  | [] => none
  | (_, v) :: rest =>
    match deepBracket room v with
    | some c => some c
    | none => deepBracketMembers room rest
end

mutual
/-- The error `decodeState.convertNumber` saves first when a JSON value is decoded into an
`any`: the first number of the text that `strconv.ParseFloat` does not read as a `float64`.
The decoder goes on after the error and `json.Unmarshal` returns it at the end. -/
def numberError : Json → Option String
  | .num literal =>
    match float64Literal literal with
    | some _ => none
    | none =>
      some ("json: cannot unmarshal number " ++ literal ++ " into Go value of type float64")
  | .arr elems => numberErrorElems elems
  | .obj members => numberErrorMembers members
  | _ => none
/-- The first error among the elements of an array. -/
def numberErrorElems : List Json → Option String
  | [] => none
  | e :: rest =>
    match numberError e with
    | some err => some err
    | none => numberErrorElems rest
/-- The first error among the members of an object. -/
def numberErrorMembers : List (String × Json) → Option String
  | [] => none
  | (_, v) :: rest =>
    match numberError v with
    | some err => some err
    | none => numberErrorMembers rest
end

mutual
/-- A JSON value decoded into an `any` (`nil`, `bool`, `float64`, `string`, `[]any`,
`map[string]any`) and encoded again: a number is written as the float encoder writes its
`float64` (`null` for a number that is no `float64`, which leaves the `any` nil), an object
is written with its keys in ascending order, a key that occurs more than once with its last
value. -/
def decodeAny : Json → Json
  | .null => .null
  | .bool b => .bool b
  | .str s => .str s
  | .num literal =>
    match float64Literal literal with
    | some text => .num text
    | none => .null
  | .arr elems => .arr (decodeElems elems)
  | .obj members => .obj (decodeMembers members)
/-- The elements of an array decoded into `any` and encoded again. -/
def decodeElems : List Json → List Json
  | [] => []
  | e :: rest => decodeAny e :: decodeElems rest
/-- The members of an object decoded into a `map[string]any` and encoded again. -/
def decodeMembers : List (String × Json) → List (String × Json)
  | [] => []
  | (k, v) :: rest => insertMember keyLe k (decodeAny v) (decodeMembers rest)
end

/-- The call `json.Unmarshal(raw, &payload)` for a nil `payload map[string]any` and a `raw`
that is the text of a JSON value. A text nested deeper than 10000 brackets is a
`SyntaxError`; an object fills the map, its values decoded into `any`, and the first number
that is no `float64` is the error of the call; `null` leaves the map nil; any other value is
an `UnmarshalTypeError`. The map is held as the JSON value `encoding/json` writes for it
(`null` for the nil map). -/
def unmarshalMap (value : Json) : Except String Json :=
  match deepBracket 10000 value with
  | some c =>
    .error ("invalid character \x27" ++ String.singleton c ++ "\x27 exceeded max depth")
  | none =>
    match value with
    | .obj members =>
      match numberErrorMembers members with
      | some err => .error err
      | none => .ok (.obj (decodeMembers members))
    | .null => .ok .null
    | .bool _ => .error "json: cannot unmarshal bool into Go value of type map[string]interface {}"
    | .num _ => .error "json: cannot unmarshal number into Go value of type map[string]interface {}"
    | .str _ => .error "json: cannot unmarshal string into Go value of type map[string]interface {}"
    | .arr _ => .error "json: cannot unmarshal array into Go value of type map[string]interface {}"

/-! ## `backend/internal/store` -/

/-! ### PostgreSQL: the text of a `jsonb` value -/

/-- The text PostgreSQL writes for a number held in a `jsonb` column (`numeric_out` of the
`numeric` that `jsonb_in` made of the literal): no exponent, as many digits after the point
as the literal has once its exponent is applied, a zero before the point of a value below
one, and no sign for zero. A text that is not the literal of a JSON number stays as it is.
A `numeric` holds up to 131072 digits before the point and 16383 after it; the `UPDATE`
fails for a number outside that range. -/
def numericText (literal : List Char) : List Char :=
  match numberParts literal with
  | none => literal
  | some (neg, intDigits, fracDigits, exp) =>
    let digits := intDigits ++ fracDigits
    let p : Int := intDigits.length + exp
    let intPart :=
      if 0 < p then (digits.take p.toNat ++ List.replicate (p.toNat - digits.length) '0')
      else []
    let intPart := intPart.dropWhile (fun c => c = '0')
    let intPart := if intPart = [] then ['0'] else intPart
    let fracPart :=
      if p < 0 then List.replicate (-p).toNat '0' ++ digits else digits.drop p.toNat
    let body := if fracPart = [] then intPart else intPart ++ '.' :: fracPart
    if neg ∧ digits.any (fun c => c ≠ '0') then '-' :: body else body

/-- The order of `jsonb` on the keys of an object: shorter keys first, keys of one length
in the order of their bytes. -/
def jsonbKeyLe (a b : String) : Bool :=
  (stringBytes a).length < (stringBytes b).length ||
    ((stringBytes a).length == (stringBytes b).length && keyLe a b)

mutual
/-- The text of a `jsonb` value (`response::text`) as a JSON value, for the JSON value the
column was given: numbers are written as `numeric` writes them, the keys of an object are
in the order of `jsonb`, and a key that occurs more than once keeps its last value. -/
def jsonbText : Json → Json
  | .null => .null
  | .bool b => .bool b
  | .str s => .str s
  | .num literal => .num (String.mk (numericText literal.data))
  | .arr elems => .arr (jsonbElems elems)
  | .obj members => .obj (jsonbMembers members)
/-- The elements of an array of a `jsonb` value. -/
def jsonbElems : List Json → List Json
  | [] => []
  | e :: rest => jsonbText e :: jsonbElems rest
/-- The members of an object of a `jsonb` value. -/
def jsonbMembers : List (String × Json) → List (String × Json)
  | [] => []
  | (k, v) :: rest => insertMember jsonbKeyLe k (jsonbText v) (jsonbMembers rest)
end

/-- The errors of the store: the package's error values, and the errors it passes on from
the database driver (`database`) and from `encoding/json` (`json`). -/
inductive StoreError where
  | ErrNotFound
  | ErrNonceUsed
  | ErrIdempotencyConflict
  | ErrIdempotencyInProgress
  | ErrMomentContentOrMediaRequired
  | database (reason : String)
  | json (reason : String)
  deriving DecidableEq, Repr

/-- The method `Error` of an error of the store: the text of the package's error value, the
reason of an error passed on. -/
def StoreError.Error : StoreError → String
  | .ErrNotFound => "not found"
  | .ErrNonceUsed => "nonce already used"
  | .ErrIdempotencyConflict => "idempotency key conflict"
  | .ErrIdempotencyInProgress => "idempotency request in progress"
  | .ErrMomentContentOrMediaRequired => "moment content or media is required"
  | .database reason => reason
  | .json reason => reason

/-- A row of the table `api_keys`, with the column `scopes` as the database holds it (SQL
`NULL` is `none`). -/
structure APIKeyRow where
  id : String
  key_id : String
  name : String
  secret_ciphertext : String
  scopes : Option Json
  revoked_at : Option Time
  created_at : Time
  last_used_at : Option Time

/-- The struct `APIKeyRecord`. -/
structure APIKeyRecord where
  ID : String
  KeyID : String
  Name : String
  Secret : String
  Scopes : List String
  RevokedAt : Option Time
  CreatedAt : Time
  LastUsedAt : Option Time
  deriving DecidableEq, Repr

/-- A row of the table `request_nonces`; `(key_id, nonce)` is its unique key. -/
structure NonceRow where
  key_id : String
  nonce : String
  expires_at : Time
  deriving DecidableEq, Repr

/-- A row of the table `idempotency_keys`; `key` is its unique key and `response` is `none`
for SQL `NULL`. -/
structure IdempotencyRow where
  key : String
  request_hash : String
  status : String
  response : Option Json
  created_at : Time
  updated_at : Time

/-- The database behind a `Store`: the three tables of the authentication and idempotency
subsystems. -/
structure DB where
  api_keys : List APIKeyRow
  request_nonces : List NonceRow
  idempotency_keys : List IdempotencyRow

/-- The function `parseJSONArray` on the value of a `jsonb` column. -/
def parseJSONArray (raw : Option Json) : Except StoreError (List String) :=
  match raw with
  | none => .ok []
  | some v =>
    match unmarshalStrings v with
    | .error e => .error (.json e)
    | .ok none => .ok []
    | .ok (some values) => .ok values

/-- The method `Store.GetAPIKeyByKeyID`. `fault` is `some reason` when the query fails in
the database driver (lost connection, cancelled context, timeout). -/
def GetAPIKeyByKeyID (db : DB) (fault : Option String) (keyID : String) :
    Except StoreError APIKeyRecord :=
  match fault with
  | some reason => .error (.database reason)
  | none =>
    match db.api_keys.find? (fun row => row.key_id = keyID) with
    | none => .error .ErrNotFound
    | some row =>
      match parseJSONArray row.scopes with
      | .error e => .error e
      | .ok scopes =>
        .ok { ID := row.id, KeyID := row.key_id, Name := row.name,
              Secret := row.secret_ciphertext, Scopes := scopes,
              RevokedAt := row.revoked_at, CreatedAt := row.created_at,
              LastUsedAt := row.last_used_at }

/-- The method `Store.TouchAPIKeyUsage`: its error, if any, and the table `api_keys` after
it. -/
def TouchAPIKeyUsage (keys : List APIKeyRow) (now : Time) (fault : Option String)
    (keyID : String) : Option StoreError × List APIKeyRow :=
  match fault with
  | some reason => (some (.database reason), keys)
  | none =>
    (none, keys.map (fun row =>
      if row.key_id = keyID then { row with last_used_at := some now } else row))

/-- The method `Store.RegisterNonce`: its error, if any, and the table `request_nonces`
after it. `now` is the reading of the clock (`time.Now()` and the database's `NOW()`);
`insertFault` and `sweepFault` say whether the `INSERT` and the `DELETE` fail in the
database driver. -/
def RegisterNonce (ledger : List NonceRow) (now : Time) (insertFault sweepFault : Option String)
    (keyID nonce : String) (ttl : Duration) : Option StoreError × List NonceRow :=
  let expiresAt := now + ttl
  match insertFault with
  | some reason => (some (.database reason), ledger)
  | none =>
    if ledger.any (fun row => row.key_id = keyID ∧ row.nonce = nonce) then
      (some .ErrNonceUsed, ledger)
    else
      let inserted := ledger ++ [{ key_id := keyID, nonce := nonce, expires_at := expiresAt }]
      match sweepFault with
      | some _ => (none, inserted)
      | none => (none, inserted.filter (fun row => ¬ row.expires_at < now))

/-- The struct `IdempotencyResult`. `Response` is `none` for the nil pointer; a map is held
as the JSON value it encodes to. -/
structure IdempotencyResult where
  Owned : Bool
  Response : Option Json
  RequestHash : String

/-- The zero value `IdempotencyResult{}`. -/
def IdempotencyResult.zero : IdempotencyResult :=
  { Owned := false, Response := none, RequestHash := "" }

/-- The method `Store.BeginIdempotency`: its result and the table `idempotency_keys` after
it. `insertFault` and `selectFault` say whether the `INSERT` and the `SELECT` fail in the
database driver. -/
def BeginIdempotency (table : List IdempotencyRow) (now : Time)
    (insertFault selectFault : Option String) (key requestHash : String) :
    Except StoreError IdempotencyResult × List IdempotencyRow :=
  match insertFault with
  | some reason => (.error (.database reason), table)
  | none =>
    if ¬ table.any (fun row => row.key = key) then
      (.ok { Owned := true, Response := none, RequestHash := requestHash },
        table ++ [{ key := key, request_hash := requestHash, status := "in_progress",
                    response := none, created_at := now, updated_at := now }])
    else
      match selectFault with
      | some reason => (.error (.database reason), table)
      | none =>
        match table.find? (fun row => row.key = key) with
        | none => (.error .ErrIdempotencyInProgress, table)
        | some row =>
          if row.request_hash ≠ requestHash then (.error .ErrIdempotencyConflict, table)
          else if row.status = "completed" then
            match unmarshalMap (jsonbText (row.response.getD (.obj []))) with
            | .error e => (.error (.json e), table)
            | .ok payload =>
              (.ok { Owned := false, Response := some payload, RequestHash := row.request_hash },
                table)
          else (.error .ErrIdempotencyInProgress, table)

/-- The method `Store.FinalizeIdempotency`: its error, if any, and the table
`idempotency_keys` after it. The response is the JSON value `json.Marshal` writes for it. -/
def FinalizeIdempotency (table : List IdempotencyRow) (now : Time) (fault : Option String)
    (key requestHash : String) (response : Json) : Option StoreError × List IdempotencyRow :=
  match fault with
  | some reason => (some (.database reason), table)
  | none =>
    (none, table.map (fun row =>
      if row.key = key ∧ row.request_hash = requestHash then
        { row with status := "completed", response := some response, updated_at := now }
      else row))

/-- A row of the table `posts` (SQL `NULL` is `none`). -/
structure PostRow where
  id : String
  slug : String
  locale : String
  title : String
  excerpt : Option String
  content : String
  cover_url : Option String
  tags : Option Json
  status : String
  published_at : Option Time
  created_at : Time
  updated_at : Time
  revision : Option Int
  updated_by : Option String
  deleted_at : Option Time

/-- The struct `Post`. `Tags` is `none` for the nil slice. -/
structure Post where
  ID : String
  Slug : String
  Locale : String
  Title : String
  Excerpt : Option String
  Content : String
  CoverURL : Option String
  Tags : Option (List String)
  Status : String
  PublishedAt : Option Time
  CreatedAt : Time
  UpdatedAt : Time
  Revision : Int
  deriving DecidableEq, Repr

/-- The JSON value `json.Marshal` writes for a slice of strings: `null` for the nil slice. -/
def marshalStrings : Option (List String) → Json
  | none => .null
  | some values => .arr (values.map .str)

/-- The function `scanPost` on a row of the columns the queries select. -/
def scanPost (row : PostRow) : Except StoreError Post :=
  match parseJSONArray row.tags with
  | .error e => .error e
  | .ok tags =>
    .ok { ID := row.id, Slug := row.slug, Locale := row.locale, Title := row.title,
          Excerpt := row.excerpt, Content := row.content, CoverURL := row.cover_url,
          Tags := some tags, Status := row.status, PublishedAt := row.published_at,
          CreatedAt := row.created_at, UpdatedAt := row.updated_at,
          Revision := row.revision.getD 1 }

/-- The method `Store.GetPostByID`. `fault` is `some reason` when the query fails in the
database driver. -/
def GetPostByID (posts : List PostRow) (fault : Option String) (id : String) :
    Except StoreError Post :=
  match fault with
  | some reason => .error (.database reason)
  | none =>
    match posts.find? (fun row => row.id = id ∧ row.deleted_at = none) with
    | none => .error .ErrNotFound
    | some row => scanPost row

/-- The struct `UpdatePostInput`; `none` is the nil pointer. -/
structure UpdatePostInput where
  Title : Option String
  Slug : Option String
  Excerpt : Option String
  Content : Option String
  CoverURL : Option String
  Tags : Option (Option (List String))
  Locale : Option String
  Status : Option String
  UpdatedBy : Option String

/-- The result of a statement `UPDATE posts ... WHERE id = $1 AND deleted_at IS NULL
RETURNING ...` read by `scanPost`: the post of the first row the statement returns and the
table after it; `ErrNotFound` when it returns no row. -/
def updateReturning (posts : List PostRow) (id : String) (set : PostRow → PostRow) :
    Except StoreError Post × List PostRow :=
  (match posts.find? (fun row => row.id = id ∧ row.deleted_at = none) with
    | none => .error .ErrNotFound
    | some row => scanPost (set row),
   posts.map (fun row => if row.id = id ∧ row.deleted_at = none then set row else row))

/-- The method `Store.UpdatePost`: its result and the table `posts` after it. `now` is the
reading of the clock (`time.Now()` and the database's `NOW()`); `getFault` and `updateFault`
say whether the `SELECT` and the `UPDATE` fail in the database driver. -/
def UpdatePost (posts : List PostRow) (now : Time) (getFault updateFault : Option String)
    (id : String) (input : UpdatePostInput) : Except StoreError Post × List PostRow :=
  match GetPostByID posts getFault id with
  | .error e => (.error e, posts)
  | .ok existing =>
    let existing := match input.Title with
      | some v => { existing with Title := v }
      | none => existing
    let existing := match input.Slug with
      | some v => { existing with Slug := v }
      | none => existing
    let existing := match input.Excerpt with
      | some v => { existing with Excerpt := some v }
      | none => existing
    let existing := match input.Content with
      | some v => { existing with Content := v }
      | none => existing
    let existing := match input.CoverURL with
      | some v => { existing with CoverURL := some v }
      | none => existing
    let existing := match input.Tags with
      | some v => { existing with Tags := v }
      | none => existing
    let existing := match input.Locale with
      | some v => { existing with Locale := v }
      | none => existing
    let existing := match input.Status with
      | some v => { existing with Status := v }
      | none => existing
    let tagsRaw := marshalStrings existing.Tags
    let publishedAt : Option Time :=
      if existing.Status = "published" then
        match existing.PublishedAt with
        | some t => some t
        | none => some now
      else none
    match updateFault with
    | some reason => (.error (.database reason), posts)
    | none =>
      updateReturning posts id (fun row =>
        { row with slug := existing.Slug, locale := existing.Locale, title := existing.Title,
                   excerpt := existing.Excerpt, content := existing.Content,
                   cover_url := existing.CoverURL, tags := some tagsRaw,
                   status := existing.Status, published_at := publishedAt,
                   revision := some (row.revision.getD 1 + 1),
                   updated_by := input.UpdatedBy, updated_at := now })

/-- The method `Store.SetPostStatus`: its result and the table `posts` after it. `now` is
the reading of the clock; `fault` says whether the `UPDATE` fails in the database driver. -/
def SetPostStatus (posts : List PostRow) (now : Time) (fault : Option String)
    (id status : String) (updatedBy : Option String) :
    Except StoreError Post × List PostRow :=
  let publishedAt : Option Time := if status = "published" then some now else none
  match fault with
  | some reason => (.error (.database reason), posts)
  | none =>
    updateReturning posts id (fun row =>
      { row with status := status, published_at := publishedAt,
                 revision := some (row.revision.getD 1 + 1), updated_by := updatedBy,
                 updated_at := now })

/-! ## `backend/internal/auth/middleware.go` -/

/-- The struct `AuthContext`. -/
structure AuthContext where
  KeyID : String
  Scopes : List String
  deriving DecidableEq, Repr

/-- The struct `Authenticator`; its store is the database passed to `Authenticate`. -/
structure Authenticator where
  MaxSkew : Duration
  NonceTTL : Duration

/-- What `Authenticate` reads of an `*http.Request`: method, `URL.Path`, `URL.RawQuery`,
the values `Header.Get` returns for the four headers (empty for an absent header), and the
body (`none` when reading it fails). -/
structure Request where
  Method : String
  Path : String
  RawQuery : String
  KeyId : String
  Timestamp : String
  Nonce : String
  Signature : String
  Body : Option (List Nat)

/-- A response written to the `http.ResponseWriter`: status, content type and body. -/
structure Reply where
  status : Nat
  contentType : String
  body : String
  deriving DecidableEq, Repr

/-- The function `unauthorized`: the response 401 with the JSON error envelope. -/
def unauthorized (code message : String) : Reply :=
  { status := 401, contentType := "application/json",
    body := "\x7b\"error\":\x7b\"code\":\"" ++ code ++ "\",\"message\":\"" ++ message
      ++ "\",\"retryable\":false\x7d\x7d" }

/-- What the middleware does with a request: it answers itself (`rejected`), or it calls the
next handler (`next`) with the authenticated identity in the context and the body restored. -/
inductive AuthOutcome where
  | rejected (reply : Reply)
  | next (ctx : AuthContext) (body : List Nat)
  deriving DecidableEq, Repr

/-- What the database driver answers to the four database calls of one `Authenticate`:
`some reason` when the call fails in the driver. -/
structure AuthFaults where
  lookup : Option String
  insert : Option String
  sweep : Option String
  touch : Option String

/-- No database call fails. -/
def AuthFaults.none : AuthFaults :=
  { lookup := Option.none, insert := Option.none, sweep := Option.none, touch := Option.none }

/-- The handler `Authenticator.Authenticate` builds: what it does with the request, and the
database after it. `now` is the reading of the clock. -/
def Authenticate (a : Authenticator) (db : DB) (now : Time) (faults : AuthFaults)
    (r : Request) : AuthOutcome × DB :=
  let keyID := TrimSpace r.KeyId
  let timestamp := TrimSpace r.Timestamp
  let nonce := TrimSpace r.Nonce
  let signature := TrimSpace r.Signature
  if keyID = "" ∨ timestamp = "" ∨ nonce = "" ∨ signature = "" then
    (.rejected (unauthorized "missing_auth_headers" "missing required auth headers"), db)
  else if ¬ ValidateTimestamp timestamp a.MaxSkew now then
    (.rejected (unauthorized "invalid_timestamp" "timestamp is outside accepted window"), db)
  else
    match r.Body with
    | none => (.rejected (unauthorized "invalid_request" "failed to read request body"), db)
    | some body =>
      let bodyHash := SHA256Hex body
      match GetAPIKeyByKeyID db faults.lookup keyID with
      | .error _ => (.rejected (unauthorized "invalid_key" "api key not found"), db)
      | .ok record =>
        if record.RevokedAt ≠ none then
          (.rejected (unauthorized "revoked_key" "api key has been revoked"), db)
        else if ¬ Verify record.Secret
            { Method := r.Method, Path := r.Path, RawQuery := r.RawQuery,
              Timestamp := timestamp, Nonce := nonce, BodyHash := bodyHash } signature then
          (.rejected (unauthorized "invalid_signature" "signature verification failed"), db)
        else
          match RegisterNonce db.request_nonces now faults.insert faults.sweep keyID nonce
              a.NonceTTL with
          | (some _, ledger) =>
            (.rejected (unauthorized "nonce_reused" "nonce has already been used"),
              { db with request_nonces := ledger })
          | (Option.none, ledger) =>
            (.next { KeyID := keyID, Scopes := record.Scopes } body,
              { db with request_nonces := ledger,
                        api_keys := (TouchAPIKeyUsage db.api_keys now faults.touch keyID).2 })

/-- What a `context.Context` holds under the key `contextKeyAuth`: no value, an
`AuthContext`, or a value of another type. -/
inductive ContextValue where
  | absent
  | auth (authCtx : AuthContext)
  | other
  deriving DecidableEq, Repr

/-- The function `GetAuthContext`. A failed type assertion gives the zero `AuthContext`. -/
def GetAuthContext (ctx : ContextValue) : AuthContext × Bool :=
  match ctx with
  | .absent => ({ KeyID := "", Scopes := [] }, false)
  | .auth authCtx => (authCtx, true)
  | .other => ({ KeyID := "", Scopes := [] }, false)

/-- The function `HasScope`. -/
def HasScope (ctx : ContextValue) (scope : String) : Bool :=
  match GetAuthContext ctx with
  | (_, false) => false
  | (authCtx, true) =>
    authCtx.Scopes.any (fun candidate => candidate = scope ∨ candidate = "*")

/-- What the handler of `RequireScope` does with a request: it answers itself (`rejected`),
or it calls the wrapped handler (`next`). -/
inductive ScopeOutcome where
  | rejected (reply : Reply)
  | next
  deriving DecidableEq, Repr

/-- The handler `RequireScope(scope, next)` builds, on a request with the context `ctx`. -/
def RequireScope (scope : String) (ctx : ContextValue) : ScopeOutcome :=
  if ¬ HasScope ctx scope then
    .rejected
      { status := 403, contentType := "application/json",
        body := "\x7b\"error\":\x7b\"code\":\"forbidden\",\"message\":\"missing required scope: "
          ++ scope ++ "\",\"retryable\":false\x7d\x7d" }
  else .next

/-! ## `backend/internal/api/idempotency.go` -/

/-- The function `payloadHash`: the SHA-256 of the JSON text of the payload, in hexadecimal.
The payload is the JSON value `json.Marshal` writes for it. -/
def payloadHash (payload : Json) : String :=
  SHA256Hex ((payload.encode).flatMap charBytes)

/-- What the database driver answers to the three database calls of one
`runWithIdempotency`: `some reason` when the call fails in the driver. -/
structure IdempotencyFaults where
  insert : Option String
  select : Option String
  finalize : Option String

/-- No database call fails. -/
def IdempotencyFaults.none : IdempotencyFaults :=
  { insert := Option.none, select := Option.none, finalize := Option.none }

/-- What one call of `runWithIdempotency` leaves behind: its two results, the call of
`writeJSON` it made, if any (status and payload), the table `idempotency_keys` and the
state `world` that `execute` works on. -/
structure RunResult (σ : Type) where
  ok : Bool
  err : Option StoreError
  written : Option (Nat × Json)
  table : List IdempotencyRow
  world : σ

/-- The method `Server.runWithIdempotency`. `idempotencyKey` is the value of the header
`Idempotency-Key` (empty when the header is absent); `execute` is the operation, a function
of the state it reads and writes, giving its result (the JSON value of the result, or an
error) and the state after it. -/
def runWithIdempotency {σ : Type} (table : List IdempotencyRow) (now : Time)
    (faults : IdempotencyFaults) (idempotencyKey : String) (payload : Json)
    (execute : σ → Except StoreError Json × σ) (world : σ) : RunResult σ :=
  if idempotencyKey = "" then
    match execute world with
    | (.error e, world1) =>
      { ok := false, err := some e, written := none, table := table, world := world1 }
    | (.ok result, world1) =>
      { ok := true, err := none, written := some (200, result), table := table, world := world1 }
  else
    let hash := payloadHash payload
    match BeginIdempotency table now faults.insert faults.select idempotencyKey hash with
    | (.error e, table1) =>
      { ok := false, err := some e, written := none, table := table1, world := world }
    | (.ok beginResult, table1) =>
      match beginResult.Response with
      | some response =>
        { ok := true, err := none, written := some (200, response), table := table1,
          world := world }
      | none =>
        match execute world with
        | (.error e, world1) =>
          { ok := false, err := some e, written := none, table := table1, world := world1 }
        | (.ok result, world1) =>
          match FinalizeIdempotency table1 now faults.finalize idempotencyKey hash result with
          | (some e, table2) =>
            { ok := false, err := some e, written := none, table := table2, world := world1 }
          | (none, table2) =>
            { ok := true, err := none, written := some (200, result), table := table2,
              world := world1 }

/-- The record of a key that `runWithIdempotency` leaves after an owned and finished
execution. -/
def completedRow (key hash : String) (result : Json) (created updated : Time) :
    IdempotencyRow :=
  { key := key, request_hash := hash, status := "completed", response := some result,
    created_at := created, updated_at := updated }

/-- Where a call of `runWithIdempotency` that carries an idempotency key stands between two
of its steps: before the `INSERT` of `BeginIdempotency` (`begin`), after an `INSERT` that
affected no row and before the `SELECT` (`conflict`), after `BeginIdempotency` granted
ownership and before `execute` (`owned`), after a successful `execute` and before the
`UPDATE` of `FinalizeIdempotency` (`executed`), and after its return (`returned`, with its
two results and the call of `writeJSON` it made). -/
inductive CallState where
  | begin
  | conflict
  | owned
  | executed (result : Json)
  | returned (ok : Bool) (err : Option StoreError) (written : Option (Nat × Json))

/-- One step of a call of `runWithIdempotency` that carries the idempotency key `key`, when
no database call fails: the statement of the database or the call of `execute` that comes
next, on the table `idempotency_keys` and the state of the operation as they are at that
moment. `now` is the reading of the clock at the step. -/
def stepCall {σ : Type} (key : String) (payload : Json)
    (execute : σ → Except StoreError Json × σ) (now : Time) (state : CallState)
    (table : List IdempotencyRow) (world : σ) : CallState × List IdempotencyRow × σ :=
  match state with
  | .begin =>
    if ¬ table.any (fun row => row.key = key) then
      (.owned,
        table ++ [{ key := key, request_hash := payloadHash payload, status := "in_progress",
                    response := none, created_at := now, updated_at := now }], world)
    else (.conflict, table, world)
  | .conflict =>
    match table.find? (fun row => row.key = key) with
    | none => (.returned false (some .ErrIdempotencyInProgress) none, table, world)
    | some row =>
      if row.request_hash ≠ payloadHash payload then
        (.returned false (some .ErrIdempotencyConflict) none, table, world)
      else if row.status = "completed" then
        match unmarshalMap (jsonbText (row.response.getD (.obj []))) with
        | .error e => (.returned false (some (.json e)) none, table, world)
        | .ok response => (.returned true none (some (200, response)), table, world)
      else (.returned false (some .ErrIdempotencyInProgress) none, table, world)
  | .owned =>
    match execute world with
    | (.error e, world1) => (.returned false (some e) none, table, world1)
    | (.ok result, world1) => (.executed result, table, world1)
  | .executed result =>
    (.returned true none (some (200, result)),
      (FinalizeIdempotency table now none key (payloadHash payload) result).2, world)
  | .returned ok err written => (.returned ok err written, table, world)

/-- A number of steps of one call, one after the other, at one reading of the clock. -/
def runSteps {σ : Type} (key : String) (payload : Json)
    (execute : σ → Except StoreError Json × σ) (now : Time) :
    Nat → CallState × List IdempotencyRow × σ → CallState × List IdempotencyRow × σ
  | 0, s => s
  | n + 1, s => runSteps key payload execute now n
      (stepCall key payload execute now s.1 s.2.1 s.2.2)

/-! ## `backend/internal/api/http.go` and `server.go` -/

/-- The struct `APIError`. -/
structure APIError where
  Code : String
  Message : String
  Retryable : Bool
  RequestID : String
  deriving DecidableEq, Repr

/-- The function `writeError`: the status and the error of the envelope that `writeJSON`
writes. -/
def writeError (status : Nat) (code message : String) (retryable : Bool)
    (requestID : String) : Nat × APIError :=
  (status, { Code := code, Message := message, Retryable := retryable,
             RequestID := requestID })

/-- The function `writeStoreError`. `reqID` is the request id of the context of the
request. -/
def writeStoreError (reqID : String) (err : StoreError) : Nat × APIError :=
  match err with
  | .ErrNotFound => writeError 404 "not_found" "resource not found" false reqID
  | .ErrMomentContentOrMediaRequired =>
    writeError 400 "invalid_payload" "moment content or media is required" false reqID
  | .ErrIdempotencyConflict =>
    writeError 409 "idempotency_conflict" "idempotency key already used with another payload"
      false reqID
  | .ErrIdempotencyInProgress =>
    writeError 409 "idempotency_in_progress" "request is already in progress" true reqID
  | other => writeError 500 "internal_error" ("internal error: " ++ other.Error) true reqID

/-! ## `backend/internal/api/handlers_search.go` -/

/-- The struct `searchCursorPayload`. -/
structure searchCursorPayload where
  SortAt : String
  ID : String
  deriving DecidableEq, Repr

/-- The struct `decodedCursor`. -/
structure decodedCursor where
  SortAt : Time
  ID : String
  deriving DecidableEq, Repr

/-- The folding of one character of an object key that `encoding/json` applies before it
compares the key with the name of a field (`foldName`), as far as it can meet an ASCII
name: letters become upper case, U+017F becomes `S` and U+212A becomes `K`. -/
def foldNameChar (c : Char) : Char :=
  if 97 ≤ c.toNat ∧ c.toNat ≤ 122 then Char.ofNat (c.toNat - 32)
  else if c.toNat = 0x17F then 'S'
  else if c.toNat = 0x212A then 'K'
  else c

/-- Whether an object key names the field with the JSON name `name`: exactly, or after
folding. -/
def keyNamesField (key name : String) : Bool :=
  key = name ∨ key.data.map foldNameChar = name.data.map foldNameChar

/-- The assignment of one member of a JSON object to a `searchCursorPayload`: a string sets
the field its key names, `null` leaves it, any other value for a named field is an
`UnmarshalTypeError` (the flag), a key that names no field is skipped. -/
def assignCursorMember (state : searchCursorPayload × Bool) (member : String × Json) :
    searchCursorPayload × Bool :=
  if keyNamesField member.1 "sortAt" then
    match member.2 with
    | .str s => ({ state.1 with SortAt := s }, state.2)
    | .null => state
    | _ => (state.1, true)
  else if keyNamesField member.1 "id" then
    match member.2 with
    | .str s => ({ state.1 with ID := s }, state.2)
    | .null => state
    | _ => (state.1, true)
  else state

/-- The call `json.Unmarshal(bytes, &payload)` for a zero `payload searchCursorPayload`: the
payload, `none` for a syntax error or an `UnmarshalTypeError`. -/
def unmarshalCursorPayload (bytes : List Nat) : Option searchCursorPayload :=
  match parseJson bytes with
  | none => none
  | some .null => some { SortAt := "", ID := "" }
  | some (.obj members) =>
    if (members.foldl assignCursorMember ({ SortAt := "", ID := "" }, false)).2 then none
    else some (members.foldl assignCursorMember ({ SortAt := "", ID := "" }, false)).1
  | some _ => none

/-- The function `encodeSearchCursor`; `json.Marshal` of the payload writes the object with
the members `sortAt` and `id`, and does not fail. -/
def encodeSearchCursor (cursor : searchCursorPayload) : Except String String :=
  .ok ⟨base64Encode (stringBytes
    ⟨(Json.obj [("sortAt", .str cursor.SortAt), ("id", .str cursor.ID)]).encode⟩)⟩

/-- The function `decodeSearchCursor`: `.ok none` stands for `(nil, nil)`. -/
def decodeSearchCursor (raw : String) : Except String (Option decodedCursor) :=
  let trimmed := TrimSpace raw
  if trimmed = "" then .ok none
  else
    match base64Decode trimmed.data with
    | none => .error "invalid cursor"
    | some bytes =>
      match unmarshalCursorPayload bytes with
      | none => .error "invalid cursor"
      | some payload =>
        if payload.ID = "" ∨ payload.SortAt = "" then .error "invalid cursor"
        else
          match parseRFC3339 payload.SortAt.data with
          | some sortAt => .ok (some { SortAt := sortAt, ID := payload.ID })
          | none =>
            match parseRFC3339 payload.SortAt.data with
            | some sortAt => .ok (some { SortAt := sortAt, ID := payload.ID })
            | none => .error "invalid cursor"

/-- The function `valueOrEmpty`. -/
def valueOrEmpty (value : Option String) : String :=
  match value with
  | none => ""
  | some v => v

/-- A row of the result of a search query, as far as paging reads it: the columns `id::text`
and `sort_at` (`COALESCE(published_at, created_at)` for posts). The other columns are copied
into the item and play no part in paging. -/
structure searchRow where
  id : String
  sortAt : Time
  deriving DecidableEq, Repr

/-- An item of a search response, as far as paging reads it: the fields `ID` and `SortAt` that
`postSearchItem`, `momentSearchItem` and `gallerySearchItem` share. -/
structure searchItem where
  ID : String
  SortAt : String
  deriving DecidableEq, Repr

/-- The item the loop over `rows.Next()` builds from a row: `SortAt` is
`sortAt.UTC().Format(time.RFC3339Nano)`. -/
def scanItem (row : searchRow) : searchItem :=
  { ID := row.id, SortAt := formatRFC3339Nano row.sortAt }

/-- The condition a cursor adds to `WHERE`:
`(sort_at < $c OR (sort_at = $c AND id::text < $id))`; no condition without a cursor. Texts
are compared as the order of `String` compares them, character by character. -/
def cursorCondition (cursor : Option decodedCursor) (row : searchRow) : Bool :=
  match cursor with
  | none => true
  | some c => decide (row.sortAt < c.SortAt ∨ (row.sortAt = c.SortAt ∧ row.id < c.ID))

/-- The order of `ORDER BY sort_at DESC, id DESC`: `a` is not after `b`. The ids are compared
as in `cursorCondition`. -/
def orderBy (a b : searchRow) : Prop :=
  b.sortAt < a.sortAt ∨ (b.sortAt = a.sortAt ∧ b.id ≤ a.id)

instance orderByDecidable : DecidableRel orderBy := fun a b =>
  inferInstanceAs (Decidable (b.sortAt < a.sortAt ∨ (b.sortAt = a.sortAt ∧ b.id ≤ a.id)))

/-- The rows the query of a search returns: the rows of the dataset (the rows that satisfy
the other conditions of `WHERE`) that satisfy the condition of the cursor, in the order of
`ORDER BY`, cut by `LIMIT limit + 1`; the database refuses a negative `LIMIT`. -/
def queryRows (dataset : List searchRow) (cursor : Option decodedCursor) (limit : Int) :
    Except String (List searchRow) :=
  if limit + 1 < 0 then .error "LIMIT must not be negative"
  else .ok (((dataset.filter (cursorCondition cursor)).insertionSort orderBy).take
    (limit + 1).toNat)

/-- The map `buildSearchResponse` returns. -/
structure searchResponse (T : Type) where
  items : List T
  nextCursor : Option String
  hasMore : Bool
  deriving Repr

/-- The function `buildSearchResponse`. `none` stands for a run-time panic: `items[:limit]`
with a negative `limit`, or `visible[len(visible)-1]` with an empty `visible`. -/
def buildSearchResponse {T : Type} (items : List T) (limit : Int)
    (cursorGetter : T → searchCursorPayload) : Option (Except String (searchResponse T)) :=
  let hasMore := decide ((items.length : Int) > limit)
  if hasMore then
    if limit < 0 then none
    else
      let visible := items.take limit.toNat
      match visible.getLast? with
      | none => none
      | some last =>
        match encodeSearchCursor (cursorGetter last) with
        | .error err => some (.error err)
        | .ok encoded => some (.ok { items := visible, nextCursor := some encoded, hasMore := hasMore })
  else some (.ok { items := items, nextCursor := none, hasMore := hasMore })

/-- The paging of `searchPosts`, `searchMoments` and `searchGallery`: the query for the page
after the cursor, the items of its rows, and `buildSearchResponse` with the cursor of an item
made of its `SortAt` and `ID`. An error of the query is returned. -/
def searchPosts (dataset : List searchRow) (limit : Int) (cursor : Option decodedCursor) :
    Option (Except String (searchResponse searchItem)) :=
  match queryRows dataset cursor limit with
  | .error err => some (.error err)
  | .ok rows =>
    buildSearchResponse (rows.map scanItem) limit
      (fun item => { SortAt := item.SortAt, ID := item.ID })

/-- The function `normalizeSearchLimit`. -/
def normalizeSearchLimit (limit : Int) : Int :=
  if limit ≤ 0 then 12
  else if limit > 30 then 30
  else limit

/-- The column `sort_at` of the query of `searchPosts`:
`COALESCE(published_at, created_at)`. -/
def postSortAt (row : PostRow) : Time :=
  match row.published_at with
  | some t => t
  | none => row.created_at

/-- The function `escapeLike`. The literals of the source are raw strings: its `old` of the
first replacement is two backslashes and its `new` is four, and the `new` of the other two
replacements is two backslashes and the character. -/
def escapeLike (input : String) : String :=
  let value := ReplaceAll input "\\\\" "\\\\\\\\"
  let value := ReplaceAll value "%" "\\\\%"
  let value := ReplaceAll value "_" "\\\\_"
  value

/-- The function `createLikePattern`. -/
def createLikePattern (input : String) : String :=
  "%" ++ escapeLike input ++ "%"

/-! ## Notions of the specification -/

/-- Two inputs differ in exactly one of the six fields. -/
def differInOneField (a b : SignatureInput) : Prop :=
  (a.Method ≠ b.Method ∧ a.Path = b.Path ∧ a.RawQuery = b.RawQuery ∧
      a.Timestamp = b.Timestamp ∧ a.Nonce = b.Nonce ∧ a.BodyHash = b.BodyHash) ∨
  (a.Method = b.Method ∧ a.Path ≠ b.Path ∧ a.RawQuery = b.RawQuery ∧
      a.Timestamp = b.Timestamp ∧ a.Nonce = b.Nonce ∧ a.BodyHash = b.BodyHash) ∨
  (a.Method = b.Method ∧ a.Path = b.Path ∧ a.RawQuery ≠ b.RawQuery ∧
      a.Timestamp = b.Timestamp ∧ a.Nonce = b.Nonce ∧ a.BodyHash = b.BodyHash) ∨
  (a.Method = b.Method ∧ a.Path = b.Path ∧ a.RawQuery = b.RawQuery ∧
      a.Timestamp ≠ b.Timestamp ∧ a.Nonce = b.Nonce ∧ a.BodyHash = b.BodyHash) ∨
  (a.Method = b.Method ∧ a.Path = b.Path ∧ a.RawQuery = b.RawQuery ∧
      a.Timestamp = b.Timestamp ∧ a.Nonce ≠ b.Nonce ∧ a.BodyHash = b.BodyHash) ∨
  (a.Method = b.Method ∧ a.Path = b.Path ∧ a.RawQuery = b.RawQuery ∧
      a.Timestamp = b.Timestamp ∧ a.Nonce = b.Nonce ∧ a.BodyHash ≠ b.BodyHash)

/-- How a walk over the pages of a search ends. -/
inductive Walk where
  | done (pages : List (List searchItem))
  | rejected (message : String)
  | panicked
  | unfinished
  deriving DecidableEq, Repr

/-- The walk of the specification over a fixed dataset: request a page with the cursor of the
previous response (none at first), as `handlePublicSearch` serves it (`decodeSearchCursor` of
`valueOrEmpty(req.Cursor)`, then the search), collect the visible items, and stop when
`hasMore` is false. `rejected` is a request answered with an error, `unfinished` a walk that
is not over after `fuel` requests. -/
def walkPages (dataset : List searchRow) (limit : Int) : Nat → Option String → Walk
  | 0, _ => .unfinished
  | fuel + 1, token =>
    match decodeSearchCursor (valueOrEmpty token) with
    | .error err => .rejected err
    | .ok cursor =>
      match searchPosts dataset limit cursor with
      | none => .panicked
      | some (.error err) => .rejected err
      | some (.ok response) =>
        if response.hasMore then
          match walkPages dataset limit fuel response.nextCursor with
          | .done pages => .done (response.items :: pages)
          | other => other
        else .done [response.items]

/-- One unbounded fetch of the dataset in the order of `ORDER BY`. -/
def fetchAll (dataset : List searchRow) : List searchItem :=
  (dataset.insertionSort orderBy).map scanItem

/-- An operation that counts its calls: the operation `execute` on the first component of the
state, and one more call in the second. -/
def countCalls {σ : Type} (execute : σ → Except StoreError Json × σ) :
    σ × Nat → Except StoreError Json × (σ × Nat) :=
  fun state => ((execute state.1).1, ((execute state.1).2, state.2 + 1))

/-- A call of one of the two idempotency methods of the store, with the reading of the clock
and the answers of the database driver. -/
inductive IdempotencyCall where
  | beginCall (now : Time) (insertFault selectFault : Option String) (key requestHash : String)
  | finalizeCall (now : Time) (fault : Option String) (key requestHash : String)
      (response : Json)

/-- The key a call carries. -/
def IdempotencyCall.key : IdempotencyCall → String
  | .beginCall _ _ _ key _ => key
  | .finalizeCall _ _ key _ _ => key

/-- The request hash a call carries. -/
def IdempotencyCall.requestHash : IdempotencyCall → String
  | .beginCall _ _ _ _ requestHash => requestHash
  | .finalizeCall _ _ _ requestHash _ => requestHash

/-- The table `idempotency_keys` after a call. -/
def IdempotencyCall.run (table : List IdempotencyRow) : IdempotencyCall → List IdempotencyRow
  | .beginCall now insertFault selectFault key requestHash =>
    (BeginIdempotency table now insertFault selectFault key requestHash).2
  | .finalizeCall now fault key requestHash response =>
    (FinalizeIdempotency table now fault key requestHash response).2

/-- The table `idempotency_keys` after a sequence of calls. -/
def runCalls (table : List IdempotencyRow) (calls : List IdempotencyCall) :
    List IdempotencyRow :=
  calls.foldl IdempotencyCall.run table

/-- The key/value pairs of a raw query, in the words of the specification: the query is cut
at every `&`, an empty piece holds no pair, any other piece is cut at its first `=` and both
sides are percent-decoded; `none` when the query does not parse as a URL query (a piece with
`;` or with a malformed escape). -/
def queryPairs : List (List Char) → Option (List (List Nat × List Nat))
  | [] => some []
  | piece :: rest =>
    if ';' ∈ piece then none
    else if piece = [] then queryPairs rest
    else
      match queryUnescape (cutChars '=' piece).1, queryUnescape (cutChars '=' piece).2,
        queryPairs rest with
      | some k, some v, some pairs => some ((k, v) :: pairs)
      | _, _, _ => none

/-- The key/value pairs a `url.Values` holds. -/
def Values.pairs (m : Values) : List (List Nat × List Nat) :=
  m.flatMap (fun entry => entry.2.map (fun value => (entry.1, value)))

/-- The order of the pairs of the canonical query: ascending byte order of the key and, for
equal keys, ascending byte order of the value. -/
def pairLe (a b : List Nat × List Nat) : Prop :=
  (bytesLe a.1 b.1 = true ∧ a.1 ≠ b.1) ∨ (a.1 = b.1 ∧ bytesLe a.2 b.2 = true)

/-- The percent-encoded rendering `key=value` of a pair. -/
def renderPair (pair : List Nat × List Nat) : List Char :=
  queryEscapeChars pair.1 ++ '=' :: queryEscapeChars pair.2

/-- How `json.Unmarshal` fills a string field with the JSON name `name` from one member of an
object: a member whose key names the field and whose value is a string sets the field, any
other member leaves it. -/
def fieldStep (name : String) (current : String) (member : String × Json) : String :=
  if keyNamesField member.1 name then
    match member.2 with
    | .str s => s
    | _ => current
  else current

/-- The string a decoded object gives to the field with the JSON name `name`: the string of
the last member whose key names the field (as `encoding/json` matches keys, exactly or
ignoring case) and whose value is a string; the empty string when there is none. -/
def fieldString (members : List (String × Json)) (name : String) : String :=
  members.foldl (fieldStep name) ""

/-- Whether a decoded object gives `sortAt` or `id` a value that is neither a string nor
`null` (an `UnmarshalTypeError`). -/
def fieldTypeError (members : List (String × Json)) : Bool :=
  members.any (fun member =>
    (keyNamesField member.1 "sortAt" || keyNamesField member.1 "id") &&
      match member.2 with
      | .str _ => false
      | .null => false
      | _ => true)

/-- Whether all characters of a text are decimal digits. -/
def allDigits (l : List Char) : Bool := l.all isDigitChar

/-- The shape of a `time-offset` of RFC 3339: `Z`, or a sign, two digits, `:`, two digits. -/
def rfc3339Offset (l : List Char) : Bool :=
  match l with
  | [z] => z = 'Z' || z = 'z'
  | [sign, h1, h2, colon, m1, m2] =>
    (sign = '+' || sign = '-') && allDigits [h1, h2, m1, m2] && colon = ':'
  | _ => false

/-- The shape of a `date-time` of RFC 3339: four digits, `-`, two digits, `-`, two digits,
`T`, two digits, `:`, two digits, `:`, two digits, an optional fraction of `.` and at least
one digit, and a `time-offset`. -/
def rfc3339Shape (l : List Char) : Bool :=
  match l with
  | y1 :: y2 :: y3 :: y4 :: d1 :: m1 :: m2 :: d2 :: a1 :: a2 :: t :: h1 :: h2 :: c1 :: n1 :: n2
      :: c2 :: s1 :: s2 :: rest =>
    allDigits [y1, y2, y3, y4, m1, m2, a1, a2, h1, h2, n1, n2, s1, s2] && d1 = '-' && d2 = '-'
      && (t = 'T' || t = 't') && c1 = ':' && c2 = ':' &&
      (match rest with
       | '.' :: frac =>
         !(frac.takeWhile isDigitChar).isEmpty && rfc3339Offset (frac.dropWhile isDigitChar)
       | _ => rfc3339Offset rest)
  | _ => false

/-- A call of `runWithIdempotency`: the reading of the clock, the answers of the database
driver, the idempotency key, the payload and the operation. -/
structure RunCall (σ : Type) where
  now : Time
  faults : IdempotencyFaults
  key : String
  payload : Json
  execute : σ → Except StoreError Json × σ

/-- The table `idempotency_keys` and the state of the operations after a sequence of calls
of `runWithIdempotency`, one after the other. -/
def runAll {σ : Type} (table : List IdempotencyRow) (world : σ) (calls : List (RunCall σ)) :
    List IdempotencyRow × σ :=
  calls.foldl (fun state call =>
    ((runWithIdempotency state.1 call.now call.faults call.key call.payload call.execute
        state.2).table,
      (runWithIdempotency state.1 call.now call.faults call.key call.payload call.execute
        state.2).world)) (table, world)

/-- Whether a value matches a pattern of SQL `LIKE` read with the backslash as the escape
character: `%` matches every sequence of characters, `_` matches one character, a backslash
makes the character after it stand for itself, every other character stands for itself; a
pattern that ends in a lone backslash matches nothing. -/
def likeMatch : List Char → List Char → Bool
  | [], v => v.isEmpty
  | c :: p, v =>
    if c = '\\' then
      match p with
      | [] => false
      | e :: q =>
        match v with
        | [] => false
        | x :: t => x = e && likeMatch q t
    else if c = '%' then v.tails.any (fun t => likeMatch p t)
    else if c = '_' then
      match v with
      | [] => false
      | _ :: t => likeMatch p t
    else
      match v with
      | [] => false
      | x :: t => x = c && likeMatch p t

/-- Whether a value contains a text as a substring. -/
def containsText (value text : List Char) : Bool :=
  value.tails.any (fun t => text.isPrefixOf t)

/-- Two calls of `runWithIdempotency` that run at the same time: where each of them stands,
the table `idempotency_keys` and the state of the operations they share, and the number of
times each of them has called `execute`. -/
structure Race (σ : Type) where
  first : CallState
  second : CallState
  table : List IdempotencyRow
  world : σ
  runs : Nat × Nat

/-- Where a call stands: the second call for `true`, the first for `false`. -/
def Race.call {σ : Type} (s : Race σ) (who : Bool) : CallState :=
  if who then s.second else s.first

/-- The number of times a call has called `execute`. -/
def Race.runsOf {σ : Type} (s : Race σ) (who : Bool) : Nat :=
  if who then s.runs.2 else s.runs.1

/-- Whether the next step of a call is its call of `execute`. -/
def executes : CallState → Nat
  | .owned => 1
  | _ => 0

/-- The two calls before their first step. -/
def Race.init {σ : Type} (table : List IdempotencyRow) (world : σ) : Race σ :=
  { first := .begin, second := .begin, table := table, world := world, runs := (0, 0) }

/-- One move of an interleaving: the call `move.1` takes its next step at the reading
`move.2` of the clock. Both calls carry the key `key` and the payload `payload`; `execute`
gives the operation of each call. -/
def Race.step {σ : Type} (key : String) (payload : Json)
    (execute : Bool → σ → Except StoreError Json × σ) (s : Race σ) (move : Bool × Time) :
    Race σ :=
  if move.1 then
    { first := s.first,
      second := (stepCall key payload (execute true) move.2 s.second s.table s.world).1,
      table := (stepCall key payload (execute true) move.2 s.second s.table s.world).2.1,
      world := (stepCall key payload (execute true) move.2 s.second s.table s.world).2.2,
      runs := (s.runs.1, s.runs.2 + executes s.second) }
  else
    { first := (stepCall key payload (execute false) move.2 s.first s.table s.world).1,
      second := s.second,
      table := (stepCall key payload (execute false) move.2 s.first s.table s.world).2.1,
      world := (stepCall key payload (execute false) move.2 s.first s.table s.world).2.2,
      runs := (s.runs.1 + executes s.first, s.runs.2) }

/-- An interleaving of the two calls: the moves of a schedule, one after the other. -/
def runSchedule {σ : Type} (key : String) (payload : Json)
    (execute : Bool → σ → Except StoreError Json × σ) (s : Race σ)
    (schedule : List (Bool × Time)) : Race σ :=
  schedule.foldl (Race.step key payload execute) s

/-- The number of moves of a call in a schedule. -/
def movesOf (who : Bool) (schedule : List (Bool × Time)) : Nat :=
  schedule.countP (fun move => move.1 = who)

/-- What holds of two racing calls after the call `w` has made the first move and `nw` moves
in all, and the other call `no` moves: the key has one record, after the records of the table
at the start; the call `w` owns it and is the only one that calls `execute`. -/
def RaceInv {σ : Type} (key hash : String) (table : List IdempotencyRow)
    (execute : Bool → σ → Except StoreError Json × σ) (world : σ) (w : Bool) (nw no : Nat)
    (s : Race σ) : Prop :=
  ∃ row : IdempotencyRow, s.table = table ++ [row] ∧ row.key = key ∧
    row.request_hash = hash ∧ s.runsOf (!w) = 0 ∧
    ((s.call w = .owned ∧ nw = 1 ∧ row.status = "in_progress" ∧ s.world = world ∧
        s.runsOf w = 0) ∨
      (∃ r, s.call w = .executed r ∧ nw = 2 ∧ row.status = "in_progress" ∧
        execute w world = (.ok r, s.world) ∧ s.runsOf w = 1) ∨
      (∃ e, s.call w = .returned false (some e) none ∧ 2 ≤ nw ∧ row.status = "in_progress" ∧
        execute w world = (.error e, s.world) ∧ s.runsOf w = 1) ∨
      (∃ r, s.call w = .returned true none (some (200, r)) ∧ 3 ≤ nw ∧
        row.status = "completed" ∧ row.response = some r ∧
        execute w world = (.ok r, s.world) ∧ s.runsOf w = 1)) ∧
    ((s.call (!w) = .begin ∧ no = 0) ∨
      (s.call (!w) = .conflict ∧ no = 1) ∨
      (s.call (!w) = .returned false (some .ErrIdempotencyInProgress) none ∧ 2 ≤ no) ∨
      (∃ r, 2 ≤ no ∧ row.status = "completed" ∧ row.response = some r ∧
        ((∃ response, unmarshalMap (jsonbText r) = .ok response ∧
            s.call (!w) = .returned true none (some (200, response))) ∨
          (∃ e, unmarshalMap (jsonbText r) = .error e ∧
            s.call (!w) = .returned false (some (.json e)) none))))

mutual
/-- A JSON value with the members of every object in the order of their keys, a key that
occurs more than once with its last value: the same JSON value, written as `encoding/json`
writes a map. -/
def Json.byKey : Json → Json
  | .null => .null
  | .bool b => .bool b
  | .str s => .str s
  | .num literal => .num literal
  | .arr elems => .arr (Json.byKeyElems elems)
  | .obj members => .obj (Json.byKeyMembers members)
/-- The elements of an array, each with its members in the order of their keys. -/
def Json.byKeyElems : List Json → List Json
  | [] => []
  | e :: rest => e.byKey :: Json.byKeyElems rest
/-- The members of an object in the order of their keys. -/
def Json.byKeyMembers : List (String × Json) → List (String × Json)
  | [] => []
  | (k, v) :: rest => insertMember keyLe k v.byKey (Json.byKeyMembers rest)
end

mutual
/-- Whether every number of a JSON value is written as a `float64` is written: the literal
is what the float encoder of `encoding/json` writes for the `float64` that
`strconv.ParseFloat` reads in the text a `jsonb` column gives back for it. -/
def float64Numbers : Json → Bool
  | .num literal => float64Literal (String.mk (numericText literal.data)) = some literal
  | .arr elems => float64NumbersElems elems
  | .obj members => float64NumbersMembers members
  | _ => true
/-- Whether every number of the elements of an array is written as a `float64` is. -/
def float64NumbersElems : List Json → Bool
  | [] => true
  | e :: rest => float64Numbers e && float64NumbersElems rest
/-- Whether every number of the members of an object is written as a `float64` is. -/
def float64NumbersMembers : List (String × Json) → Bool
  | [] => true
  | (_, v) :: rest => float64Numbers v && float64NumbersMembers rest
end

/-- Whether a JSON value is an object or `null`. -/
def isObjectOrNull : Json → Bool
  | .obj _ => true
  | .null => true
  | _ => false

/-! ## Sample data -/

/-- An authenticator with the default windows of `config.Load`: five minutes of skew, ten
minutes of nonce life. -/
def sampleAuthenticator : Authenticator :=
  { MaxSkew := 300000000000, NonceTTL := 600000000000 }

/-- A database with an active key `k1` and a revoked key `k2`. -/
def sampleDB : DB :=
  { api_keys :=
      [{ id := "1", key_id := "k1", name := "ci", secret_ciphertext := "s3cr3t",
         scopes := some (.arr [.str "*"]), revoked_at := none, created_at := 0,
         last_used_at := none },
       { id := "2", key_id := "k2", name := "old", secret_ciphertext := "t0ps3cr3t",
         scopes := some (.arr []), revoked_at := some 5, created_at := 0,
         last_used_at := none }],
    request_nonces := [],
    idempotency_keys := [] }

/-- The request of the golden vector, signed with the secret of `k1`. -/
def sampleRequest : Request :=
  { Method := "GET", Path := "/v1/public/posts", RawQuery := "", KeyId := "k1",
    Timestamp := "1700000000000", Nonce := "abc123",
    Signature := "697c84b2bced7cc900671665ab26ef4f04973b4d87333c8201542b39fa68404f",
    Body := some [] }

/-- The instant one second after the timestamp of `sampleRequest`. -/
def sampleNow : Time := 1700000001000000000

/-- The database `sampleDB` after `sampleRequest` was accepted at `sampleNow`. -/
def sampleDBAfter : DB :=
  { api_keys :=
      [{ id := "1", key_id := "k1", name := "ci", secret_ciphertext := "s3cr3t",
         scopes := some (.arr [.str "*"]), revoked_at := none, created_at := 0,
         last_used_at := some 1700000001000000000 },
       { id := "2", key_id := "k2", name := "old", secret_ciphertext := "t0ps3cr3t",
         scopes := some (.arr []), revoked_at := some 5, created_at := 0,
         last_used_at := none }],
    request_nonces :=
      [{ key_id := "k1", nonce := "abc123", expires_at := 1700000601000000000 }],
    idempotency_keys := [] }

/-- Five rows, two of them with the same instant. -/
def sampleRows : List searchRow :=
  [⟨"a", 5⟩, ⟨"b", 1700000001000000000⟩, ⟨"c", 1700000001000000000⟩,
    ⟨"d", 1600000001000000000⟩, ⟨"e", 7⟩]

/-- Two rows, the first at the first instant of the year 10000 in UTC. -/
def rowsYear10000 : List searchRow := [⟨"b", 253402300800000000000⟩, ⟨"a", 0⟩]

/-- Two rows, the first with an empty id. -/
def rowsEmptyId : List searchRow := [⟨"", 5⟩, ⟨"a", 0⟩]

/-- An input whose method and body hash carry white space and the other case. -/
def paddedInput : SignatureInput :=
  { Method := " get", Path := "/p", RawQuery := "", Timestamp := "1", Nonce := "n",
    BodyHash := "AB " }

/-- The input of the golden vector: `GET /v1/public/posts`, no query, an empty body. -/
def goldenInput : SignatureInput :=
  { Method := "GET", Path := "/v1/public/posts", RawQuery := "", Timestamp := "1700000000000",
    Nonce := "abc123", BodyHash := SHA256Hex [] }

/-- A completed record whose stored response is an object with the member `a`. -/
def sampleCompleted : IdempotencyRow :=
  { key := "k2", request_hash := "h2", status := "completed",
    response := some (.obj [("a", .num "1")]), created_at := 2, updated_at := 3 }

/-- A table with an in-progress record and a completed record. -/
def sampleTable : List IdempotencyRow :=
  [{ key := "k1", request_hash := "h1", status := "in_progress", response := none,
     created_at := 1, updated_at := 1 }, sampleCompleted]

/-- Calls on `sampleTable`: a conflicting begin, a begin under a new key, a finalize with
another hash, and the finalize of the owner of `k1`. -/
def sampleCalls : List IdempotencyCall :=
  [.beginCall 10 none none "k1" "other", .beginCall 11 none none "k3" "h3",
   .finalizeCall 12 none "k2" "other" (.obj []), .finalizeCall 13 none "k1" "h1" (.obj [])]

/-- A table with one post, published at the instant 100 and created at the instant 50. -/
def samplePosts : List PostRow :=
  [{ id := "p1", slug := "hello", locale := "en", title := "Hello", excerpt := none,
     content := "text", cover_url := none, tags := some (.arr [.str "go"]),
     status := "published", published_at := some 100, created_at := 50, updated_at := 100,
     revision := some 1, updated_by := none, deleted_at := none }]

/-- An update of the title only. -/
def sampleUpdate : UpdatePostInput :=
  { Title := some "Hello again", Slug := none, Excerpt := none, Content := none,
    CoverURL := none, Tags := none, Locale := none, Status := none, UpdatedBy := none }

/-! ## Theorems -/

/-! ### Signing and verification -/

theorem hexDigit_facts (n : Nat) (h : n < 16) :
    isSpace (hexDigit n) = false ∧ lowerChar (hexDigit n) = hexDigit n ∧
      fromHexChar (hexDigit n) = some n := by
  interval_cases n <;> decide

theorem hexEncodeChars_not_space (bs : List Nat) :
    ∀ c ∈ hexEncodeChars bs, isSpace c = false := by
  induction bs with
  | nil => simp [hexEncodeChars]
  | cons b bs ih =>
    intro c hc
    simp only [hexEncodeChars, List.mem_cons] at hc
    rcases hc with rfl | rfl | hc
    · exact (hexDigit_facts _ (Nat.mod_lt _ (by decide))).1
    · exact (hexDigit_facts _ (Nat.mod_lt _ (by decide))).1
    · exact ih c hc

theorem hexEncodeChars_lower (bs : List Nat) :
    (hexEncodeChars bs).map lowerChar = hexEncodeChars bs := by
  induction bs with
  | nil => rfl
  | cons b bs ih =>
    simp only [hexEncodeChars, List.map_cons, ih,
      (hexDigit_facts _ (Nat.mod_lt (b / 16) (by decide : 0 < 16))).2.1,
      (hexDigit_facts _ (Nat.mod_lt b (by decide : 0 < 16))).2.1]

theorem dropWhile_eq_self_of_all_false {α : Type} (p : α → Bool) (l : List α)
    (h : ∀ c ∈ l, p c = false) : l.dropWhile p = l := by
  cases l with
  | nil => rfl
  | cons a l => simp [List.dropWhile, h a (List.mem_cons_self a l)]

theorem trimSpaceChars_of_no_space (l : List Char) (h : ∀ c ∈ l, isSpace c = false) :
    trimSpaceChars l = l := by
  unfold trimSpaceChars
  rw [dropWhile_eq_self_of_all_false isSpace l h,
    dropWhile_eq_self_of_all_false isSpace l.reverse (fun c hc => h c (List.mem_reverse.mp hc)),
    List.reverse_reverse]

theorem hexDecodeChars_hexEncodeChars (bs : List Nat) :
    hexDecodeChars (hexEncodeChars bs) = some (bs.map (· % 256)) := by
  induction bs with
  | nil => rfl
  | cons b bs ih =>
    simp only [hexEncodeChars, hexDecodeChars, ih,
      (hexDigit_facts _ (Nat.mod_lt (b / 16) (by decide : 0 < 16))).2.2,
      (hexDigit_facts _ (Nat.mod_lt b (by decide : 0 < 16))).2.2, List.map_cons]
    congr 2
    omega

/-- A signature written by `hex.EncodeToString` is unchanged by the normalisation
`strings.ToLower(strings.TrimSpace(..))` that `Verify` applies to the supplied signature. -/
theorem normalize_hexEncode (bs : List Nat) : ToLower (TrimSpace (hexEncode bs)) = hexEncode bs := by
  simp only [ToLower, TrimSpace, hexEncode,
    trimSpaceChars_of_no_space _ (hexEncodeChars_not_space bs), hexEncodeChars_lower]

theorem foldl_or_zipWith_xor_self (x : List Nat) (acc : Nat) :
    (List.zipWith (· ^^^ ·) x x).foldl (· ||| ·) acc = acc := by
  induction x generalizing acc with
  | nil => rfl
  | cons a x ih =>
    simp only [List.zipWith, List.foldl, Nat.xor_self, Nat.or_zero]
    exact ih acc

theorem ConstantTimeCompare_self (x : List Nat) : ConstantTimeCompare x x = 1 := by
  simp only [ConstantTimeCompare, foldl_or_zipWith_xor_self, ne_eq, not_true_eq_false,
    if_false, if_true]

/-- `Verify` accepts the signature `Sign` computes for any input whose canonical string is
the canonical string of the verified input. -/
theorem Verify_Sign_of_canonical_eq (secret : String) (a b : SignatureInput)
    (h : CanonicalString a = CanonicalString b) : Verify secret b (Sign secret a) = true := by
  have hs : Sign secret a = Sign secret b := by simp only [Sign, h]
  rw [hs]
  simp only [Verify, Sign, normalize_hexEncode]
  simp only [hexDecode, hexEncode, hexDecodeChars_hexEncodeChars]
  simp [ConstantTimeCompare_self]

/-- C1: for every secret and every input, `Verify` accepts the signature that `Sign`
computes for that secret and input. -/
theorem C1_verify_sign (secret : String) (input : SignatureInput) :
    Verify secret input (Sign secret input) = true :=
  Verify_Sign_of_canonical_eq secret input input rfl

/-! ### UTF-8 -/

theorem char_toNat_valid (c : Char) : c.toNat < 0xD800 ∨ (0xDFFF < c.toNat ∧ c.toNat < 0x110000) :=
  c.valid

theorem decodeRune_charBytes (c : Char) (rest : List Nat) :
    ∃ b0 tail, charBytes c ++ rest = b0 :: tail ∧ decodeRune b0 tail = (c, rest) := by
  have hv := char_toNat_valid c
  have hof : ∀ n, n = c.toNat → Char.ofNat n = c := by
    intro n hn; rw [hn]; exact Char.ofNat_toNat c
  unfold charBytes
  simp only []
  by_cases h1 : c.toNat < 0x80
  · refine ⟨c.toNat, rest, by simp [h1], ?_⟩
    simp [decodeRune, h1, Char.ofNat_toNat]
  by_cases h2 : c.toNat < 0x800
  · refine ⟨0xC0 + c.toNat / 64, (0x80 + c.toNat % 64) :: rest, by simp [h1, h2], ?_⟩
    have hb0 : ¬ (0xC0 + c.toNat / 64 < 0x80) := by omega
    have hcond : 0xC2 ≤ 0xC0 + c.toNat / 64 ∧ 0xC0 + c.toNat / 64 ≤ 0xDF ∧
        (0x80 ≤ 0x80 + c.toNat % 64 ∧ 0x80 + c.toNat % 64 ≤ 0xBF) := by omega
    simp only [decodeRune, if_neg hb0, if_pos hcond]
    rw [hof _ (by omega)]
  by_cases h3 : c.toNat < 0x10000
  · refine ⟨0xE0 + c.toNat / 4096, (0x80 + c.toNat / 64 % 64) :: (0x80 + c.toNat % 64) :: rest,
      by simp [h1, h2, h3], ?_⟩
    have hb0 : ¬ (0xE0 + c.toNat / 4096 < 0x80) := by omega
    have hc2 : ¬ (0xC2 ≤ 0xE0 + c.toNat / 4096 ∧ 0xE0 + c.toNat / 4096 ≤ 0xDF ∧
        (0x80 ≤ 0x80 + c.toNat / 64 % 64 ∧ 0x80 + c.toNat / 64 % 64 ≤ 0xBF)) := by omega
    have hcond : 0xE0 ≤ 0xE0 + c.toNat / 4096 ∧ 0xE0 + c.toNat / 4096 ≤ 0xEF ∧
        (0x80 ≤ 0x80 + c.toNat / 64 % 64 ∧ 0x80 + c.toNat / 64 % 64 ≤ 0xBF) ∧
        (0x80 ≤ 0x80 + c.toNat % 64 ∧ 0x80 + c.toNat % 64 ≤ 0xBF) ∧
        (0xE0 + c.toNat / 4096 = 0xE0 → 0xA0 ≤ 0x80 + c.toNat / 64 % 64) ∧
        (0xE0 + c.toNat / 4096 = 0xED → 0x80 + c.toNat / 64 % 64 ≤ 0x9F) := by
      refine ⟨by omega, by omega, by omega, by omega, fun h => by omega, fun h => by omega⟩
    simp only [decodeRune, if_neg hb0, if_neg hc2, if_pos hcond]
    rw [hof _ (by omega)]
  · refine ⟨0xF0 + c.toNat / 262144,
      (0x80 + c.toNat / 4096 % 64) :: (0x80 + c.toNat / 64 % 64) :: (0x80 + c.toNat % 64) :: rest,
      by simp [h1, h2, h3], ?_⟩
    have hb0 : ¬ (0xF0 + c.toNat / 262144 < 0x80) := by omega
    have hc2 : ¬ (0xC2 ≤ 0xF0 + c.toNat / 262144 ∧ 0xF0 + c.toNat / 262144 ≤ 0xDF ∧
        (0x80 ≤ 0x80 + c.toNat / 4096 % 64 ∧ 0x80 + c.toNat / 4096 % 64 ≤ 0xBF)) := by omega
    have hc3 : ¬ (0xE0 ≤ 0xF0 + c.toNat / 262144 ∧ 0xF0 + c.toNat / 262144 ≤ 0xEF ∧
        (0x80 ≤ 0x80 + c.toNat / 4096 % 64 ∧ 0x80 + c.toNat / 4096 % 64 ≤ 0xBF) ∧
        (0x80 ≤ 0x80 + c.toNat / 64 % 64 ∧ 0x80 + c.toNat / 64 % 64 ≤ 0xBF) ∧
        (0xF0 + c.toNat / 262144 = 0xE0 → 0xA0 ≤ 0x80 + c.toNat / 4096 % 64) ∧
        (0xF0 + c.toNat / 262144 = 0xED → 0x80 + c.toNat / 4096 % 64 ≤ 0x9F)) := by omega
    have hcond : 0xF0 ≤ 0xF0 + c.toNat / 262144 ∧ 0xF0 + c.toNat / 262144 ≤ 0xF4 ∧
        (0x80 ≤ 0x80 + c.toNat / 4096 % 64 ∧ 0x80 + c.toNat / 4096 % 64 ≤ 0xBF) ∧
        (0x80 ≤ 0x80 + c.toNat / 64 % 64 ∧ 0x80 + c.toNat / 64 % 64 ≤ 0xBF) ∧
        (0x80 ≤ 0x80 + c.toNat % 64 ∧ 0x80 + c.toNat % 64 ≤ 0xBF) ∧
        (0xF0 + c.toNat / 262144 = 0xF0 → 0x90 ≤ 0x80 + c.toNat / 4096 % 64) ∧
        (0xF0 + c.toNat / 262144 = 0xF4 → 0x80 + c.toNat / 4096 % 64 ≤ 0x8F) := by
      refine ⟨by omega, by omega, by omega, by omega, by omega, fun h => by omega,
        fun h => by omega⟩
    simp only [decodeRune, if_neg hb0, if_neg hc2, if_neg hc3, if_pos hcond]
    rw [hof _ (by omega)]

theorem charBytes_length_pos (c : Char) : 0 < (charBytes c).length := by
  unfold charBytes
  simp only []
  split_ifs <;> simp

theorem charBytes_length_le (c : Char) : (charBytes c).length ≤ 4 := by
  unfold charBytes
  simp only []
  split_ifs <;> simp

theorem utf8DecodeAux_flatMap (cs : List Char) (fuel : Nat)
    (hfuel : (cs.flatMap charBytes).length ≤ fuel) :
    utf8DecodeAux fuel (cs.flatMap charBytes) = cs := by
  induction cs generalizing fuel with
  | nil => cases fuel <;> rfl
  | cons c cs ih =>
    obtain ⟨b0, tail, hb, hdec⟩ := decodeRune_charBytes c (cs.flatMap charBytes)
    rw [List.flatMap_cons] at hfuel ⊢
    rw [hb] at hfuel ⊢
    cases fuel with
    | zero => simp at hfuel
    | succ fuel =>
      simp only [utf8DecodeAux, hdec]
      rw [ih fuel]
      have hlen := congrArg List.length hb
      have hpos := charBytes_length_pos c
      simp only [List.length_append, List.length_cons] at hlen hfuel
      omega

/-- Decoding the UTF-8 bytes of a string gives back its characters. -/
theorem utf8Decode_stringBytes (s : String) : utf8Decode (stringBytes s) = s.data :=
  utf8DecodeAux_flatMap s.data _ (Nat.le_refl _)

theorem stringBytes_injective (s t : String) (h : stringBytes s = stringBytes t) : s = t := by
  apply String.ext
  rw [← utf8Decode_stringBytes s, ← utf8Decode_stringBytes t, h]

/-! ### Stored responses -/

theorem bytesLe_refl (a : List Nat) : bytesLe a a = true := by
  induction a with
  | nil => rfl
  | cons x a ih => simp [bytesLe, ih]

theorem bytesLe_total (a b : List Nat) : bytesLe a b = true ∨ bytesLe b a = true := by
  induction a generalizing b with
  | nil => exact Or.inl rfl
  | cons x a ih =>
    cases b with
    | nil => exact Or.inr rfl
    | cons y b =>
      simp only [bytesLe, Bool.or_eq_true, decide_eq_true_eq, Bool.and_eq_true, beq_iff_eq]
      rcases Nat.lt_trichotomy x y with h | h | h
      · exact Or.inl (Or.inl h)
      · rcases ih b with h2 | h2
        · exact Or.inl (Or.inr ⟨h, h2⟩)
        · exact Or.inr (Or.inr ⟨h.symm, h2⟩)
      · exact Or.inr (Or.inl h)

theorem bytesLe_trans (a b c : List Nat) (h1 : bytesLe a b = true) (h2 : bytesLe b c = true) :
    bytesLe a c = true := by
  induction a generalizing b c with
  | nil => rfl
  | cons x a ih =>
    cases b with
    | nil => simp [bytesLe] at h1
    | cons y b =>
      cases c with
      | nil => simp [bytesLe] at h2
      | cons z c =>
        simp only [bytesLe, Bool.or_eq_true, decide_eq_true_eq, Bool.and_eq_true,
          beq_iff_eq] at h1 h2 ⊢
        rcases h1 with h1 | ⟨h1, h1s⟩
        · rcases h2 with h2 | ⟨h2, _⟩
          · exact Or.inl (by omega)
          · exact Or.inl (by omega)
        · rcases h2 with h2 | ⟨h2, h2s⟩
          · exact Or.inl (by omega)
          · exact Or.inr ⟨by omega, ih b c h1s h2s⟩

theorem bytesLe_antisymm (a b : List Nat) (h1 : bytesLe a b = true) (h2 : bytesLe b a = true) :
    a = b := by
  induction a generalizing b with
  | nil =>
    cases b with
    | nil => rfl
    | cons y b => simp [bytesLe] at h2
  | cons x a ih =>
    cases b with
    | nil => simp [bytesLe] at h1
    | cons y b =>
      simp only [bytesLe, Bool.or_eq_true, decide_eq_true_eq, Bool.and_eq_true,
        beq_iff_eq] at h1 h2
      rcases h1 with h1 | ⟨h1, h1s⟩
      · rcases h2 with h2 | ⟨h2, _⟩
        · omega
        · omega
      · rcases h2 with h2 | ⟨_, h2s⟩
        · omega
        · rw [h1, ih b h1s h2s]

theorem keyLe_total (a b : String) : keyLe a b = true ∨ keyLe b a = true :=
  bytesLe_total _ _

theorem keyLe_trans (a b c : String) (h1 : keyLe a b = true) (h2 : keyLe b c = true) :
    keyLe a c = true :=
  bytesLe_trans _ _ _ h1 h2

theorem keyLe_antisymm (a b : String) (h1 : keyLe a b = true) (h2 : keyLe b a = true) :
    a = b :=
  stringBytes_injective a b (bytesLe_antisymm _ _ h1 h2)

/-- The members of a list after `insertMember`: the new member or the old ones. -/
theorem mem_insertMember (le : String → String → Bool) (k : String) (v : Json)
    (S : List (String × Json)) (x : String × Json) (h : x ∈ insertMember le k v S) :
    x = (k, v) ∨ x ∈ S := by
  induction S with
  | nil =>
    simp only [insertMember, List.mem_singleton] at h
    exact Or.inl h
  | cons s T ih =>
    obtain ⟨s1, c⟩ := s
    simp only [insertMember] at h
    split_ifs at h with h1 h2
    · exact Or.inr h
    · rcases List.mem_cons.mp h with h | h
      · exact Or.inl h
      · exact Or.inr h
    · rcases List.mem_cons.mp h with h | h
      · exact Or.inr (List.mem_cons.mpr (Or.inl h))
      · rcases ih h with h | h
        · exact Or.inl h
        · exact Or.inr (List.mem_cons.mpr (Or.inr h))

/-- The key of `insertMember` is a key of the list it gives. -/
theorem key_mem_insertMember (le : String → String → Bool) (k : String) (v : Json)
    (S : List (String × Json)) : k ∈ (insertMember le k v S).map Prod.fst := by
  induction S with
  | nil => simp [insertMember]
  | cons s T ih =>
    obtain ⟨s1, c⟩ := s
    simp only [insertMember]
    split_ifs with h1 h2
    · simp [h1]
    · simp
    · simp only [List.map_cons, List.mem_cons]
      exact Or.inr ih

/-- A list of members that ascends strictly in the order of Go still does after
`insertMember`. -/
theorem pairwise_insertMember (k : String) (v : Json) (S : List (String × Json))
    (hS : S.Pairwise (fun a b => keyLe a.1 b.1 = true ∧ a.1 ≠ b.1)) :
    (insertMember keyLe k v S).Pairwise (fun a b => keyLe a.1 b.1 = true ∧ a.1 ≠ b.1) := by
  induction S with
  | nil => simp [insertMember]
  | cons s T ih =>
    obtain ⟨s1, c⟩ := s
    rw [List.pairwise_cons] at hS
    obtain ⟨hs, hT⟩ := hS
    simp only [insertMember]
    split_ifs with h1 h2
    · exact List.pairwise_cons.mpr ⟨hs, hT⟩
    · refine List.pairwise_cons.mpr ⟨?_, List.pairwise_cons.mpr ⟨hs, hT⟩⟩
      intro x hx
      rcases List.mem_cons.mp hx with hx | hx
      · subst hx
        exact ⟨h2, h1⟩
      · obtain ⟨hle, hne⟩ := hs x hx
        refine ⟨keyLe_trans _ _ _ h2 hle, ?_⟩
        intro hkx
        apply h1
        apply keyLe_antisymm _ _ h2
        have hkx1 : k = x.1 := hkx
        rw [hkx1]
        exact hle
    · refine List.pairwise_cons.mpr ⟨?_, ih hT⟩
      intro x hx
      rcases mem_insertMember keyLe k v T x hx with hx | hx
      · subst hx
        refine ⟨?_, fun h => h1 h.symm⟩
        rcases keyLe_total k s1 with h | h
        · exact absurd h h2
        · exact h
      · exact hs x hx

/-- A key that a strictly ascending list has is not inserted again. -/
theorem insertMember_of_mem (k : String) (v : Json) (S : List (String × Json))
    (hS : S.Pairwise (fun a b => keyLe a.1 b.1 = true ∧ a.1 ≠ b.1))
    (hk : k ∈ S.map Prod.fst) : insertMember keyLe k v S = S := by
  induction S with
  | nil => simp at hk
  | cons s T ih =>
    obtain ⟨s1, c⟩ := s
    rw [List.pairwise_cons] at hS
    obtain ⟨hs, hT⟩ := hS
    simp only [insertMember]
    split_ifs with h1 h2
    · rfl
    · exfalso
      simp only [List.map_cons, List.mem_cons] at hk
      rcases hk with hk | hk
      · exact h1 hk
      · obtain ⟨x, hx, hxk⟩ := List.mem_map.mp hk
        obtain ⟨hle, hne⟩ := hs x hx
        rw [hxk] at hle
        exact h1 (keyLe_antisymm _ _ h2 hle)
    · simp only [List.map_cons, List.mem_cons] at hk
      rcases hk with hk | hk
      · exact absurd hk h1
      · rw [ih hT hk]

/-- Two members with different keys can be put into a strictly ascending list in either
order. -/
theorem insertMember_comm (k k1 : String) (a b : Json) (S : List (String × Json))
    (hne : k ≠ k1) (hS : S.Pairwise (fun a b => keyLe a.1 b.1 = true ∧ a.1 ≠ b.1)) :
    insertMember keyLe k a (insertMember keyLe k1 b S) =
      insertMember keyLe k1 b (insertMember keyLe k a S) := by
  have hne1 : ¬ k1 = k := fun h => hne h.symm
  induction S with
  | nil =>
    simp only [insertMember, if_neg hne, if_neg hne1]
    rcases keyLe_total k k1 with h | h
    · by_cases h2 : keyLe k1 k = true
      · exact absurd (keyLe_antisymm _ _ h h2) hne
      · simp only [if_pos h, if_neg h2]
    · by_cases h2 : keyLe k k1 = true
      · exact absurd (keyLe_antisymm _ _ h2 h) hne
      · simp only [if_pos h, if_neg h2]
  | cons s T ih =>
    obtain ⟨s1, c⟩ := s
    rw [List.pairwise_cons] at hS
    obtain ⟨hs, hT⟩ := hS
    by_cases hks : k = s1
    · -- `k` is the key at the head
      have hk1s : ¬ k1 = s1 := fun h => hne (hks.trans h.symm)
      by_cases h1 : keyLe k1 s1 = true
      · have h2 : ¬ keyLe k k1 = true := by
          intro h
          rw [hks] at h
          exact hk1s (keyLe_antisymm _ _ h1 h)
        simp only [insertMember, if_neg hk1s, if_pos h1, if_neg hne, if_neg h2, if_pos hks]
      · simp only [insertMember, if_neg hk1s, if_neg h1, if_pos hks]
    · by_cases hk1s : k1 = s1
      · by_cases h1 : keyLe k s1 = true
        · have h2 : ¬ keyLe k1 k = true := by
            intro h
            rw [hk1s] at h
            exact hks (keyLe_antisymm _ _ h1 h)
          simp only [insertMember, if_neg hks, if_pos h1, if_neg hne1, if_neg h2, if_pos hk1s]
        · simp only [insertMember, if_neg hks, if_neg h1, if_pos hk1s]
      · by_cases h1 : keyLe k s1 = true
        · by_cases h2 : keyLe k1 s1 = true
          · -- both before the head
            simp only [insertMember, if_neg hks, if_pos h1, if_neg hk1s, if_pos h2, if_neg hne,
              if_neg hne1]
            rcases keyLe_total k k1 with h | h
            · have h3 : ¬ keyLe k1 k = true := fun h3 => hne (keyLe_antisymm _ _ h h3)
              simp only [if_pos h, if_neg h3, insertMember, if_neg hk1s, if_pos h2]
            · have h3 : ¬ keyLe k k1 = true := fun h3 => hne (keyLe_antisymm _ _ h3 h)
              simp only [if_pos h, if_neg h3, insertMember, if_neg hks, if_pos h1]
          · -- `k` before the head, `k1` after it
            have h3 : ¬ keyLe k1 k = true := fun h3 => h2 (keyLe_trans _ _ _ h3 h1)
            simp only [insertMember, if_neg hks, if_pos h1, if_neg hk1s, if_neg h2, if_neg hne1,
              if_neg h3]
        · by_cases h2 : keyLe k1 s1 = true
          · have h3 : ¬ keyLe k k1 = true := fun h3 => h1 (keyLe_trans _ _ _ h3 h2)
            simp only [insertMember, if_neg hks, if_neg h1, if_neg hk1s, if_pos h2, if_neg hne,
              if_neg h3]
          · simp only [insertMember, if_neg hks, if_neg h1, if_neg hk1s, if_neg h2, ih hT]

mutual
/-- The members `decodeMembers` gives ascend strictly in the order of Go. -/
theorem decodeMembers_pairwise : (l : List (String × Json)) →
    (decodeMembers l).Pairwise (fun a b => keyLe a.1 b.1 = true ∧ a.1 ≠ b.1)
  | [] => by simp [decodeMembers]
  | (k, v) :: rest => by
    rw [decodeMembers]
    exact pairwise_insertMember k (decodeAny v) (decodeMembers rest)
      (decodeMembers_pairwise rest)
end

/-- The decoding of the members of a `jsonb` object, one member at a time: the order of
`jsonb` does not matter to the map. -/
theorem decodeMembers_insertMember (k : String) (x : Json) (L : List (String × Json)) :
    decodeMembers (insertMember jsonbKeyLe k x L) =
      insertMember keyLe k (decodeAny x) (decodeMembers L) := by
  induction L with
  | nil => simp [insertMember, decodeMembers]
  | cons s R ih =>
    obtain ⟨k1, x1⟩ := s
    simp only [insertMember]
    split_ifs with h1 h2
    · rw [decodeMembers]
      rw [insertMember_of_mem k (decodeAny x) _
        (pairwise_insertMember k1 (decodeAny x1) _ (decodeMembers_pairwise R))]
      rw [h1]
      exact key_mem_insertMember keyLe k1 (decodeAny x1) (decodeMembers R)
    · rw [decodeMembers]
    · rw [decodeMembers, ih, decodeMembers]
      exact (insertMember_comm k k1 (decodeAny x) (decodeAny x1) (decodeMembers R) h1
        (decodeMembers_pairwise R)).symm

mutual
/-- A value whose numbers are written as `float64` is given back by the `jsonb` column and
the decoder with its members in the order of their keys. -/
theorem decodeAny_jsonbText : (v : Json) → float64Numbers v = true →
    decodeAny (jsonbText v) = v.byKey
  | .null, _ => by simp [jsonbText, decodeAny, Json.byKey]
  | .bool b, _ => by simp [jsonbText, decodeAny, Json.byKey]
  | .str s, _ => by simp [jsonbText, decodeAny, Json.byKey]
  | .num literal, h => by
    simp only [float64Numbers, decide_eq_true_eq] at h
    simp only [jsonbText, decodeAny, h, Json.byKey]
  | .arr elems, h => by
    simp only [float64Numbers] at h
    simp only [jsonbText, decodeAny, Json.byKey, decodeElems_jsonbElems elems h]
  | .obj members, h => by
    simp only [float64Numbers] at h
    simp only [jsonbText, decodeAny, Json.byKey, decodeMembers_jsonbMembers members h]
/-- The elements of an array whose numbers are written as `float64`. -/
theorem decodeElems_jsonbElems : (l : List Json) → float64NumbersElems l = true →
    decodeElems (jsonbElems l) = Json.byKeyElems l
  | [], _ => by simp [jsonbElems, decodeElems, Json.byKeyElems]
  | e :: rest, h => by
    simp only [float64NumbersElems, Bool.and_eq_true] at h
    simp only [jsonbElems, decodeElems, Json.byKeyElems, decodeAny_jsonbText e h.1,
      decodeElems_jsonbElems rest h.2]
/-- The members of an object whose numbers are written as `float64`. -/
theorem decodeMembers_jsonbMembers : (l : List (String × Json)) →
    float64NumbersMembers l = true → decodeMembers (jsonbMembers l) = Json.byKeyMembers l
  | [], _ => by simp [jsonbMembers, decodeMembers, Json.byKeyMembers]
  | (k, v) :: rest, h => by
    simp only [float64NumbersMembers, Bool.and_eq_true] at h
    simp only [jsonbMembers, Json.byKeyMembers, decodeMembers_insertMember,
      decodeAny_jsonbText v h.1, decodeMembers_jsonbMembers rest h.2]
end

/-- No bracket is refused among members when none is refused in a new member and among the
old ones. -/
theorem deepBracketMembers_insertMember (le : String → String → Bool) (room : Nat)
    (k : String) (x : Json) (L : List (String × Json)) (hx : deepBracket room x = none)
    (hL : deepBracketMembers room L = none) :
    deepBracketMembers room (insertMember le k x L) = none := by
  induction L with
  | nil => simp [insertMember, deepBracketMembers, hx]
  | cons s R ih =>
    obtain ⟨k1, x1⟩ := s
    simp only [deepBracketMembers] at hL
    cases h1 : deepBracket room x1 with
    | some c => simp [h1] at hL
    | none =>
      simp only [h1] at hL
      simp only [insertMember]
      split_ifs
      · simp [deepBracketMembers, h1, hL]
      · simp [deepBracketMembers, h1, hL, hx]
      · simp [deepBracketMembers, h1, ih hL]

mutual
/-- The text of a `jsonb` value is nested no deeper than the value it was given. -/
theorem deepBracket_jsonbText : (room : Nat) → (v : Json) → deepBracket room v = none →
    deepBracket room (jsonbText v) = none
  | _, .null, _ => by simp [jsonbText, deepBracket]
  | _, .bool b, _ => by simp [jsonbText, deepBracket]
  | _, .str s, _ => by simp [jsonbText, deepBracket]
  | _, .num literal, _ => by simp [jsonbText, deepBracket]
  | room, .arr elems, h => by
    simp only [deepBracket] at h
    simp only [jsonbText, deepBracket]
    split_ifs at h ⊢ with h0
    exact deepBracketElems_jsonbElems (room - 1) elems h
  | room, .obj members, h => by
    simp only [deepBracket] at h
    simp only [jsonbText, deepBracket]
    split_ifs at h ⊢ with h0
    exact deepBracketMembers_jsonbMembers (room - 1) members h
/-- The elements of an array of a `jsonb` value are nested no deeper. -/
theorem deepBracketElems_jsonbElems : (room : Nat) → (l : List Json) →
    deepBracketElems room l = none → deepBracketElems room (jsonbElems l) = none
  | _, [], _ => by simp [jsonbElems, deepBracketElems]
  | room, e :: rest, h => by
    simp only [deepBracketElems] at h
    cases h1 : deepBracket room e with
    | some c => simp [h1] at h
    | none =>
      simp only [h1] at h
      simp only [jsonbElems, deepBracketElems, deepBracket_jsonbText room e h1,
        deepBracketElems_jsonbElems room rest h]
/-- The members of an object of a `jsonb` value are nested no deeper. -/
theorem deepBracketMembers_jsonbMembers : (room : Nat) → (l : List (String × Json)) →
    deepBracketMembers room l = none → deepBracketMembers room (jsonbMembers l) = none
  | _, [], _ => by simp [jsonbMembers, deepBracketMembers]
  | room, (k, v) :: rest, h => by
    simp only [deepBracketMembers] at h
    cases h1 : deepBracket room v with
    | some c => simp [h1] at h
    | none =>
      simp only [h1] at h
      simp only [jsonbMembers]
      exact deepBracketMembers_insertMember jsonbKeyLe room k (jsonbText v) _
        (deepBracket_jsonbText room v h1) (deepBracketMembers_jsonbMembers room rest h)
end

/-- No number is refused among members when none is refused in a new member and among the
old ones. -/
theorem numberErrorMembers_insertMember (le : String → String → Bool)
    (k : String) (x : Json) (L : List (String × Json)) (hx : numberError x = none)
    (hL : numberErrorMembers L = none) :
    numberErrorMembers (insertMember le k x L) = none := by
  induction L with
  | nil => simp [insertMember, numberErrorMembers, hx]
  | cons s R ih =>
    obtain ⟨k1, x1⟩ := s
    simp only [numberErrorMembers] at hL
    cases h1 : numberError x1 with
    | some c => simp [h1] at hL
    | none =>
      simp only [h1] at hL
      simp only [insertMember]
      split_ifs
      · simp [numberErrorMembers, h1, hL]
      · simp [numberErrorMembers, h1, hL, hx]
      · simp [numberErrorMembers, h1, ih hL]

mutual
/-- The decoder refuses no number of a value whose numbers are written as `float64`. -/
theorem numberError_jsonbText : (v : Json) → float64Numbers v = true →
    numberError (jsonbText v) = none
  | .null, _ => by simp [jsonbText, numberError]
  | .bool b, _ => by simp [jsonbText, numberError]
  | .str s, _ => by simp [jsonbText, numberError]
  | .num literal, h => by
    simp only [float64Numbers, decide_eq_true_eq] at h
    simp only [jsonbText, numberError, h]
  | .arr elems, h => by
    simp only [float64Numbers] at h
    simp only [jsonbText, numberError, numberErrorElems_jsonbElems elems h]
  | .obj members, h => by
    simp only [float64Numbers] at h
    simp only [jsonbText, numberError, numberErrorMembers_jsonbMembers members h]
/-- The decoder refuses no number among the elements of an array. -/
theorem numberErrorElems_jsonbElems : (l : List Json) → float64NumbersElems l = true →
    numberErrorElems (jsonbElems l) = none
  | [], _ => by simp [jsonbElems, numberErrorElems]
  | e :: rest, h => by
    simp only [float64NumbersElems, Bool.and_eq_true] at h
    simp only [jsonbElems, numberErrorElems, numberError_jsonbText e h.1,
      numberErrorElems_jsonbElems rest h.2]
/-- The decoder refuses no number among the members of an object. -/
theorem numberErrorMembers_jsonbMembers : (l : List (String × Json)) →
    float64NumbersMembers l = true → numberErrorMembers (jsonbMembers l) = none
  | [], _ => by simp [jsonbMembers, numberErrorMembers]
  | (k, v) :: rest, h => by
    simp only [float64NumbersMembers, Bool.and_eq_true] at h
    simp only [jsonbMembers]
    exact numberErrorMembers_insertMember jsonbKeyLe k (jsonbText v) _
      (numberError_jsonbText v h.1) (numberErrorMembers_jsonbMembers rest h.2)
end

set_option maxRecDepth 1000000 in
/-- The numbers `7`, `0.5` and `-12` are written as `float64` is; `9007199254740993`, `1.0`
and `1e2` are not. -/
theorem float64Numbers_vectors :
    float64Numbers (.arr [.num "7", .num "0.5", .num "-12"]) = true ∧
    float64Numbers (.num "9007199254740993") = false ∧
    float64Numbers (.num "1.0") = false ∧
    float64Numbers (.obj [("n", .num "1e2")]) = false := by
  decide!

/-- A stored response that is an object or `null`, is nested no deeper than 10000 brackets
and has its numbers written as `float64` is read back as the same JSON value: the `jsonb`
column and `json.Unmarshal` give it back with the members of every object in the order of
their keys. -/
theorem unmarshalMap_jsonbText (v : Json) (hmap : isObjectOrNull v = true)
    (hdeep : deepBracket 10000 v = none) (hnum : float64Numbers v = true) :
    unmarshalMap (jsonbText v) = .ok v.byKey := by
  have hd := deepBracket_jsonbText 10000 v hdeep
  cases v with
  | null => simp [jsonbText, unmarshalMap, deepBracket, Json.byKey]
  | bool b => simp [isObjectOrNull] at hmap
  | num literal => simp [isObjectOrNull] at hmap
  | str s => simp [isObjectOrNull] at hmap
  | arr elems => simp [isObjectOrNull] at hmap
  | obj members =>
    simp only [float64Numbers] at hnum
    simp only [jsonbText] at hd ⊢
    simp only [unmarshalMap, hd, numberErrorMembers_jsonbMembers members hnum,
      decodeMembers_jsonbMembers members hnum, Json.byKey]

/-! ### Idempotency -/

theorem any_key_eq_false_of_find?_none (table : List IdempotencyRow) (key : String)
    (h : table.find? (fun row => row.key = key) = none) :
    table.any (fun row => row.key = key) = false := by
  rw [List.find?_eq_none] at h
  rw [List.any_eq_false]
  exact h

theorem any_key_eq_true_of_find?_some (table : List IdempotencyRow) (key : String)
    (row : IdempotencyRow) (h : table.find? (fun row => row.key = key) = some row) :
    table.any (fun row => row.key = key) = true := by
  rw [List.any_eq_true]
  exact ⟨row, List.mem_of_find?_eq_some h,
    List.find?_some (p := fun row : IdempotencyRow => decide (row.key = key)) h⟩

set_option maxRecDepth 1000000 in
/-- Numbers on their way through a `float64`: what `strconv.ParseFloat` and the float
encoder of `encoding/json` make of some literals. -/
theorem float64Literal_vectors :
    float64Literal "100" = some "100" ∧ float64Literal "1.50" = some "1.5" ∧
      float64Literal "0.1" = some "0.1" ∧ float64Literal "-0" = some "-0" ∧
      float64Literal "9007199254740993" = some "9007199254740992" ∧
      float64Literal "123456789012345678" = some "123456789012345680" ∧
      float64Literal "1000000000000000000000" = some "1e+21" ∧
      float64Literal "0.0000001" = some "1e-7" ∧ float64Literal "0.000001" = some "0.000001" ∧
      float64Literal "1e309" = none := by
  decide!

/-- Numbers on their way through a `jsonb` column: what `numeric` writes for some
literals. -/
theorem numericText_vectors :
    numericText "1e2".data = "100".data ∧ numericText "1.50".data = "1.50".data ∧
      numericText "1.5e-3".data = "0.0015".data ∧ numericText "-0".data = "0".data ∧
      numericText "-0.0".data = "0.0".data ∧ numericText "-12.5".data = "-12.5".data := by
  decide!

set_option maxRecDepth 1000000 in
/-- A stored object on its way through the `jsonb` column and `json.Unmarshal`: the members
come back in the order of their keys, a key that occurs twice with its last value, and the
numbers as `float64`. -/
theorem unmarshalMap_vector :
    unmarshalMap (jsonbText (.obj [("b", .num "1.0"), ("a", .arr [.num "-0", .num "1e21"]),
        ("b", .num "2"), ("", .str "x")])) =
      .ok (.obj [("", .str "x"), ("a", .arr [.num "0", .num "1e+21"]), ("b", .num "2")]) := by
  rfl

/-- The outcome of `BeginIdempotency` when no database call fails and the key has no
record: ownership, after the insertion of an in-progress record with the request hash. -/
theorem BeginIdempotency_fresh (table : List IdempotencyRow) (now : Time)
    (key hash : String) (h : table.find? (fun row => row.key = key) = none) :
    BeginIdempotency table now none none key hash =
      (.ok { Owned := true, Response := none, RequestHash := hash },
        table ++ [{ key := key, request_hash := hash, status := "in_progress",
                    response := none, created_at := now, updated_at := now }]) := by
  simp [BeginIdempotency, any_key_eq_false_of_find?_none table key h]

/-- The outcome of `BeginIdempotency` when no database call fails and the key has a
record. -/
theorem BeginIdempotency_existing (table : List IdempotencyRow) (now : Time)
    (key hash : String) (row : IdempotencyRow)
    (h : table.find? (fun row => row.key = key) = some row) :
    BeginIdempotency table now none none key hash =
      if row.request_hash ≠ hash then (.error .ErrIdempotencyConflict, table)
      else if row.status = "completed" then
        match unmarshalMap (jsonbText (row.response.getD (.obj []))) with
        | .error e => (.error (.json e), table)
        | .ok payload =>
          (.ok { Owned := false, Response := some payload, RequestHash := row.request_hash },
            table)
      else (.error .ErrIdempotencyInProgress, table) := by
  simp [BeginIdempotency, any_key_eq_true_of_find?_some table key row h, h]

/-- C2 (as amended): when no database call fails, `BeginIdempotency` has exactly one of five
outcomes, decided by the record of the key. No record: ownership, and an in-progress record
with the request hash is inserted. A record with another hash: `ErrIdempotencyConflict`. A
completed record with the same hash whose stored response, as the `jsonb` column gives it
back (an absent response reads as the empty object), is decoded by `json.Unmarshal` into a
`map[string]any`: the decoded map, with `Owned = false`. The decoded map is the stored
response itself, with the members of every object in the order of their keys, when the
stored response is an object or `null`, is nested no deeper than 10000 brackets and has its
numbers written as `float64`; a number that is not written so comes back as the nearest
`float64`. A completed record with the same hash whose stored response `json.Unmarshal`
does not decode (a value that is neither an object nor `null`, a number beyond the range of
`float64`, more than 10000 open brackets): the error of `json.Unmarshal`. A record with the
same hash that is not completed: `ErrIdempotencyInProgress`. In the last four cases the
table is unchanged. -/
theorem C2_begin_outcomes (table : List IdempotencyRow) (now : Time) (key hash : String) :
    (table.find? (fun row => row.key = key) = none →
      BeginIdempotency table now none none key hash =
        (.ok { Owned := true, Response := none, RequestHash := hash },
          table ++ [{ key := key, request_hash := hash, status := "in_progress",
                      response := none, created_at := now, updated_at := now }])) ∧
    (∀ row, table.find? (fun row => row.key = key) = some row →
      (row.request_hash ≠ hash →
        BeginIdempotency table now none none key hash =
          (.error .ErrIdempotencyConflict, table)) ∧
      (∀ payload, row.request_hash = hash → row.status = "completed" →
        unmarshalMap (jsonbText (row.response.getD (.obj []))) = .ok payload →
        BeginIdempotency table now none none key hash =
          (.ok { Owned := false, Response := some payload, RequestHash := hash }, table)) ∧
      (row.request_hash = hash → row.status = "completed" →
        isObjectOrNull (row.response.getD (.obj [])) = true →
        deepBracket 10000 (row.response.getD (.obj [])) = none →
        float64Numbers (row.response.getD (.obj [])) = true →
        BeginIdempotency table now none none key hash =
          (.ok { Owned := false, Response := some (row.response.getD (.obj [])).byKey,
                 RequestHash := hash }, table)) ∧
      (∀ e, row.request_hash = hash → row.status = "completed" →
        unmarshalMap (jsonbText (row.response.getD (.obj []))) = .error e →
        BeginIdempotency table now none none key hash = (.error (.json e), table)) ∧
      (row.request_hash = hash → row.status ≠ "completed" →
        BeginIdempotency table now none none key hash =
          (.error .ErrIdempotencyInProgress, table))) := by
  refine ⟨BeginIdempotency_fresh table now key hash, fun row hrow => ?_⟩
  rw [BeginIdempotency_existing table now key hash row hrow]
  refine ⟨fun hne => by simp [hne], fun payload heq hst hum => ?_,
    fun heq hst hmap hdeep hnum => ?_, fun e heq hst hum => ?_,
    fun heq hst => by simp [heq, hst]⟩
  · simp [heq, hst, hum]
  · have hum := unmarshalMap_jsonbText (row.response.getD (.obj [])) hmap hdeep hnum
    simp [heq, hst, hum]
  · simp [heq, hst, hum]

set_option maxRecDepth 1000000 in
/-- C2, counterexample: the key `k` has a completed record with the request hash `h`. When
its stored response is the JSON array `[]`, `BeginIdempotency` for `k` and `h` returns none
of the four outcomes of the claim but the error of `json.Unmarshal`. When its stored
response is the object with the member `n = 9007199254740993`, the response that
`BeginIdempotency` returns is not the stored response: its member `n` is
`9007199254740992`, the nearest `float64`. -/
theorem C2_counterexample :
    BeginIdempotency
        [{ key := "k", request_hash := "h", status := "completed",
           response := some (.arr []), created_at := 0, updated_at := 0 }]
        1 none none "k" "h" =
      (.error (.json "json: cannot unmarshal array into Go value of type map[string]interface {}"),
        [{ key := "k", request_hash := "h", status := "completed",
           response := some (.arr []), created_at := 0, updated_at := 0 }]) ∧
    (BeginIdempotency
        [{ key := "k", request_hash := "h", status := "completed",
           response := some (.obj [("n", .num "9007199254740993")]), created_at := 0,
           updated_at := 0 }]
        1 none none "k" "h").1 =
      .ok { Owned := false, Response := some (.obj [("n", .num "9007199254740992")]),
            RequestHash := "h" } :=
  ⟨rfl, rfl⟩

theorem map_finalize_of_find?_none (table : List IdempotencyRow) (key hash : String)
    (result : Json) (now : Time) (h : table.find? (fun row => row.key = key) = none) :
    table.map (fun row =>
      if row.key = key ∧ row.request_hash = hash then
        { row with status := "completed", response := some result, updated_at := now }
      else row) = table := by
  rw [List.find?_eq_none] at h
  conv => rhs; rw [← List.map_id table]
  apply List.map_congr_left
  intro row hrow
  have hk : ¬ row.key = key := by simpa using h row hrow
  simp [hk]

/-- The first call under a key without a record, when `execute` succeeds and no database
call fails: `execute` runs on the given state, its result is written with status 200, and
the key has a completed record holding the result. -/
theorem runWithIdempotency_first {σ : Type} (table : List IdempotencyRow) (now : Time)
    (key : String) (payload : Json) (execute : σ → Except StoreError Json × σ) (world : σ)
    (result : Json) (world1 : σ) (hkey : key ≠ "")
    (hfresh : table.find? (fun row => row.key = key) = none)
    (hexec : execute world = (.ok result, world1)) :
    runWithIdempotency table now .none key payload execute world =
      { ok := true, err := none, written := some (200, result),
        table := table ++ [completedRow key (payloadHash payload) result now now],
        world := world1 } := by
  simp only [runWithIdempotency, if_neg hkey, IdempotencyFaults.none,
    BeginIdempotency_fresh table now key _ hfresh, hexec, FinalizeIdempotency,
    List.map_append, map_finalize_of_find?_none table key _ result now hfresh]
  simp [completedRow]

/-- A later call with the same key and payload, when the key has a completed record for that
payload and no database call fails: `execute` is not applied; the stored result is read
through the `jsonb` column and `json.Unmarshal`, and what they give is written with status
200; when `json.Unmarshal` fails the call fails with its error. -/
theorem runWithIdempotency_replay {σ : Type} (table : List IdempotencyRow) (now created : Time)
    (updated : Time) (key : String) (payload : Json)
    (execute : σ → Except StoreError Json × σ) (world : σ) (result : Json) (hkey : key ≠ "")
    (hfresh : table.find? (fun row => row.key = key) = none) :
    runWithIdempotency
        (table ++ [completedRow key (payloadHash payload) result created updated]) now .none
        key payload execute world =
      match unmarshalMap (jsonbText result) with
      | .ok response =>
        { ok := true, err := none, written := some (200, response),
          table := table ++ [completedRow key (payloadHash payload) result created updated],
          world := world }
      | .error e =>
        { ok := false, err := some (.json e), written := none,
          table := table ++ [completedRow key (payloadHash payload) result created updated],
          world := world } := by
  have hfind : (table ++ [completedRow key (payloadHash payload) result created updated]).find?
      (fun row => row.key = key)
      = some (completedRow key (payloadHash payload) result created updated) := by
    simp [List.find?_append, hfresh, completedRow]
  simp only [runWithIdempotency, if_neg hkey, IdempotencyFaults.none,
    BeginIdempotency_existing _ now key _ _ hfind]
  cases hres : unmarshalMap (jsonbText result) <;> simp [completedRow, hres]

/-- C3 (as amended): a key that is not empty and has no record, a payload, and an `execute`
that succeeds on the state `world` with the result `result`. When no database call fails, the
first of two sequential calls with that key and payload runs `execute` on `world` and writes
`result`. The second call, whatever operation it is given, does not apply it (the state stays
the state the first call left) and leaves the table as the first call left it: the operation
is executed exactly once, in the first call. The second call reads the stored result through
the `jsonb` column and `json.Unmarshal` into a `map[string]any`. When the result is an object
or `null`, is nested no deeper than 10000 brackets and has its numbers written as `float64`,
the second call writes, with the same status, the same JSON value as the first: the result
with the members of every object in the order of their keys. For every result, when the
reading gives a value the second call writes that value, and its body is the first body
exactly when the reading gives `result` back; when `json.Unmarshal` fails (a result that is
neither an object nor `null`, a number beyond the range of `float64`), the second call
writes nothing and returns the error. -/
theorem C3_sequential_replay {σ : Type} (table : List IdempotencyRow) (now1 now2 : Time)
    (key : String) (payload : Json) (execute execute2 : σ → Except StoreError Json × σ)
    (world world1 : σ) (result : Json) (hkey : key ≠ "")
    (hfresh : table.find? (fun row => row.key = key) = none)
    (hexec : execute world = (.ok result, world1)) :
    let first := runWithIdempotency table now1 .none key payload execute world
    let second := runWithIdempotency first.table now2 .none key payload execute2 first.world
    first.ok = true ∧ first.written = some (200, result) ∧ first.world = world1 ∧
      second.world = world1 ∧ second.table = first.table ∧
      (isObjectOrNull result = true → deepBracket 10000 result = none →
        float64Numbers result = true →
        second.ok = true ∧ second.written = some (200, result.byKey)) ∧
      (∀ response, unmarshalMap (jsonbText result) = .ok response →
        second.ok = true ∧ second.written = some (200, response) ∧
        (second.written = first.written ↔ response = result)) ∧
      (∀ e, unmarshalMap (jsonbText result) = .error e →
        second.ok = false ∧ second.err = some (.json e) ∧ second.written = none) := by
  intro first second
  have h1 := runWithIdempotency_first table now1 key payload execute world result
    world1 hkey hfresh hexec
  have h2 := runWithIdempotency_replay table now2 now1 now1 key payload execute2 world1 result
    hkey hfresh
  cases hd : unmarshalMap (jsonbText result) with
  | error e0 =>
    rw [hd] at h2
    simp only at h2
    refine ⟨?_, ?_, ?_, ?_, ?_, ?_, ?_, ?_⟩
    · simp only [first, h1]
    · simp only [first, h1]
    · simp only [first, h1]
    · simp only [first, second, h1, h2]
    · simp only [first, second, h1, h2]
    · intro hmap hdeep hnum
      have hum := unmarshalMap_jsonbText result hmap hdeep hnum
      rw [hd] at hum
      cases hum
    · intro response hr
      cases hr
    · intro e he
      cases he
      simp only [first, second, h1, h2, and_self]
  | ok response0 =>
    rw [hd] at h2
    simp only at h2
    refine ⟨?_, ?_, ?_, ?_, ?_, ?_, ?_, ?_⟩
    · simp only [first, h1]
    · simp only [first, h1]
    · simp only [first, h1]
    · simp only [first, second, h1, h2]
    · simp only [first, second, h1, h2]
    · intro hmap hdeep hnum
      have hum := unmarshalMap_jsonbText result hmap hdeep hnum
      rw [hd] at hum
      cases hum
      simp only [first, second, h1, h2, and_self]
    · intro response hr
      cases hr
      refine ⟨?_, ?_, ?_⟩
      · simp only [first, second, h1, h2]
      · simp only [first, second, h1, h2]
      · simp only [first, second, h1, h2, Option.some.injEq, Prod.mk.injEq, true_and]
    · intro e he
      cases he

set_option maxRecDepth 1000000 in
/-- C3, witness: the operation counts its executions and answers the object
`{"ok": true, "id": 7}`. After two sequential calls under the fresh key `k` the count is 1;
the first call writes the object as it is, the second call writes it with its members in
the order of their keys, `{"id": 7, "ok": true}`. -/
theorem C3_sequential_replay_witness :
    "k" ≠ "" ∧ ([] : List IdempotencyRow).find? (fun row => row.key = "k") = none ∧
    (runWithIdempotency [] 10 .none "k" (.obj [])
        (fun n : Nat =>
          ((.ok (.obj [("ok", .bool true), ("id", .num "7")]) : Except StoreError Json), n + 1))
        0).written = some (200, .obj [("ok", .bool true), ("id", .num "7")]) ∧
    (runWithIdempotency
        (runWithIdempotency [] 10 .none "k" (.obj [])
          (fun n : Nat =>
            ((.ok (.obj [("ok", .bool true), ("id", .num "7")]) : Except StoreError Json),
              n + 1)) 0).table
        20 .none "k" (.obj [])
        (fun n : Nat =>
          ((.ok (.obj [("ok", .bool true), ("id", .num "7")]) : Except StoreError Json), n + 1))
        (runWithIdempotency [] 10 .none "k" (.obj [])
          (fun n : Nat =>
            ((.ok (.obj [("ok", .bool true), ("id", .num "7")]) : Except StoreError Json),
              n + 1)) 0).world).written =
      some (200, .obj [("id", .num "7"), ("ok", .bool true)]) ∧
    (runWithIdempotency
        (runWithIdempotency [] 10 .none "k" (.obj [])
          (fun n : Nat =>
            ((.ok (.obj [("ok", .bool true), ("id", .num "7")]) : Except StoreError Json),
              n + 1)) 0).table
        20 .none "k" (.obj [])
        (fun n : Nat =>
          ((.ok (.obj [("ok", .bool true), ("id", .num "7")]) : Except StoreError Json), n + 1))
        (runWithIdempotency [] 10 .none "k" (.obj [])
          (fun n : Nat =>
            ((.ok (.obj [("ok", .bool true), ("id", .num "7")]) : Except StoreError Json),
              n + 1)) 0).world).world = 1 :=
  have h := C3_sequential_replay [] 10 20 "k" (.obj [])
    (fun n : Nat =>
      ((.ok (.obj [("ok", .bool true), ("id", .num "7")]) : Except StoreError Json), n + 1))
    (fun n : Nat =>
      ((.ok (.obj [("ok", .bool true), ("id", .num "7")]) : Except StoreError Json), n + 1))
    0 1 (.obj [("ok", .bool true), ("id", .num "7")]) (by decide) rfl rfl
  ⟨by decide, rfl, h.2.1, (h.2.2.2.2.2.1 rfl rfl rfl).2, h.2.2.2.1⟩

set_option maxRecDepth 1000000 in
/-- C3, counterexample: two operations that succeed. With the JSON array `[]` as the result,
the first call under the fresh key `k` executes the operation and writes `[]`; the second
call with the same key and payload writes no response body and fails with the error of
`json.Unmarshal`. With the object of the member `n = 9007199254740993` as the result, the
first call writes it and the second call writes the member `n = 9007199254740992`, which is
another JSON value. -/
theorem C3_counterexample :
    (runWithIdempotency [] 10 .none "k" (.obj [])
        (fun n : Nat => ((.ok (.arr []) : Except StoreError Json), n + 1)) 0).written
      = some (200, .arr []) ∧
    (runWithIdempotency
        (runWithIdempotency [] 10 .none "k" (.obj [])
          (fun n : Nat => ((.ok (.arr []) : Except StoreError Json), n + 1)) 0).table
        20 .none "k" (.obj [])
        (fun n : Nat => ((.ok (.arr []) : Except StoreError Json), n + 1)) 1).written = none ∧
    (runWithIdempotency
        (runWithIdempotency [] 10 .none "k" (.obj [])
          (fun n : Nat => ((.ok (.arr []) : Except StoreError Json), n + 1)) 0).table
        20 .none "k" (.obj [])
        (fun n : Nat => ((.ok (.arr []) : Except StoreError Json), n + 1)) 1).ok = false ∧
    (runWithIdempotency [] 10 .none "k" (.obj [])
        (fun n : Nat =>
          ((.ok (.obj [("n", .num "9007199254740993")]) : Except StoreError Json), n + 1))
        0).written = some (200, .obj [("n", .num "9007199254740993")]) ∧
    (runWithIdempotency
        (runWithIdempotency [] 10 .none "k" (.obj [])
          (fun n : Nat =>
            ((.ok (.obj [("n", .num "9007199254740993")]) : Except StoreError Json), n + 1))
          0).table
        20 .none "k" (.obj [])
        (fun n : Nat =>
          ((.ok (.obj [("n", .num "9007199254740993")]) : Except StoreError Json), n + 1))
        1).written = some (200, .obj [("n", .num "9007199254740992")]) := by
  have h1 := runWithIdempotency_first ([] : List IdempotencyRow) 10 "k" (.obj [])
    (fun n : Nat => ((.ok (.arr []) : Except StoreError Json), n + 1)) 0 (.arr []) 1
    (by decide) rfl rfl
  have h2 := runWithIdempotency_replay ([] : List IdempotencyRow) 20 10 10 "k" (.obj [])
    (fun n : Nat => ((.ok (.arr []) : Except StoreError Json), n + 1)) 1 (.arr [])
    (by decide) rfl
  have hd : unmarshalMap (jsonbText (.arr [])) =
      .error "json: cannot unmarshal array into Go value of type map[string]interface {}" := rfl
  have h3 := runWithIdempotency_first ([] : List IdempotencyRow) 10 "k" (.obj [])
    (fun n : Nat =>
      ((.ok (.obj [("n", .num "9007199254740993")]) : Except StoreError Json), n + 1))
    0 (.obj [("n", .num "9007199254740993")]) 1 (by decide) rfl rfl
  have h4 := runWithIdempotency_replay ([] : List IdempotencyRow) 20 10 10 "k" (.obj [])
    (fun n : Nat =>
      ((.ok (.obj [("n", .num "9007199254740993")]) : Except StoreError Json), n + 1))
    1 (.obj [("n", .num "9007199254740993")]) (by decide) rfl
  have hn : unmarshalMap (jsonbText (.obj [("n", .num "9007199254740993")])) =
      .ok (.obj [("n", .num "9007199254740992")]) := rfl
  rw [hd] at h2
  rw [hn] at h4
  rw [h1, h3]
  simp only [List.nil_append] at h2 h4 ⊢
  rw [h2, h4]
  refine ⟨?_, ?_, ?_, ?_, ?_⟩ <;> trivial

/-! ### Authentication -/

/-- The method `RegisterNonce` when its `INSERT` does not fail in the driver. -/
theorem RegisterNonce_eq (ledger : List NonceRow) (now : Time) (sweepFault : Option String)
    (keyID nonce : String) (ttl : Duration) :
    RegisterNonce ledger now none sweepFault keyID nonce ttl =
      if ledger.any (fun row => row.key_id = keyID ∧ row.nonce = nonce) = true then
        (some .ErrNonceUsed, ledger)
      else
        (none,
          match sweepFault with
          | some _ => ledger ++ [{ key_id := keyID, nonce := nonce, expires_at := now + ttl }]
          | none =>
            (ledger ++ [({ key_id := keyID, nonce := nonce, expires_at := now + ttl } :
              NonceRow)]).filter (fun row => ¬ row.expires_at < now)) := by
  unfold RegisterNonce
  cases sweepFault <;> by_cases h : ledger.any
    (fun row => row.key_id = keyID ∧ row.nonce = nonce) = true <;> simp only [h, if_true, if_false]

theorem RegisterNonce_error_ledger (ledger : List NonceRow) (now : Time)
    (insertFault sweepFault : Option String) (keyID nonce : String) (ttl : Duration)
    (e : StoreError)
    (h : (RegisterNonce ledger now insertFault sweepFault keyID nonce ttl).1 = some e) :
    (RegisterNonce ledger now insertFault sweepFault keyID nonce ttl).2 = ledger := by
  cases insertFault with
  | some reason => rfl
  | none =>
    rw [RegisterNonce_eq] at h ⊢
    by_cases hany : ledger.any (fun row => row.key_id = keyID ∧ row.nonce = nonce) = true
    · rw [if_pos hany]
    · rw [if_neg hany] at h
      exact absurd h (by simp)

/-- A pair that is in the ledger cannot be registered again: `RegisterNonce` fails with
`ErrNonceUsed` and the ledger is unchanged. -/
theorem RegisterNonce_present (ledger : List NonceRow) (now : Time)
    (sweepFault : Option String) (keyID nonce : String) (ttl : Duration)
    (h : ledger.any (fun row => row.key_id = keyID ∧ row.nonce = nonce) = true) :
    RegisterNonce ledger now none sweepFault keyID nonce ttl = (some .ErrNonceUsed, ledger) := by
  rw [RegisterNonce_eq, if_pos h]

/-- A successful registration with a time to live that is not negative leaves the pair in
the ledger. -/
theorem RegisterNonce_success_present (ledger ledger1 : List NonceRow) (now : Time)
    (insertFault sweepFault : Option String) (keyID nonce : String) (ttl : Duration)
    (httl : 0 ≤ ttl)
    (h : RegisterNonce ledger now insertFault sweepFault keyID nonce ttl = (none, ledger1)) :
    ledger1.any (fun row => row.key_id = keyID ∧ row.nonce = nonce) = true := by
  cases insertFault with
  | some reason => exact absurd (congrArg Prod.fst h) (by simp [RegisterNonce])
  | none =>
    rw [RegisterNonce_eq] at h
    by_cases hany : ledger.any (fun row => row.key_id = keyID ∧ row.nonce = nonce) = true
    · rw [if_pos hany] at h
      exact absurd (congrArg Prod.fst h) (by simp)
    · rw [if_neg hany] at h
      have h2 := congrArg Prod.snd h
      simp only at h2
      rw [← h2, List.any_eq_true]
      refine ⟨{ key_id := keyID, nonce := nonce, expires_at := now + ttl }, ?_, by simp⟩
      cases sweepFault with
      | some reason => simp
      | none =>
        simp only [List.mem_filter, List.mem_append, List.mem_singleton, or_true, true_and,
          decide_not, Bool.not_eq_true', decide_eq_false_iff_not, not_lt]
        have hle : now ≤ now + ttl := by
          simp only [Time, Duration] at *
          omega
        exact decide_eq_true hle

/-- Every rejection leaves the database as it was. -/
theorem Authenticate_rejected_db (a : Authenticator) (db : DB) (now : Time)
    (faults : AuthFaults) (r : Request) (reply : Reply)
    (h : (Authenticate a db now faults r).1 = .rejected reply) :
    (Authenticate a db now faults r).2 = db := by
  by_cases h1 : TrimSpace r.KeyId = "" ∨ TrimSpace r.Timestamp = "" ∨ TrimSpace r.Nonce = ""
      ∨ TrimSpace r.Signature = ""
  · simp only [Authenticate, if_pos h1]
  by_cases h2 : ¬ ValidateTimestamp (TrimSpace r.Timestamp) a.MaxSkew now = true
  · simp only [Authenticate, if_neg h1, if_pos h2]
  cases hbody : r.Body with
  | none => simp only [Authenticate, if_neg h1, if_neg h2, hbody]
  | some body =>
    cases hkey : GetAPIKeyByKeyID db faults.lookup (TrimSpace r.KeyId) with
    | error e => simp only [Authenticate, if_neg h1, if_neg h2, hbody, hkey]
    | ok record =>
      by_cases h3 : record.RevokedAt ≠ none
      · simp only [Authenticate, if_neg h1, if_neg h2, hbody, hkey, if_pos h3]
      by_cases h4 : ¬ Verify record.Secret
            { Method := r.Method, Path := r.Path, RawQuery := r.RawQuery,
              Timestamp := TrimSpace r.Timestamp, Nonce := TrimSpace r.Nonce,
              BodyHash := SHA256Hex body } (TrimSpace r.Signature) = true
      · simp only [Authenticate, if_neg h1, if_neg h2, hbody, hkey, if_neg h3, if_pos h4]
      cases hreg : RegisterNonce db.request_nonces now faults.insert faults.sweep
          (TrimSpace r.KeyId) (TrimSpace r.Nonce) a.NonceTTL with
      | mk err ledger =>
        cases err with
        | none =>
          simp only [Authenticate, if_neg h1, if_neg h2, hbody, hkey, if_neg h3, if_neg h4,
            hreg] at h
          exact absurd h (by simp)
        | some e =>
          have hl := RegisterNonce_error_ledger db.request_nonces now faults.insert
            faults.sweep (TrimSpace r.KeyId) (TrimSpace r.Nonce) a.NonceTTL e (by rw [hreg])
          rw [hreg] at hl
          simp only at hl
          simp only [Authenticate, if_neg h1, if_neg h2, hbody, hkey, if_neg h3, if_neg h4,
            hreg, hl]

/-- The handler `Authenticate` on a request that passes the checks of headers, timestamp,
body, key and signature: the outcome is decided by `RegisterNonce`. -/
theorem Authenticate_checked (a : Authenticator) (db : DB) (now : Time) (faults : AuthFaults)
    (r : Request) (body : List Nat) (record : APIKeyRecord)
    (h1 : ¬ (TrimSpace r.KeyId = "" ∨ TrimSpace r.Timestamp = "" ∨ TrimSpace r.Nonce = ""
      ∨ TrimSpace r.Signature = ""))
    (h2 : ValidateTimestamp (TrimSpace r.Timestamp) a.MaxSkew now = true)
    (hbody : r.Body = some body)
    (hkey : GetAPIKeyByKeyID db faults.lookup (TrimSpace r.KeyId) = .ok record)
    (hrev : record.RevokedAt = none)
    (hver : Verify record.Secret
      { Method := r.Method, Path := r.Path, RawQuery := r.RawQuery,
        Timestamp := TrimSpace r.Timestamp, Nonce := TrimSpace r.Nonce,
        BodyHash := SHA256Hex body } (TrimSpace r.Signature) = true) :
    Authenticate a db now faults r =
      match RegisterNonce db.request_nonces now faults.insert faults.sweep (TrimSpace r.KeyId)
          (TrimSpace r.Nonce) a.NonceTTL with
      | (some _, ledger) =>
        (.rejected (unauthorized "nonce_reused" "nonce has already been used"),
          { db with request_nonces := ledger })
      | (none, ledger) =>
        (.next { KeyID := TrimSpace r.KeyId, Scopes := record.Scopes } body,
          { db with request_nonces := ledger,
                    api_keys := (TouchAPIKeyUsage db.api_keys now faults.touch
                      (TrimSpace r.KeyId)).2 }) := by
  have h2n : ¬ ¬ ValidateTimestamp (TrimSpace r.Timestamp) a.MaxSkew now = true :=
    not_not_intro h2
  have h3 : ¬ record.RevokedAt ≠ none := not_not_intro hrev
  have h4 : ¬ ¬ Verify record.Secret
      { Method := r.Method, Path := r.Path, RawQuery := r.RawQuery,
        Timestamp := TrimSpace r.Timestamp, Nonce := TrimSpace r.Nonce,
        BodyHash := SHA256Hex body } (TrimSpace r.Signature) = true := not_not_intro hver
  simp only [Authenticate, if_neg h1, if_neg h2n, hbody, hkey, if_neg h3, if_neg h4]

/-- When the next handler is called, the request has passed every check: the four headers
are present, the timestamp is in the window, the key was found and is not revoked, `Verify`
has returned true, and `RegisterNonce` has succeeded. -/
theorem Authenticate_next_inv (a : Authenticator) (db : DB) (now : Time) (faults : AuthFaults)
    (r : Request) (ctx : AuthContext) (body : List Nat)
    (h : (Authenticate a db now faults r).1 = .next ctx body) :
    ∃ record, r.Body = some body ∧
      GetAPIKeyByKeyID db faults.lookup (TrimSpace r.KeyId) = .ok record ∧
      record.RevokedAt = none ∧
      ValidateTimestamp (TrimSpace r.Timestamp) a.MaxSkew now = true ∧
      Verify record.Secret
        { Method := r.Method, Path := r.Path, RawQuery := r.RawQuery,
          Timestamp := TrimSpace r.Timestamp, Nonce := TrimSpace r.Nonce,
          BodyHash := SHA256Hex body } (TrimSpace r.Signature) = true ∧
      (RegisterNonce db.request_nonces now faults.insert faults.sweep (TrimSpace r.KeyId)
        (TrimSpace r.Nonce) a.NonceTTL).1 = none := by
  by_cases h1 : TrimSpace r.KeyId = "" ∨ TrimSpace r.Timestamp = "" ∨ TrimSpace r.Nonce = ""
      ∨ TrimSpace r.Signature = ""
  · simp only [Authenticate, if_pos h1] at h
    exact absurd h (by simp)
  by_cases h2 : ¬ ValidateTimestamp (TrimSpace r.Timestamp) a.MaxSkew now = true
  · simp only [Authenticate, if_neg h1, if_pos h2] at h
    exact absurd h (by simp)
  cases hbody : r.Body with
  | none =>
    simp only [Authenticate, if_neg h1, if_neg h2, hbody] at h
    exact absurd h (by simp)
  | some body1 =>
    cases hkey : GetAPIKeyByKeyID db faults.lookup (TrimSpace r.KeyId) with
    | error e =>
      simp only [Authenticate, if_neg h1, if_neg h2, hbody, hkey] at h
      exact absurd h (by simp)
    | ok record =>
      by_cases h3 : record.RevokedAt ≠ none
      · simp only [Authenticate, if_neg h1, if_neg h2, hbody, hkey, if_pos h3] at h
        exact absurd h (by simp)
      by_cases h4 : ¬ Verify record.Secret
            { Method := r.Method, Path := r.Path, RawQuery := r.RawQuery,
              Timestamp := TrimSpace r.Timestamp, Nonce := TrimSpace r.Nonce,
              BodyHash := SHA256Hex body1 } (TrimSpace r.Signature) = true
      · simp only [Authenticate, if_neg h1, if_neg h2, hbody, hkey, if_neg h3, if_pos h4] at h
        exact absurd h (by simp)
      cases hreg : RegisterNonce db.request_nonces now faults.insert faults.sweep
          (TrimSpace r.KeyId) (TrimSpace r.Nonce) a.NonceTTL with
      | mk err ledger =>
        cases err with
        | some e =>
          simp only [Authenticate, if_neg h1, if_neg h2, hbody, hkey, if_neg h3, if_neg h4,
            hreg] at h
          exact absurd h (by simp)
        | none =>
          simp only [Authenticate, if_neg h1, if_neg h2, hbody, hkey, if_neg h3, if_neg h4,
            hreg, AuthOutcome.next.injEq] at h
          obtain ⟨-, hb⟩ := h
          subst hb
          exact ⟨record, rfl, rfl, not_not.mp h3, not_not.mp h2, not_not.mp h4, rfl⟩

/-- Every rejection of `Authenticate` is a response of `unauthorized`: 401 with a code and
a message. -/
theorem Authenticate_rejected_reply (a : Authenticator) (db : DB) (now : Time)
    (faults : AuthFaults) (r : Request) (reply : Reply)
    (h : (Authenticate a db now faults r).1 = .rejected reply) :
    ∃ code message, reply = unauthorized code message := by
  by_cases h1 : TrimSpace r.KeyId = "" ∨ TrimSpace r.Timestamp = "" ∨ TrimSpace r.Nonce = ""
      ∨ TrimSpace r.Signature = ""
  · simp only [Authenticate, if_pos h1, AuthOutcome.rejected.injEq] at h
    exact ⟨_, _, h.symm⟩
  by_cases h2 : ¬ ValidateTimestamp (TrimSpace r.Timestamp) a.MaxSkew now = true
  · simp only [Authenticate, if_neg h1, if_pos h2, AuthOutcome.rejected.injEq] at h
    exact ⟨_, _, h.symm⟩
  cases hbody : r.Body with
  | none =>
    simp only [Authenticate, if_neg h1, if_neg h2, hbody, AuthOutcome.rejected.injEq] at h
    exact ⟨_, _, h.symm⟩
  | some body =>
    cases hkey : GetAPIKeyByKeyID db faults.lookup (TrimSpace r.KeyId) with
    | error e =>
      simp only [Authenticate, if_neg h1, if_neg h2, hbody, hkey,
        AuthOutcome.rejected.injEq] at h
      exact ⟨_, _, h.symm⟩
    | ok record =>
      by_cases h3 : record.RevokedAt ≠ none
      · simp only [Authenticate, if_neg h1, if_neg h2, hbody, hkey, if_pos h3,
          AuthOutcome.rejected.injEq] at h
        exact ⟨_, _, h.symm⟩
      by_cases h4 : ¬ Verify record.Secret
          { Method := r.Method, Path := r.Path, RawQuery := r.RawQuery,
            Timestamp := TrimSpace r.Timestamp, Nonce := TrimSpace r.Nonce,
            BodyHash := SHA256Hex body } (TrimSpace r.Signature) = true
      · simp only [Authenticate, if_neg h1, if_neg h2, hbody, hkey, if_neg h3, if_pos h4,
          AuthOutcome.rejected.injEq] at h
        exact ⟨_, _, h.symm⟩
      cases hreg : RegisterNonce db.request_nonces now faults.insert faults.sweep
          (TrimSpace r.KeyId) (TrimSpace r.Nonce) a.NonceTTL with
      | mk err ledger =>
        cases err with
        | some e =>
          simp only [Authenticate, if_neg h1, if_neg h2, hbody, hkey, if_neg h3, if_neg h4,
            hreg, AuthOutcome.rejected.injEq] at h
          exact ⟨_, _, h.symm⟩
        | none =>
          simp only [Authenticate, if_neg h1, if_neg h2, hbody, hkey, if_neg h3, if_neg h4,
            hreg] at h
          exact absurd h (by simp)

/-- C6 (as amended): while the record of a pair (key id, nonce) is in the ledger,
`RegisterNonce` for that pair fails with `ErrNonceUsed` and leaves the ledger unchanged.
`Authenticate` does not call the next handler for a request that carries the pair, whatever
the clock reads and whatever the database driver answers: it answers 401 and leaves the
database unchanged. The code of the answer is the code of the earliest check that fails:
`nonce_reused` when the request passes the checks of headers, timestamp, body, key and
signature, and `invalid_timestamp` when it carries the four headers and its timestamp is
outside the window, as it is for the replay of a request once the request is older than the
accepted skew. -/
theorem C6_nonce_replay (a : Authenticator) (db : DB) (now : Time) (faults : AuthFaults)
    (r : Request) (sweepFault : Option String) (ttl : Duration)
    (hrec : db.request_nonces.any
      (fun row => row.key_id = TrimSpace r.KeyId ∧ row.nonce = TrimSpace r.Nonce) = true) :
    RegisterNonce db.request_nonces now none sweepFault (TrimSpace r.KeyId) (TrimSpace r.Nonce)
        ttl = (some .ErrNonceUsed, db.request_nonces) ∧
    (∃ code message,
      Authenticate a db now faults r = (.rejected (unauthorized code message), db)) ∧
    (∀ body record,
      ¬ (TrimSpace r.KeyId = "" ∨ TrimSpace r.Timestamp = "" ∨ TrimSpace r.Nonce = ""
        ∨ TrimSpace r.Signature = "") →
      ValidateTimestamp (TrimSpace r.Timestamp) a.MaxSkew now = true →
      r.Body = some body →
      GetAPIKeyByKeyID db faults.lookup (TrimSpace r.KeyId) = .ok record →
      record.RevokedAt = none →
      Verify record.Secret
        { Method := r.Method, Path := r.Path, RawQuery := r.RawQuery,
          Timestamp := TrimSpace r.Timestamp, Nonce := TrimSpace r.Nonce,
          BodyHash := SHA256Hex body } (TrimSpace r.Signature) = true →
      Authenticate a db now faults r =
        (.rejected (unauthorized "nonce_reused" "nonce has already been used"), db)) ∧
    (¬ (TrimSpace r.KeyId = "" ∨ TrimSpace r.Timestamp = "" ∨ TrimSpace r.Nonce = ""
        ∨ TrimSpace r.Signature = "") →
      ValidateTimestamp (TrimSpace r.Timestamp) a.MaxSkew now = false →
      Authenticate a db now faults r =
        (.rejected (unauthorized "invalid_timestamp" "timestamp is outside accepted window"),
          db)) := by
  have hnot : (RegisterNonce db.request_nonces now faults.insert faults.sweep
      (TrimSpace r.KeyId) (TrimSpace r.Nonce) a.NonceTTL).1 ≠ none := by
    cases hins : faults.insert with
    | some reason => simp [RegisterNonce]
    | none =>
      rw [RegisterNonce_present _ now faults.sweep _ _ a.NonceTTL hrec]
      simp
  refine ⟨RegisterNonce_present _ now sweepFault _ _ ttl hrec, ?_, ?_, ?_⟩
  · cases hout : (Authenticate a db now faults r).1 with
    | rejected reply =>
      obtain ⟨code, message, hreply⟩ := Authenticate_rejected_reply a db now faults r reply hout
      have hdb := Authenticate_rejected_db a db now faults r reply hout
      refine ⟨code, message, Prod.ext ?_ hdb⟩
      show (Authenticate a db now faults r).1 = .rejected (unauthorized code message)
      rw [hout, hreply]
    | next ctx body =>
      obtain ⟨record, -, -, -, -, -, hreg⟩ :=
        Authenticate_next_inv a db now faults r ctx body hout
      exact absurd hreg hnot
  · intro body record h1 h2 hbody hkey hrev hver
    rw [Authenticate_checked a db now faults r body record h1 h2 hbody hkey hrev hver]
    cases hreg : RegisterNonce db.request_nonces now faults.insert faults.sweep
        (TrimSpace r.KeyId) (TrimSpace r.Nonce) a.NonceTTL with
    | mk err ledger =>
      cases err with
      | some e =>
        have hl := RegisterNonce_error_ledger db.request_nonces now faults.insert
          faults.sweep (TrimSpace r.KeyId) (TrimSpace r.Nonce) a.NonceTTL e (by rw [hreg])
        rw [hreg] at hl
        simp only at hl
        simp only [hl]
      | none =>
        rw [hreg] at hnot
        exact absurd rfl hnot
  · intro h1 h2
    have h2n : ¬ ValidateTimestamp (TrimSpace r.Timestamp) a.MaxSkew now = true := by
      rw [h2]
      simp
    simp only [Authenticate, if_neg h1, if_pos h2n]

set_option maxRecDepth 100000 in
/-- C6, witness: `sampleRequest` is accepted once, which registers its nonce; in the
database this leaves, a second `RegisterNonce` for the pair fails with `ErrNonceUsed`, and
the replay of the request a nanosecond later is answered with `nonce_reused`. -/
theorem C6_nonce_replay_witness :
    Authenticate sampleAuthenticator sampleDB sampleNow .none sampleRequest =
      (.next { KeyID := "k1", Scopes := ["*"] } [], sampleDBAfter) ∧
    RegisterNonce sampleDBAfter.request_nonces (sampleNow + 1) none none "k1" "abc123"
      600000000000 = (some .ErrNonceUsed, sampleDBAfter.request_nonces) ∧
    Authenticate sampleAuthenticator sampleDBAfter (sampleNow + 1) .none sampleRequest =
      (.rejected (unauthorized "nonce_reused" "nonce has already been used"), sampleDBAfter) :=
  ⟨by rfl,
    (C6_nonce_replay sampleAuthenticator sampleDBAfter (sampleNow + 1) .none sampleRequest none
      600000000000 (by decide)).1,
    (C6_nonce_replay sampleAuthenticator sampleDBAfter (sampleNow + 1) .none sampleRequest none
      600000000000 (by decide)).2.2.1 []
      { ID := "1", KeyID := "k1", Name := "ci", Secret := "s3cr3t", Scopes := ["*"],
        RevokedAt := none, CreatedAt := 0, LastUsedAt := some 1700000001000000000 }
      (by decide) (by decide!) rfl rfl rfl (by decide!)⟩

set_option maxRecDepth 100000 in
/-- C6, counterexample: the windows are the defaults of `config.Load`, five minutes of skew
and ten minutes of nonce life. `sampleRequest` was accepted at `sampleNow`, one second after
its timestamp, and its nonce is in the ledger of `sampleDBAfter` until ten minutes later. Its
replay 301 seconds after `sampleNow`, while the record is in the ledger and has not expired,
is not answered with `nonce_reused` but with `invalid_timestamp`. -/
theorem C6_counterexample :
    sampleAuthenticator.MaxSkew = 300000000000 ∧ sampleAuthenticator.NonceTTL = 600000000000 ∧
    sampleDBAfter.request_nonces.any (fun row => row.key_id = "k1" ∧ row.nonce = "abc123" ∧
      sampleNow + 301000000000 < row.expires_at) = true ∧
    Authenticate sampleAuthenticator sampleDBAfter (sampleNow + 301000000000) .none
        sampleRequest =
      (.rejected (unauthorized "invalid_timestamp" "timestamp is outside accepted window"),
        sampleDBAfter) :=
  ⟨rfl, rfl, by decide, by rfl⟩

/-- C8: a request that `Authenticate` rejects with `missing_auth_headers`,
`invalid_timestamp`, `invalid_key` (the answer to every failure of the key lookup) or
`invalid_signature` leaves the database, and so the nonce ledger and the last-used
timestamp of every key, unchanged; and whenever the nonce ledger or the table of keys is
changed, the request had its key found and `Verify` had returned true. -/
theorem C8_rejection_no_effect (a : Authenticator) (db : DB) (now : Time) (faults : AuthFaults)
    (r : Request) :
    (∀ reply, (Authenticate a db now faults r).1 = .rejected reply →
      (reply = unauthorized "missing_auth_headers" "missing required auth headers" ∨
        reply = unauthorized "invalid_timestamp" "timestamp is outside accepted window" ∨
        reply = unauthorized "invalid_key" "api key not found" ∨
        reply = unauthorized "invalid_signature" "signature verification failed") →
      (Authenticate a db now faults r).2.request_nonces = db.request_nonces ∧
        (Authenticate a db now faults r).2.api_keys = db.api_keys) ∧
    ((Authenticate a db now faults r).2.request_nonces ≠ db.request_nonces ∨
        (Authenticate a db now faults r).2.api_keys ≠ db.api_keys →
      ∃ body record, r.Body = some body ∧
        GetAPIKeyByKeyID db faults.lookup (TrimSpace r.KeyId) = .ok record ∧
        Verify record.Secret
          { Method := r.Method, Path := r.Path, RawQuery := r.RawQuery,
            Timestamp := TrimSpace r.Timestamp, Nonce := TrimSpace r.Nonce,
            BodyHash := SHA256Hex body } (TrimSpace r.Signature) = true) := by
  constructor
  · intro reply hrej _
    rw [Authenticate_rejected_db a db now faults r reply hrej]
    exact ⟨rfl, rfl⟩
  · intro hchg
    cases hout : (Authenticate a db now faults r).1 with
    | rejected reply =>
      rw [Authenticate_rejected_db a db now faults r reply hout] at hchg
      exact absurd hchg (by simp)
    | next ctx body =>
      obtain ⟨record, hb, hk, -, -, hv, -⟩ := Authenticate_next_inv a db now faults r ctx body hout
      exact ⟨body, record, hb, hk, hv⟩

set_option maxRecDepth 100000 in
/-- C8, witness: `sampleRequest` with a wrong signature is rejected with
`invalid_signature`, and the nonce ledger and the keys are what they were. -/
theorem C8_rejection_no_effect_witness :
    (Authenticate sampleAuthenticator sampleDB sampleNow .none
        { sampleRequest with Signature := "00" }).1 =
      .rejected (unauthorized "invalid_signature" "signature verification failed") ∧
    (Authenticate sampleAuthenticator sampleDB sampleNow .none
        { sampleRequest with Signature := "00" }).2.request_nonces = sampleDB.request_nonces ∧
    (Authenticate sampleAuthenticator sampleDB sampleNow .none
        { sampleRequest with Signature := "00" }).2.api_keys = sampleDB.api_keys :=
  ⟨by decide!,
    (C8_rejection_no_effect sampleAuthenticator sampleDB sampleNow .none
      { sampleRequest with Signature := "00" }).1 _ (by decide!) (Or.inr (Or.inr (Or.inr rfl)))⟩

/-- C9 (as amended): for a request that carries the four headers with a timestamp in the
window and whose body can be read, when the lookup does not fail in the driver: an unknown
key identifier is answered with 401, code `invalid_key` and message `api key not found`; a
key that exists and has a revocation timestamp is answered with 401, code `revoked_key` and
message `api key has been revoked`. The two responses have the same status and differ in
code and message; neither calls the next handler, and both leave the database unchanged. -/
theorem C9_unknown_and_revoked (a : Authenticator) (db : DB) (now : Time) (faults : AuthFaults)
    (r : Request) (body : List Nat)
    (h1 : ¬ (TrimSpace r.KeyId = "" ∨ TrimSpace r.Timestamp = "" ∨ TrimSpace r.Nonce = ""
      ∨ TrimSpace r.Signature = ""))
    (h2 : ValidateTimestamp (TrimSpace r.Timestamp) a.MaxSkew now = true)
    (hbody : r.Body = some body) (hfault : faults.lookup = none) :
    (db.api_keys.find? (fun row => row.key_id = TrimSpace r.KeyId) = none →
      Authenticate a db now faults r =
        (.rejected (unauthorized "invalid_key" "api key not found"), db)) ∧
    (∀ row scopes, db.api_keys.find? (fun row => row.key_id = TrimSpace r.KeyId) = some row →
      parseJSONArray row.scopes = .ok scopes → row.revoked_at ≠ none →
      Authenticate a db now faults r =
        (.rejected (unauthorized "revoked_key" "api key has been revoked"), db)) ∧
    (unauthorized "invalid_key" "api key not found").status =
      (unauthorized "revoked_key" "api key has been revoked").status ∧
    unauthorized "invalid_key" "api key not found" ≠
      unauthorized "revoked_key" "api key has been revoked" := by
  have h2n : ¬ ¬ ValidateTimestamp (TrimSpace r.Timestamp) a.MaxSkew now = true :=
    not_not_intro h2
  refine ⟨fun hnone => ?_, fun row scopes hrow hscopes hrev => ?_, rfl, by decide⟩
  · have hkey : GetAPIKeyByKeyID db faults.lookup (TrimSpace r.KeyId) = .error .ErrNotFound := by
      simp only [GetAPIKeyByKeyID, hfault, hnone]
    simp only [Authenticate, if_neg h1, if_neg h2n, hbody, hkey]
  · have hkey : GetAPIKeyByKeyID db faults.lookup (TrimSpace r.KeyId) =
        .ok { ID := row.id, KeyID := row.key_id, Name := row.name,
              Secret := row.secret_ciphertext, Scopes := scopes,
              RevokedAt := row.revoked_at, CreatedAt := row.created_at,
              LastUsedAt := row.last_used_at } := by
      simp only [GetAPIKeyByKeyID, hfault, hrow, hscopes]
    simp only [Authenticate, if_neg h1, if_neg h2n, hbody, hkey, if_pos hrev]

set_option maxRecDepth 100000 in
/-- C9, witness: in `sampleDB` the key `k0` is unknown and the key `k2` is revoked. -/
theorem C9_unknown_and_revoked_witness :
    Authenticate sampleAuthenticator sampleDB sampleNow .none
        { sampleRequest with KeyId := "k0" } =
      (.rejected (unauthorized "invalid_key" "api key not found"), sampleDB) ∧
    Authenticate sampleAuthenticator sampleDB sampleNow .none
        { sampleRequest with KeyId := "k2" } =
      (.rejected (unauthorized "revoked_key" "api key has been revoked"), sampleDB) :=
  ⟨(C9_unknown_and_revoked sampleAuthenticator sampleDB sampleNow .none
      { sampleRequest with KeyId := "k0" } [] (by decide) (by decide!) rfl rfl).1 rfl,
    (C9_unknown_and_revoked sampleAuthenticator sampleDB sampleNow .none
      { sampleRequest with KeyId := "k2" } [] (by decide) (by decide!) rfl rfl).2.1 _ []
      rfl rfl (by decide)⟩

set_option maxRecDepth 100000 in
/-- C9, counterexample: the same request is answered with code `invalid_key` under the
unknown key identifier `k0` and with code `revoked_key`, and another message, under the
revoked key `k2`: the two responses are not identical. -/
theorem C9_counterexample :
    (Authenticate sampleAuthenticator sampleDB sampleNow .none
        { sampleRequest with KeyId := "k0" }).1 =
      .rejected { status := 401, contentType := "application/json",
                  body := "\x7b\"error\":\x7b\"code\":\"invalid_key\",\"message\":\"api key not found\",\"retryable\":false\x7d\x7d" } ∧
    (Authenticate sampleAuthenticator sampleDB sampleNow .none
        { sampleRequest with KeyId := "k2" }).1 =
      .rejected { status := 401, contentType := "application/json",
                  body := "\x7b\"error\":\x7b\"code\":\"revoked_key\",\"message\":\"api key has been revoked\",\"retryable\":false\x7d\x7d" } ∧
    (Authenticate sampleAuthenticator sampleDB sampleNow .none
        { sampleRequest with KeyId := "k0" }).1 ≠
      (Authenticate sampleAuthenticator sampleDB sampleNow .none
        { sampleRequest with KeyId := "k2" }).1 := by
  decide!

/-! ### Timestamps -/

theorem foldl_digits_le (ds : List Char) (x : Nat) :
    x ≤ ds.foldl (fun x c => x * 10 + (c.toNat - 48)) x := by
  induction ds generalizing x with
  | nil => exact Nat.le_refl x
  | cons c cs ih =>
    simp only [List.foldl]
    exact Nat.le_trans (by omega) (ih (x * 10 + (c.toNat - 48)))

theorem leadingInt_digits (ds rest : List Char) (x : Nat)
    (hds : ∀ c ∈ ds, 48 ≤ c.toNat ∧ c.toNat ≤ 57)
    (hrest : ∀ c ∈ rest.head?, ¬ (48 ≤ c.toNat ∧ c.toNat ≤ 57))
    (hle : ds.foldl (fun x c => x * 10 + (c.toNat - 48)) x ≤ 2 ^ 63 / 10) :
    leadingInt (ds ++ rest) x = some (ds.foldl (fun x c => x * 10 + (c.toNat - 48)) x, rest) := by
  induction ds generalizing x with
  | nil =>
    cases rest with
    | nil => rfl
    | cons c cs =>
      have := hrest c (by simp)
      simp only [List.nil_append, leadingInt, if_neg this, List.foldl]
  | cons c cs ih =>
    have hc := hds c (List.mem_cons_self c cs)
    simp only [List.foldl] at hle ⊢
    have h1 := foldl_digits_le cs (x * 10 + (c.toNat - 48))
    have hx : ¬ x > 2 ^ 63 / 10 := by omega
    have hx2 : ¬ x * 10 + (c.toNat - 48) > 2 ^ 63 := by omega
    simp only [List.cons_append, leadingInt, if_pos hc, if_neg hx, if_neg hx2]
    exact ih _ (fun d hd => hds d (List.mem_cons_of_mem c hd)) hle

theorem parseDuration_millis (ds : List Char) (hne : ds ≠ [])
    (hds : ∀ c ∈ ds, 48 ≤ c.toNat ∧ c.toNat ≤ 57)
    (hrange : decimalValue ds * 10 ^ 6 ≤ 2 ^ 63 - 1) :
    ParseDuration ⟨ds ++ ['m', 's']⟩ = some ((decimalValue ds * 10 ^ 6 : Nat) : Int) := by
  cases ds with
  | nil => exact absurd rfl hne
  | cons c cs =>
    have hc := hds c (List.mem_cons_self c cs)
    have hlead := leadingInt_digits (c :: cs) ['m', 's'] 0 hds (by simp)
      (by unfold decimalValue at hrange; omega)
    have hnum : isNumberChar c = true := by simp [isNumberChar, hc]
    have hminus : c ≠ '-' := by rintro rfl; revert hc; decide
    have hplus : c ≠ '+' := by rintro rfl; revert hc; decide
    have hbody : stripSign (c :: (cs ++ ['m', 's'])) = c :: (cs ++ ['m', 's']) := by
      unfold stripSign
      split
      · rename_i h; exact absurd (List.cons.inj h).1 hminus
      · rename_i h; exact absurd (List.cons.inj h).1 hplus
      · rfl
    have hnot0 : c :: (cs ++ ['m', 's']) ≠ ['0'] := by
      intro h
      have := congrArg List.length h
      simp at this
    have hhead : ¬ (c :: (cs ++ ['m', 's'])).head? = some '-' := by simpa using hminus
    have hterms : parseDurationTerms (c :: (cs ++ ['m', 's'])).length (c :: (cs ++ ['m', 's'])) 0
        = some (decimalValue (c :: cs) * 10 ^ 6) := by
      have hfrac : parseFraction ['m', 's'] = (0, 1, ['m', 's'], false) := rfl
      have htake : List.takeWhile (fun c => decide ¬ isNumberChar c = true) ['m', 's']
          = ['m', 's'] := by decide
      have hdrop : List.dropWhile (fun c => decide ¬ isNumberChar c = true) ['m', 's']
          = [] := by decide
      have hunit : unitMap ['m', 's'] = some 1000000 := by decide
      have hval : List.foldl (fun x c => x * 10 + (c.toNat - 48)) 0 (c :: cs)
          = decimalValue (c :: cs) := rfl
      have hlen : ¬ ((['m', 's'] : List Char).length = (c :: (cs ++ ['m', 's'])).length
          ∧ false = false) := by simp
      have hterm : termNanos (decimalValue (c :: cs)) 0 1 1000000
          = some (decimalValue (c :: cs) * 1000000) := by
        have : ¬ decimalValue (c :: cs) > 2 ^ 63 / 1000000 := by omega
        simp only [termNanos, if_neg this, gt_iff_lt, Nat.lt_irrefl, if_false]
      have hsum2 : (0 + decimalValue (c :: cs) * 1000000) % 2 ^ 64
          = decimalValue (c :: cs) * 10 ^ 6 := by
        rw [Nat.zero_add, Nat.mod_eq_of_lt (by omega)]
        norm_num
      have hsum : ¬ decimalValue (c :: cs) * 10 ^ 6 > 2 ^ 63 := by omega
      simp only [List.length_cons]
      unfold parseDurationTerms
      simp only [List.cons_append] at hlead
      simp only [hnum, hlead, hval, hfrac, htake, hdrop, hunit, hterm, if_neg hlen, hsum2,
        if_neg hsum]
      simp [parseDurationTerms]
    unfold ParseDuration
    have hfit : ¬ decimalValue (c :: cs) * 10 ^ 6 > 2 ^ 63 - 1 := by omega
    simp only [List.cons_append, hbody, if_neg hnot0, hterms, hhead, if_neg hfit]
    simp

theorem wrap64_of_range (x : Int) (h1 : -(2 ^ 63) ≤ x) (h2 : x < 2 ^ 63) : wrap64 x = x := by
  unfold wrap64
  omega

/-- C7 (as amended): for every timestamp string that is a decimal number of epoch
milliseconds `t` whose nanoseconds fit a `Duration`, every `maxSkew` and every instant `now`
whose distance from `t` fits a `Duration` (at most `2^63 - 1` nanoseconds, about 292 years),
`ValidateTimestamp` is true if and only if `|now - t| <= maxSkew`. -/
theorem C7_validate_timestamp (raw : String) (maxSkew now : Int)
    (hne : raw.data ≠ [])
    (hdigits : ∀ c ∈ raw.data, 48 ≤ c.toNat ∧ c.toNat ≤ 57)
    (hrange : decimalValue raw.data * 10 ^ 6 ≤ 2 ^ 63 - 1)
    (hdist : |now - ((decimalValue raw.data * 10 ^ 6 : Nat) : Int)| ≤ 2 ^ 63 - 1) :
    ValidateTimestamp raw maxSkew now = true ↔
      |now - ((decimalValue raw.data * 10 ^ 6 : Nat) : Int)| ≤ maxSkew := by
  have hparse : ParseDuration (raw ++ "ms")
      = some ((decimalValue raw.data * 10 ^ 6 : Nat) : Int) := by
    have happ : raw ++ "ms" = ⟨raw.data ++ ['m', 's']⟩ := by
      apply String.ext
      simp [String.data_append]
    rw [happ]
    exact parseDuration_millis raw.data hne hdigits hrange
  generalize ((decimalValue raw.data * 10 ^ 6 : Nat) : Int) = client at hparse hdist ⊢
  rw [abs_le] at hdist ⊢
  simp only [ValidateTimestamp, hparse, timeSub, maxDuration, minDuration]
  simp only [Time, Duration] at *
  have hA : ¬ now - client > 2 ^ 63 - 1 := by omega
  have hB : ¬ now - client < -(2 ^ 63) := by omega
  rw [if_neg hA, if_neg hB]
  by_cases hneg : now - client < 0
  · rw [if_pos hneg, wrap64_of_range (-(now - client)) (by omega) (by omega),
      decide_eq_true_iff]
    omega
  · rw [if_neg hneg, decide_eq_true_iff]
    omega

/-- C7, witness: the timestamp `1700000000000` is accepted exactly five minutes late, with
a skew of five minutes. -/
theorem C7_validate_timestamp_witness :
    ValidateTimestamp "1700000000000" 300000000000 1700000300000000000 = true ↔
      |(1700000300000000000 : Int) -
        ((decimalValue "1700000000000".data * 10 ^ 6 : Nat) : Int)| ≤ 300000000000 :=
  C7_validate_timestamp "1700000000000" 300000000000 1700000300000000000 (by decide)
    (by decide) (by decide) (by decide)

/-- C7, counterexample: with `now` `2^63` nanoseconds before the timestamp `1700000000000`
(an instant of the year 1731) and a skew of zero, `ValidateTimestamp` is true although
the two instants are not within the skew. -/
theorem C7_counterexample :
    ValidateTimestamp "1700000000000" 0 (-7523372036854775808) = true ∧
      ¬ |(-7523372036854775808 : Int) - 1700000000000 * 10 ^ 6| ≤ 0 := by
  decide

/-! ### Signatures and single-field changes -/

theorem sha256_lt (msg : List Nat) : ∀ e ∈ sha256 msg, e < 256 := by
  intro e he
  unfold sha256 at he
  simp only [List.mem_flatMap] at he
  obtain ⟨w, -, hw⟩ := he
  simp only [bytesBE, List.mem_cons, List.mem_singleton, List.not_mem_nil, or_false] at hw
  rcases hw with rfl | rfl | rfl | rfl <;> omega

theorem hmacSHA256_lt (key msg : List Nat) : ∀ e ∈ hmacSHA256 key msg, e < 256 := by
  unfold hmacSHA256
  exact sha256_lt _

theorem map_mod_of_lt (x : List Nat) (h : ∀ e ∈ x, e < 256) : x.map (· % 256) = x := by
  conv => rhs; rw [← List.map_id x]
  apply List.map_congr_left
  intro e he
  exact Nat.mod_eq_of_lt (h e he)

theorem nat_or_eq_zero (a b : Nat) : a ||| b = 0 ↔ a = 0 ∧ b = 0 := by
  constructor
  · intro h
    constructor
    · apply Nat.eq_of_testBit_eq
      intro i
      have := congrArg (fun n => Nat.testBit n i) h
      simp only [Nat.testBit_or, Nat.zero_testBit, Bool.or_eq_false_iff] at this
      simp [this.1]
    · apply Nat.eq_of_testBit_eq
      intro i
      have := congrArg (fun n => Nat.testBit n i) h
      simp only [Nat.testBit_or, Nat.zero_testBit, Bool.or_eq_false_iff] at this
      simp [this.2]
  · rintro ⟨rfl, rfl⟩
    rfl

theorem foldl_or_eq_zero (l : List Nat) (acc : Nat) :
    l.foldl (· ||| ·) acc = 0 ↔ acc = 0 ∧ ∀ e ∈ l, e = 0 := by
  induction l generalizing acc with
  | nil => simp
  | cons a l ih =>
    simp only [List.foldl, ih, nat_or_eq_zero, List.mem_cons, forall_eq_or_imp]
    tauto

theorem zipWith_xor_zero (x y : List Nat) (hlen : x.length = y.length)
    (h : ∀ e ∈ List.zipWith (· ^^^ ·) x y, e = 0) : x = y := by
  induction x generalizing y with
  | nil =>
    cases y with
    | nil => rfl
    | cons b y => simp at hlen
  | cons a x ih =>
    cases y with
    | nil => simp at hlen
    | cons b y =>
      simp only [List.zipWith, List.mem_cons, forall_eq_or_imp] at h
      rw [Nat.xor_eq_zero.mp h.1, ih y (by simpa using hlen) h.2]

theorem ConstantTimeCompare_eq_one_iff (x y : List Nat) :
    ConstantTimeCompare x y = 1 ↔ x = y := by
  constructor
  · intro h
    unfold ConstantTimeCompare at h
    by_cases hlen : x.length ≠ y.length
    · rw [if_pos hlen] at h
      exact absurd h (by decide)
    · rw [if_neg hlen] at h
      by_cases hz : (List.zipWith (· ^^^ ·) x y).foldl (· ||| ·) 0 = 0
      · exact zipWith_xor_zero x y (not_not.mp hlen) ((foldl_or_eq_zero _ 0).mp hz).2
      · rw [if_neg hz] at h
        exact absurd h (by decide)
  · rintro rfl
    exact ConstantTimeCompare_self x

/-- `Verify` accepts the hexadecimal text of a byte string exactly when the byte string is
the MAC of the canonical string of the input. -/
theorem Verify_hexEncode_iff (secret : String) (input : SignatureInput) (mac : List Nat)
    (hmac : ∀ e ∈ mac, e < 256) :
    Verify secret input (hexEncode mac) = true ↔
      hmacSHA256 (stringBytes secret) (stringBytes (CanonicalString input)) = mac := by
  simp only [Verify, Sign, normalize_hexEncode]
  simp only [hexDecode, hexEncode, hexDecodeChars_hexEncodeChars,
    map_mod_of_lt _ (hmacSHA256_lt _ _), map_mod_of_lt _ hmac]
  by_cases hlen : (hmacSHA256 (stringBytes secret) (stringBytes (CanonicalString input))).length
      ≠ mac.length
  · rw [if_pos hlen]
    constructor
    · intro h; exact absurd h (by simp)
    · intro h; rw [h] at hlen; exact absurd rfl hlen
  · rw [if_neg hlen, beq_iff_eq, ConstantTimeCompare_eq_one_iff]

theorem joinChars_cons_cons (sep p q : List Char) (ps : List (List Char)) :
    joinChars sep (p :: q :: ps) = p ++ sep ++ joinChars sep (q :: ps) := rfl

/-- The canonical strings of two inputs that differ in exactly one field are equal only when
the six joined strings are equal. -/
theorem canonicalFields_eq_of_flip (a b : SignatureInput) (hflip : differInOneField a b)
    (h : CanonicalString a = CanonicalString b) : canonicalFields a = canonicalFields b := by
  have hd := congrArg String.data h
  simp only [CanonicalString, Join, canonicalFields, List.map_cons, List.map_nil,
    joinChars_cons_cons, joinChars] at hd
  unfold canonicalFields
  rcases hflip with ⟨-, h2, h3, h4, h5, h6⟩ | ⟨h1, -, h3, h4, h5, h6⟩ | ⟨h1, h2, -, h4, h5, h6⟩ |
    ⟨h1, h2, h3, -, h5, h6⟩ | ⟨h1, h2, h3, h4, -, h6⟩ | ⟨h1, h2, h3, h4, h5, -⟩
  · rw [h2, h3, h4, h5, h6] at hd ⊢
    simp only [List.append_assoc, List.append_cancel_right_eq] at hd
    rw [String.ext hd]
  · rw [h1, h3, h4, h5, h6] at hd ⊢
    simp only [List.append_assoc, List.append_cancel_left_eq, List.append_cancel_right_eq] at hd
    rw [String.ext hd]
  · rw [h1, h2, h4, h5, h6] at hd ⊢
    simp only [List.append_assoc, List.append_cancel_left_eq, List.append_cancel_right_eq] at hd
    rw [String.ext hd]
  · rw [h1, h2, h3, h5, h6] at hd ⊢
    simp only [List.append_assoc, List.append_cancel_left_eq, List.append_cancel_right_eq] at hd
    rw [String.ext hd]
  · rw [h1, h2, h3, h4, h6] at hd ⊢
    simp only [List.append_assoc, List.append_cancel_left_eq, List.append_cancel_right_eq] at hd
    rw [String.ext hd]
  · rw [h1, h2, h3, h4, h5] at hd ⊢
    simp only [List.append_assoc, List.append_cancel_left_eq] at hd
    rw [String.ext hd]

/-- C10 (as amended): for every secret and every two inputs `a` and `b` that differ in
exactly one of the six fields. If the six strings that `CanonicalString` joins are the same
for `a` and `b` (the differing field is the method or the body hash and the two values agree
after `TrimSpace` and case normalisation, or it is the raw query and the two canonical queries
agree), `Verify(secret, b, Sign(secret, a))` is true. Otherwise (always when the differing
field is the path, the timestamp or the nonce) the canonical strings of `a` and `b` are
different byte strings, and `Verify(secret, b, Sign(secret, a))` is false exactly when
HMAC-SHA256 under the secret gives these two messages different MACs. -/
theorem C10_single_field_flip (secret : String) (a b : SignatureInput)
    (hflip : differInOneField a b) :
    (canonicalFields a = canonicalFields b → Verify secret b (Sign secret a) = true) ∧
    (a.Path ≠ b.Path ∨ a.Timestamp ≠ b.Timestamp ∨ a.Nonce ≠ b.Nonce →
      canonicalFields a ≠ canonicalFields b) ∧
    (canonicalFields a ≠ canonicalFields b →
      stringBytes (CanonicalString a) ≠ stringBytes (CanonicalString b) ∧
      (Verify secret b (Sign secret a) = false ↔
        hmacSHA256 (stringBytes secret) (stringBytes (CanonicalString b)) ≠
          hmacSHA256 (stringBytes secret) (stringBytes (CanonicalString a)))) := by
  refine ⟨fun h => ?_, fun h hEq => ?_, fun hne => ⟨fun hb => ?_, ?_⟩⟩
  · exact Verify_Sign_of_canonical_eq secret a b (by simp only [CanonicalString, h])
  · simp only [canonicalFields, List.cons.injEq] at hEq
    obtain ⟨-, hp, -, ht, hn, -⟩ := hEq
    rcases h with h | h | h
    · exact h hp
    · exact h ht
    · exact h hn
  · exact hne (canonicalFields_eq_of_flip a b hflip (stringBytes_injective _ _ hb))
  · rw [← Bool.not_eq_true, Sign, Verify_hexEncode_iff secret b _ (hmacSHA256_lt _ _)]

set_option maxRecDepth 100000 in
/-- C10, witness: the golden input and the input that differs from it in the nonce alone;
the signature of the first does not verify for the second. -/
theorem C10_single_field_flip_witness :
    Verify "s3cr3t"
      { Method := "GET", Path := "/v1/public/posts", RawQuery := "",
        Timestamp := "1700000000000", Nonce := "abc124",
        BodyHash := "e3b0c44298fc1c149afbf4c8996fb92427ae41e4649b934ca495991b7852b855" }
      (Sign "s3cr3t"
        { Method := "GET", Path := "/v1/public/posts", RawQuery := "",
          Timestamp := "1700000000000", Nonce := "abc123",
          BodyHash := "e3b0c44298fc1c149afbf4c8996fb92427ae41e4649b934ca495991b7852b855" })
      = false :=
  ((C10_single_field_flip "s3cr3t"
      { Method := "GET", Path := "/v1/public/posts", RawQuery := "",
        Timestamp := "1700000000000", Nonce := "abc123",
        BodyHash := "e3b0c44298fc1c149afbf4c8996fb92427ae41e4649b934ca495991b7852b855" }
      { Method := "GET", Path := "/v1/public/posts", RawQuery := "",
        Timestamp := "1700000000000", Nonce := "abc124",
        BodyHash := "e3b0c44298fc1c149afbf4c8996fb92427ae41e4649b934ca495991b7852b855" }
      (by unfold differInOneField; decide)).2.2 (by decide)).2.mpr (by decide!)

/-- C10, counterexample: the inputs `a` and `b` differ in the method alone, `GET` against
`get`, and the signature of `a` verifies for `b`. -/
theorem C10_counterexample :
    differInOneField
      { Method := "GET", Path := "/v1/public/posts", RawQuery := "",
        Timestamp := "1700000000000", Nonce := "abc123",
        BodyHash := "e3b0c44298fc1c149afbf4c8996fb92427ae41e4649b934ca495991b7852b855" }
      { Method := "get", Path := "/v1/public/posts", RawQuery := "",
        Timestamp := "1700000000000", Nonce := "abc123",
        BodyHash := "e3b0c44298fc1c149afbf4c8996fb92427ae41e4649b934ca495991b7852b855" } ∧
    Verify "s3cr3t"
      { Method := "get", Path := "/v1/public/posts", RawQuery := "",
        Timestamp := "1700000000000", Nonce := "abc123",
        BodyHash := "e3b0c44298fc1c149afbf4c8996fb92427ae41e4649b934ca495991b7852b855" }
      (Sign "s3cr3t"
        { Method := "GET", Path := "/v1/public/posts", RawQuery := "",
          Timestamp := "1700000000000", Nonce := "abc123",
          BodyHash := "e3b0c44298fc1c149afbf4c8996fb92427ae41e4649b934ca495991b7852b855" })
      = true :=
  ⟨by unfold differInOneField; decide, Verify_Sign_of_canonical_eq _ _ _ (by decide)⟩

/-! ### Base64 -/

theorem base64Char_facts (n : Nat) (h : n < 64) :
    base64Index (base64Char n) = some n ∧ isSpace (base64Char n) = false ∧
      base64Char n ≠ '\r' ∧ base64Char n ≠ '\n' := by
  interval_cases n <;> decide

theorem base64Encode_eq_map (bs : List Nat) : base64Encode bs = (base64Values bs).map base64Char := by
  induction bs using base64Values.induct with
  | case1 b0 b1 b2 rest ih => simp [base64Encode, base64Values, ih]
  | case2 b0 b1 => simp [base64Encode, base64Values]
  | case3 b0 => simp [base64Encode, base64Values]
  | case4 => simp [base64Encode, base64Values]

theorem base64Values_lt (bs : List Nat) : ∀ v ∈ base64Values bs, v < 64 := by
  induction bs using base64Values.induct with
  | case1 b0 b1 b2 rest ih =>
    intro v hv
    simp only [base64Values, List.mem_cons] at hv
    rcases hv with rfl | rfl | rfl | rfl | hv
    · omega
    · omega
    · omega
    · omega
    · exact ih v hv
  | case2 b0 b1 =>
    intro v hv
    simp only [base64Values, List.mem_cons, List.mem_singleton, List.not_mem_nil, or_false] at hv
    rcases hv with rfl | rfl | rfl <;> omega
  | case3 b0 =>
    intro v hv
    simp only [base64Values, List.mem_cons, List.mem_singleton, List.not_mem_nil, or_false] at hv
    rcases hv with rfl | rfl <;> omega
  | case4 => simp [base64Values]

theorem base64Sextets_map (vs : List Nat) (h : ∀ v ∈ vs, v < 64) :
    base64Sextets (vs.map base64Char) = some vs := by
  induction vs with
  | nil => rfl
  | cons v vs ih =>
    have hf := base64Char_facts v (h v (List.mem_cons_self v vs))
    have hn : ¬ (base64Char v = '\r' ∨ base64Char v = '\n') := by
      rintro (h1 | h1)
      · exact hf.2.2.1 h1
      · exact hf.2.2.2 h1
    simp only [List.map_cons, base64Sextets, if_neg hn, hf.1,
      ih (fun w hw => h w (List.mem_cons_of_mem v hw))]

theorem base64Bytes_values (bs : List Nat) (h : ∀ b ∈ bs, b < 256) :
    base64Bytes (base64Values bs) = some bs := by
  induction bs using base64Values.induct with
  | case1 b0 b1 b2 rest ih =>
    have h0 := h b0 (by simp)
    have h1 := h b1 (by simp)
    have h2 := h b2 (by simp)
    simp only [base64Values, base64Bytes, ih (fun b hb => h b (by simp [hb]))]
    congr 2
    · omega
    · congr 1
      · omega
      · congr 1
        omega
  | case2 b0 b1 =>
    have h0 := h b0 (by simp)
    have h1 := h b1 (by simp)
    simp only [base64Values, base64Bytes]
    congr 2
    · omega
    · congr 1
      omega
  | case3 b0 =>
    have h0 := h b0 (by simp)
    simp only [base64Values, base64Bytes]
    congr 2
    omega
  | case4 => rfl

/-- Decoding the base64 text of a byte string gives back the byte string. -/
theorem base64Decode_encode (bs : List Nat) (h : ∀ b ∈ bs, b < 256) :
    base64Decode (base64Encode bs) = some bs := by
  simp only [base64Decode, base64Encode_eq_map, base64Sextets_map _ (base64Values_lt bs),
    base64Bytes_values bs h]

theorem base64Encode_not_space (bs : List Nat) : ∀ c ∈ base64Encode bs, isSpace c = false := by
  intro c hc
  rw [base64Encode_eq_map, List.mem_map] at hc
  obtain ⟨v, hv, rfl⟩ := hc
  exact (base64Char_facts v (base64Values_lt bs v hv)).2.1

/-! ### Calendar -/

theorem month_of_doy : ∀ doy, doy < 366 →
    (5 * doy + 2) / 153 < 12 ∧ 1 ≤ doy - (153 * ((5 * doy + 2) / 153) + 2) / 5 + 1 ∧
    (153 * ((5 * doy + 2) / 153) + 2) / 5 + (doy - (153 * ((5 * doy + 2) / 153) + 2) / 5 + 1 - 1)
      = doy ∧
    doy - (153 * ((5 * doy + 2) / 153) + 2) / 5 + 1 ≤
      (if (5 * doy + 2) / 153 = 11 then (if doy = 365 then 29 else 28)
       else if (5 * doy + 2) / 153 = 1 ∨ (5 * doy + 2) / 153 = 3 ∨ (5 * doy + 2) / 153 = 6
         ∨ (5 * doy + 2) / 153 = 8 then 30 else 31) := by
  decide!

theorem eraYear_facts (doe : Nat) (h : doe < 146097) :
    (eraYear doe).1 < 400 ∧ (eraYear doe).2 < 366 ∧
    (eraYear doe).1 * 365 + (eraYear doe).1 / 4 - (eraYear doe).1 / 100 + (eraYear doe).2 = doe ∧
    ((eraYear doe).2 = 365 → ((eraYear doe).1 + 1) % 4 = 0 ∧
      (((eraYear doe).1 + 1) % 100 ≠ 0 ∨ ((eraYear doe).1 + 1) % 400 = 0)) := by
  unfold eraYear
  simp only []
  have h100 : min (doe / 36524) 3 ≤ 3 := by omega
  have hd1 : doe - 36524 * min (doe / 36524) 3 ≤ 36524 := by omega
  have hd1' : 36524 * min (doe / 36524) 3 ≤ doe := by omega
  have hlast : min (doe / 36524) 3 < 3 → doe - 36524 * min (doe / 36524) 3 < 36524 := by omega
  generalize min (doe / 36524) 3 = n100 at *
  generalize hd1e : doe - 36524 * n100 = d1 at *
  have h4 : d1 / 1461 ≤ 24 := by omega
  have hd2 : d1 - 1461 * (d1 / 1461) ≤ 1460 := by omega
  have hd2' : 1461 * (d1 / 1461) ≤ d1 := by omega
  generalize d1 / 1461 = n4 at *
  generalize hd2e : d1 - 1461 * n4 = d2 at *
  have h1 : min (d2 / 365) 3 ≤ 3 := by omega
  have hdoy : d2 - 365 * min (d2 / 365) 3 ≤ 365 := by omega
  have hdoy' : 365 * min (d2 / 365) 3 ≤ d2 := by omega
  have hdoy365 : d2 - 365 * min (d2 / 365) 3 = 365 → min (d2 / 365) 3 = 3 := by omega
  generalize min (d2 / 365) 3 = n1 at *
  have hq4 : (100 * n100 + 4 * n4 + n1) / 4 = 25 * n100 + n4 := by omega
  have hq100 : (100 * n100 + 4 * n4 + n1) / 100 = n100 := by omega
  rw [hq4, hq100]
  refine ⟨by omega, by omega, by omega, fun h365 => ⟨by omega, ?_⟩⟩
  have hn1 := hdoy365 h365
  by_cases hn4 : n4 = 24
  · right
    have : n100 = 3 := by
      by_contra hne
      have := hlast (by omega)
      omega
    omega
  · left
    omega

theorem daysFromCivil_march (era : Int) (yoe mp dm : Nat) (hyoe : yoe < 400) (hmp : mp < 12) :
    daysFromCivil (era * 400 + (yoe : Int) + (if mp < 10 then 0 else 1))
        (if mp < 10 then mp + 3 else mp - 9) dm =
      era * 146097 + ((yoe * 365 + yoe / 4 - yoe / 100 + (153 * mp + 2) / 5 + (dm - 1) : Nat) : Int)
        - 719468 := by
  have hq : (era * 400 + (yoe : Int)) / 400 = era := by omega
  have hr : ((era * 400 + (yoe : Int)) % 400).toNat = yoe := by omega
  by_cases hlt : mp < 10
  · have hm : ¬ mp + 3 ≤ 2 := by omega
    simp only [daysFromCivil, if_pos hlt, if_neg hm, add_zero, hq, hr, Nat.add_sub_cancel]
  · have hm : mp - 9 ≤ 2 := by omega
    have hmp' : mp - 9 + 9 = mp := by omega
    simp only [daysFromCivil, if_neg hlt, if_pos hm, add_sub_cancel_right, hq, hr, hmp']

theorem isLeap_march (era : Int) (yoe : Nat) :
    isLeap (era * 400 + (yoe : Int) + 1) = true ↔
      (yoe + 1) % 4 = 0 ∧ ((yoe + 1) % 100 ≠ 0 ∨ (yoe + 1) % 400 = 0) := by
  simp only [isLeap, decide_eq_true_eq]
  omega

/-- The day a civil date is computed from is the day of that date, and the date is a date of
the calendar: a month in 1..12 and a day of that month. -/
theorem daysFromCivil_civilFromDays (z : Int) :
    daysFromCivil (civilFromDays z).1 (civilFromDays z).2.1 (civilFromDays z).2.2 = z ∧
    1 ≤ (civilFromDays z).2.1 ∧ (civilFromDays z).2.1 ≤ 12 ∧
    1 ≤ (civilFromDays z).2.2 ∧
    (civilFromDays z).2.2 ≤ daysIn (civilFromDays z).2.1 (civilFromDays z).1 := by
  have hdoe : ((z + 719468) % 146097).toNat < 146097 := by omega
  have hz : z + 719468 = (z + 719468) / 146097 * 146097 + (((z + 719468) % 146097).toNat : Int) := by
    omega
  obtain ⟨hy1, hy2, hy3, hy4⟩ := eraYear_facts _ hdoe
  obtain ⟨hm1, hm2, hm3, hm4⟩ := month_of_doy _ hy2
  unfold civilFromDays
  simp only []
  rw [daysFromCivil_march _ _ _ _ hy1 hm1]
  generalize (z + 719468) / 146097 = era at *
  generalize ((z + 719468) % 146097).toNat = doe at *
  generalize (eraYear doe).1 = yoe at *
  generalize (eraYear doe).2 = doy at *
  generalize hmp : (5 * doy + 2) / 153 = mp at *
  generalize hdm : doy - (153 * mp + 2) / 5 + 1 = dm at *
  refine ⟨by omega, by split_ifs <;> omega, by split_ifs <;> omega, hm2, ?_⟩
  by_cases hlt : mp < 10
  · simp only [if_pos hlt, daysIn]
    have h2 : ¬ mp + 3 = 2 := by omega
    have h11 : ¬ mp = 11 := by omega
    rw [if_neg h2]
    rw [if_neg h11] at hm4
    split_ifs at hm4 ⊢ <;> omega
  · simp only [if_neg hlt, daysIn]
    by_cases h11 : mp = 11
    · have h2 : mp - 9 = 2 := by omega
      rw [if_pos h2]
      rw [if_pos h11] at hm4
      by_cases h365 : doy = 365
      · rw [if_pos h365] at hm4
        rw [if_pos ((isLeap_march era yoe).mpr (hy4 h365))]
        exact hm4
      · rw [if_neg h365] at hm4
        split_ifs <;> omega
    · have h2 : ¬ mp - 9 = 2 := by omega
      rw [if_neg h2]
      rw [if_neg h11] at hm4
      split_ifs at hm4 ⊢ <;> omega

/-! ### Formatting and parsing of instants -/

theorem digitChar_facts (n : Nat) :
    isDigitChar (digitChar n) = true ∧ (digitChar n).toNat - 48 = n % 10 ∧
      (digitChar n = '0' ↔ n % 10 = 0) := by
  unfold digitChar
  have h : n % 10 < 10 := Nat.mod_lt _ (by decide)
  generalize n % 10 = k at h
  interval_cases k <;> decide

theorem decimalValue_append_singleton (l : List Char) (c : Char) :
    decimalValue (l ++ [c]) = decimalValue l * 10 + (c.toNat - 48) := by
  simp [decimalValue, List.foldl_append]

theorem lastDigits_length (w n : Nat) : (lastDigits w n).length = w := by
  induction w generalizing n with
  | zero => rfl
  | succ w ih => simp [lastDigits, ih]

theorem lastDigits_isDigit (w n : Nat) : ∀ c ∈ lastDigits w n, isDigitChar c = true := by
  induction w generalizing n with
  | zero => simp [lastDigits]
  | succ w ih =>
    intro c hc
    simp only [lastDigits, List.mem_append, List.mem_singleton] at hc
    rcases hc with hc | rfl
    · exact ih _ c hc
    · exact (digitChar_facts n).1

theorem decimalValue_lastDigits (w n : Nat) (h : n < 10 ^ w) :
    decimalValue (lastDigits w n) = n := by
  induction w generalizing n with
  | zero =>
    simp only [pow_zero, Nat.lt_one_iff] at h
    subst h
    rfl
  | succ w ih =>
    have h10 : n / 10 < 10 ^ w := by
      rw [Nat.div_lt_iff_lt_mul (by decide)]
      rw [pow_succ] at h
      exact h
    rw [lastDigits, decimalValue_append_singleton, ih _ h10, (digitChar_facts n).2.1]
    omega

/-- The digits of a number without the zeros at their end: their value, scaled back by the
number of zeros taken off, is the number. -/
theorem trimmedDigits_facts (w n : Nat) (h : n < 10 ^ w) :
    decimalValue ((lastDigits w n).rdropWhile (fun c => c = '0'))
        * 10 ^ (w - ((lastDigits w n).rdropWhile (fun c => c = '0')).length) = n ∧
    ((lastDigits w n).rdropWhile (fun c => c = '0')).length ≤ w ∧
    (∀ c ∈ (lastDigits w n).rdropWhile (fun c => c = '0'), isDigitChar c = true) ∧
    (n ≠ 0 → (lastDigits w n).rdropWhile (fun c => c = '0') ≠ []) := by
  induction w generalizing n with
  | zero =>
    simp only [pow_zero, Nat.lt_one_iff] at h
    subst h
    simp [lastDigits, decimalValue]
  | succ w ih =>
    have h10 : n / 10 < 10 ^ w := by
      rw [Nat.div_lt_iff_lt_mul (by decide)]
      rw [pow_succ] at h
      exact h
    obtain ⟨ih1, ih2, ih3, ih4⟩ := ih (n / 10) h10
    rw [lastDigits, List.rdropWhile_concat]
    by_cases hz : n % 10 = 0
    · have hd : (decide (digitChar n = '0')) = true :=
        decide_eq_true ((digitChar_facts n).2.2.mpr hz)
      simp only [hd, if_true]
      refine ⟨?_, by omega, ih3, fun hn => ih4 (by omega)⟩
      have hsub : w + 1 - ((lastDigits w (n / 10)).rdropWhile (fun c => c = '0')).length
          = (w - ((lastDigits w (n / 10)).rdropWhile (fun c => c = '0')).length) + 1 := by omega
      rw [hsub, pow_succ, ← Nat.mul_assoc, ih1]
      omega
    · have hd : (decide (digitChar n = '0')) = false :=
        decide_eq_false (fun hc => hz ((digitChar_facts n).2.2.mp hc))
      simp only [hd, Bool.false_eq_true, if_false]
      have hlen : (lastDigits w (n / 10) ++ [digitChar n]).length = w + 1 := by
        simp [lastDigits_length]
      refine ⟨?_, by omega, ?_, fun _ => by simp⟩
      · rw [hlen, Nat.sub_self, pow_zero, Nat.mul_one]
        exact decimalValue_lastDigits (w + 1) n h
      · exact lastDigits_isDigit (w + 1) n

theorem getnum_lastDigits (n : Nat) (rest : List Char) ( fixed : Bool) (h : n < 100) :
    getnum (lastDigits 2 n ++ rest) fixed = some (n, rest) := by
  have h1 := digitChar_facts (n / 10)
  have h2 := digitChar_facts n
  simp only [lastDigits, List.nil_append, List.cons_append, getnum, h1.1, h2.1, h1.2.1, h2.2.1,
    not_true_eq_false, if_false, if_true]
  congr 2
  omega

theorem parseYear_lastDigits (n : Nat) (rest : List Char) (h : n < 10000) :
    parseYear (lastDigits 4 n ++ rest) = some (n, rest) := by
  have hv := decimalValue_lastDigits 4 n (by norm_num; exact h)
  have hd := lastDigits_isDigit 4 n
  simp only [lastDigits, List.nil_append, List.cons_append, List.mem_cons, List.mem_singleton,
    forall_eq_or_imp, forall_eq, List.not_mem_nil, false_implies, implies_true, and_true]
    at hv hd ⊢
  simp only [parseYear, hd.1, hd.2.1, hd.2.2.1, hd.2.2.2, and_self, if_true, hv]

theorem padDigits_of_lt (w n : Nat) (h : n < 10 ^ w) : padDigits w n = lastDigits w n := by
  simp only [padDigits, if_pos h]

theorem parseFracSecond_appendNano (nsec : Nat) (rest : List Char) (h : nsec < 10 ^ 9) :
    parseFracSecond (appendNano nsec ++ 'Z' :: rest) = (nsec, 'Z' :: rest) := by
  by_cases h0 : nsec = 0
  · subst h0
    cases rest with
    | nil => rfl
    | cons d r =>
      have hp : ¬ ((('Z' : Char) = '.' ∨ ('Z' : Char) = ',') ∧ isDigitChar d = true) := by
        rintro ⟨hp | hp, -⟩ <;> exact absurd hp (by decide)
      simp only [appendNano, if_true, List.nil_append, parseFracSecond, if_neg hp]
  · obtain ⟨hv, hl, hd, hne⟩ := trimmedDigits_facts 9 nsec h
    simp only [appendNano, if_neg h0, padDigits_of_lt 9 nsec h, List.cons_append]
    generalize (lastDigits 9 nsec).rdropWhile (fun c => c = '0') = tr at hv hl hd hne
    cases tr with
    | nil => exact absurd rfl (hne h0)
    | cons d tr =>
      have hdd : isDigitChar d = true := hd d (List.mem_cons_self d tr)
      have hZ : isDigitChar 'Z' = false := by decide
      have htake : List.takeWhile isDigitChar (d :: (tr ++ 'Z' :: rest)) = d :: tr := by
        rw [← List.cons_append, List.takeWhile_append_of_pos hd]
        simp [List.takeWhile, hZ]
      have hdrop : List.dropWhile isDigitChar (d :: (tr ++ 'Z' :: rest)) = 'Z' :: rest := by
        rw [← List.cons_append, List.dropWhile_append_of_pos hd]
        simp [List.dropWhile, hZ]
      have hcond : (('.' : Char) = '.' ∨ ('.' : Char) = ',') ∧ isDigitChar d = true :=
        ⟨Or.inl rfl, hdd⟩
      simp only [List.cons_append, parseFracSecond, htake, hdrop,
        List.take_of_length_le hl, hv]
      rw [if_pos ⟨Or.inl trivial, hdd⟩]

/-- Parsing the text `Format` writes for an instant of a year in 0..9999 gives the instant. -/
theorem parseRFC3339_format (t : Int) (h0 : 0 ≤ utcYear t) (h1 : utcYear t ≤ 9999) :
    parseRFC3339 (formatRFC3339Nano t).data = some t := by
  unfold utcYear at h0 h1
  obtain ⟨hc1, hc2, hc3, hc4, hc5⟩ := daysFromCivil_civilFromDays (t / 1000000000 / 86400)
  have hd31 : (civilFromDays (t / 1000000000 / 86400)).2.2 ≤ 31 := by
    refine Nat.le_trans hc5 ?_
    unfold daysIn
    split_ifs <;> omega
  have hsod : ((t / 1000000000 % 86400).toNat) < 86400 := by omega
  have hns : ((t % 1000000000).toNat) < 10 ^ 9 := by omega
  have hyear : appendInt (civilFromDays (t / 1000000000 / 86400)).1 4
      = lastDigits 4 (civilFromDays (t / 1000000000 / 86400)).1.toNat := by
    rw [appendInt, if_neg (by omega), padDigits_of_lt 4 _ (by omega)]
  have hyn : Int.ofNat (civilFromDays (t / 1000000000 / 86400)).1.toNat
      = (civilFromDays (t / 1000000000 / 86400)).1 := by
    simp only [Int.ofNat_eq_coe]
    omega
  have hyl : (civilFromDays (t / 1000000000 / 86400)).1.toNat < 10000 := by omega
  simp only [formatRFC3339Nano, hyear,
    padDigits_of_lt 2 (civilFromDays (t / 1000000000 / 86400)).2.1 (by omega),
    padDigits_of_lt 2 (civilFromDays (t / 1000000000 / 86400)).2.2 (by omega),
    padDigits_of_lt 2 ((t / 1000000000 % 86400).toNat / 3600) (by omega),
    padDigits_of_lt 2 ((t / 1000000000 % 86400).toNat / 60 % 60) (by omega),
    padDigits_of_lt 2 ((t / 1000000000 % 86400).toNat % 60) (by omega)]
  have hm : ¬ ((civilFromDays (t / 1000000000 / 86400)).2.1 < 1
      ∨ 12 < (civilFromDays (t / 1000000000 / 86400)).2.1) := by omega
  have hh : ¬ 24 ≤ (t / 1000000000 % 86400).toNat / 3600 := by omega
  have hmi : ¬ 60 ≤ (t / 1000000000 % 86400).toNat / 60 % 60 := by omega
  have hs : ¬ 60 ≤ (t / 1000000000 % 86400).toNat % 60 := by omega
  have hday : ¬ ((civilFromDays (t / 1000000000 / 86400)).2.2 < 1
      ∨ daysIn (civilFromDays (t / 1000000000 / 86400)).2.1
          (Int.ofNat (civilFromDays (t / 1000000000 / 86400)).1.toNat)
        < (civilFromDays (t / 1000000000 / 86400)).2.2) := by
    rw [hyn]
    omega
  have hday2 : ¬ ((civilFromDays (t / 1000000000 / 86400)).2.2 < 1
      ∨ daysIn (civilFromDays (t / 1000000000 / 86400)).2.1
          (civilFromDays (t / 1000000000 / 86400)).1
        < (civilFromDays (t / 1000000000 / 86400)).2.2) := by
    omega
  simp only [parseRFC3339, parseDate, parseClock, parseYear_lastDigits _ _ hyl, skipChar,
    if_true, getnum_lastDigits _ _ _ (by omega : (civilFromDays (t / 1000000000 / 86400)).2.1 < 100),
    getnum_lastDigits _ _ _ (by omega : (civilFromDays (t / 1000000000 / 86400)).2.2 < 100),
    getnum_lastDigits _ _ _ (by omega : (t / 1000000000 % 86400).toNat / 3600 < 100),
    getnum_lastDigits _ _ _ (by omega : (t / 1000000000 % 86400).toNat / 60 % 60 < 100),
    getnum_lastDigits _ _ _ (by omega : (t / 1000000000 % 86400).toNat % 60 < 100),
    if_neg hm, if_neg hh, if_neg hmi, if_neg hs,
    parseFracSecond_appendNano _ [] hns, parseZone, ne_eq, not_true_eq_false, if_false,
    if_neg hday, if_neg hday2, dateInstant, hyn, hc1]
  simp only [Int.ofNat_eq_coe, Option.some.injEq]
  refine (?_ : @Eq Int _ _)
  omega

/-! ### Search cursors -/

theorem hex4_hexDigits (n : Nat) (h : n < 65536) :
    hex4 (hexDigit (n / 4096 % 16)) (hexDigit (n / 256 % 16)) (hexDigit (n / 16 % 16))
      (hexDigit (n % 16)) = some n := by
  simp only [hex4, (hexDigit_facts _ (Nat.mod_lt (n / 4096) (by decide : 0 < 16))).2.2,
    (hexDigit_facts _ (Nat.mod_lt (n / 256) (by decide : 0 < 16))).2.2,
    (hexDigit_facts _ (Nat.mod_lt (n / 16) (by decide : 0 < 16))).2.2,
    (hexDigit_facts _ (Nat.mod_lt n (by decide : 0 < 16))).2.2]
  congr 1
  omega

theorem char_eq_of_toNat (c : Char) (n : Nat) (h : c.toNat = n) : Char.ofNat n = c := by
  rw [← h]
  exact Char.ofNat_toNat c

/-- One step of `parseStringBody` on the escape of a character gives the character back. -/
theorem parseStringBody_escapeChar (c : Char) (tail : List Char) (fuel : Nat) :
    parseStringBody (fuel + 1) (jsonEscapeChar c ++ tail) =
      match parseStringBody fuel tail with
      | some (s, out) => some (c :: s, out)
      | none => none := by
  have hstep : ∀ (e x : Char), simpleEscape e = some x → e ≠ 'u' →
      parseStringBody (fuel + 1) ('\\' :: e :: tail) =
        match parseStringBody fuel tail with
        | some (s, out) => some (x :: s, out)
        | none => none := by
    intro e x he hu
    have h1 : ¬ ('\\' : Char) = '"' := by decide
    simp only [parseStringBody, if_neg h1, if_true, if_neg hu, he]
    cases parseStringBody fuel tail with
    | none => rfl
    | some p => rfl
  have hu4 : ∀ n, c.toNat = n → n < 0xD800 →
      parseStringBody (fuel + 1) ('\\' :: 'u' :: hexDigit (n / 4096 % 16)
        :: hexDigit (n / 256 % 16) :: hexDigit (n / 16 % 16) :: hexDigit (n % 16) :: tail) =
        match parseStringBody fuel tail with
        | some (s, out) => some (c :: s, out)
        | none => none := by
    intro n hn hlt
    have h1 : ¬ ('\\' : Char) = '"' := by decide
    have hs : ¬ (0xD800 ≤ n ∧ n < 0xE000) := by omega
    simp only [parseStringBody, if_neg h1, if_true, hex4_hexDigits n (by omega), if_neg hs,
      char_eq_of_toNat c n hn]
  unfold jsonEscapeChar
  simp only []
  by_cases hq : c = '"'
  · rw [if_pos hq, hq]
    exact hstep '"' '"' (by decide) (by decide)
  rw [if_neg hq]
  by_cases hb : c = '\\'
  · rw [if_pos hb, hb]
    exact hstep '\\' '\\' (by decide) (by decide)
  rw [if_neg hb]
  by_cases h8 : c.toNat = 8
  · rw [if_pos h8]
    rw [← char_eq_of_toNat c 8 h8]
    exact hstep 'b' (Char.ofNat 8) (by decide) (by decide)
  rw [if_neg h8]
  by_cases h12 : c.toNat = 12
  · rw [if_pos h12]
    rw [← char_eq_of_toNat c 12 h12]
    exact hstep 'f' (Char.ofNat 12) (by decide) (by decide)
  rw [if_neg h12]
  by_cases h10 : c.toNat = 10
  · rw [if_pos h10]
    rw [← char_eq_of_toNat c 10 h10]
    exact hstep 'n' (Char.ofNat 10) (by decide) (by decide)
  rw [if_neg h10]
  by_cases h13 : c.toNat = 13
  · rw [if_pos h13]
    rw [← char_eq_of_toNat c 13 h13]
    exact hstep 'r' (Char.ofNat 13) (by decide) (by decide)
  rw [if_neg h13]
  by_cases h9 : c.toNat = 9
  · rw [if_pos h9]
    rw [← char_eq_of_toNat c 9 h9]
    exact hstep 't' (Char.ofNat 9) (by decide) (by decide)
  rw [if_neg h9]
  by_cases hesc : c.toNat < 32 ∨ c = '<' ∨ c = '>' ∨ c = '&' ∨ c.toNat = 0x2028
      ∨ c.toNat = 0x2029
  · rw [if_pos hesc]
    refine hu4 c.toNat rfl ?_
    rcases hesc with h | h | h | h | h | h
    · omega
    · rw [h]; decide
    · rw [h]; decide
    · rw [h]; decide
    · omega
    · omega
  · rw [if_neg hesc]
    have hlt : ¬ c.toNat < 32 := fun h => hesc (Or.inl h)
    simp only [List.cons_append, List.nil_append, parseStringBody, if_neg hq, if_neg hb,
      if_neg hlt, List.append]

theorem jsonEscape_length_pos (c : Char) : 0 < (jsonEscapeChar c).length := by
  unfold jsonEscapeChar
  simp only []
  split_ifs <;> simp

/-- Reading the escaped characters of a string up to its closing quote gives the string. -/
theorem parseStringBody_escape (cs rest : List Char) (fuel : Nat)
    (hfuel : (cs.flatMap jsonEscapeChar).length + 1 ≤ fuel) :
    parseStringBody fuel (cs.flatMap jsonEscapeChar ++ '"' :: rest) = some (cs, rest) := by
  induction cs generalizing fuel with
  | nil =>
    cases fuel with
    | zero => simp at hfuel
    | succ fuel => simp [parseStringBody]
  | cons c cs ih =>
    cases fuel with
    | zero => simp at hfuel
    | succ fuel =>
      have hpos := jsonEscape_length_pos c
      simp only [List.flatMap_cons, List.length_append] at hfuel
      rw [List.flatMap_cons, List.append_assoc, parseStringBody_escapeChar,
        ih fuel (by omega)]

theorem charBytes_lt (c : Char) : ∀ b ∈ charBytes c, b < 256 := by
  have hv := char_toNat_valid c
  unfold charBytes
  simp only []
  split_ifs <;> simp <;> omega

theorem stringBytes_lt (s : String) : ∀ b ∈ stringBytes s, b < 256 := by
  intro b hb
  unfold stringBytes at hb
  rw [List.mem_flatMap] at hb
  obtain ⟨c, _, hc⟩ := hb
  exact charBytes_lt c b hc

/-- Reading the text `jsonQuote` writes gives the string back. -/
theorem parseValue_jsonQuote (s : String) (rest : List Char) (fuel depth : Nat) :
    parseValue (fuel + 1) depth (jsonQuote s ++ rest) = some (.str s, rest) := by
  have h := parseStringBody_escape s.data rest
    ((s.data.flatMap jsonEscapeChar ++ '"' :: rest).length + 1)
    (by simp only [List.length_append, List.length_cons]; omega)
  simp only [jsonQuote, List.cons_append, List.append_assoc, List.nil_append, parseValue,
    if_true, h]

/-- One member with a string value at the head of the members of an object. -/
theorem parseMembers_member (k v : String) (d : Char) (rest : List Char) (fuel depth : Nat)
    (hsd : isJsonSpace d = false) :
    parseMembers (fuel + 2) depth (jsonQuote k ++ ':' :: (jsonQuote v ++ d :: rest)) =
      if d = '}' then some ([(k, .str v)], rest)
      else if d = ',' then
        match parseMembers (fuel + 1) depth (rest.dropWhile isJsonSpace) with
        | some (ms, out) => some ((k, .str v) :: ms, out)
        | none => none
      else none := by
  have hq : parseStringBody
      ((k.data.flatMap jsonEscapeChar ++ '"' :: ':' :: (jsonQuote v ++ d :: rest)).length + 1)
      (k.data.flatMap jsonEscapeChar ++ '"' :: ':' :: (jsonQuote v ++ d :: rest)) =
        some (k.data, ':' :: (jsonQuote v ++ d :: rest)) :=
    parseStringBody_escape k.data _ _
      (by simp only [List.length_append, List.length_cons]; omega)
  have hsp : ∀ (c : Char) (l : List Char), isJsonSpace c = false →
      (c :: l).dropWhile isJsonSpace = c :: l := by
    intro c l h
    rw [List.dropWhile_cons, h]
    rfl
  have hv := parseValue_jsonQuote v (d :: rest) fuel depth
  have e1 : jsonQuote k ++ ':' :: (jsonQuote v ++ d :: rest) =
      '"' :: (k.data.flatMap jsonEscapeChar ++ '"' :: ':' :: (jsonQuote v ++ d :: rest)) := by
    simp [jsonQuote]
  have e2 : jsonQuote v ++ d :: rest =
      '"' :: (v.data.flatMap jsonEscapeChar ++ '"' :: d :: rest) := by
    simp [jsonQuote]
  rw [e1, parseMembers]
  simp only [ne_eq, not_true_eq_false, if_false, hq, hsp ':' _ (by decide)]
  rw [e2, hsp '"' _ (by decide), ← e2, hv]
  simp only []
  rw [hsp d _ hsd]

/-- Reading the text of an object with two members whose values are strings. -/
theorem parseValue_object (k1 v1 k2 v2 : String) (rest : List Char) (fuel depth : Nat)
    (hdepth : depth < 10000) :
    parseValue (fuel + 4) depth
      ((Json.obj [(k1, .str v1), (k2, .str v2)]).encode ++ rest) =
      some (.obj [(k1, .str v1), (k2, .str v2)], rest) := by
  have hsp : ∀ (c : Char) (l : List Char), isJsonSpace c = false →
      (c :: l).dropWhile isJsonSpace = c :: l := by
    intro c l h
    rw [List.dropWhile_cons, h]
    rfl
  have e0 : (Json.obj [(k1, .str v1), (k2, .str v2)]).encode ++ rest =
      '{' :: (jsonQuote k1 ++ ':' :: (jsonQuote v1 ++ ',' :: (jsonQuote k2 ++ ':'
        :: (jsonQuote v2 ++ '}' :: rest)))) := by
    simp [Json.encode, Json.encodeMembers]
  have e1 : jsonQuote k1 ++ ':' :: (jsonQuote v1 ++ ',' :: (jsonQuote k2 ++ ':'
        :: (jsonQuote v2 ++ '}' :: rest))) =
      '"' :: (k1.data.flatMap jsonEscapeChar ++ '"' :: ':' :: (jsonQuote v1 ++ ','
        :: (jsonQuote k2 ++ ':' :: (jsonQuote v2 ++ '}' :: rest)))) := by
    simp [jsonQuote]
  have e3 : jsonQuote k2 ++ ':' :: (jsonQuote v2 ++ '}' :: rest) =
      '"' :: (k2.data.flatMap jsonEscapeChar ++ '"' :: ':' :: (jsonQuote v2 ++ '}' :: rest)) := by
    simp [jsonQuote]
  have hm2 := parseMembers_member k2 v2 '}' rest fuel (depth + 1) (by decide)
  have hm1 := parseMembers_member k1 v1 ','
    (jsonQuote k2 ++ ':' :: (jsonQuote v2 ++ '}' :: rest)) (fuel + 1) (depth + 1) (by decide)
  have hc : ¬ (',' : Char) = '}' := by decide
  rw [if_pos rfl] at hm2
  rw [if_neg hc, if_pos rfl, e3, hsp '"' _ (by decide), ← e3, hm2] at hm1
  have h1 : ¬ ('{' : Char) = '"' := by decide
  have h2 : ¬ ('{' : Char) = '[' := by decide
  have h3 : ¬ depth ≥ 10000 := by omega
  rw [e0, parseValue]
  simp only [if_neg h1, if_neg h2, if_true, if_neg h3]
  have hm3 : parseMembers (fuel + 3) (depth + 1) (jsonQuote k1 ++ ':' :: (jsonQuote v1 ++ ','
      :: (jsonQuote k2 ++ ':' :: (jsonQuote v2 ++ '}' :: rest)))) =
      some ([(k1, .str v1), (k2, .str v2)], rest) := hm1
  rw [e1, hsp '"' _ (by decide)]
  split
  · rename_i out heq
    simp at heq
  · rw [← e1, hm3]

theorem parseJson_object (k1 v1 k2 v2 : String) :
    parseJson (stringBytes ⟨(Json.obj [(k1, .str v1), (k2, .str v2)]).encode⟩) =
      some (.obj [(k1, .str v1), (k2, .str v2)]) := by
  have hlen : 3 ≤ ((Json.obj [(k1, .str v1), (k2, .str v2)]).encode).length := by
    simp [Json.encode, Json.encodeMembers, jsonQuote]
    omega
  obtain ⟨n, hn⟩ : ∃ n, ((Json.obj [(k1, .str v1), (k2, .str v2)]).encode).length + 1 = n + 4 :=
    ⟨((Json.obj [(k1, .str v1), (k2, .str v2)]).encode).length - 3, by omega⟩
  have hhead : ((Json.obj [(k1, .str v1), (k2, .str v2)]).encode).dropWhile isJsonSpace =
      (Json.obj [(k1, .str v1), (k2, .str v2)]).encode ++ [] := by
    rw [List.append_nil]
    simp only [Json.encode, List.dropWhile_cons]
    rfl
  have h := parseValue_object k1 v1 k2 v2 [] n 0 (by decide)
  unfold parseJson
  simp only [utf8Decode_stringBytes, hn, hhead, h, List.dropWhile_nil, if_true]

theorem unmarshalCursorPayload_encode (sortAt id : String) :
    unmarshalCursorPayload
      (stringBytes ⟨(Json.obj [("sortAt", .str sortAt), ("id", .str id)]).encode⟩) =
      some { SortAt := sortAt, ID := id } := by
  have k1 : keyNamesField "sortAt" "sortAt" = true := by decide
  have k2 : keyNamesField "id" "sortAt" = false := by decide
  have k3 : keyNamesField "id" "id" = true := by decide
  unfold unmarshalCursorPayload
  rw [parseJson_object]
  simp [assignCursorMember, k1, k2, k3]

theorem base64Encode_ne_nil (b : Nat) (bs : List Nat) : base64Encode (b :: bs) ≠ [] := by
  match bs with
  | [] => simp [base64Encode]
  | [b1] => simp [base64Encode]
  | b1 :: b2 :: rest => simp [base64Encode]

theorem decodeSearchCursor_encode (sortAt id : String) (hs : sortAt ≠ "") (hid : id ≠ "") :
    ∃ token, encodeSearchCursor { SortAt := sortAt, ID := id } = .ok token ∧
      decodeSearchCursor token =
        match parseRFC3339 sortAt.data with
        | some t => .ok (some { SortAt := t, ID := id })
        | none => .error "invalid cursor" := by
  refine ⟨_, rfl, ?_⟩
  have htrim : TrimSpace ⟨base64Encode (stringBytes
      ⟨(Json.obj [("sortAt", .str sortAt), ("id", .str id)]).encode⟩)⟩ =
      ⟨base64Encode (stringBytes
        ⟨(Json.obj [("sortAt", .str sortAt), ("id", .str id)]).encode⟩)⟩ := by
    unfold TrimSpace
    rw [trimSpaceChars_of_no_space _ (base64Encode_not_space _)]
  have hne : (⟨base64Encode (stringBytes
      ⟨(Json.obj [("sortAt", .str sortAt), ("id", .str id)]).encode⟩)⟩ : String) ≠ "" := by
    intro h
    have h2 := congrArg String.data h
    have h3 : charBytes '{' = [123] := by decide
    simp only [Json.encode, stringBytes, List.cons_append, List.flatMap_cons, h3] at h2
    exact base64Encode_ne_nil _ _ h2
  have hor : ¬ (id = "" ∨ sortAt = "") := by
    rintro (h | h)
    · exact hid h
    · exact hs h
  unfold decodeSearchCursor
  simp only [htrim, if_neg hne, base64Decode_encode _ (stringBytes_lt _),
    unmarshalCursorPayload_encode, if_neg hor]
  cases parseRFC3339 sortAt.data with
  | none => rfl
  | some t => rfl

theorem formatRFC3339Nano_ne_empty (t : Time) : formatRFC3339Nano t ≠ "" := by
  intro h
  have h2 := congrArg String.data h
  unfold formatRFC3339Nano at h2
  simp at h2

/-- Claim C5, amended: for every id that is not empty and every instant `t` whose year in
UTC is between 0 and 9999, `encodeSearchCursor` of the payload with `sortAt` the instant
formatted by `Format(time.RFC3339Nano)` in UTC and `id` the id returns a token, and
`decodeSearchCursor` of that token succeeds with a cursor whose `ID` is the id and whose
`SortAt` is the instant `t`. -/
theorem C5_cursor_roundtrip (id : String) (t : Int) (hid : id ≠ "") (h0 : 0 ≤ utcYear t)
    (h1 : utcYear t ≤ 9999) :
    ∃ token, encodeSearchCursor { SortAt := formatRFC3339Nano t, ID := id } = .ok token ∧
      decodeSearchCursor token = .ok (some { SortAt := t, ID := id }) := by
  obtain ⟨token, he, hd⟩ :=
    decodeSearchCursor_encode (formatRFC3339Nano t) id (formatRFC3339Nano_ne_empty t) hid
  rw [parseRFC3339_format t h0 h1] at hd
  exact ⟨token, he, hd⟩

set_option maxRecDepth 100000 in
theorem C5_cursor_roundtrip_witness :
    ("post-1" ≠ "" ∧ 0 ≤ utcYear 1700000001000000000 ∧ utcYear 1700000001000000000 ≤ 9999) ∧
      ∃ token, encodeSearchCursor
          { SortAt := formatRFC3339Nano 1700000001000000000, ID := "post-1" } = .ok token ∧
        decodeSearchCursor token = .ok (some { SortAt := 1700000001000000000, ID := "post-1" }) :=
  ⟨⟨by decide, by decide!, by decide!⟩,
    C5_cursor_roundtrip "post-1" 1700000001000000000 (by decide) (by decide!) (by decide!)⟩

set_option maxRecDepth 100000 in
/-- Claim C5 as stated fails for an instant in the year 10000: the first instant of that
year is formatted with a year of five digits, which `time.Parse` does not read, so
`decodeSearchCursor` answers `invalid cursor` for the token `encodeSearchCursor` made. -/
theorem C5_counterexample :
    ("a" : String) ≠ "" ∧
      formatRFC3339Nano 253402300800000000000 = "10000-01-01T00:00:00Z" ∧
      ∃ token, encodeSearchCursor
          { SortAt := formatRFC3339Nano 253402300800000000000, ID := "a" } = .ok token ∧
        decodeSearchCursor token = .error "invalid cursor" := by
  refine ⟨by decide, by decide!, ?_⟩
  obtain ⟨token, he, hd⟩ :=
    decodeSearchCursor_encode (formatRFC3339Nano 253402300800000000000) "a"
      (formatRFC3339Nano_ne_empty _) (by decide)
  have hp : parseRFC3339 (formatRFC3339Nano 253402300800000000000).data = none := by decide!
  rw [hp] at hd
  exact ⟨token, he, hd⟩

/-! ### Keyset pagination -/

theorem orderBy_total (a b : searchRow) : orderBy a b ∨ orderBy b a := by
  unfold orderBy
  have hs := le_total a.id b.id
  have ht := lt_trichotomy a.sortAt b.sortAt
  rcases ht with h | h | h
  · exact Or.inr (Or.inl h)
  · rcases hs with h2 | h2
    · exact Or.inr (Or.inr ⟨h, h2⟩)
    · exact Or.inl (Or.inr ⟨h.symm, h2⟩)
  · exact Or.inl (Or.inl h)

theorem orderBy_trans (a b c : searchRow) (h1 : orderBy a b) (h2 : orderBy b c) :
    orderBy a c := by
  unfold orderBy at *
  rcases h1 with h1 | ⟨h1, h1s⟩
  · rcases h2 with h2 | ⟨h2, _⟩
    · exact Or.inl (lt_trans h2 h1)
    · exact Or.inl (h2 ▸ h1)
  · rcases h2 with h2 | ⟨h2, h2s⟩
    · exact Or.inl (h1 ▸ h2)
    · exact Or.inr ⟨h2.trans h1, le_trans h2s h1s⟩

theorem orderBy_antisymm (a b : searchRow) (h1 : orderBy a b) (h2 : orderBy b a) : a = b := by
  unfold orderBy at *
  cases a with
  | mk aid atime =>
    cases b with
    | mk bid bt =>
      simp only at h1 h2
      rcases h1 with h1 | ⟨h1, h1s⟩
      · rcases h2 with h2 | ⟨h2, _⟩
        · exact absurd h1 (lt_asymm h2)
        · exact absurd h1 (by rw [h2]; exact lt_irrefl _)
      · rcases h2 with h2 | ⟨_, h2s⟩
        · exact absurd h2 (by rw [h1]; exact lt_irrefl _)
        · rw [h1, le_antisymm h1s h2s]

theorem sorted_insertionSort_orderBy (rows : List searchRow) :
    (rows.insertionSort orderBy).Sorted orderBy :=
  @List.sorted_insertionSort searchRow orderBy _ ⟨orderBy_total⟩ ⟨orderBy_trans⟩ rows

/-- Filtering commutes with the sort of `ORDER BY`. -/
theorem insertionSort_filter (p : searchRow → Bool) (rows : List searchRow) :
    (rows.filter p).insertionSort orderBy = (rows.insertionSort orderBy).filter p :=
  @List.eq_of_perm_of_sorted searchRow orderBy ⟨orderBy_antisymm⟩ _ _
    ((List.perm_insertionSort orderBy (rows.filter p)).trans
      ((List.perm_insertionSort orderBy rows).filter p).symm)
    (sorted_insertionSort_orderBy _) ((sorted_insertionSort_orderBy rows).filter p)

/-- In the sorted dataset with pairwise distinct keys every row satisfies the condition of
the cursor of every row before it. -/
theorem insertionSort_strict (rows : List searchRow)
    (hdistinct : rows.Pairwise (fun a b => ¬ (a.sortAt = b.sortAt ∧ a.id = b.id))) :
    (rows.insertionSort orderBy).Pairwise
      (fun a b => cursorCondition (some { SortAt := a.sortAt, ID := a.id }) b = true) := by
  have hsym : Symmetric (fun a b : searchRow => ¬ (a.sortAt = b.sortAt ∧ a.id = b.id)) := by
    intro a b h hab
    exact h ⟨hab.1.symm, hab.2.symm⟩
  have hd := ((List.perm_insertionSort orderBy rows).pairwise_iff (fun {x y} h => hsym h)).mpr hdistinct
  refine ((sorted_insertionSort_orderBy rows).and hd).imp ?_
  intro a b hab
  obtain ⟨ho, hne⟩ := hab
  unfold orderBy at ho
  simp only [cursorCondition, decide_eq_true_eq]
  rcases ho with h | ⟨h, hs⟩
  · exact Or.inl h
  · refine Or.inr ⟨h, lt_of_le_of_ne hs ?_⟩
    intro hid
    exact hne ⟨h.symm, hid.symm⟩

theorem cursorCondition_asymm (a b : searchRow)
    (h : cursorCondition (some { SortAt := a.sortAt, ID := a.id }) b = true) :
    cursorCondition (some { SortAt := b.sortAt, ID := b.id }) a = false := by
  simp only [cursorCondition, decide_eq_true_eq, decide_eq_false_iff_not] at *
  rintro (h2 | ⟨h2, h2s⟩)
  · rcases h with h | ⟨h, _⟩
    · exact lt_asymm h h2
    · rw [h] at h2
      exact lt_irrefl _ h2
  · rcases h with h | ⟨_, hs⟩
    · rw [h2] at h
      exact lt_irrefl _ h
    · exact lt_asymm hs h2s

theorem cursorCondition_irrefl (a : searchRow) :
    cursorCondition (some { SortAt := a.sortAt, ID := a.id }) a = false := by
  simp only [cursorCondition, decide_eq_false_iff_not]
  rintro (h | ⟨_, h⟩)
  · exact lt_irrefl _ h
  · exact lt_irrefl _ h

/-- In a strictly sorted list the rows after the cursor of a row are the rows behind it. -/
theorem filter_cursorCondition (front back : List searchRow) (last : searchRow)
    (h : (front ++ last :: back).Pairwise
      (fun a b => cursorCondition (some { SortAt := a.sortAt, ID := a.id }) b = true)) :
    (front ++ last :: back).filter
      (cursorCondition (some { SortAt := last.sortAt, ID := last.id })) = back := by
  rw [List.pairwise_append] at h
  obtain ⟨_, h2, h3⟩ := h
  rw [List.pairwise_cons] at h2
  rw [List.filter_append, List.filter_cons, cursorCondition_irrefl, List.filter_eq_nil_iff.mpr,
    List.filter_eq_self.mpr]
  · rfl
  · intro b hb
    exact h2.1 b hb
  · intro a ha
    rw [cursorCondition_asymm a last (h3 a ha last (List.mem_cons_self _ _))]
    decide

/-- The cursor of the item of a row is decoded to the row's instant and id. -/
theorem decodeSearchCursor_scanItem (row : searchRow) (hid : row.id ≠ "")
    (h0 : 0 ≤ utcYear row.sortAt) (h1 : utcYear row.sortAt ≤ 9999) :
    ∃ token, encodeSearchCursor
        { SortAt := (scanItem row).SortAt, ID := (scanItem row).ID } = .ok token ∧
      decodeSearchCursor token = .ok (some { SortAt := row.sortAt, ID := row.id }) := by
  obtain ⟨token, he, hd⟩ := decodeSearchCursor_encode (formatRFC3339Nano row.sortAt) row.id
    (formatRFC3339Nano_ne_empty row.sortAt) hid
  rw [parseRFC3339_format row.sortAt h0 h1] at hd
  exact ⟨token, he, hd⟩

/-- The last page: no more rows behind the cursor than the limit. -/
theorem searchPosts_last (rows : List searchRow) (m : Nat) (cursor : Option decodedCursor)
    (h : ((rows.insertionSort orderBy).filter (cursorCondition cursor)).length ≤ m + 1) :
    searchPosts rows ((m : Int) + 1) cursor =
      some (.ok ⟨((rows.insertionSort orderBy).filter (cursorCondition cursor)).map scanItem,
        none, false⟩) := by
  have h1 : ¬ ((m : Int) + 1 + 1 < 0) := by omega
  have h2 : ((m : Int) + 1 + 1).toNat = m + 2 := by omega
  unfold searchPosts queryRows
  simp only [if_neg h1, h2, insertionSort_filter]
  rw [List.take_of_length_le (by omega)]
  unfold buildSearchResponse
  have h3 : ¬ ((((List.map scanItem (List.filter (cursorCondition cursor)
      (List.insertionSort orderBy rows))).length : Nat) : Int) > (m : Int) + 1) := by
    rw [List.length_map]
    omega
  simp only [decide_eq_true_eq, if_neg h3, decide_eq_false h3, Bool.false_eq_true, if_false]

/-- A page with more rows behind it: the visible items are the first `limit` rows behind the
cursor and the next cursor is the cursor of the last of them. -/
theorem searchPosts_more (rows : List searchRow) (cursor : Option decodedCursor)
    (front back : List searchRow) (last next : searchRow) (token : String)
    (h : (rows.insertionSort orderBy).filter (cursorCondition cursor) =
      front ++ last :: next :: back)
    (htoken : encodeSearchCursor
      { SortAt := (scanItem last).SortAt, ID := (scanItem last).ID } = .ok token) :
    searchPosts rows ((front.length : Int) + 1) cursor =
      some (.ok ⟨(front ++ [last]).map scanItem, some token, true⟩) := by
  have h1 : ¬ ((front.length : Int) + 1 + 1 < 0) := by omega
  have h2 : ((front.length : Int) + 1 + 1).toNat = front.length + 2 := by omega
  have h4 : ((front.length : Int) + 1).toNat = front.length + 1 := by omega
  have h5 : ¬ ((front.length : Int) + 1 < 0) := by omega
  have e1 : (front ++ last :: next :: back).take (front.length + 2) = front ++ [last, next] := by
    rw [List.take_append_eq_append_take, List.take_of_length_le (by omega)]
    simp
  have e2 : (front ++ [last, next]).take (front.length + 1) = front ++ [last] := by
    rw [List.take_append_eq_append_take, List.take_of_length_le (by omega)]
    simp
  unfold searchPosts queryRows
  simp only [if_neg h1, h2, insertionSort_filter, h, e1]
  unfold buildSearchResponse
  have h3 : ((((List.map scanItem (front ++ [last, next])).length : Nat) : Int) >
      (front.length : Int) + 1) := by
    simp only [List.length_map, List.length_append, List.length_cons, List.length_nil]
    omega
  simp only [decide_eq_true_eq, if_pos h3, if_neg h5, h4, decide_eq_true h3]
  simp only [← List.map_take, e2]
  simp only [List.map_append, List.map_cons, List.map_nil, List.getLast?_concat, htoken,
    if_true]

theorem exists_split_at {α : Type} (l : List α) (m : Nat) (h : m + 1 < l.length) :
    ∃ front last next back, l = front ++ last :: next :: back ∧ front.length = m := by
  have h1 : (l.drop m).length = l.length - m := List.length_drop m l
  match hd : l.drop m with
  | [] =>
    rw [hd] at h1
    simp at h1
    omega
  | [a] =>
    rw [hd] at h1
    simp at h1
    omega
  | a :: b :: rest =>
    exact ⟨l.take m, a, b, rest, by rw [← hd, List.take_append_drop],
      by rw [List.length_take]; omega⟩

/-- The walk from a cursor collects the rows behind the cursor. -/
theorem walkPages_from (rows : List searchRow) (m : Nat)
    (hstrict : (rows.insertionSort orderBy).Pairwise
      (fun a b => cursorCondition (some { SortAt := a.sortAt, ID := a.id }) b = true))
    (hvalid : ∀ row ∈ rows.insertionSort orderBy,
      row.id ≠ "" ∧ 0 ≤ utcYear row.sortAt ∧ utcYear row.sortAt ≤ 9999) :
    ∀ (fuel : Nat) (pre rem : List searchRow) (token : Option String)
      (cursor : Option decodedCursor),
      rows.insertionSort orderBy = pre ++ rem →
      decodeSearchCursor (valueOrEmpty token) = .ok cursor →
      (rows.insertionSort orderBy).filter (cursorCondition cursor) = rem →
      rem.length < fuel →
      ∃ pages, walkPages rows ((m : Int) + 1) fuel token = .done pages ∧
        pages.flatten = rem.map scanItem := by
  intro fuel
  induction fuel with
  | zero =>
    intro pre rem token cursor _ _ _ hlen
    omega
  | succ fuel ih =>
    intro pre rem token cursor hS hdec hfil hlen
    by_cases hcase : rem.length ≤ m + 1
    · refine ⟨[rem.map scanItem], ?_, by simp⟩
      have hp := searchPosts_last rows m cursor (by rw [hfil]; exact hcase)
      rw [hfil] at hp
      simp only [walkPages, hdec, hp, Bool.false_eq_true, if_false]
    · obtain ⟨front, last, next, back, hrem, hfront⟩ := exists_split_at rem m (by omega)
      subst hfront
      have hS2 : rows.insertionSort orderBy = (pre ++ front) ++ last :: (next :: back) := by
        rw [hS, hrem, List.append_assoc]
      have hmem : last ∈ rows.insertionSort orderBy := by
        rw [hS2]
        simp
      obtain ⟨hid, h0, h1⟩ := hvalid last hmem
      obtain ⟨tok, he, hd⟩ := decodeSearchCursor_scanItem last hid h0 h1
      have hp := searchPosts_more rows cursor front back last next tok (hfil.trans hrem) he
      have hfil2 : (rows.insertionSort orderBy).filter
          (cursorCondition (some { SortAt := last.sortAt, ID := last.id })) = next :: back := by
        have hstrict2 := hstrict
        rw [hS2] at hstrict2 ⊢
        exact filter_cursorCondition (pre ++ front) (next :: back) last hstrict2
      have hlen2 : (next :: back).length < fuel := by
        rw [hrem] at hlen
        simp only [List.length_append, List.length_cons] at hlen ⊢
        omega
      obtain ⟨pages, hw, hj⟩ := ih (pre ++ front ++ [last]) (next :: back) (some tok)
        (some { SortAt := last.sortAt, ID := last.id }) (by rw [hS2]; simp) hd hfil2 hlen2
      refine ⟨(front ++ [last]).map scanItem :: pages, ?_, ?_⟩
      · simp only [walkPages, hdec, hp, if_true, hw]
      · rw [List.flatten_cons, hj, hrem]
        simp

/-- Claim C4, amended: for every finite dataset of rows with pairwise distinct
`(sortAt, id)`, ids that are not empty and instants whose year in UTC is between 0 and 9999,
and every limit of at least 1, the walk over the pages (request a page with the cursor of the
previous response, stop when `hasMore` is false) ends after at most as many requests as the
dataset has rows plus one, and the concatenation of its pages is the whole dataset in the
order of `ORDER BY sort_at DESC, id DESC`, which is a permutation of the dataset. -/
theorem C4_walk_equals_fetch (rows : List searchRow) (limit : Int) (fuel : Nat)
    (hlimit : 1 ≤ limit)
    (hdistinct : rows.Pairwise (fun a b => ¬ (a.sortAt = b.sortAt ∧ a.id = b.id)))
    (hid : ∀ row ∈ rows, row.id ≠ "")
    (hyear : ∀ row ∈ rows, 0 ≤ utcYear row.sortAt ∧ utcYear row.sortAt ≤ 9999)
    (hfuel : rows.length < fuel) :
    ∃ pages, walkPages rows limit fuel none = .done pages ∧
      pages.flatten = fetchAll rows ∧ (pages.flatten).Perm (rows.map scanItem) := by
  obtain ⟨m, hm⟩ : ∃ m : Nat, limit = (m : Int) + 1 := ⟨(limit - 1).toNat, by omega⟩
  subst hm
  have hperm := List.perm_insertionSort orderBy rows
  have hvalid : ∀ row ∈ rows.insertionSort orderBy,
      row.id ≠ "" ∧ 0 ≤ utcYear row.sortAt ∧ utcYear row.sortAt ≤ 9999 := by
    intro row hrow
    have hmem := hperm.subset hrow
    exact ⟨hid row hmem, hyear row hmem⟩
  have hdec : decodeSearchCursor (valueOrEmpty none) = .ok none := by rfl
  have hfil : (rows.insertionSort orderBy).filter (cursorCondition none) =
      rows.insertionSort orderBy := by
    rw [List.filter_eq_self]
    intro row _
    rfl
  obtain ⟨pages, hw, hj⟩ := walkPages_from rows m (insertionSort_strict rows hdistinct) hvalid
    fuel [] (rows.insertionSort orderBy) none none rfl hdec hfil (by rw [hperm.length_eq]; exact hfuel)
  refine ⟨pages, hw, hj, ?_⟩
  rw [hj]
  exact hperm.map scanItem

set_option maxRecDepth 100000 in
theorem C4_walk_equals_fetch_witness :
    ((1 : Int) ≤ 2 ∧
      sampleRows.Pairwise (fun a b => ¬ (a.sortAt = b.sortAt ∧ a.id = b.id)) ∧
      (∀ row ∈ sampleRows, row.id ≠ "") ∧
      (∀ row ∈ sampleRows, 0 ≤ utcYear row.sortAt ∧ utcYear row.sortAt ≤ 9999) ∧
      sampleRows.length < 6) ∧
    ∃ pages, walkPages sampleRows 2 6 none = .done pages ∧
      pages.flatten = fetchAll sampleRows ∧ (pages.flatten).Perm (sampleRows.map scanItem) :=
  ⟨⟨by decide, by decide!, by decide!, by decide!, by decide⟩,
    C4_walk_equals_fetch sampleRows 2 6 (by decide) (by decide!) (by decide!) (by decide!)
      (by decide)⟩

set_option maxRecDepth 100000 in
/-- Claim C4 as stated fails on a dataset with a row in the year 10000, and on a dataset with
a row whose id is empty: the rows are pairwise distinct and the limit is 1, the first page
shows that row with `hasMore` true, and the request with its `nextCursor` is rejected with
`invalid cursor`, so no walk of any length ends. -/
theorem C4_counterexample :
    (rowsYear10000.Pairwise (fun a b => ¬ (a.sortAt = b.sortAt ∧ a.id = b.id)) ∧
      searchPosts rowsYear10000 1 none = some (.ok ⟨[⟨"b", "10000-01-01T00:00:00Z"⟩],
        some "eyJzb3J0QXQiOiIxMDAwMC0wMS0wMVQwMDowMDowMFoiLCJpZCI6ImIifQ", true⟩) ∧
      (∀ fuel, walkPages rowsYear10000 1 (fuel + 2) none = .rejected "invalid cursor") ∧
      ¬ ∃ fuel pages, walkPages rowsYear10000 1 fuel none = .done pages) ∧
    (rowsEmptyId.Pairwise (fun a b => ¬ (a.sortAt = b.sortAt ∧ a.id = b.id)) ∧
      (∀ fuel, walkPages rowsEmptyId 1 (fuel + 2) none = .rejected "invalid cursor") ∧
      ¬ ∃ fuel pages, walkPages rowsEmptyId 1 fuel none = .done pages) := by
  have hdec : decodeSearchCursor (valueOrEmpty none) = .ok none := by rfl
  have hp1 : searchPosts rowsYear10000 1 none = some (.ok ⟨[⟨"b", "10000-01-01T00:00:00Z"⟩],
      some "eyJzb3J0QXQiOiIxMDAwMC0wMS0wMVQwMDowMDowMFoiLCJpZCI6ImIifQ", true⟩) := by rfl
  have hd1 : decodeSearchCursor (valueOrEmpty
      (some "eyJzb3J0QXQiOiIxMDAwMC0wMS0wMVQwMDowMDowMFoiLCJpZCI6ImIifQ")) =
      .error "invalid cursor" := by rfl
  have hp2 : searchPosts rowsEmptyId 1 none =
      some (.ok ⟨[⟨"", "1970-01-01T00:00:00.000000005Z"⟩],
        some "eyJzb3J0QXQiOiIxOTcwLTAxLTAxVDAwOjAwOjAwLjAwMDAwMDAwNVoiLCJpZCI6IiJ9",
        true⟩) := by rfl
  have hd2 : decodeSearchCursor (valueOrEmpty
      (some "eyJzb3J0QXQiOiIxOTcwLTAxLTAxVDAwOjAwOjAwLjAwMDAwMDAwNVoiLCJpZCI6IiJ9")) =
      .error "invalid cursor" := by rfl
  have hw1 : ∀ fuel, walkPages rowsYear10000 1 (fuel + 2) none = .rejected "invalid cursor" := by
    intro fuel
    simp only [walkPages, hdec, hp1, if_true, hd1]
  have hw2 : ∀ fuel, walkPages rowsEmptyId 1 (fuel + 2) none = .rejected "invalid cursor" := by
    intro fuel
    simp only [walkPages, hdec, hp2, if_true, hd2]
  refine ⟨⟨by decide!, hp1, hw1, ?_⟩, ⟨by decide!, hw2, ?_⟩⟩
  · rintro ⟨fuel, pages, h⟩
    match fuel with
    | 0 => simp [walkPages] at h
    | 1 => simp [walkPages, hdec, hp1] at h
    | fuel + 2 =>
      rw [hw1 fuel] at h
      exact Walk.noConfusion h
  · rintro ⟨fuel, pages, h⟩
    match fuel with
    | 0 => simp [walkPages] at h
    | 1 => simp [walkPages, hdec, hp2] at h
    | fuel + 2 =>
      rw [hw2 fuel] at h
      exact Walk.noConfusion h

/-! ### The canonical string -/

/-- Claim C11, amended: for every `SignatureInput`, `CanonicalString(input)` is the six strings
upper-case of the method trimmed of surrounding white space, path, `canonicalQuery(RawQuery)`,
timestamp, nonce and lower-case of the body hash trimmed of surrounding white space, in that
order, with a single newline between neighbours. -/
theorem C11_canonical_layout (input : SignatureInput) :
    CanonicalString input =
      ToUpper (TrimSpace input.Method) ++ "\n" ++ input.Path ++ "\n"
        ++ canonicalQuery input.RawQuery ++ "\n" ++ input.Timestamp ++ "\n" ++ input.Nonce
        ++ "\n" ++ ToLower (TrimSpace input.BodyHash) := by
  apply String.ext
  simp only [CanonicalString, Join, canonicalFields, List.map_cons, List.map_nil, joinChars,
    String.data_append, List.append_assoc]

/-- Claim C11 as stated fails for a method or body hash with surrounding white space: the
canonical string of `paddedInput` starts with `GET` and ends with `ab`, while the upper-case
of its method is ` GET` and the lower-case of its body hash is `ab `. -/
theorem C11_counterexample :
    CanonicalString paddedInput = "GET\n/p\n\n1\nn\nab" ∧
      ToUpper paddedInput.Method ++ "\n" ++ paddedInput.Path ++ "\n"
        ++ canonicalQuery paddedInput.RawQuery ++ "\n" ++ paddedInput.Timestamp ++ "\n"
        ++ paddedInput.Nonce ++ "\n" ++ ToLower paddedInput.BodyHash = " GET\n/p\n\n1\nn\nab " ∧
      CanonicalString paddedInput ≠
        ToUpper paddedInput.Method ++ "\n" ++ paddedInput.Path ++ "\n"
          ++ canonicalQuery paddedInput.RawQuery ++ "\n" ++ paddedInput.Timestamp ++ "\n"
          ++ paddedInput.Nonce ++ "\n" ++ ToLower paddedInput.BodyHash := by
  decide

set_option maxRecDepth 100000 in
/-- Claim C13: the canonical query of an empty raw query is the empty string, the canonical
string of an input with an empty raw query has an empty line between the path and the
timestamp, and the canonical string of the golden vector is the reference text. -/
theorem C13_empty_query_golden :
    canonicalQuery "" = "" ∧
      (∀ method path timestamp nonce bodyHash : String,
        CanonicalString ⟨method, path, "", timestamp, nonce, bodyHash⟩ =
          ToUpper (TrimSpace method) ++ "\n" ++ path ++ "\n" ++ "" ++ "\n" ++ timestamp ++ "\n"
            ++ nonce ++ "\n" ++ ToLower (TrimSpace bodyHash)) ∧
      SHA256Hex [] = "e3b0c44298fc1c149afbf4c8996fb92427ae41e4649b934ca495991b7852b855" ∧
      CanonicalString goldenInput =
        "GET\n/v1/public/posts\n\n1700000000000\nabc123\ne3b0c44298fc1c149afbf4c8996fb92427ae41e4649b934ca495991b7852b855" := by
  refine ⟨by decide, ?_, by decide!, by decide!⟩
  intro method path timestamp nonce bodyHash
  apply String.ext
  simp only [CanonicalString, Join, canonicalFields, List.map_cons, List.map_nil, joinChars,
    String.data_append, List.append_assoc]
  rfl

/-! ### Verification fails closed -/

theorem sha256Round_length (v : List Nat) (kw : Nat × Nat) :
    (sha256Round v kw).length = v.length := by
  unfold sha256Round
  split <;> simp

theorem foldl_sha256Round_length (l : List (Nat × Nat)) (v : List Nat) :
    (l.foldl sha256Round v).length = v.length := by
  induction l generalizing v with
  | nil => rfl
  | cons kw l ih => rw [List.foldl_cons, ih, sha256Round_length]

theorem sha256Block_length (h block : List Nat) : (sha256Block h block).length = h.length := by
  unfold sha256Block
  rw [List.length_zipWith, foldl_sha256Round_length, Nat.min_self]

theorem foldl_sha256Block_length (blocks : List (List Nat)) (h : List Nat) :
    (blocks.foldl sha256Block h).length = h.length := by
  induction blocks generalizing h with
  | nil => rfl
  | cons b blocks ih => rw [List.foldl_cons, ih, sha256Block_length]

theorem flatMap_bytesBE_length (l : List Nat) : (l.flatMap bytesBE).length = 4 * l.length := by
  induction l with
  | nil => rfl
  | cons w l ih =>
    rw [List.flatMap_cons, List.length_append, ih]
    simp only [bytesBE, List.length_cons, List.length_nil]
    omega

/-- A SHA-256 hash has 32 bytes. -/
theorem sha256_length (msg : List Nat) : (sha256 msg).length = 32 := by
  unfold sha256
  simp only []
  rw [flatMap_bytesBE_length, foldl_sha256Block_length]
  rfl

theorem hmacSHA256_length (key msg : List Nat) : (hmacSHA256 key msg).length = 32 := by
  unfold hmacSHA256
  exact sha256_length _

theorem hexDecode_Sign (secret : String) (input : SignatureInput) :
    hexDecode (Sign secret input) =
      some (hmacSHA256 (stringBytes secret) (stringBytes (CanonicalString input))) := by
  simp only [Sign, hexDecode, hexEncode, hexDecodeChars_hexEncodeChars,
    map_mod_of_lt _ (hmacSHA256_lt _ _)]

/-- Claim C14, amended: `Verify` is a total function, the expected signature decodes to the
32 bytes of the MAC, and for every secret, input and supplied signature: when the supplied
signature, trimmed of surrounding white space and lower-cased, is not valid hexadecimal, or
decodes to a number of bytes other than 32, `Verify` returns false; and `Verify` returns true
exactly when the bytes decoded from the trimmed and lower-cased supplied signature are the
bytes decoded from the expected signature. -/
theorem C14_verify_fails_closed (secret : String) (input : SignatureInput)
    (signature : String) :
    (∃ mac, hexDecode (Sign secret input) = some mac ∧ mac.length = 32) ∧
      (hexDecode (ToLower (TrimSpace signature)) = none →
        Verify secret input signature = false) ∧
      (∀ bytes, hexDecode (ToLower (TrimSpace signature)) = some bytes → bytes.length ≠ 32 →
        Verify secret input signature = false) ∧
      (Verify secret input signature = true ↔
        hexDecode (ToLower (TrimSpace signature)) = hexDecode (Sign secret input)) := by
  have hs := hexDecode_Sign secret input
  have hl := hmacSHA256_length (stringBytes secret) (stringBytes (CanonicalString input))
  refine ⟨⟨_, hs, hl⟩, ?_, ?_, ?_⟩
  · intro h
    simp only [Verify, hs, h]
  · intro bytes h hne
    have hlen : (hmacSHA256 (stringBytes secret) (stringBytes (CanonicalString input))).length
        ≠ bytes.length := by
      rw [hl]
      exact fun h2 => hne h2.symm
    simp only [Verify, hs, h, if_pos hlen]
  · cases h : hexDecode (ToLower (TrimSpace signature)) with
    | none => simp only [Verify, hs, h, Bool.false_eq_true, reduceCtorEq]
    | some bytes =>
      simp only [Verify, hs, h, Option.some.injEq]
      by_cases hlen : (hmacSHA256 (stringBytes secret)
          (stringBytes (CanonicalString input))).length ≠ bytes.length
      · rw [if_pos hlen]
        constructor
        · intro h2
          exact absurd h2 (by simp)
        · intro h2
          rw [h2] at hlen
          exact absurd rfl hlen
      · rw [if_neg hlen, beq_iff_eq, ConstantTimeCompare_eq_one_iff]
        exact eq_comm

set_option maxRecDepth 100000 in
/-- Claim C14 as stated fails for a supplied signature with surrounding white space: the
signature of the golden vector with a space before it is not valid hexadecimal, and `Verify`
accepts it. -/
theorem C14_counterexample :
    hexDecode " 697c84b2bced7cc900671665ab26ef4f04973b4d87333c8201542b39fa68404f" = none ∧
      Verify "s3cr3t" goldenInput
        " 697c84b2bced7cc900671665ab26ef4f04973b4d87333c8201542b39fa68404f" = true := by
  decide!

/-! ### The response of a search -/

/-- Claim C20: for every limit of at least 1 and every list of fetched items,
`buildSearchResponse` returns a response (no error, no panic) with `hasMore` true exactly when
there are more items than the limit, with the first `min(len(items), limit)` items in their
order as the visible items, and with `nextCursor` the encoding of the cursor of the item at
position `limit` (the last visible item) when `hasMore` is true and no `nextCursor` when it
is false. -/
theorem C20_build_search_response {T : Type} (items : List T) (limit : Int)
    (cursorGetter : T → searchCursorPayload) (hlimit : 1 ≤ limit) :
    ∃ response, buildSearchResponse items limit cursorGetter = some (.ok response) ∧
      response.hasMore = decide ((items.length : Int) > limit) ∧
      response.items = items.take (min items.length limit.toNat) ∧
      (response.hasMore = true →
        ∃ last token, items[limit.toNat - 1]? = some last ∧
          response.items.getLast? = some last ∧
          encodeSearchCursor (cursorGetter last) = .ok token ∧
          response.nextCursor = some token) ∧
      (response.hasMore = false → response.nextCursor = none) := by
  by_cases hmore : (items.length : Int) > limit
  · have hneg : ¬ limit < 0 := by omega
    have hidx : limit.toNat - 1 < items.length := by omega
    have hn : limit.toNat ≠ 0 := by omega
    have hlast : (items.take limit.toNat).getLast? = some (items[limit.toNat - 1]) := by
      rw [List.getLast?_take, if_neg hn, List.getElem?_eq_getElem hidx]
      rfl
    have hmin : min items.length limit.toNat = limit.toNat := by omega
    refine ⟨⟨items.take limit.toNat,
      some ⟨base64Encode (stringBytes ⟨(Json.obj [("sortAt",
        .str (cursorGetter (items[limit.toNat - 1])).SortAt),
        ("id", .str (cursorGetter (items[limit.toNat - 1])).ID)]).encode⟩)⟩, true⟩, ?_, ?_, ?_, ?_, ?_⟩
    · simp only [buildSearchResponse, decide_eq_true_eq, if_pos hmore, if_neg hneg, hlast,
        encodeSearchCursor, decide_eq_true hmore, if_true]
    · simp only [decide_eq_true hmore]
    · simp only [hmin]
    · intro _
      exact ⟨items[limit.toNat - 1], _, List.getElem?_eq_getElem hidx, hlast, rfl, rfl⟩
    · intro h
      exact absurd h (by simp)
  · have hmin : min items.length limit.toNat = items.length := by omega
    refine ⟨⟨items, none, false⟩, ?_, ?_, ?_, ?_, ?_⟩
    · simp only [buildSearchResponse, decide_eq_true_eq, if_neg hmore, decide_eq_false hmore,
        Bool.false_eq_true, if_false]
    · simp only [decide_eq_false hmore]
    · simp only [hmin, List.take_length]
    · intro h
      exact absurd h (by simp)
    · intro _
      rfl

set_option maxRecDepth 100000 in
theorem C20_build_search_response_witness :
    (1 : Int) ≤ 2 ∧
      ∃ response, buildSearchResponse (List.map scanItem sampleRows) 2
          (fun item => { SortAt := item.SortAt, ID := item.ID }) = some (.ok response) ∧
        response.hasMore = decide ((((List.map scanItem sampleRows).length : Nat) : Int) > 2) ∧
        response.items = (List.map scanItem sampleRows).take
          (min (List.map scanItem sampleRows).length (2 : Int).toNat) ∧
        (response.hasMore = true →
          ∃ last token, (List.map scanItem sampleRows)[(2 : Int).toNat - 1]? = some last ∧
            response.items.getLast? = some last ∧
            encodeSearchCursor { SortAt := last.SortAt, ID := last.ID } = .ok token ∧
            response.nextCursor = some token) ∧
        (response.hasMore = false → response.nextCursor = none) :=
  ⟨by decide, C20_build_search_response (List.map scanItem sampleRows) 2
    (fun item => { SortAt := item.SortAt, ID := item.ID }) (by decide)⟩

/-! ### Calls of the operation -/

/-- A successful `BeginIdempotency` carries a response exactly when it does not grant
ownership. -/
theorem BeginIdempotency_owned (table : List IdempotencyRow) (now : Time)
    (insertFault selectFault : Option String) (key requestHash : String)
    (result : IdempotencyResult)
    (h : (BeginIdempotency table now insertFault selectFault key requestHash).1 = .ok result) :
    (result.Owned = true ∧ result.Response = none) ∨
      (result.Owned = false ∧ ∃ response, result.Response = some response) := by
  cases insertFault with
  | some reason => simp [BeginIdempotency] at h
  | none =>
    by_cases hany : table.any (fun row => row.key = key) = true
    · cases selectFault with
      | some reason => simp [BeginIdempotency, hany] at h
      | none =>
        cases hfind : table.find? (fun row => row.key = key) with
        | none => simp [BeginIdempotency, hany, hfind] at h
        | some row =>
          by_cases hhash : row.request_hash = requestHash
          · by_cases hstatus : row.status = "completed"
            · cases hum : unmarshalMap (jsonbText (row.response.getD (.obj []))) with
              | error e => simp [BeginIdempotency, hany, hfind, hhash, hstatus, hum] at h
              | ok payload =>
                simp [BeginIdempotency, hany, hfind, hhash, hstatus, hum] at h
                subst h
                exact Or.inr ⟨rfl, _, rfl⟩
            · simp [BeginIdempotency, hany, hfind, hhash, hstatus] at h
          · simp [BeginIdempotency, hany, hfind, hhash] at h
    · simp [BeginIdempotency, hany] at h
      subst h
      exact Or.inl ⟨rfl, rfl⟩

/-- Claim C17: for every request, `runWithIdempotency` invokes `execute` at most once, and
invokes it exactly when the request carries no idempotency key (`Header.Get` answers the empty
string) or `BeginIdempotency` granted ownership of the key; without a key the table
`idempotency_keys` is not written and the outcome does not depend on it; when
`BeginIdempotency` fails (conflict, in progress, or another error) or returns a stored
response, `execute` is not invoked. The calls are counted by `countCalls`. -/
theorem C17_execute_calls {σ : Type} (table : List IdempotencyRow) (now : Time)
    (faults : IdempotencyFaults) (idempotencyKey : String) (payload : Json)
    (execute : σ → Except StoreError Json × σ) (world : σ) :
    (runWithIdempotency table now faults idempotencyKey payload (countCalls execute)
        (world, 0)).world.2 ≤ 1 ∧
      ((runWithIdempotency table now faults idempotencyKey payload (countCalls execute)
          (world, 0)).world.2 = 1 ↔
        (idempotencyKey = "" ∨
          ∃ result, (BeginIdempotency table now faults.insert faults.select idempotencyKey
            (payloadHash payload)).1 = .ok result ∧ result.Owned = true)) ∧
      (idempotencyKey = "" →
        (runWithIdempotency table now faults idempotencyKey payload (countCalls execute)
          (world, 0)).table = table ∧
        ∀ other : List IdempotencyRow,
          (runWithIdempotency other now faults idempotencyKey payload execute world).ok =
            (runWithIdempotency table now faults idempotencyKey payload execute world).ok ∧
          (runWithIdempotency other now faults idempotencyKey payload execute world).err =
            (runWithIdempotency table now faults idempotencyKey payload execute world).err ∧
          (runWithIdempotency other now faults idempotencyKey payload execute world).written =
            (runWithIdempotency table now faults idempotencyKey payload execute world).written ∧
          (runWithIdempotency other now faults idempotencyKey payload execute world).world =
            (runWithIdempotency table now faults idempotencyKey payload execute world).world) ∧
      (∀ err, (BeginIdempotency table now faults.insert faults.select idempotencyKey
          (payloadHash payload)).1 = .error err → idempotencyKey ≠ "" →
        (runWithIdempotency table now faults idempotencyKey payload (countCalls execute)
          (world, 0)).world.2 = 0) ∧
      (∀ result response, (BeginIdempotency table now faults.insert faults.select idempotencyKey
          (payloadHash payload)).1 = .ok result → result.Response = some response →
        idempotencyKey ≠ "" →
        (runWithIdempotency table now faults idempotencyKey payload (countCalls execute)
          (world, 0)).world.2 = 0) := by
  by_cases hkey : idempotencyKey = ""
  · have hcount : (runWithIdempotency table now faults idempotencyKey payload
        (countCalls execute) (world, 0)).world.2 = 1 ∧
        (runWithIdempotency table now faults idempotencyKey payload
        (countCalls execute) (world, 0)).table = table := by
      simp only [runWithIdempotency, if_pos hkey]
      rcases hex : execute world with ⟨res, w1⟩
      cases res <;> simp [countCalls, hex]
    refine ⟨by omega, ⟨fun _ => Or.inl hkey, fun _ => hcount.1⟩, fun _ => ⟨hcount.2, ?_⟩,
      fun _ _ hne => absurd hkey hne, fun _ _ _ _ hne => absurd hkey hne⟩
    intro other
    simp only [runWithIdempotency, if_pos hkey]
    rcases execute world with ⟨res, w1⟩
    cases res <;> simp
  · rcases hb : BeginIdempotency table now faults.insert faults.select idempotencyKey
      (payloadHash payload) with ⟨res, table1⟩
    cases res with
    | error e =>
      have hzero : (runWithIdempotency table now faults idempotencyKey payload
          (countCalls execute) (world, 0)).world.2 = 0 := by
        simp only [runWithIdempotency, if_neg hkey, hb]
      refine ⟨by omega, ⟨fun h => by omega, ?_⟩, fun h => absurd h hkey, fun _ _ _ => hzero,
        fun _ _ _ _ _ => hzero⟩
      rintro (h | ⟨result, h, _⟩)
      · exact absurd h hkey
      · simp at h
    | ok result =>
      have hown := BeginIdempotency_owned table now faults.insert faults.select idempotencyKey
        (payloadHash payload) result (by rw [hb])
      rcases hown with ⟨hown, hresp⟩ | ⟨hown, response, hresp⟩
      · have hone : (runWithIdempotency table now faults idempotencyKey payload
            (countCalls execute) (world, 0)).world.2 = 1 := by
          simp only [runWithIdempotency, if_neg hkey, hb, hresp]
          rcases hex : execute world with ⟨res, w1⟩
          cases res with
          | error e => simp [countCalls, hex]
          | ok value =>
            simp only [countCalls, hex]
            rcases hfin : FinalizeIdempotency table1 now faults.finalize idempotencyKey
              (payloadHash payload) value with ⟨ferr, table2⟩
            cases ferr <;> simp
        refine ⟨by omega, ⟨fun _ => Or.inr ⟨result, rfl, hown⟩, fun _ => hone⟩,
          fun h => absurd h hkey, fun err h _ => by simp at h, ?_⟩
        intro result2 response2 h hr _
        simp only [Except.ok.injEq] at h
        subst h
        rw [hresp] at hr
        simp at hr
      · have hzero : (runWithIdempotency table now faults idempotencyKey payload
            (countCalls execute) (world, 0)).world.2 = 0 := by
          simp only [runWithIdempotency, if_neg hkey, hb, hresp]
        refine ⟨by omega, ⟨fun h => by omega, ?_⟩, fun h => absurd h hkey,
          fun _ _ _ => hzero, fun _ _ _ _ _ => hzero⟩
        rintro (h | ⟨result2, h, hown2⟩)
        · exact absurd h hkey
        · simp only [Except.ok.injEq] at h
          subst h
          rw [hown] at hown2
          simp at hown2

/-! ### Records of the idempotency table -/

/-- The table after `BeginIdempotency`: the table before it, or the table before it with a
record under a key that had none. -/
theorem BeginIdempotency_table (table : List IdempotencyRow) (now : Time)
    (insertFault selectFault : Option String) (key requestHash : String) :
    (BeginIdempotency table now insertFault selectFault key requestHash).2 = table ∨
      ((∀ row ∈ table, row.key ≠ key) ∧
        (BeginIdempotency table now insertFault selectFault key requestHash).2 =
          table ++ [{ key := key, request_hash := requestHash, status := "in_progress",
                      response := none, created_at := now, updated_at := now }]) := by
  cases insertFault with
  | some reason => exact Or.inl (by simp [BeginIdempotency])
  | none =>
    by_cases hany : table.any (fun row => row.key = key) = true
    · left
      cases selectFault with
      | some reason => simp [BeginIdempotency, hany]
      | none =>
        cases hfind : table.find? (fun row => row.key = key) with
        | none => simp [BeginIdempotency, hany, hfind]
        | some row =>
          by_cases hhash : row.request_hash = requestHash
          · by_cases hstatus : row.status = "completed"
            · cases hum : unmarshalMap (jsonbText (row.response.getD (.obj []))) <;>
                simp [BeginIdempotency, hany, hfind, hhash, hstatus, hum]
            · simp [BeginIdempotency, hany, hfind, hhash, hstatus]
          · simp [BeginIdempotency, hany, hfind, hhash]
    · right
      refine ⟨?_, by simp [BeginIdempotency, hany]⟩
      intro row hrow hkey
      apply hany
      rw [List.any_eq_true]
      exact ⟨row, hrow, by simp [hkey]⟩

/-- One call keeps the keys distinct and keeps the key and the request hash of every
record. -/
theorem IdempotencyCall_run_inv (table : List IdempotencyRow) (call : IdempotencyCall)
    (hnodup : (table.map (fun row => row.key)).Nodup) :
    ((call.run table).map (fun row => row.key)).Nodup ∧
      ∀ row ∈ table, ∃ after ∈ call.run table,
        after.key = row.key ∧ after.request_hash = row.request_hash ∧
          after.created_at = row.created_at := by
  cases call with
  | beginCall now insertFault selectFault key requestHash =>
    simp only [IdempotencyCall.run]
    rcases BeginIdempotency_table table now insertFault selectFault key requestHash with
      h | ⟨hfresh, h⟩
    · rw [h]
      exact ⟨hnodup, fun row hrow => ⟨row, hrow, rfl, rfl, rfl⟩⟩
    · rw [h]
      refine ⟨?_, fun row hrow => ⟨row, List.mem_append_left _ hrow, rfl, rfl, rfl⟩⟩
      rw [List.map_append, List.nodup_append]
      refine ⟨hnodup, by simp, ?_⟩
      intro k hk1 hk2
      simp only [List.map_cons, List.map_nil, List.mem_singleton] at hk2
      rw [List.mem_map] at hk1
      obtain ⟨row, hrow, hkey⟩ := hk1
      exact hfresh row hrow (hkey.trans hk2)
  | finalizeCall now fault key requestHash response =>
    simp only [IdempotencyCall.run]
    cases fault with
    | some reason =>
      simp only [FinalizeIdempotency]
      exact ⟨hnodup, fun row hrow => ⟨row, hrow, rfl, rfl, rfl⟩⟩
    | none =>
      simp only [FinalizeIdempotency]
      constructor
      · rw [List.map_map]
        have hkeys : ((fun row : IdempotencyRow => row.key) ∘ fun row : IdempotencyRow =>
            if row.key = key ∧ row.request_hash = requestHash then
              { row with status := "completed", response := some response, updated_at := now }
            else row) = fun row => row.key := by
          funext row
          simp only [Function.comp]
          split_ifs <;> rfl
        rw [hkeys]
        exact hnodup
      · intro row hrow
        refine ⟨_, List.mem_map_of_mem _ hrow, ?_⟩
        split_ifs <;> exact ⟨rfl, rfl, rfl⟩

/-- A call that carries another hash than the record of its key leaves the table as it
is. -/
theorem IdempotencyCall_run_other_hash (table : List IdempotencyRow) (call : IdempotencyCall)
    (row : IdempotencyRow) (hnodup : (table.map (fun row => row.key)).Nodup)
    (hrow : row ∈ table) (hkey : row.key = call.key)
    (hhash : row.request_hash ≠ call.requestHash) : call.run table = table := by
  cases call with
  | beginCall now insertFault selectFault key requestHash =>
    simp only [IdempotencyCall.run]
    simp only [IdempotencyCall.key] at hkey
    rcases BeginIdempotency_table table now insertFault selectFault key requestHash with
      h | ⟨hfresh, _⟩
    · exact h
    · exact absurd hkey (hfresh row hrow)
  | finalizeCall now fault key requestHash response =>
    simp only [IdempotencyCall.run]
    simp only [IdempotencyCall.key] at hkey
    simp only [IdempotencyCall.requestHash] at hhash
    cases fault with
    | some reason => simp only [FinalizeIdempotency]
    | none =>
      simp only [FinalizeIdempotency]
      conv => rhs; rw [← List.map_id table]
      apply List.map_congr_left
      intro other hother
      have hno : ¬ (other.key = key ∧ other.request_hash = requestHash) := by
        rintro ⟨hk, hh⟩
        have heq : other = row := by
          have hinj := List.inj_on_of_nodup_map hnodup hother hrow
          exact hinj (hk.trans hkey.symm)
        rw [heq] at hh
        exact hhash hh
      rw [if_neg hno]
      rfl

theorem runCalls_inv (calls : List IdempotencyCall) (table : List IdempotencyRow)
    (hnodup : (table.map (fun row => row.key)).Nodup) :
    ((runCalls table calls).map (fun row => row.key)).Nodup ∧
      ∀ row ∈ table, ∃ after ∈ runCalls table calls,
        after.key = row.key ∧ after.request_hash = row.request_hash ∧
          after.created_at = row.created_at := by
  induction calls generalizing table with
  | nil => exact ⟨hnodup, fun row hrow => ⟨row, hrow, rfl, rfl, rfl⟩⟩
  | cons call calls ih =>
    obtain ⟨h1, h2⟩ := IdempotencyCall_run_inv table call hnodup
    obtain ⟨h3, h4⟩ := ih (call.run table) h1
    refine ⟨h3, fun row hrow => ?_⟩
    obtain ⟨mid, hmid, hk, hh, hc⟩ := h2 row hrow
    obtain ⟨after, hafter, hk2, hh2, hc2⟩ := h4 mid hmid
    exact ⟨after, hafter, hk2.trans hk, hh2.trans hh, hc2.trans hc⟩

/-- Claim C15: from a table with at most one record for each key, after every sequence of
`BeginIdempotency` and `FinalizeIdempotency` calls (with any answers of the database driver)
the table has at most one record for each key, every record of the table before the calls
still has a record under its key with the same request hash (and time of creation), and a
further call that carries the key of a record and another request hash leaves the whole
table, and so that record, unchanged. -/
theorem C15_record_invariants (table : List IdempotencyRow) (calls : List IdempotencyCall)
    (hnodup : (table.map (fun row => row.key)).Nodup) :
    ((runCalls table calls).map (fun row => row.key)).Nodup ∧
      (∀ row ∈ table, ∃ after ∈ runCalls table calls,
        after.key = row.key ∧ after.request_hash = row.request_hash ∧
          after.created_at = row.created_at) ∧
      (∀ (call : IdempotencyCall) (row : IdempotencyRow), row ∈ runCalls table calls →
        row.key = call.key → row.request_hash ≠ call.requestHash →
        call.run (runCalls table calls) = runCalls table calls) := by
  obtain ⟨h1, h2⟩ := runCalls_inv calls table hnodup
  exact ⟨h1, h2, fun call row hrow hkey hhash =>
    IdempotencyCall_run_other_hash _ call row h1 hrow hkey hhash⟩

theorem C15_record_invariants_witness :
    (sampleTable.map (fun row => row.key)).Nodup ∧
      (((runCalls sampleTable sampleCalls).map (fun row => row.key)).Nodup ∧
      (∀ row ∈ sampleTable, ∃ after ∈ runCalls sampleTable sampleCalls,
        after.key = row.key ∧ after.request_hash = row.request_hash ∧
          after.created_at = row.created_at) ∧
      (∀ (call : IdempotencyCall) (row : IdempotencyRow),
        row ∈ runCalls sampleTable sampleCalls →
        row.key = call.key → row.request_hash ≠ call.requestHash →
        call.run (runCalls sampleTable sampleCalls) = runCalls sampleTable sampleCalls)) :=
  ⟨by decide, C15_record_invariants sampleTable sampleCalls (by decide)⟩

/-- Claim C16, amended: `FinalizeIdempotency` changes nothing when the database call fails;
otherwise it returns no error, keeps the number and the order of the records, turns every
record whose key and stored request hash are the given key and hash into a completed record
with the given response (whatever the status of the record was, in progress or completed),
and leaves every other record as it is. So an in-progress record of the key with that hash is
completed, and a completed record keeps its stored response under every later call that
carries another key or another hash. -/
theorem C16_finalize_rows (table : List IdempotencyRow) (now : Time) (key requestHash : String)
    (response : Json) :
    (∀ reason, FinalizeIdempotency table now (some reason) key requestHash response =
      (some (.database reason), table)) ∧
    (FinalizeIdempotency table now none key requestHash response).1 = none ∧
    (FinalizeIdempotency table now none key requestHash response).2.length = table.length ∧
    ∀ (i : Nat) (row : IdempotencyRow), table[i]? = some row →
      (row.key = key ∧ row.request_hash = requestHash →
        (FinalizeIdempotency table now none key requestHash response).2[i]? =
          some { row with status := "completed", response := some response,
                          updated_at := now }) ∧
      (¬ (row.key = key ∧ row.request_hash = requestHash) →
        (FinalizeIdempotency table now none key requestHash response).2[i]? = some row) := by
  refine ⟨fun reason => rfl, rfl, by simp [FinalizeIdempotency], ?_⟩
  intro i row hrow
  simp only [FinalizeIdempotency, List.getElem?_map, hrow, Option.map_some']
  exact ⟨fun h => by rw [if_pos h], fun h => by rw [if_neg h]⟩

/-- Claim C16 as stated fails for a record that is already completed: a later
`FinalizeIdempotency` with the key and the request hash of the completed record `k2` of
`sampleTable` replaces its stored response. -/
theorem C16_counterexample :
    sampleTable[1]? = some sampleCompleted ∧ sampleCompleted.status = "completed" ∧
      sampleCompleted.response = some (.obj [("a", .num "1")]) ∧
      (FinalizeIdempotency sampleTable 20 none "k2" "h2" (.obj [("b", .num "2")])).2[1]? =
        some { sampleCompleted with response := some (.obj [("b", .num "2")]),
                                    updated_at := 20 } ∧
      (Json.obj [("a", .num "1")]).encode ≠ (Json.obj [("b", .num "2")]).encode := by
  refine ⟨rfl, rfl, rfl, rfl, by decide⟩

/-! ### The canonical query -/

theorem sortBytes_sorted (l : List (List Nat)) :
    (sortBytes l).Sorted (fun a b => bytesLe a b = true) :=
  @List.sorted_insertionSort (List Nat) (fun a b => bytesLe a b = true) _
    ⟨bytesLe_total⟩ ⟨bytesLe_trans⟩ l

theorem sortBytes_perm (l : List (List Nat)) : (sortBytes l).Perm l :=
  List.perm_insertionSort _ l

/-- The values `url.ParseQuery` builds are the pairs of the query, added one after the
other. -/
theorem parseQueryPieces_eq (pieces : List (List Char)) (m : Values) :
    parseQueryPieces pieces m =
      (queryPairs pieces).map (fun pairs => pairs.foldl (fun acc p => acc.add p.1 p.2) m) := by
  induction pieces generalizing m with
  | nil => rfl
  | cons piece rest ih =>
    simp only [parseQueryPieces, queryPairs]
    split_ifs with h1 h2
    · rfl
    · exact ih m
    · cases hk : queryUnescape (cutChars '=' piece).1 with
      | none => rfl
      | some k =>
        cases hv : queryUnescape (cutChars '=' piece).2 with
        | none => rfl
        | some v =>
          simp only [ih]
          cases queryPairs rest with
          | none => rfl
          | some pairs => rfl

theorem Values_add_keys (m : Values) (k v : List Nat) :
    (m.add k v).map Prod.fst =
      if k ∈ m.map Prod.fst then m.map Prod.fst else m.map Prod.fst ++ [k] := by
  induction m with
  | nil => simp [Values.add]
  | cons e m ih =>
    obtain ⟨k1, vs⟩ := e
    by_cases h : k1 = k
    · simp [Values.add, h]
    · have h2 : ¬ k = k1 := fun h3 => h h3.symm
      simp only [Values.add, if_neg h, List.map_cons, ih, List.mem_cons, h2, false_or]
      split_ifs <;> simp

theorem Values_add_nodup (m : Values) (k v : List Nat) (h : (m.map Prod.fst).Nodup) :
    ((m.add k v).map Prod.fst).Nodup := by
  rw [Values_add_keys]
  split_ifs with hk
  · exact h
  · rw [List.nodup_append]
    refine ⟨h, by simp, ?_⟩
    intro a ha hb
    simp only [List.mem_singleton] at hb
    exact hk (hb ▸ ha)

theorem Values_add_pairs (m : Values) (k v : List Nat) :
    (m.add k v).pairs.Perm (m.pairs ++ [(k, v)]) := by
  induction m with
  | nil => simp [Values.add, Values.pairs]
  | cons e m ih =>
    obtain ⟨k1, vs⟩ := e
    by_cases h : k1 = k
    · subst h
      simp only [Values.add, if_true, Values.pairs, List.flatMap_cons, List.map_append,
        List.map_cons, List.map_nil, List.append_assoc]
      exact List.Perm.append_left _ List.perm_append_comm
    · simp only [Values.add, if_neg h, Values.pairs, List.flatMap_cons, List.append_assoc]
      exact List.Perm.append_left _ ih

theorem Values_foldl_add (pairs : List (List Nat × List Nat)) (m : Values)
    (h : (m.map Prod.fst).Nodup) :
    ((pairs.foldl (fun acc p => acc.add p.1 p.2) m).map Prod.fst).Nodup ∧
      (pairs.foldl (fun acc p => acc.add p.1 p.2) m).pairs.Perm (m.pairs ++ pairs) := by
  induction pairs generalizing m with
  | nil => exact ⟨h, by simp⟩
  | cons p pairs ih =>
    obtain ⟨h1, h2⟩ := ih (m.add p.1 p.2) (Values_add_nodup m p.1 p.2 h)
    refine ⟨h1, h2.trans ?_⟩
    have h3 := (Values_add_pairs m p.1 p.2).append_right pairs
    simpa using h3

theorem Values_get_of_mem (m : Values) (k : List Nat) (vs : List (List Nat))
    (h : (m.map Prod.fst).Nodup) (hmem : (k, vs) ∈ m) : m.get k = vs := by
  induction m with
  | nil => simp at hmem
  | cons e m ih =>
    obtain ⟨k1, vs1⟩ := e
    simp only [List.map_cons, List.nodup_cons] at h
    simp only [List.mem_cons, Prod.mk.injEq] at hmem
    rcases hmem with ⟨hk, hv⟩ | hmem
    · simp [Values.get, hk, hv]
    · have hne : k1 ≠ k := by
        intro heq
        apply h.1
        rw [heq]
        exact List.mem_map_of_mem Prod.fst hmem
      simp only [Values.get, if_neg hne]
      exact ih h.2 hmem

/-- The pairs `canonicalQuery` lists are a rearrangement of the pairs the values hold. -/
theorem canonicalPairs_perm (m : Values) (h : (m.map Prod.fst).Nodup) :
    ((sortBytes (m.map Prod.fst)).flatMap (fun key =>
      (sortBytes (m.get key)).map (fun value => (key, value)))).Perm m.pairs := by
  refine ((sortBytes_perm (m.map Prod.fst)).flatMap_right _).trans ?_
  rw [List.flatMap_map]
  unfold Values.pairs
  apply List.Perm.flatMap_left
  intro e he
  rw [Values_get_of_mem m e.1 e.2 h he]
  exact (sortBytes_perm e.2).map _

/-- The pairs `canonicalQuery` lists are in the order `pairLe`. -/
theorem canonicalPairs_sorted (m : Values) (h : (m.map Prod.fst).Nodup) :
    ((sortBytes (m.map Prod.fst)).flatMap (fun key =>
      (sortBytes (m.get key)).map (fun value => (key, value)))).Sorted pairLe := by
  have hs := sortBytes_sorted (m.map Prod.fst)
  have hn : (sortBytes (m.map Prod.fst)).Nodup := (sortBytes_perm _).nodup_iff.mpr h
  generalize sortBytes (m.map Prod.fst) = keys at hs hn
  induction keys with
  | nil => exact List.sorted_nil
  | cons key keys ih =>
    rw [List.sorted_cons] at hs
    rw [List.nodup_cons] at hn
    rw [List.flatMap_cons]
    unfold List.Sorted
    rw [List.pairwise_append]
    refine ⟨?_, ih hs.2 hn.2, ?_⟩
    · rw [List.pairwise_map]
      exact (sortBytes_sorted (m.get key)).imp (fun hab => Or.inr ⟨rfl, hab⟩)
    · intro a ha b hb
      rw [List.mem_map] at ha
      obtain ⟨va, _, rfl⟩ := ha
      rw [List.mem_flatMap] at hb
      obtain ⟨kb, hkb, hb⟩ := hb
      rw [List.mem_map] at hb
      obtain ⟨vb, _, rfl⟩ := hb
      refine Or.inl ⟨hs.1 kb hkb, ?_⟩
      intro heq
      simp only at heq
      rw [← heq] at hkb
      exact hn.1 hkb

theorem toNat_ofNat_of_lt (n : Nat) (h : n < 0xD800) : (Char.ofNat n).toNat = n := by
  have hv : n.isValidChar := Or.inl h
  unfold Char.ofNat
  rw [dif_pos hv]
  rfl

theorem upperHexDigit_ne_amp (n : Nat) (h : n < 16) : upperHexDigit n ≠ '&' := by
  interval_cases n <;> decide

theorem queryEscapeChars_no_amp (bs : List Nat) : '&' ∉ queryEscapeChars bs := by
  induction bs with
  | nil => simp [queryEscapeChars]
  | cons b bs ih =>
    unfold queryEscapeChars
    split_ifs with h1 h2
    · simp only [List.mem_cons, not_or]
      exact ⟨by decide, ih⟩
    · simp only [List.mem_cons, not_or]
      refine ⟨?_, ih⟩
      intro heq
      have hb : b = 38 := by
        have hlt : b < 127 := by
          simp only [queryUnreserved, Bool.or_eq_true, Bool.and_eq_true, decide_eq_true_eq,
            beq_iff_eq] at h2
          omega
        have h3 := congrArg Char.toNat heq
        rw [toNat_ofNat_of_lt b (by omega)] at h3
        exact h3.symm
      rw [hb] at h2
      exact absurd h2 (by decide)
    · simp only [List.mem_cons, not_or]
      exact ⟨by decide, (upperHexDigit_ne_amp _ (Nat.mod_lt _ (by decide))).symm,
        (upperHexDigit_ne_amp _ (Nat.mod_lt _ (by decide))).symm, ih⟩

theorem splitChars_append_sep (sep : Char) (p rest : List Char) (h : sep ∉ p) :
    splitChars sep (p ++ sep :: rest) = p :: splitChars sep rest := by
  have hne : ∀ l, splitChars sep l ≠ [] := by
    intro l
    cases l with
    | nil => simp [splitChars]
    | cons c cs =>
      simp only [splitChars]
      split
      · simp
      · split_ifs <;> simp
  induction p with
  | nil =>
    simp only [List.nil_append, splitChars]
    cases hs : splitChars sep rest with
    | nil => exact absurd hs (hne rest)
    | cons q qs => simp
  | cons c p ih =>
    simp only [List.mem_cons, not_or] at h
    rw [List.cons_append, splitChars, ih h.2]
    simp only []
    rw [if_neg (fun heq => h.1 heq.symm)]

theorem splitChars_of_no_sep (sep : Char) (p : List Char) (h : sep ∉ p) :
    splitChars sep p = [p] := by
  induction p with
  | nil => rfl
  | cons c p ih =>
    simp only [List.mem_cons, not_or] at h
    simp only [splitChars, ih h.2]
    rw [if_neg (fun heq => h.1 heq.symm)]

/-- Cutting a join at the separator gives the joined parts back when no part holds the
separator. -/
theorem splitChars_joinChars (sep : Char) (parts : List (List Char)) (hne : parts ≠ [])
    (h : ∀ p ∈ parts, sep ∉ p) : splitChars sep (joinChars [sep] parts) = parts := by
  induction parts with
  | nil => exact absurd rfl hne
  | cons p parts ih =>
    cases parts with
    | nil => exact splitChars_of_no_sep sep p (h p (List.mem_cons_self _ _))
    | cons q parts =>
      rw [joinChars_cons_cons, List.append_assoc, List.singleton_append,
        splitChars_append_sep sep p _ (h p (List.mem_cons_self _ _)),
        ih (by simp) (fun r hr => h r (List.mem_cons_of_mem _ hr))]

/-- Claim C12: for every raw query that `url.ParseQuery` parses, `canonicalQuery` returns the
`&`-join of the renderings `key=value` (both sides percent-encoded by `url.QueryEscape`) of a
rearrangement of all the key/value pairs of the query that is in ascending byte order of the
decoded key and, for equal keys, of the decoded value; the rearrangement has as many pairs as
the query, and when there is a pair, cutting the output at `&` gives these renderings. -/
theorem C12_canonical_query (raw : String) (values : Values)
    (h : ParseQuery raw = some values) :
    ∃ pairs sorted, queryPairs (splitChars '&' raw.data) = some pairs ∧
      sorted.Perm pairs ∧ sorted.Sorted pairLe ∧
      canonicalQuery raw = ⟨joinChars ['&'] (sorted.map renderPair)⟩ ∧
      sorted.length = pairs.length ∧
      (sorted ≠ [] → splitChars '&' (canonicalQuery raw).data = sorted.map renderPair) := by
  unfold ParseQuery at h
  rw [parseQueryPieces_eq] at h
  cases hp : queryPairs (splitChars '&' raw.data) with
  | none =>
    rw [hp] at h
    simp at h
  | some pairs =>
    rw [hp] at h
    simp only [Option.map_some', Option.some.injEq] at h
    obtain ⟨hnodup, hperm⟩ := Values_foldl_add pairs [] (by simp)
    rw [h] at hnodup hperm
    have hperm2 : values.pairs.Perm pairs := by simpa [Values.pairs] using hperm
    have hsorted := canonicalPairs_sorted values hnodup
    have hcperm := (canonicalPairs_perm values hnodup).trans hperm2
    have hcanon : canonicalQuery raw = ⟨joinChars ['&']
        (((sortBytes (values.map Prod.fst)).flatMap (fun key =>
          (sortBytes (values.get key)).map (fun value => (key, value)))).map renderPair)⟩ := by
      by_cases hraw : raw = ""
      · subst hraw
        have hv : values = [] := by
          rw [← h]
          have hq : queryPairs (splitChars '&' "".data) = some [] := by decide
          rw [hq] at hp
          simp only [Option.some.injEq] at hp
          rw [← hp]
          rfl
        subst hv
        rfl
      · have hpq : ParseQuery raw = some values := by
          unfold ParseQuery
          rw [parseQueryPieces_eq, hp]
          simp only [Option.map_some', h]
        simp only [canonicalQuery, if_neg hraw, hpq, List.map_flatMap, List.map_map]
        rfl
    refine ⟨pairs, _, rfl, hcperm, hsorted, hcanon, hcperm.length_eq, ?_⟩
    intro hne
    rw [hcanon]
    apply splitChars_joinChars
    · simpa using hne
    · intro p hp2
      rw [List.mem_map] at hp2
      obtain ⟨pair, _, rfl⟩ := hp2
      unfold renderPair
      simp only [List.mem_append, List.mem_cons, not_or]
      exact ⟨queryEscapeChars_no_amp _, by decide, queryEscapeChars_no_amp _⟩

theorem C12_canonical_query_witness :
    ParseQuery "b=2&a=z&&a=%20" = some [([98], [[50]]), ([97], [[122], [32]])] ∧
      ∃ pairs sorted, queryPairs (splitChars '&' "b=2&a=z&&a=%20".data) = some pairs ∧
        sorted.Perm pairs ∧ sorted.Sorted pairLe ∧
        canonicalQuery "b=2&a=z&&a=%20" = ⟨joinChars ['&'] (sorted.map renderPair)⟩ ∧
        sorted.length = pairs.length ∧
        (sorted ≠ [] →
          splitChars '&' (canonicalQuery "b=2&a=z&&a=%20").data = sorted.map renderPair) :=
  ⟨by decide, C12_canonical_query "b=2&a=z&&a=%20" [([98], [[50]]), ([97], [[122], [32]])]
    (by decide)⟩

/-! ### Rejected cursors -/

theorem keyNamesField_length (key name : String) (h : keyNamesField key name = true) :
    key.data.length = name.data.length := by
  simp only [keyNamesField, Bool.decide_or, Bool.or_eq_true, decide_eq_true_eq] at h
  rcases h with h | h
  · rw [h]
  · have := congrArg List.length h
    simpa using this

theorem keyNamesField_sortAt_id (key : String) (h : keyNamesField key "sortAt" = true) :
    keyNamesField key "id" = false := by
  have h1 := keyNamesField_length key "sortAt" h
  cases h2 : keyNamesField key "id" with
  | false => rfl
  | true =>
    have h3 := keyNamesField_length key "id" h2
    rw [h1] at h3
    exact absurd h3 (by decide)

/-- The payload `json.Unmarshal` fills from the members of an object, field by field. -/
theorem foldl_assignCursorMember (members : List (String × Json)) (payload : searchCursorPayload)
    (flag : Bool) :
    members.foldl assignCursorMember (payload, flag) =
      ({ SortAt := members.foldl (fieldStep "sortAt") payload.SortAt,
         ID := members.foldl (fieldStep "id") payload.ID },
        flag || fieldTypeError members) := by
  induction members generalizing payload flag with
  | nil => simp [fieldTypeError]
  | cons member members ih =>
    obtain ⟨key, value⟩ := member
    simp only [List.foldl_cons]
    by_cases hs : keyNamesField key "sortAt" = true
    · have hi := keyNamesField_sortAt_id key hs
      cases value <;>
        simp [assignCursorMember, fieldStep, fieldTypeError, hs, hi, ih]
    · have hs2 : keyNamesField key "sortAt" = false := by simpa using hs
      by_cases hi : keyNamesField key "id" = true
      · cases value <;>
          simp [assignCursorMember, fieldStep, fieldTypeError, hs2, hi, ih]
      · have hi2 : keyNamesField key "id" = false := by simpa using hi
        simp [assignCursorMember, fieldStep, fieldTypeError, hs2, hi2, ih]

theorem unmarshalCursorPayload_obj (bytes : List Nat) (members : List (String × Json))
    (h : parseJson bytes = some (.obj members)) :
    unmarshalCursorPayload bytes =
      if fieldTypeError members then none
      else some { SortAt := fieldString members "sortAt", ID := fieldString members "id" } := by
  simp only [unmarshalCursorPayload, h, foldl_assignCursorMember, Bool.false_or, fieldString]

/-- Claim C18, amended: `decodeSearchCursor` is total. An input that is empty after trimming
surrounding white space gives no cursor and no error. For every other input it returns the
invalid-cursor error and no cursor when the trimmed input is malformed URL-safe base64, when
the decoded bytes are malformed JSON, when the decoded value is not an object, when a member
of the object gives `sortAt` or `id` a value that is neither a string nor `null`, when the
object (keys matched exactly or ignoring case) gives no string that is not empty to `sortAt`
or to `id`, and when `time.Parse` reads the `sortAt` string with neither layout; in the one
remaining case it returns the cursor of the parsed instant and the id. It returns no other
error. -/
theorem C18_decode_errors (raw : String) :
    (TrimSpace raw = "" → decodeSearchCursor raw = .ok none) ∧
    (TrimSpace raw ≠ "" →
      (base64Decode (TrimSpace raw).data = none →
        decodeSearchCursor raw = .error "invalid cursor") ∧
      (∀ bytes, base64Decode (TrimSpace raw).data = some bytes →
        (parseJson bytes = none → decodeSearchCursor raw = .error "invalid cursor") ∧
        (∀ value, parseJson bytes = some value → (∀ members, value ≠ .obj members) →
          decodeSearchCursor raw = .error "invalid cursor") ∧
        (∀ members, parseJson bytes = some (.obj members) →
          (fieldTypeError members = true →
            decodeSearchCursor raw = .error "invalid cursor") ∧
          (fieldString members "sortAt" = "" ∨ fieldString members "id" = "" →
            decodeSearchCursor raw = .error "invalid cursor") ∧
          (parseRFC3339 (fieldString members "sortAt").data = none →
            decodeSearchCursor raw = .error "invalid cursor") ∧
          (∀ t, fieldTypeError members = false → fieldString members "sortAt" ≠ "" →
            fieldString members "id" ≠ "" →
            parseRFC3339 (fieldString members "sortAt").data = some t →
            decodeSearchCursor raw =
              .ok (some { SortAt := t, ID := fieldString members "id" }))))) ∧
    (∀ err, decodeSearchCursor raw = .error err → err = "invalid cursor") := by
  refine ⟨fun h => by simp only [decodeSearchCursor, h, if_true], fun hne => ⟨fun h => ?_,
    fun bytes hb => ⟨fun h => ?_, fun value h hno => ?_, fun members h => ?_⟩⟩, ?_⟩
  · simp only [decodeSearchCursor, if_neg hne, h]
  · simp only [decodeSearchCursor, if_neg hne, hb, unmarshalCursorPayload, h]
  · cases value with
    | obj members => exact absurd rfl (hno members)
    | null =>
      simp only [decodeSearchCursor, if_neg hne, hb, unmarshalCursorPayload, h]
      simp
    | bool b => simp only [decodeSearchCursor, if_neg hne, hb, unmarshalCursorPayload, h]
    | num literal => simp only [decodeSearchCursor, if_neg hne, hb, unmarshalCursorPayload, h]
    | str s => simp only [decodeSearchCursor, if_neg hne, hb, unmarshalCursorPayload, h]
    | arr elems => simp only [decodeSearchCursor, if_neg hne, hb, unmarshalCursorPayload, h]
  · have hu := unmarshalCursorPayload_obj bytes members h
    refine ⟨fun hte => ?_, fun hempty => ?_, fun hparse => ?_, fun t hte hs hi hparse => ?_⟩
    · rw [hte] at hu
      simp only [decodeSearchCursor, if_neg hne, hb, hu, if_true]
    · cases hte : fieldTypeError members with
      | true =>
        rw [hte] at hu
        simp only [decodeSearchCursor, if_neg hne, hb, hu, if_true]
      | false =>
        rw [hte] at hu
        have hor : fieldString members "id" = "" ∨ fieldString members "sortAt" = "" :=
          hempty.symm
        simp only [decodeSearchCursor, if_neg hne, hb, hu, Bool.false_eq_true, if_false,
          if_pos hor]
    · cases hte : fieldTypeError members with
      | true =>
        rw [hte] at hu
        simp only [decodeSearchCursor, if_neg hne, hb, hu, if_true]
      | false =>
        rw [hte] at hu
        simp only [decodeSearchCursor, if_neg hne, hb, hu, Bool.false_eq_true, if_false,
          hparse]
        split_ifs <;> rfl
    · rw [hte] at hu
      have hor : ¬ (fieldString members "id" = "" ∨ fieldString members "sortAt" = "") := by
        rintro (h1 | h1)
        · exact hi h1
        · exact hs h1
      simp only [decodeSearchCursor, if_neg hne, hb, hu, Bool.false_eq_true, if_false,
        if_neg hor, hparse]
  · intro err h
    unfold decodeSearchCursor at h
    simp only [] at h
    split_ifs at h with h1
    split at h
    · simp only [Except.error.injEq] at h
      exact h.symm
    · split at h
      · simp only [Except.error.injEq] at h
        exact h.symm
      · split_ifs at h with h2
        · simp only [Except.error.injEq] at h
          exact h.symm
        · split at h
          · simp at h
          · split at h
            · simp at h
            · simp only [Except.error.injEq] at h
              exact h.symm

set_option maxRecDepth 100000 in
/-- Claim C18 as stated fails in three ways. A single space is malformed base64 and
`decodeSearchCursor` returns no cursor and no error for it. The object of the second token has
no member `sortAt` and no member `id` (its keys are `SORTAT` and `ID`) and is decoded to a
cursor. The `sortAt` of the third token has an hour of one digit, which is not an RFC 3339
timestamp, and is decoded to a cursor. -/
theorem C18_counterexample :
    (base64Decode " ".data = none ∧ decodeSearchCursor " " = .ok none) ∧
    (parseJson (stringBytes "\x7b\"SORTAT\":\"2023-11-14T22:13:21Z\",\"ID\":\"x\"\x7d") =
        some (.obj [("SORTAT", .str "2023-11-14T22:13:21Z"), ("ID", .str "x")]) ∧
      base64Decode "eyJTT1JUQVQiOiIyMDIzLTExLTE0VDIyOjEzOjIxWiIsIklEIjoieCJ9".data =
        some (stringBytes "\x7b\"SORTAT\":\"2023-11-14T22:13:21Z\",\"ID\":\"x\"\x7d") ∧
      decodeSearchCursor "eyJTT1JUQVQiOiIyMDIzLTExLTE0VDIyOjEzOjIxWiIsIklEIjoieCJ9" =
        .ok (some { SortAt := 1700000001000000000, ID := "x" })) ∧
    (rfc3339Shape "2023-11-14T1:13:21Z".data = false ∧
      rfc3339Shape "2023-11-14T01:13:21Z".data = true ∧
      base64Decode "eyJzb3J0QXQiOiIyMDIzLTExLTE0VDE6MTM6MjFaIiwiaWQiOiJ4In0".data =
        some (stringBytes "\x7b\"sortAt\":\"2023-11-14T1:13:21Z\",\"id\":\"x\"\x7d") ∧
      decodeSearchCursor "eyJzb3J0QXQiOiIyMDIzLTExLTE0VDE6MTM6MjFaIiwiaWQiOiJ4In0" =
        .ok (some { SortAt := 1699924401000000000, ID := "x" })) := by
  refine ⟨⟨by decide, rfl⟩, ⟨rfl, by decide!, rfl⟩, ⟨by decide, by decide, by decide!, rfl⟩⟩

/-! ### Truncated cursors -/

theorem base64Values_length (bs : List Nat) :
    (base64Values bs).length = (4 * bs.length + 2) / 3 := by
  induction bs using base64Values.induct with
  | case1 b0 b1 b2 rest ih =>
    simp only [base64Values, List.length_cons, ih]
    omega
  | case2 b0 b1 => simp [base64Values]
  | case3 b0 => simp [base64Values]
  | case4 => rfl

/-- The bytes of the first `n` six-bit values of a byte list: none for a last group of one
value, the first `6n/8` bytes otherwise. -/
theorem base64Bytes_take (bs : List Nat) (h : ∀ b ∈ bs, b < 256) (n : Nat)
    (hn : n ≤ (base64Values bs).length) :
    base64Bytes ((base64Values bs).take n) =
      if n % 4 = 1 then none else some (bs.take (n * 6 / 8)) := by
  induction bs using base64Values.induct generalizing n with
  | case1 b0 b1 b2 rest ih =>
    have h0 := h b0 (by simp)
    have h1 := h b1 (by simp)
    have h2 := h b2 (by simp)
    match n with
    | 0 => rfl
    | 1 => rfl
    | 2 =>
      simp only [base64Values, List.take, base64Bytes]
      simp only [Nat.reduceMod, Nat.reduceMul, Nat.reduceDiv, OfNat.ofNat_ne_one, if_false,
        List.take]
      congr 2
      omega
    | 3 =>
      simp only [base64Values, List.take, base64Bytes]
      simp only [Nat.reduceMod, Nat.reduceMul, Nat.reduceDiv, OfNat.ofNat_ne_one, if_false,
        List.take]
      congr 2
      · omega
      · congr 1
        omega
    | n + 4 =>
      have hn2 : n ≤ (base64Values rest).length := by
        simp only [base64Values, List.length_cons] at hn
        omega
      have e1 : (n + 4) % 4 = n % 4 := by omega
      have e2 : (n + 4) * 6 / 8 = n * 6 / 8 + 3 := by omega
      simp only [base64Values, List.take, base64Bytes,
        ih (fun b hb => h b (by simp [hb])) n hn2, e1, e2]
      split_ifs
      · rfl
      · simp only [List.take]
        congr 2
        · omega
        · congr 1
          · omega
          · congr 1
            omega
  | case2 b0 b1 =>
    have h0 := h b0 (by simp)
    have h1 := h b1 (by simp)
    match n with
    | 0 => rfl
    | 1 => rfl
    | 2 =>
      simp only [base64Values, List.take, base64Bytes]
      simp only [Nat.reduceMod, Nat.reduceMul, Nat.reduceDiv, OfNat.ofNat_ne_one, if_false,
        List.take]
      congr 2
      omega
    | 3 =>
      simp only [base64Values, List.take, base64Bytes]
      simp only [Nat.reduceMod, Nat.reduceMul, Nat.reduceDiv, OfNat.ofNat_ne_one, if_false,
        List.take]
      congr 2
      · omega
      · congr 1
        omega
    | n + 4 => simp [base64Values] at hn
  | case3 b0 =>
    have h0 := h b0 (by simp)
    match n with
    | 0 => rfl
    | 1 => rfl
    | 2 =>
      simp only [base64Values, List.take, base64Bytes]
      simp only [Nat.reduceMod, Nat.reduceMul, Nat.reduceDiv, OfNat.ofNat_ne_one, if_false,
        List.take]
      congr 2
      omega
    | n + 3 => simp [base64Values] at hn
  | case4 =>
    match n with
    | 0 => rfl
    | n + 1 => simp [base64Values] at hn

/-- Decoding the first `n` characters of the base64 text of a byte list. -/
theorem base64Decode_take (bs : List Nat) (h : ∀ b ∈ bs, b < 256) (n : Nat)
    (hn : n ≤ (base64Encode bs).length) :
    base64Decode ((base64Encode bs).take n) =
      if n % 4 = 1 then none else some (bs.take (n * 6 / 8)) := by
  rw [base64Encode_eq_map, List.length_map] at hn
  rw [base64Encode_eq_map, ← List.map_take]
  simp only [base64Decode,
    base64Sextets_map _ (fun v hv => base64Values_lt bs v (List.mem_of_mem_take hv))]
  exact base64Bytes_take bs h n hn

theorem decodeRune_nil (b0 : Nat) (h : 0x80 ≤ b0) :
    decodeRune b0 [] = (Char.ofNat 0xFFFD, []) := by
  have h1 : ¬ b0 < 0x80 := by omega
  simp only [decodeRune, if_neg h1]

theorem decodeRune_one (b0 b1 : Nat) (h : 0x80 ≤ b0 ∧ (b0 < 0xC2 ∨ 0xE0 ≤ b0)) :
    decodeRune b0 [b1] = (Char.ofNat 0xFFFD, [b1]) := by
  have h1 : ¬ b0 < 0x80 := by omega
  have h2 : ¬ (0xC2 ≤ b0 ∧ b0 ≤ 0xDF ∧ 0x80 ≤ b1 ∧ b1 ≤ 0xBF) := by omega
  simp only [decodeRune, if_neg h1, if_neg h2]

theorem decodeRune_two (b0 b1 b2 : Nat) (h : 0xF0 ≤ b0) :
    decodeRune b0 [b1, b2] = (Char.ofNat 0xFFFD, [b1, b2]) := by
  have h1 : ¬ b0 < 0x80 := by omega
  have h2 : ¬ (0xC2 ≤ b0 ∧ b0 ≤ 0xDF ∧ 0x80 ≤ b1 ∧ b1 ≤ 0xBF) := by omega
  have h3 : ¬ (0xE0 ≤ b0 ∧ b0 ≤ 0xEF ∧ (0x80 ≤ b1 ∧ b1 ≤ 0xBF) ∧ (0x80 ≤ b2 ∧ b2 ≤ 0xBF)
      ∧ (b0 = 0xE0 → 0xA0 ≤ b1) ∧ (b0 = 0xED → b1 ≤ 0x9F)) := by omega
  simp only [decodeRune, if_neg h1, if_neg h2, if_neg h3]

/-- A proper prefix of the encoding of a character is read as one U+FFFD for each byte. -/
theorem utf8DecodeAux_cutChar (c : Char) (m : Nat) (hm : m < (charBytes c).length)
    (fuel : Nat) (hfuel : m ≤ fuel) :
    utf8DecodeAux fuel ((charBytes c).take m) = List.replicate m (Char.ofNat 0xFFFD) := by
  have hv := char_toNat_valid c
  obtain ⟨f, rfl⟩ : ∃ f, fuel = f + m := ⟨fuel - m, by omega⟩
  unfold charBytes at hm ⊢
  simp only [] at hm ⊢
  split_ifs at hm ⊢ with h1 h2 h3
  · simp only [List.length_singleton, Nat.lt_one_iff] at hm
    subst hm
    cases f <;> rfl
  · simp only [List.length_cons, List.length_nil] at hm
    interval_cases m
    · cases f <;> rfl
    · simp only [List.take, utf8DecodeAux, decodeRune_nil _ (by omega : 0x80 ≤ 0xC0 + c.toNat / 64)]
      cases f <;> rfl
  · simp only [List.length_cons, List.length_nil] at hm
    interval_cases m
    · cases f <;> rfl
    · simp only [List.take, utf8DecodeAux,
        decodeRune_nil _ (by omega : 0x80 ≤ 0xE0 + c.toNat / 4096)]
      cases f <;> rfl
    · simp only [List.take, utf8DecodeAux,
        decodeRune_one (0xE0 + c.toNat / 4096) _ (by omega),
        decodeRune_nil _ (by omega : 0x80 ≤ 0x80 + c.toNat / 64 % 64)]
      cases f <;> rfl
  · simp only [List.length_cons, List.length_nil] at hm
    interval_cases m
    · cases f <;> rfl
    · simp only [List.take, utf8DecodeAux,
        decodeRune_nil _ (by omega : 0x80 ≤ 0xF0 + c.toNat / 262144)]
      cases f <;> rfl
    · simp only [List.take, utf8DecodeAux,
        decodeRune_one (0xF0 + c.toNat / 262144) _ (by omega),
        decodeRune_nil _ (by omega : 0x80 ≤ 0x80 + c.toNat / 4096 % 64)]
      cases f <;> rfl
    · simp only [List.take, utf8DecodeAux,
        decodeRune_two _ _ _ (by omega : 0xF0 ≤ 0xF0 + c.toNat / 262144),
        decodeRune_one (0x80 + c.toNat / 4096 % 64) _ (by omega),
        decodeRune_nil _ (by omega : 0x80 ≤ 0x80 + c.toNat / 64 % 64)]
      cases f <;> rfl

/-- The characters read from the first `m` bytes of the encoding of a text: a prefix of the
text, followed by one U+FFFD for each byte of a character that is cut. -/
theorem utf8DecodeAux_take (cs : List Char) (m fuel : Nat) (hfuel : m ≤ fuel)
    (hm : m ≤ (cs.flatMap charBytes).length) :
    ∃ front k, front <+: cs ∧ (m < (cs.flatMap charBytes).length → front ≠ cs) ∧
      utf8DecodeAux fuel ((cs.flatMap charBytes).take m) =
        front ++ List.replicate k (Char.ofNat 0xFFFD) := by
  induction cs generalizing m fuel with
  | nil =>
    refine ⟨[], 0, List.prefix_refl _, fun h => by simp at h, ?_⟩
    cases fuel <;> simp [utf8DecodeAux]
  | cons c cs ih =>
    have hpos := charBytes_length_pos c
    rw [List.flatMap_cons, List.length_append] at hm
    rw [List.flatMap_cons, List.length_append]
    by_cases hle : (charBytes c).length ≤ m
    · obtain ⟨b0, tail, hb, hdec⟩ :=
        decodeRune_charBytes c ((cs.flatMap charBytes).take (m - (charBytes c).length))
      obtain ⟨f, rfl⟩ : ∃ f, fuel = f + 1 := ⟨fuel - 1, by omega⟩
      obtain ⟨front, k, hpre, hne, hdecode⟩ := ih (m - (charBytes c).length) f (by omega)
        (by omega)
      refine ⟨c :: front, k, ?_, ?_, ?_⟩
      · exact List.prefix_cons_inj c |>.mpr hpre
      · intro hlt heq
        simp only [List.cons.injEq, true_and] at heq
        exact hne (by omega) heq
      · rw [List.take_append_eq_append_take, List.take_of_length_le hle, hb]
        simp only [utf8DecodeAux, hdec, hdecode, List.cons_append]
    · have hlt : m < (charBytes c).length := by omega
      refine ⟨[], m, List.nil_prefix, fun _ h => by simp at h, ?_⟩
      rw [List.take_append_of_le_length (by omega), utf8DecodeAux_cutChar c m hlt fuel hfuel]
      rfl

theorem prefix_append_cases {α : Type} (front a b : List α) (h : front <+: a ++ b) :
    front <+: a ∨ ∃ tail, front = a ++ tail ∧ tail <+: b := by
  induction a generalizing front with
  | nil => exact Or.inr ⟨front, rfl, h⟩
  | cons x a ih =>
    rw [List.cons_append, List.prefix_cons_iff] at h
    rcases h with rfl | ⟨t, rfl, ht⟩
    · exact Or.inl List.nil_prefix
    · rcases ih t ht with h1 | ⟨tail, rfl, h2⟩
      · exact Or.inl ((List.prefix_cons_inj x).mpr h1)
      · exact Or.inr ⟨tail, rfl, h2⟩

/-- A text of U+FFFD characters holds no closing quote. -/
theorem parseStringBody_junk (junk : List Char) (fuel : Nat)
    (hjunk : ∀ c ∈ junk, c = Char.ofNat 0xFFFD) : parseStringBody fuel junk = none := by
  induction junk generalizing fuel with
  | nil => cases fuel <;> rfl
  | cons c junk ih =>
    cases fuel with
    | zero => rfl
    | succ fuel =>
      have hc := hjunk c (List.mem_cons_self _ _)
      subst hc
      have h1 : ¬ (Char.ofNat 0xFFFD = '"') := by decide
      have h2 : ¬ (Char.ofNat 0xFFFD = '\\') := by decide
      have h3 : ¬ ((Char.ofNat 0xFFFD).toNat < 0x20) := by decide
      simp only [parseStringBody, if_neg h1, if_neg h2, if_neg h3,
        ih fuel (fun c hc => hjunk c (List.mem_cons_of_mem _ hc))]

theorem hex4_fffd (a b c : Char) : hex4 a b c (Char.ofNat 0xFFFD) = none := by
  have h : fromHexChar (Char.ofNat 0xFFFD) = none := by decide
  unfold hex4
  rw [h]
  cases fromHexChar a <;> cases fromHexChar b <;> cases fromHexChar c <;> rfl

theorem parseStringBody_backslash (junk : List Char) (fuel : Nat)
    (hjunk : ∀ c ∈ junk, c = Char.ofNat 0xFFFD) :
    parseStringBody fuel ('\\' :: junk) = none := by
  cases fuel with
  | zero => rfl
  | succ fuel =>
    have h1 : ¬ ('\\' = '"') := by decide
    cases junk with
    | nil => simp only [parseStringBody, if_neg h1, if_true]
    | cons c junk =>
      have hc := hjunk c (List.mem_cons_self _ _)
      subst hc
      have h2 : ¬ (Char.ofNat 0xFFFD = 'u') := by decide
      have h3 : simpleEscape (Char.ofNat 0xFFFD) = none := by decide
      simp only [parseStringBody, if_neg h1, if_true, if_neg h2, h3]

/-- An escape `\u` with fewer than four digits before the text ends in U+FFFD characters. -/
theorem parseStringBody_short_u (digits junk : List Char) (fuel : Nat)
    (hlen : digits.length < 4) (hjunk : ∀ c ∈ junk, c = Char.ofNat 0xFFFD) :
    parseStringBody fuel ('\\' :: 'u' :: (digits ++ junk)) = none := by
  cases fuel with
  | zero => rfl
  | succ fuel =>
    have h1 : ¬ ('\\' = '"') := by decide
    rcases digits with _ | ⟨a, _ | ⟨b, _ | ⟨c, _ | ⟨d, digits⟩⟩⟩⟩
    · rcases junk with _ | ⟨x, _ | ⟨y, _ | ⟨z, _ | ⟨w, junk⟩⟩⟩⟩
      · simp only [List.nil_append, parseStringBody, if_neg h1, if_true]
      · simp only [List.nil_append, parseStringBody, if_neg h1, if_true]
      · simp only [List.nil_append, parseStringBody, if_neg h1, if_true]
      · simp only [List.nil_append, parseStringBody, if_neg h1, if_true]
      · have hw := hjunk w (by simp)
        subst hw
        simp only [List.nil_append, parseStringBody, if_neg h1, if_true, hex4_fffd]
    · rcases junk with _ | ⟨x, _ | ⟨y, _ | ⟨z, junk⟩⟩⟩
      · simp only [List.cons_append, List.nil_append, parseStringBody, if_neg h1, if_true]
      · simp only [List.cons_append, List.nil_append, parseStringBody, if_neg h1, if_true]
      · simp only [List.cons_append, List.nil_append, parseStringBody, if_neg h1, if_true]
      · have hz := hjunk z (by simp)
        subst hz
        simp only [List.cons_append, List.nil_append, parseStringBody, if_neg h1, if_true,
          hex4_fffd]
    · rcases junk with _ | ⟨x, _ | ⟨y, junk⟩⟩
      · simp only [List.cons_append, List.nil_append, parseStringBody, if_neg h1, if_true]
      · simp only [List.cons_append, List.nil_append, parseStringBody, if_neg h1, if_true]
      · have hy := hjunk y (by simp)
        subst hy
        simp only [List.cons_append, List.nil_append, parseStringBody, if_neg h1, if_true,
          hex4_fffd]
    · rcases junk with _ | ⟨x, junk⟩
      · simp only [List.cons_append, List.nil_append, parseStringBody, if_neg h1, if_true]
      · have hx := hjunk x (by simp)
        subst hx
        simp only [List.cons_append, List.nil_append, parseStringBody, if_neg h1, if_true,
          hex4_fffd]
    · simp only [List.length_cons] at hlen
      omega

/-- A prefix of the escape of a character, followed by U+FFFD characters, holds no closing
quote. -/
theorem parseStringBody_cutEscape (c : Char) (front junk : List Char) (fuel : Nat)
    (hfront : front <+: jsonEscapeChar c) (hjunk : ∀ c ∈ junk, c = Char.ofNat 0xFFFD) :
    parseStringBody fuel (front ++ junk) = none := by
  by_cases hfull : front = jsonEscapeChar c
  · subst hfull
    cases fuel with
    | zero => rfl
    | succ fuel => rw [parseStringBody_escapeChar, parseStringBody_junk junk fuel hjunk]
  · have hlen : front.length < (jsonEscapeChar c).length :=
      lt_of_le_of_ne hfront.length_le (fun h => hfull (hfront.eq_of_length h))
    have htake := List.prefix_iff_eq_take.mp hfront
    generalize front.length = j at hlen htake
    subst htake
    unfold jsonEscapeChar at hlen ⊢
    simp only [] at hlen ⊢
    have h0 : ∀ l : List Char, List.take 0 l ++ junk = junk := fun l => rfl
    split_ifs at hlen ⊢ <;> simp only [List.length_cons, List.length_nil] at hlen <;>
      interval_cases j <;>
      first
        | (rw [h0]; exact parseStringBody_junk junk fuel hjunk)
        | exact parseStringBody_backslash junk fuel hjunk
        | exact parseStringBody_short_u [] junk fuel (by simp) hjunk
        | exact parseStringBody_short_u [_] junk fuel (by simp) hjunk
        | exact parseStringBody_short_u [_, _] junk fuel (by simp) hjunk
        | exact parseStringBody_short_u [_, _, _] junk fuel (by simp) hjunk

/-- The escaped characters of a string, cut anywhere and followed by U+FFFD characters, hold
no closing quote. -/
theorem parseStringBody_truncated (cs front junk : List Char) (fuel : Nat)
    (hfront : front <+: cs.flatMap jsonEscapeChar)
    (hjunk : ∀ c ∈ junk, c = Char.ofNat 0xFFFD) :
    parseStringBody fuel (front ++ junk) = none := by
  induction cs generalizing front fuel with
  | nil =>
    simp only [List.flatMap_nil, List.prefix_nil] at hfront
    subst hfront
    exact parseStringBody_junk junk fuel hjunk
  | cons c cs ih =>
    rw [List.flatMap_cons] at hfront
    rcases prefix_append_cases front _ _ hfront with h | ⟨tail, rfl, h⟩
    · exact parseStringBody_cutEscape c front junk fuel h hjunk
    · cases fuel with
      | zero => rfl
      | succ fuel => rw [List.append_assoc, parseStringBody_escapeChar, ih tail fuel h]

theorem dropWhile_junk (junk : List Char) (hjunk : ∀ c ∈ junk, c = Char.ofNat 0xFFFD) :
    junk.dropWhile isJsonSpace = junk := by
  apply dropWhile_eq_self_of_all_false
  intro c hc
  rw [hjunk c hc]
  decide

theorem parseValue_junk (junk : List Char) (fuel depth : Nat)
    (hjunk : ∀ c ∈ junk, c = Char.ofNat 0xFFFD) : parseValue fuel depth junk = none := by
  cases fuel with
  | zero => rfl
  | succ fuel =>
    cases junk with
    | nil => simp only [parseValue]
    | cons c junk =>
      have hc := hjunk c (List.mem_cons_self _ _)
      subst hc
      have h1 : ¬ (Char.ofNat 0xFFFD = '"') := by decide
      have h2 : ¬ (Char.ofNat 0xFFFD = '[') := by decide
      have h3 : ¬ (Char.ofNat 0xFFFD = '{') := by decide
      have h4 : ¬ (Char.ofNat 0xFFFD = '-' ∨ isDigitChar (Char.ofNat 0xFFFD) = true) := by
        decide
      simp only [parseValue, if_neg h1, if_neg h2, if_neg h3, if_neg h4]
      rfl

theorem parseMembers_junk (junk : List Char) (fuel depth : Nat)
    (hjunk : ∀ c ∈ junk, c = Char.ofNat 0xFFFD) : parseMembers fuel depth junk = none := by
  cases fuel with
  | zero => rfl
  | succ fuel =>
    cases junk with
    | nil => simp only [parseMembers]
    | cons c junk =>
      have hc := hjunk c (List.mem_cons_self _ _)
      subst hc
      have h1 : Char.ofNat 0xFFFD ≠ '"' := by decide
      simp only [parseMembers, if_pos h1]

/-- The three ways a prefix of a text that starts with a quoted string ends: before the
string, inside it, or after its closing quote. -/
theorem quote_prefix_cases (s : String) (rest front : List Char)
    (hfront : front <+: jsonQuote s ++ rest) :
    front = [] ∨ (∃ inner, front = '"' :: inner ∧ inner <+: s.data.flatMap jsonEscapeChar) ∨
      ∃ tail, front = jsonQuote s ++ tail ∧ tail <+: rest := by
  have e : jsonQuote s ++ rest = '"' :: (s.data.flatMap jsonEscapeChar ++ '"' :: rest) := by
    simp [jsonQuote]
  rw [e, List.prefix_cons_iff] at hfront
  rcases hfront with rfl | ⟨t, rfl, ht⟩
  · exact Or.inl rfl
  · rcases prefix_append_cases t _ _ ht with h | ⟨t2, rfl, h⟩
    · exact Or.inr (Or.inl ⟨t, rfl, h⟩)
    · rw [List.prefix_cons_iff] at h
      rcases h with rfl | ⟨tail, rfl, htail⟩
      · exact Or.inr (Or.inl ⟨_, rfl, by simp⟩)
      · exact Or.inr (Or.inr ⟨tail, by simp [jsonQuote], htail⟩)

theorem dropWhile_quoted (s : String) (rest front junk : List Char)
    (hfront : front <+: jsonQuote s ++ rest) (hjunk : ∀ c ∈ junk, c = Char.ofNat 0xFFFD) :
    (front ++ junk).dropWhile isJsonSpace = front ++ junk ∧
      ∀ out, front ++ junk ≠ '}' :: out := by
  rcases quote_prefix_cases s rest front hfront with rfl | ⟨inner, rfl, _⟩ | ⟨tail, rfl, _⟩
  · refine ⟨by rw [List.nil_append, dropWhile_junk junk hjunk], fun out h => ?_⟩
    rw [List.nil_append] at h
    have := hjunk '}' (by rw [h]; exact List.mem_cons_self _ _)
    exact absurd this (by decide)
  · refine ⟨by rw [List.cons_append, List.dropWhile_cons]; rfl, fun out h => ?_⟩
    simp only [List.cons_append, List.cons.injEq] at h
    exact absurd h.1 (by decide)
  · refine ⟨by simp only [jsonQuote, List.cons_append, List.dropWhile_cons]; rfl,
      fun out h => ?_⟩
    simp only [jsonQuote, List.cons_append, List.cons.injEq] at h
    exact absurd h.1 (by decide)

/-- A quoted string that is cut is no value. -/
theorem parseValue_truncated (s : String) (rest front junk : List Char)
    (hfront : front <+: jsonQuote s ++ rest) (hjunk : ∀ c ∈ junk, c = Char.ofNat 0xFFFD) :
    (∃ tail, front = jsonQuote s ++ tail ∧ tail <+: rest) ∨
      ∀ fuel depth, parseValue fuel depth (front ++ junk) = none := by
  rcases quote_prefix_cases s rest front hfront with rfl | ⟨inner, rfl, h⟩ | h
  · exact Or.inr (fun fuel depth => parseValue_junk junk fuel depth hjunk)
  · right
    intro fuel depth
    cases fuel with
    | zero => rfl
    | succ fuel =>
      simp only [List.cons_append, parseValue, if_true,
        parseStringBody_truncated s.data inner junk _ h hjunk]
  · exact Or.inl h

theorem parseMembers_one (depth : Nat) (l : List Char) : parseMembers 1 depth l = none := by
  cases l with
  | nil => simp only [parseMembers]
  | cons q l0 =>
    simp only [parseMembers]
    split_ifs
    · rfl
    · split
      · rfl
      · split
        · rfl
        · split_ifs
          · rfl
          · rfl

/-- After a whole key, a list of members needs a colon. -/
theorem parseMembers_no_colon (k : String) (tail : List Char) (fuel depth : Nat)
    (h : tail.dropWhile isJsonSpace = [] ∨
      ∃ c l2, tail.dropWhile isJsonSpace = c :: l2 ∧ c ≠ ':') :
    parseMembers fuel depth (jsonQuote k ++ tail) = none := by
  cases fuel with
  | zero => rfl
  | succ fuel =>
    have e : jsonQuote k ++ tail = '"' :: (k.data.flatMap jsonEscapeChar ++ '"' :: tail) := by
      simp [jsonQuote]
    rw [e, parseMembers]
    simp only [ne_eq, not_true_eq_false, if_false]
    rw [parseStringBody_escape k.data tail _ (by
      simp only [List.length_append, List.length_cons]; omega)]
    rcases h with h | ⟨c, l2, h, hc⟩
    · simp only [h]
    · simp only [h, ne_eq, hc, not_false_eq_true, if_true]

/-- After a whole key and a colon, a list of members needs a value. -/
theorem parseMembers_no_value (k : String) (tail : List Char) (fuel depth : Nat)
    (h : ∀ f, parseValue f depth (tail.dropWhile isJsonSpace) = none) :
    parseMembers fuel depth (jsonQuote k ++ ':' :: tail) = none := by
  cases fuel with
  | zero => rfl
  | succ fuel =>
    have e : jsonQuote k ++ ':' :: tail =
        '"' :: (k.data.flatMap jsonEscapeChar ++ '"' :: ':' :: tail) := by
      simp [jsonQuote]
    have hcolon : (':' :: tail).dropWhile isJsonSpace = ':' :: tail := by
      rw [List.dropWhile_cons]
      rfl
    rw [e, parseMembers]
    simp only [ne_eq, not_true_eq_false, if_false]
    rw [parseStringBody_escape k.data (':' :: tail) _ (by
      simp only [List.length_append, List.length_cons]; omega)]
    simp only [hcolon, not_true_eq_false, if_false, h fuel]

/-- After a whole key, a colon and a string value, a list of members needs `,` or the closing
brace. -/
theorem parseMembers_no_delimiter (k v : String) (tail : List Char) (fuel depth : Nat)
    (h : tail.dropWhile isJsonSpace = [] ∨
      ∃ c l2, tail.dropWhile isJsonSpace = c :: l2 ∧ c ≠ '}' ∧ c ≠ ',') :
    parseMembers fuel depth (jsonQuote k ++ ':' :: (jsonQuote v ++ tail)) = none := by
  cases fuel with
  | zero => rfl
  | succ fuel =>
    have e : jsonQuote k ++ ':' :: (jsonQuote v ++ tail) =
        '"' :: (k.data.flatMap jsonEscapeChar ++ '"' :: ':' :: (jsonQuote v ++ tail)) := by
      simp [jsonQuote]
    have hcolon : (':' :: (jsonQuote v ++ tail)).dropWhile isJsonSpace =
        ':' :: (jsonQuote v ++ tail) := by
      rw [List.dropWhile_cons]
      rfl
    have hquote : (jsonQuote v ++ tail).dropWhile isJsonSpace = jsonQuote v ++ tail := by
      simp only [jsonQuote, List.cons_append, List.dropWhile_cons]
      rfl
    rw [e, parseMembers]
    simp only [ne_eq, not_true_eq_false, if_false]
    rw [parseStringBody_escape k.data _ _ (by
      simp only [List.length_append, List.length_cons]; omega)]
    simp only [hcolon, not_true_eq_false, if_false, hquote]
    cases fuel with
    | zero => rfl
    | succ fuel =>
      rw [parseValue_jsonQuote]
      rcases h with h | ⟨c, l2, h, hc1, hc2⟩
      · simp only [h]
      · simp only [h, if_neg hc1, if_neg hc2]

/-- A member with a string value, followed by the character `d`: a prefix of the text either
holds the whole member and `d`, or is no list of members. -/
theorem parseMembers_truncated (k v : String) (d : Char) (rest front junk : List Char)
    (hfront : front <+: jsonQuote k ++ ':' :: (jsonQuote v ++ d :: rest))
    (hjunk : ∀ c ∈ junk, c = Char.ofNat 0xFFFD) :
    (∃ tail, front = jsonQuote k ++ ':' :: (jsonQuote v ++ d :: tail) ∧ tail <+: rest) ∨
      ∀ fuel depth, parseMembers fuel depth (front ++ junk) = none := by
  have hjunkcases : ∀ bad : Char → Prop, (¬ bad (Char.ofNat 0xFFFD)) →
      (junk.dropWhile isJsonSpace = [] ∨
        ∃ c l2, junk.dropWhile isJsonSpace = c :: l2 ∧ ¬ bad c) := by
    intro bad hbad
    rw [dropWhile_junk junk hjunk]
    cases junk with
    | nil => exact Or.inl rfl
    | cons c junk =>
      have hc := hjunk c (List.mem_cons_self _ _)
      subst hc
      exact Or.inr ⟨_, _, rfl, hbad⟩
  rcases quote_prefix_cases k _ front hfront with rfl | ⟨inner, rfl, h⟩ | ⟨t1, rfl, h1⟩
  · exact Or.inr (fun fuel depth => parseMembers_junk junk fuel depth hjunk)
  · right
    intro fuel depth
    cases fuel with
    | zero => rfl
    | succ fuel =>
      simp only [List.cons_append, parseMembers, ne_eq, not_true_eq_false, if_false,
        parseStringBody_truncated k.data inner junk _ h hjunk]
  · rw [List.prefix_cons_iff] at h1
    rcases h1 with rfl | ⟨t2, rfl, h2⟩
    · right
      intro fuel depth
      rw [List.append_assoc, List.nil_append]
      apply parseMembers_no_colon
      rcases hjunkcases (fun c => c = ':') (by decide) with h | ⟨c, l2, h, hc⟩
      · exact Or.inl h
      · exact Or.inr ⟨c, l2, h, hc⟩
    · rcases parseValue_truncated v (d :: rest) t2 junk h2 hjunk with ⟨t3, rfl, h3⟩ | hnone
      · rw [List.prefix_cons_iff] at h3
        rcases h3 with rfl | ⟨tail, rfl, htail⟩
        · right
          intro fuel depth
          have e : jsonQuote k ++ ':' :: (jsonQuote v ++ []) ++ junk =
              jsonQuote k ++ ':' :: (jsonQuote v ++ junk) := by simp
          rw [e]
          apply parseMembers_no_delimiter
          rcases hjunkcases (fun c => c = '}' ∨ c = ',') (by decide) with h | ⟨c, l2, h, hc⟩
          · exact Or.inl h
          · exact Or.inr ⟨c, l2, h, fun h1 => hc (Or.inl h1), fun h1 => hc (Or.inr h1)⟩
        · exact Or.inl ⟨tail, by simp, htail⟩
      · right
        intro fuel depth
        have e : jsonQuote k ++ ':' :: t2 ++ junk = jsonQuote k ++ ':' :: (t2 ++ junk) := by
          simp
        rw [e]
        apply parseMembers_no_value
        intro f
        rw [(dropWhile_quoted v (d :: rest) t2 junk h2 hjunk).1]
        exact hnone f depth

/-- The members of an object with two string members, cut before the closing brace, are no
list of members. -/
theorem parseMembers_object_truncated (k1 v1 k2 v2 : String) (front junk : List Char)
    (hfront : front <+: jsonQuote k1 ++ ':' :: (jsonQuote v1 ++ ',' ::
      (jsonQuote k2 ++ ':' :: (jsonQuote v2 ++ ['}']))))
    (hne : front ≠ jsonQuote k1 ++ ':' :: (jsonQuote v1 ++ ',' ::
      (jsonQuote k2 ++ ':' :: (jsonQuote v2 ++ ['}']))))
    (hjunk : ∀ c ∈ junk, c = Char.ofNat 0xFFFD) (fuel depth : Nat) :
    parseMembers fuel depth (front ++ junk) = none := by
  rcases parseMembers_truncated k1 v1 ',' _ front junk hfront hjunk with ⟨t, rfl, ht⟩ | h
  · have hinner : ∀ f, parseMembers f depth (t ++ junk) = none := by
      rcases parseMembers_truncated k2 v2 '}' [] t junk ht hjunk with ⟨t2, rfl, ht2⟩ | h2
      · rw [List.prefix_nil] at ht2
        subst ht2
        exact absurd rfl hne
      · exact fun f => h2 f depth
    match fuel with
    | 0 => rfl
    | 1 => exact parseMembers_one depth _
    | f + 2 =>
      have e : jsonQuote k1 ++ ':' :: (jsonQuote v1 ++ ',' :: t) ++ junk =
          jsonQuote k1 ++ ':' :: (jsonQuote v1 ++ ',' :: (t ++ junk)) := by simp
      have hc : ¬ (',' : Char) = '}' := by decide
      rw [e, parseMembers_member k1 v1 ',' (t ++ junk) f depth (by decide), if_neg hc, if_pos rfl,
        (dropWhile_quoted k2 _ t junk ht hjunk).1, hinner (f + 1)]
  · exact h fuel depth

/-- The text of an object with two string members, cut before its end and followed by U+FFFD
characters, is no JSON value. -/
theorem parseValue_object_truncated (k1 v1 k2 v2 : String) (front junk : List Char)
    (hfront : front <+: (Json.obj [(k1, .str v1), (k2, .str v2)]).encode)
    (hne : front ≠ (Json.obj [(k1, .str v1), (k2, .str v2)]).encode)
    (hjunk : ∀ c ∈ junk, c = Char.ofNat 0xFFFD) (fuel : Nat) :
    parseValue fuel 0 ((front ++ junk).dropWhile isJsonSpace) = none := by
  have e0 : (Json.obj [(k1, .str v1), (k2, .str v2)]).encode =
      '{' :: (jsonQuote k1 ++ ':' :: (jsonQuote v1 ++ ',' :: (jsonQuote k2 ++ ':'
        :: (jsonQuote v2 ++ ['}'])))) := by
    simp [Json.encode, Json.encodeMembers]
  rw [e0] at hfront hne
  rw [List.prefix_cons_iff] at hfront
  rcases hfront with rfl | ⟨t, rfl, ht⟩
  · rw [List.nil_append, dropWhile_junk junk hjunk]
    exact parseValue_junk junk fuel 0 hjunk
  · have hne2 : t ≠ jsonQuote k1 ++ ':' :: (jsonQuote v1 ++ ',' :: (jsonQuote k2 ++ ':'
        :: (jsonQuote v2 ++ ['}']))) := fun h => hne (by rw [h])
    have hdrop := dropWhile_quoted k1 _ t junk ht hjunk
    have hbrace : ('{' :: t ++ junk).dropWhile isJsonSpace = '{' :: (t ++ junk) := by
      rw [List.cons_append, List.dropWhile_cons]
      rfl
    rw [hbrace]
    cases fuel with
    | zero => rfl
    | succ fuel =>
      have h1 : ¬ ('{' : Char) = '"' := by decide
      have h2 : ¬ ('{' : Char) = '[' := by decide
      have h3 : ¬ (0 ≥ 10000) := by decide
      rw [parseValue]
      simp only [if_neg h1, if_neg h2, if_true, if_neg h3, hdrop.1]
      split
      · rename_i out heq
        exact absurd heq (hdrop.2 out)
      · rw [parseMembers_object_truncated k1 v1 k2 v2 t junk ht hne2 hjunk]

/-- A proper prefix of the bytes of an object with two string members is no JSON text. -/
theorem parseJson_truncated (k1 v1 k2 v2 : String) (m : Nat)
    (hm : m < (stringBytes ⟨(Json.obj [(k1, .str v1), (k2, .str v2)]).encode⟩).length) :
    parseJson ((stringBytes ⟨(Json.obj [(k1, .str v1), (k2, .str v2)]).encode⟩).take m) =
      none := by
  unfold stringBytes at hm ⊢
  simp only [] at hm ⊢
  obtain ⟨front, k, hpre, hne, hdec⟩ := utf8DecodeAux_take
    ((Json.obj [(k1, .str v1), (k2, .str v2)]).encode) m m (Nat.le_refl m) (Nat.le_of_lt hm)
  have hlen : (List.take m (List.flatMap
      (Json.obj [(k1, .str v1), (k2, .str v2)]).encode charBytes)).length = m := by
    rw [List.length_take]
    omega
  unfold parseJson utf8Decode
  simp only [hlen, hdec]
  rw [parseValue_object_truncated k1 v1 k2 v2 front _ hpre (hne hm)
    (fun c hc => List.eq_of_mem_replicate hc)]

/-- Claim C19, amended: for every token produced by `encodeSearchCursor` and every proper
prefix of the token that is not empty, `decodeSearchCursor` returns the invalid-cursor
error. -/
theorem C19_truncated_cursor (cursor : searchCursorPayload) (token : String) (n : Nat)
    (henc : encodeSearchCursor cursor = .ok token) (hpos : 0 < n) (hlt : n < token.length) :
    decodeSearchCursor ⟨token.data.take n⟩ = .error "invalid cursor" := by
  simp only [encodeSearchCursor, Except.ok.injEq] at henc
  subst henc
  simp only [String.length] at hlt
  have hbytes := stringBytes_lt
    ⟨(Json.obj [("sortAt", .str cursor.SortAt), ("id", .str cursor.ID)]).encode⟩
  have htrim : TrimSpace ⟨(base64Encode (stringBytes
      ⟨(Json.obj [("sortAt", .str cursor.SortAt), ("id", .str cursor.ID)]).encode⟩)).take n⟩ =
      ⟨(base64Encode (stringBytes
        ⟨(Json.obj [("sortAt", .str cursor.SortAt), ("id", .str cursor.ID)]).encode⟩)).take
          n⟩ := by
    unfold TrimSpace
    rw [trimSpaceChars_of_no_space _
      (fun c hc => base64Encode_not_space _ c (List.mem_of_mem_take hc))]
  have hne : (⟨(base64Encode (stringBytes
      ⟨(Json.obj [("sortAt", .str cursor.SortAt), ("id", .str cursor.ID)]).encode⟩)).take n⟩ :
        String) ≠ "" := by
    intro h
    have h2 := congrArg (fun s : String => s.data.length) h
    have h3 : ("" : String).data.length = 0 := rfl
    simp only [List.length_take, h3] at h2
    omega
  have hdecode := base64Decode_take _ hbytes n (Nat.le_of_lt hlt)
  unfold decodeSearchCursor
  simp only [htrim, if_neg hne, hdecode]
  by_cases hmod : n % 4 = 1
  · simp only [if_pos hmod]
  · have hm : n * 6 / 8 < (stringBytes
        ⟨(Json.obj [("sortAt", .str cursor.SortAt), ("id", .str cursor.ID)]).encode⟩).length := by
      rw [base64Encode_eq_map, List.length_map, base64Values_length] at hlt
      omega
    simp only [if_neg hmod, unmarshalCursorPayload,
      parseJson_truncated "sortAt" cursor.SortAt "id" cursor.ID _ hm]

set_option maxRecDepth 100000 in
theorem C19_truncated_cursor_witness :
    (encodeSearchCursor { SortAt := "2023-11-14T22:13:21Z", ID := "x" } =
        .ok "eyJzb3J0QXQiOiIyMDIzLTExLTE0VDIyOjEzOjIxWiIsImlkIjoieCJ9" ∧
      0 < 10 ∧ 10 < "eyJzb3J0QXQiOiIyMDIzLTExLTE0VDIyOjEzOjIxWiIsImlkIjoieCJ9".length) ∧
    decodeSearchCursor
        ⟨"eyJzb3J0QXQiOiIyMDIzLTExLTE0VDIyOjEzOjIxWiIsImlkIjoieCJ9".data.take 10⟩ =
      .error "invalid cursor" :=
  ⟨⟨rfl, by decide, by decide⟩,
    C19_truncated_cursor { SortAt := "2023-11-14T22:13:21Z", ID := "x" }
      "eyJzb3J0QXQiOiIyMDIzLTExLTE0VDIyOjEzOjIxWiIsImlkIjoieCJ9" 10 rfl (by decide)
      (by decide)⟩

set_option maxRecDepth 100000 in
/-- Claim C19 as stated fails for the empty prefix: it is a proper prefix of every token, and
`decodeSearchCursor` returns no error for it, but the answer `(nil, nil)` of a request
without a cursor, which `handlePublicSearch` serves with the first page. -/
theorem C19_counterexample :
    encodeSearchCursor { SortAt := "2023-11-14T22:13:21Z", ID := "x" } =
        .ok "eyJzb3J0QXQiOiIyMDIzLTExLTE0VDIyOjEzOjIxWiIsImlkIjoieCJ9" ∧
      "eyJzb3J0QXQiOiIyMDIzLTExLTE0VDIyOjEzOjIxWiIsImlkIjoieCJ9".data.take 0 = "".data ∧
      "".data <+: "eyJzb3J0QXQiOiIyMDIzLTExLTE0VDIyOjEzOjIxWiIsImlkIjoieCJ9".data ∧
      "".data ≠ "eyJzb3J0QXQiOiIyMDIzLTExLTE0VDIyOjEzOjIxWiIsImlkIjoieCJ9".data ∧
      decodeSearchCursor "" = .ok none := by
  refine ⟨rfl, rfl, List.nil_prefix, by decide, rfl⟩

/-! ### The sweep of the nonce ledger -/

/-- Claim C21, amended: for every ledger and every `RegisterNonce` call that succeeds at
time `now`: when the `DELETE` of the sweep does not fail, the resulting ledger is the old
ledger plus the new row `(keyID, nonce, now + ttl)` with every row whose expiry is before
`now` removed and every other row kept, and every other pair whose records in the old ledger
had all expired can be registered again on the resulting ledger; when the `DELETE` fails, the
call succeeds all the same and the resulting ledger is the old ledger plus the new row. -/
theorem C21_register_sweeps (ledger ledger1 : List NonceRow) (now : Time)
    (insertFault sweepFault : Option String) (keyID nonce : String) (ttl : Duration)
    (h : RegisterNonce ledger now insertFault sweepFault keyID nonce ttl = (none, ledger1)) :
    (sweepFault = none →
      ledger1 = (ledger ++ [(⟨keyID, nonce, now + ttl⟩ : NonceRow)]).filter
        (fun row => ¬ row.expires_at < now) ∧
      (∀ row, row ∈ ledger1 ↔
        (row ∈ ledger ∨ row = ⟨keyID, nonce, now + ttl⟩) ∧ ¬ row.expires_at < now) ∧
      (∀ (k n : String) (now2 : Time) (sweep2 : Option String) (ttl2 : Duration),
        (k ≠ keyID ∨ n ≠ nonce) →
        (∀ row ∈ ledger, row.key_id = k → row.nonce = n → row.expires_at < now) →
        (RegisterNonce ledger1 now2 none sweep2 k n ttl2).1 = none)) ∧
    (sweepFault ≠ none → ledger1 = ledger ++ [⟨keyID, nonce, now + ttl⟩]) := by
  cases insertFault with
  | some reason => exact absurd (congrArg Prod.fst h) (by simp [RegisterNonce])
  | none =>
    rw [RegisterNonce_eq] at h
    by_cases hany : ledger.any (fun row => row.key_id = keyID ∧ row.nonce = nonce) = true
    · rw [if_pos hany] at h
      exact absurd (congrArg Prod.fst h) (by simp)
    rw [if_neg hany] at h
    have h2 := congrArg Prod.snd h
    simp only at h2
    constructor
    · intro hs
      subst hs
      simp only at h2
      have hmem : ∀ row, row ∈ ledger1 ↔
          (row ∈ ledger ∨ row = ⟨keyID, nonce, now + ttl⟩) ∧ ¬ row.expires_at < now := by
        intro row
        rw [← h2]
        simp only [List.mem_filter, List.mem_append, List.mem_singleton, decide_not,
          Bool.not_eq_true', decide_eq_false_iff_not]
      refine ⟨h2.symm, hmem, ?_⟩
      intro k n now2 sweep2 ttl2 hne hexp
      rw [RegisterNonce_eq]
      have hnot : ¬ ledger1.any (fun row => row.key_id = k ∧ row.nonce = n) = true := by
        rw [List.any_eq_true]
        rintro ⟨row, hrow, hp⟩
        have hp2 : row.key_id = k ∧ row.nonce = n := by simpa using hp
        rcases (hmem row).1 hrow with ⟨hin | hnew, hlive⟩
        · exact hlive (hexp row hin hp2.1 hp2.2)
        · subst hnew
          rcases hne with hk | hn
          · exact hk hp2.1.symm
          · exact hn hp2.2.symm
      rw [if_neg hnot]
    · intro hs
      cases sweepFault with
      | none => exact absurd rfl hs
      | some reason => exact h2.symm

/-- Claim C21, witness: at time 10 the registration of `(k, new)` sweeps the record of
`(k, old)`, which expired at 5, and keeps the record of `(k, live)`; `(k, old)` is then
registered again at time 20. -/
theorem C21_register_sweeps_witness :
    RegisterNonce [⟨"k", "old", 5⟩, ⟨"k", "live", 50⟩] 10 none none "k" "new" 60 =
        (none, [⟨"k", "live", 50⟩, ⟨"k", "new", 70⟩]) ∧
      (RegisterNonce [⟨"k", "live", 50⟩, ⟨"k", "new", 70⟩] 20 none none "k" "old" 60).1
        = none :=
  ⟨by decide,
    ((C21_register_sweeps [⟨"k", "old", 5⟩, ⟨"k", "live", 50⟩]
      [⟨"k", "live", 50⟩, ⟨"k", "new", 70⟩] 10 none none "k" "new" 60 (by decide)).1 rfl).2.2
      "k" "old" 20 none 60 (Or.inr (by decide)) (by decide)⟩

/-- Claim C21 as stated fails when the `DELETE` of the sweep fails in the driver (the request
context is cancelled after the `INSERT`): the registration of `(k, new)` at time 10 succeeds,
the record of `(k, old)`, which expired at 5, is still in the ledger, and `(k, old)` is
refused at time 20. -/
theorem C21_counterexample :
    RegisterNonce [⟨"k", "old", 5⟩] 10 none (some "context canceled") "k" "new" 60 =
        (none, [⟨"k", "old", 5⟩, ⟨"k", "new", 70⟩]) ∧
      (5 : Time) < 10 ∧
      RegisterNonce [⟨"k", "old", 5⟩, ⟨"k", "new", 70⟩] 20 none none "k" "old" 60 =
        (some .ErrNonceUsed, [⟨"k", "old", 5⟩, ⟨"k", "new", 70⟩]) := by
  decide

/-! ### Scopes -/

/-- Claim C22: `HasScope(ctx, s)` is true if and only if the context carries an
authenticated identity whose scopes contain `s` or `*`; the handler of `RequireScope`
answers 403 with the code `forbidden` and does not call the wrapped handler exactly when
`HasScope` is false, and calls the wrapped handler exactly when it is true. -/
theorem C22_scope_gate (ctx : ContextValue) (s : String) :
    (HasScope ctx s = true ↔
      ∃ authCtx, ctx = .auth authCtx ∧ (s ∈ authCtx.Scopes ∨ "*" ∈ authCtx.Scopes)) ∧
    (HasScope ctx s = false ↔
      RequireScope s ctx = .rejected
        { status := 403, contentType := "application/json",
          body := "\x7b\"error\":\x7b\"code\":\"forbidden\",\"message\":\"missing required scope: "
            ++ s ++ "\",\"retryable\":false\x7d\x7d" }) ∧
    (HasScope ctx s = true ↔ RequireScope s ctx = .next) := by
  refine ⟨?_, ?_, ?_⟩
  · cases ctx with
    | absent => simp [HasScope, GetAuthContext]
    | other => simp [HasScope, GetAuthContext]
    | auth authCtx =>
      simp only [HasScope, GetAuthContext, List.any_eq_true, ContextValue.auth.injEq,
        exists_eq_left', Bool.decide_or, Bool.or_eq_true, decide_eq_true_eq]
      constructor
      · rintro ⟨c, hc, h | h⟩
        · exact Or.inl (h ▸ hc)
        · exact Or.inr (h ▸ hc)
      · rintro (h | h)
        · exact ⟨s, h, Or.inl rfl⟩
        · exact ⟨"*", h, Or.inr rfl⟩
  · cases h : HasScope ctx s <;> simp [RequireScope, h]
  · cases h : HasScope ctx s <;> simp [RequireScope, h]

/-! ### The limit of a search -/

/-- Claim C29: for every integer `limit`, `normalizeSearchLimit(limit)` lies in `[1, 30]`
(12 when `limit <= 0`, 30 when `limit > 30`, `limit` otherwise) and normalising twice is
normalising once; and for every limit in that range, every list of items and every cursor
getter, `buildSearchResponse` returns (it neither slices nor indexes out of bounds), as it
does for every normalised limit. -/
theorem C29_search_limit (limit : Int) :
    1 ≤ normalizeSearchLimit limit ∧ normalizeSearchLimit limit ≤ 30 ∧
      (limit ≤ 0 → normalizeSearchLimit limit = 12) ∧
      (30 < limit → normalizeSearchLimit limit = 30) ∧
      (0 < limit → limit ≤ 30 → normalizeSearchLimit limit = limit) ∧
      normalizeSearchLimit (normalizeSearchLimit limit) = normalizeSearchLimit limit ∧
      (∀ (T : Type) (items : List T) (cursorGetter : T → searchCursorPayload),
        1 ≤ limit → limit ≤ 30 →
        ∃ result, buildSearchResponse items limit cursorGetter = some result) ∧
      (∀ (T : Type) (items : List T) (cursorGetter : T → searchCursorPayload),
        ∃ result,
          buildSearchResponse items (normalizeSearchLimit limit) cursorGetter = some result) := by
  have hrange : 1 ≤ normalizeSearchLimit limit ∧ normalizeSearchLimit limit ≤ 30 := by
    unfold normalizeSearchLimit
    split_ifs <;> omega
  have hbuild : ∀ (n : Int) (T : Type) (items : List T)
      (cursorGetter : T → searchCursorPayload), 1 ≤ n → n ≤ 30 →
      ∃ result, buildSearchResponse items n cursorGetter = some result := by
    intro n T items cursorGetter h1 h30
    unfold buildSearchResponse
    simp only []
    by_cases hmore : (items.length : Int) > n
    · rw [if_pos (decide_eq_true hmore), if_neg (by omega)]
      have hne : items.take n.toNat ≠ [] := by
        intro hnil
        have hlen := congrArg List.length hnil
        rw [List.length_take, List.length_nil] at hlen
        omega
      obtain ⟨last, hlast⟩ : ∃ last, (items.take n.toNat).getLast? = some last := by
        cases hl : (items.take n.toNat).getLast? with
        | none => exact absurd (List.getLast?_eq_none_iff.mp hl) hne
        | some last => exact ⟨last, rfl⟩
      rw [hlast]
      simp only []
      cases encodeSearchCursor (cursorGetter last) with
      | error err => exact ⟨_, rfl⟩
      | ok encoded => exact ⟨_, rfl⟩
    · rw [if_neg (by simpa using hmore)]
      exact ⟨_, rfl⟩
  refine ⟨hrange.1, hrange.2, ?_, ?_, ?_, ?_, ?_, ?_⟩
  · intro h
    simp only [normalizeSearchLimit, if_pos h]
  · intro h
    have h0 : ¬ limit ≤ 0 := by omega
    have h1 : limit > 30 := h
    simp only [normalizeSearchLimit, if_neg h0, if_pos h1]
  · intro h0 h30
    have h0n : ¬ limit ≤ 0 := by omega
    have h1 : ¬ limit > 30 := by omega
    simp only [normalizeSearchLimit, if_neg h0n, if_neg h1]
  · have hfix : ∀ n : Int, 1 ≤ n → n ≤ 30 → normalizeSearchLimit n = n := by
      intro n h1 h30
      have h0n : ¬ n ≤ 0 := by omega
      have h1n : ¬ n > 30 := by omega
      simp only [normalizeSearchLimit, if_neg h0n, if_neg h1n]
    exact hfix _ hrange.1 hrange.2
  · intro T items cursorGetter h1 h30
    exact hbuild limit T items cursorGetter h1 h30
  · intro T items cursorGetter
    exact hbuild _ T items cursorGetter hrange.1 hrange.2

/-! ### The syntax of the timestamp -/

/-- Claim C24, amended: for every raw string, every `maxSkew` and every `now`,
`ValidateTimestamp` returns false when `time.ParseDuration` does not read the raw string
followed by `ms`, and it does not read it when the first character after an optional sign is
neither a digit nor a period (an empty string, a letter, a space). -/
theorem C24_timestamp_syntax (raw : String) (maxSkew : Duration) (now : Time) :
    (ParseDuration (raw ++ "ms") = none → ValidateTimestamp raw maxSkew now = false) ∧
    (∀ c rest, stripSign (raw.data ++ ['m', 's']) = c :: rest → isNumberChar c = false →
      ParseDuration (raw ++ "ms") = none ∧ ValidateTimestamp raw maxSkew now = false) := by
  have h1 : ParseDuration (raw ++ "ms") = none → ValidateTimestamp raw maxSkew now = false := by
    intro h
    simp only [ValidateTimestamp, h]
  refine ⟨h1, ?_⟩
  intro c rest hbody hc
  have hp : ParseDuration (raw ++ "ms") = none := by
    have hdata : (raw ++ "ms").data = raw.data ++ ['m', 's'] := by
      simp [String.data_append]
    have hne0 : ¬ c :: rest = ['0'] := by
      intro h0
      have hc0 : c = '0' := (List.cons.inj h0).1
      rw [hc0] at hc
      exact absurd hc (by decide)
    have hnn : ¬ isNumberChar c = true := by
      rw [hc]
      decide
    simp only [ParseDuration, hdata, hbody, if_neg hne0, List.length_cons, parseDurationTerms,
      hnn, not_false_eq_true, if_true, reduceCtorEq, if_false]
  exact ⟨hp, h1 hp⟩

/-- Claim C24 as stated fails for `1h30` and for `1.5`, which are not decimal integers:
`time.ParseDuration` reads `1h30ms` as one hour and 30 milliseconds and `1.5ms` as 1.5
milliseconds, and `ValidateTimestamp` returns true at these instants with a skew of zero. -/
theorem C24_counterexample :
    ParseDuration "1h30ms" = some 3600030000000 ∧
      ValidateTimestamp "1h30" 0 3600030000000 = true ∧
      ParseDuration "1.5ms" = some 1500000 ∧
      ValidateTimestamp "1.5" 0 1500000 = true := by
  decide

/-! ### The order of the checks -/

/-- Claim C23, amended: `Authenticate` applies its checks in the fixed order headers
present, timestamp valid, body readable, key found, key not revoked, signature valid, nonce
accepted; a request that fails one or more checks is answered 401 with the code of the
earliest failing check (`missing_auth_headers`, `invalid_timestamp`, `invalid_request`,
`invalid_key`, `revoked_key`, `invalid_signature`, `nonce_reused` respectively), the next
handler is not called and the database is unchanged; the next handler is called, with the
trimmed key id and the scopes of the key record attached, only when all seven checks pass. -/
theorem C23_check_order (a : Authenticator) (db : DB) (now : Time) (faults : AuthFaults)
    (r : Request) :
    ((TrimSpace r.KeyId = "" ∨ TrimSpace r.Timestamp = "" ∨ TrimSpace r.Nonce = ""
        ∨ TrimSpace r.Signature = "") →
      Authenticate a db now faults r =
        (.rejected (unauthorized "missing_auth_headers" "missing required auth headers"), db)) ∧
    (¬ (TrimSpace r.KeyId = "" ∨ TrimSpace r.Timestamp = "" ∨ TrimSpace r.Nonce = ""
        ∨ TrimSpace r.Signature = "") →
      (ValidateTimestamp (TrimSpace r.Timestamp) a.MaxSkew now = false →
        Authenticate a db now faults r =
          (.rejected (unauthorized "invalid_timestamp" "timestamp is outside accepted window"),
            db)) ∧
      (ValidateTimestamp (TrimSpace r.Timestamp) a.MaxSkew now = true →
        (r.Body = none →
          Authenticate a db now faults r =
            (.rejected (unauthorized "invalid_request" "failed to read request body"), db)) ∧
        (∀ body, r.Body = some body →
          (∀ e, GetAPIKeyByKeyID db faults.lookup (TrimSpace r.KeyId) = .error e →
            Authenticate a db now faults r =
              (.rejected (unauthorized "invalid_key" "api key not found"), db)) ∧
          (∀ record, GetAPIKeyByKeyID db faults.lookup (TrimSpace r.KeyId) = .ok record →
            (record.RevokedAt ≠ none →
              Authenticate a db now faults r =
                (.rejected (unauthorized "revoked_key" "api key has been revoked"), db)) ∧
            (record.RevokedAt = none →
              (Verify record.Secret
                  { Method := r.Method, Path := r.Path, RawQuery := r.RawQuery,
                    Timestamp := TrimSpace r.Timestamp, Nonce := TrimSpace r.Nonce,
                    BodyHash := SHA256Hex body } (TrimSpace r.Signature) = false →
                Authenticate a db now faults r =
                  (.rejected (unauthorized "invalid_signature" "signature verification failed"),
                    db)) ∧
              (Verify record.Secret
                  { Method := r.Method, Path := r.Path, RawQuery := r.RawQuery,
                    Timestamp := TrimSpace r.Timestamp, Nonce := TrimSpace r.Nonce,
                    BodyHash := SHA256Hex body } (TrimSpace r.Signature) = true →
                (∀ e, (RegisterNonce db.request_nonces now faults.insert faults.sweep
                    (TrimSpace r.KeyId) (TrimSpace r.Nonce) a.NonceTTL).1 = some e →
                  Authenticate a db now faults r =
                    (.rejected (unauthorized "nonce_reused" "nonce has already been used"),
                      db)) ∧
                ((RegisterNonce db.request_nonces now faults.insert faults.sweep
                    (TrimSpace r.KeyId) (TrimSpace r.Nonce) a.NonceTTL).1 = none →
                  (Authenticate a db now faults r).1 =
                    .next { KeyID := TrimSpace r.KeyId, Scopes := record.Scopes } body))))))) ∧
    (∀ ctx body, (Authenticate a db now faults r).1 = .next ctx body →
      ∃ record,
        ¬ (TrimSpace r.KeyId = "" ∨ TrimSpace r.Timestamp = "" ∨ TrimSpace r.Nonce = ""
          ∨ TrimSpace r.Signature = "") ∧
        ValidateTimestamp (TrimSpace r.Timestamp) a.MaxSkew now = true ∧
        r.Body = some body ∧
        GetAPIKeyByKeyID db faults.lookup (TrimSpace r.KeyId) = .ok record ∧
        record.RevokedAt = none ∧
        Verify record.Secret
          { Method := r.Method, Path := r.Path, RawQuery := r.RawQuery,
            Timestamp := TrimSpace r.Timestamp, Nonce := TrimSpace r.Nonce,
            BodyHash := SHA256Hex body } (TrimSpace r.Signature) = true ∧
        (RegisterNonce db.request_nonces now faults.insert faults.sweep (TrimSpace r.KeyId)
          (TrimSpace r.Nonce) a.NonceTTL).1 = none ∧
        ctx = { KeyID := TrimSpace r.KeyId, Scopes := record.Scopes }) := by
  refine ⟨fun h1 => ?_, fun h1 => ⟨fun h2 => ?_, fun h2 => ⟨fun hbody => ?_,
    fun body hbody => ⟨fun e hkey => ?_, fun record hkey => ⟨fun hrev => ?_, fun hrev =>
      ⟨fun hver => ?_, fun hver => ⟨fun e hreg => ?_, fun hreg => ?_⟩⟩⟩⟩⟩⟩, ?_⟩
  · simp only [Authenticate, if_pos h1]
  · have h2n : ¬ ValidateTimestamp (TrimSpace r.Timestamp) a.MaxSkew now = true := by
      rw [h2]
      decide
    simp only [Authenticate, if_neg h1, if_pos h2n]
  · have h2n : ¬ ¬ ValidateTimestamp (TrimSpace r.Timestamp) a.MaxSkew now = true :=
      not_not_intro h2
    simp only [Authenticate, if_neg h1, if_neg h2n, hbody]
  · have h2n : ¬ ¬ ValidateTimestamp (TrimSpace r.Timestamp) a.MaxSkew now = true :=
      not_not_intro h2
    simp only [Authenticate, if_neg h1, if_neg h2n, hbody, hkey]
  · have h2n : ¬ ¬ ValidateTimestamp (TrimSpace r.Timestamp) a.MaxSkew now = true :=
      not_not_intro h2
    simp only [Authenticate, if_neg h1, if_neg h2n, hbody, hkey, if_pos hrev]
  · have h2n : ¬ ¬ ValidateTimestamp (TrimSpace r.Timestamp) a.MaxSkew now = true :=
      not_not_intro h2
    have h3 : ¬ record.RevokedAt ≠ none := not_not_intro hrev
    have h4 : ¬ Verify record.Secret
        { Method := r.Method, Path := r.Path, RawQuery := r.RawQuery,
          Timestamp := TrimSpace r.Timestamp, Nonce := TrimSpace r.Nonce,
          BodyHash := SHA256Hex body } (TrimSpace r.Signature) = true := by
      rw [hver]
      decide
    simp only [Authenticate, if_neg h1, if_neg h2n, hbody, hkey, if_neg h3, if_pos h4]
  · have hc := Authenticate_checked a db now faults r body record h1 h2 hbody hkey hrev hver
    have hfst : (Authenticate a db now faults r).1 =
        .rejected (unauthorized "nonce_reused" "nonce has already been used") := by
      rw [hc]
      cases hr : RegisterNonce db.request_nonces now faults.insert faults.sweep
          (TrimSpace r.KeyId) (TrimSpace r.Nonce) a.NonceTTL with
      | mk err ledger =>
        rw [hr] at hreg
        simp only at hreg
        subst hreg
        rfl
    exact Prod.ext hfst (Authenticate_rejected_db a db now faults r _ hfst)
  · have hc := Authenticate_checked a db now faults r body record h1 h2 hbody hkey hrev hver
    rw [hc]
    cases hr : RegisterNonce db.request_nonces now faults.insert faults.sweep
        (TrimSpace r.KeyId) (TrimSpace r.Nonce) a.NonceTTL with
    | mk err ledger =>
      rw [hr] at hreg
      simp only at hreg
      subst hreg
      rfl
  · intro ctx body hnext
    obtain ⟨record, hbody, hkey, hrev, h2, hver, hreg⟩ :=
      Authenticate_next_inv a db now faults r ctx body hnext
    have h1 : ¬ (TrimSpace r.KeyId = "" ∨ TrimSpace r.Timestamp = "" ∨ TrimSpace r.Nonce = ""
        ∨ TrimSpace r.Signature = "") := by
      intro h1
      simp only [Authenticate, if_pos h1] at hnext
      exact absurd hnext (by simp)
    refine ⟨record, h1, h2, hbody, hkey, hrev, hver, hreg, ?_⟩
    have hc := Authenticate_checked a db now faults r body record h1 h2 hbody hkey hrev hver
    rw [hc] at hnext
    cases hr : RegisterNonce db.request_nonces now faults.insert faults.sweep
        (TrimSpace r.KeyId) (TrimSpace r.Nonce) a.NonceTTL with
    | mk err ledger =>
      rw [hr] at hreg hnext
      simp only at hreg
      subst hreg
      simp only [AuthOutcome.next.injEq] at hnext
      exact hnext.1.symm

set_option maxRecDepth 100000 in
/-- Claim C23 as stated fails for a revoked key and for a body that cannot be read: the
request of the golden vector under the revoked key `k2` is answered with the code
`revoked_key`, and the same request with an unreadable body with the code `invalid_request`;
neither is one of the five codes of the claim. -/
theorem C23_counterexample :
    (Authenticate sampleAuthenticator sampleDB sampleNow .none
        { sampleRequest with KeyId := "k2" }).1 =
      .rejected { status := 401, contentType := "application/json",
                  body := "\x7b\"error\":\x7b\"code\":\"revoked_key\",\"message\":\"api key has been revoked\",\"retryable\":false\x7d\x7d" } ∧
    (Authenticate sampleAuthenticator sampleDB sampleNow .none
        { sampleRequest with Body := none }).1 =
      .rejected { status := 401, contentType := "application/json",
                  body := "\x7b\"error\":\x7b\"code\":\"invalid_request\",\"message\":\"failed to read request body\",\"retryable\":false\x7d\x7d" } := by
  decide!

/-! ### Failures of the store -/

/-- The outcome of `BeginIdempotency` for a key whose record is not completed: an error, and
the table is unchanged; the error is `ErrIdempotencyInProgress` when no database call fails
and the request hash is the hash of the record. -/
theorem BeginIdempotency_in_progress (table : List IdempotencyRow) (now : Time)
    (insertFault selectFault : Option String) (key requestHash : String) (row : IdempotencyRow)
    (hfind : table.find? (fun row => row.key = key) = some row)
    (hstatus : row.status ≠ "completed") :
    ∃ e, BeginIdempotency table now insertFault selectFault key requestHash = (.error e, table) ∧
      (insertFault = none → selectFault = none → row.request_hash = requestHash →
        e = .ErrIdempotencyInProgress) := by
  have hany := any_key_eq_true_of_find?_some table key row hfind
  cases insertFault with
  | some reason => exact ⟨.database reason, rfl, fun h => absurd h (by simp)⟩
  | none =>
    cases selectFault with
    | some reason =>
      refine ⟨.database reason, ?_, fun _ h => absurd h (by simp)⟩
      simp [BeginIdempotency, hany]
    | none =>
      rw [BeginIdempotency_existing table now key requestHash row hfind]
      by_cases hhash : row.request_hash = requestHash
      · refine ⟨.ErrIdempotencyInProgress, ?_, fun _ _ _ => rfl⟩
        simp [hhash, hstatus]
      · refine ⟨.ErrIdempotencyConflict, ?_, fun _ _ h => absurd h hhash⟩
        simp [hhash]

theorem find?_key_finalize (table : List IdempotencyRow) (key k h : String) (result : Json)
    (now : Time) (hne : k ≠ key) :
    (table.map (fun row =>
      if row.key = k ∧ row.request_hash = h then
        { row with status := "completed", response := some result, updated_at := now }
      else row)).find? (fun row => row.key = key) =
      table.find? (fun row => row.key = key) := by
  induction table with
  | nil => rfl
  | cons row rest ih =>
    simp only [List.map_cons, List.find?_cons]
    by_cases hk : row.key = key
    · have hnk : ¬ (row.key = k ∧ row.request_hash = h) :=
        fun hh => hne (hh.1.symm.trans hk)
      rw [if_neg hnk]
      simp [hk]
    · by_cases hc : row.key = k ∧ row.request_hash = h
      · rw [if_pos hc]
        simp [hk, ih]
      · rw [if_neg hc]
        simp [hk, ih]

/-- A call of `runWithIdempotency` on a table where the key `key` has a record that is not
completed: the record stays what it is; and when the call carries that key, it does not run
`execute`, writes nothing, leaves the table unchanged and fails, with
`ErrIdempotencyInProgress` when no database call fails and the payload is the payload of the
record. -/
theorem runWithIdempotency_in_progress {σ : Type} (table : List IdempotencyRow) (now : Time)
    (faults : IdempotencyFaults) (k : String) (payload : Json)
    (execute : σ → Except StoreError Json × σ) (world : σ) (key : String)
    (row : IdempotencyRow) (hkey : key ≠ "")
    (hfind : table.find? (fun row => row.key = key) = some row)
    (hstatus : row.status ≠ "completed") :
    (runWithIdempotency table now faults k payload execute world).table.find?
        (fun row => row.key = key) = some row ∧
      (k = key →
        (runWithIdempotency table now faults k payload execute world).table = table ∧
        (runWithIdempotency table now faults k payload execute world).world = world ∧
        (runWithIdempotency table now faults k payload execute world).ok = false ∧
        (runWithIdempotency table now faults k payload execute world).written = none ∧
        (∃ e, (runWithIdempotency table now faults k payload execute world).err = some e) ∧
        (faults.insert = none → faults.select = none →
          row.request_hash = payloadHash payload →
          (runWithIdempotency table now faults k payload execute world).err =
            some .ErrIdempotencyInProgress)) := by
  by_cases hk0 : k = ""
  · have hne : k ≠ key := fun h => hkey (h ▸ hk0)
    refine ⟨?_, fun h => absurd h hne⟩
    simp only [runWithIdempotency, if_pos hk0]
    cases hexec : execute world with
    | mk res world1 => cases res <;> exact hfind
  by_cases hkk : k = key
  · subst hkk
    obtain ⟨e, hb, he⟩ := BeginIdempotency_in_progress table now faults.insert faults.select k
      (payloadHash payload) row hfind hstatus
    have hrun : runWithIdempotency table now faults k payload execute world =
        ⟨false, some e, none, table, world⟩ := by
      simp only [runWithIdempotency, if_neg hk0, hb]
    rw [hrun]
    exact ⟨hfind, fun _ => ⟨rfl, rfl, rfl, rfl, ⟨e, rfl⟩,
      fun h1 h2 h3 => by rw [he h1 h2 h3]⟩⟩
  · refine ⟨?_, fun h => absurd h hkk⟩
    have htable := BeginIdempotency_table table now faults.insert faults.select k
      (payloadHash payload)
    have hfind1 : (BeginIdempotency table now faults.insert faults.select k
        (payloadHash payload)).2.find? (fun row => row.key = key) = some row := by
      rcases htable with h | ⟨-, h⟩
      · rw [h]
        exact hfind
      · rw [h, List.find?_append, hfind]
        rfl
    simp only [runWithIdempotency, if_neg hk0]
    cases hb : BeginIdempotency table now faults.insert faults.select k
        (payloadHash payload) with
    | mk res table1 =>
      rw [hb] at hfind1
      simp only at hfind1
      cases res with
      | error e => exact hfind1
      | ok beginResult =>
        simp only []
        cases hresp : beginResult.Response with
        | some response => exact hfind1
        | none =>
          simp only []
          cases hexec : execute world with
          | mk res world1 =>
            cases res with
            | error e => exact hfind1
            | ok result =>
              simp only []
              cases hf : faults.finalize with
              | some reason =>
                simp only [FinalizeIdempotency]
                exact hfind1
              | none =>
                simp only [FinalizeIdempotency]
                rw [find?_key_finalize table1 key k _ result now hkk]
                exact hfind1

/-- The record of a key that is not completed stays what it is under every sequence of
calls of `runWithIdempotency`. -/
theorem runAll_in_progress {σ : Type} (calls : List (RunCall σ)) (table : List IdempotencyRow)
    (world : σ) (key : String) (row : IdempotencyRow) (hkey : key ≠ "")
    (hfind : table.find? (fun row => row.key = key) = some row)
    (hstatus : row.status ≠ "completed") :
    (runAll table world calls).1.find? (fun row => row.key = key) = some row := by
  induction calls generalizing table world with
  | nil => exact hfind
  | cons call rest ih =>
    simp only [runAll, List.foldl_cons]
    exact ih _ _ (runWithIdempotency_in_progress table call.now call.faults call.key
      call.payload call.execute world key row hkey hfind hstatus).1

/-- Claim C26, amended: a failure of the database during `BeginIdempotency` or
`FinalizeIdempotency` in `runWithIdempotency` is returned to the handler, nothing is
written, and `writeStoreError` answers it with 500, the code `internal_error` and
`retryable = true`; a failure of the database during the key lookup in `Authenticate` is
answered 401 with the code `invalid_key`, and one during the registration of the nonce 401
with the code `nonce_reused`, both with `retryable = false`. -/
theorem C26_store_failures {σ : Type} (table : List IdempotencyRow) (now : Time)
    (key : String) (payload : Json) (execute : σ → Except StoreError Json × σ) (world : σ)
    (reason reqID : String) (a : Authenticator) (db : DB) (r : Request) :
    writeStoreError reqID (.database reason) =
        (500, { Code := "internal_error", Message := "internal error: " ++ reason,
                Retryable := true, RequestID := reqID }) ∧
    (∀ faults : IdempotencyFaults, key ≠ "" → faults.insert = some reason →
      (runWithIdempotency table now faults key payload execute world).err
          = some (.database reason) ∧
        (runWithIdempotency table now faults key payload execute world).written = none ∧
        (runWithIdempotency table now faults key payload execute world).world = world) ∧
    (∀ faults : IdempotencyFaults, key ≠ "" → faults.insert = none →
      table.any (fun row => row.key = key) = true → faults.select = some reason →
      (runWithIdempotency table now faults key payload execute world).err
          = some (.database reason) ∧
        (runWithIdempotency table now faults key payload execute world).written = none ∧
        (runWithIdempotency table now faults key payload execute world).world = world) ∧
    (∀ (faults : IdempotencyFaults) (result : Json) (world1 : σ), key ≠ "" →
      faults.insert = none → table.any (fun row => row.key = key) = false →
      execute world = (.ok result, world1) → faults.finalize = some reason →
      (runWithIdempotency table now faults key payload execute world).err
          = some (.database reason) ∧
        (runWithIdempotency table now faults key payload execute world).written = none) ∧
    (∀ (faults : AuthFaults) (body : List Nat),
      ¬ (TrimSpace r.KeyId = "" ∨ TrimSpace r.Timestamp = "" ∨ TrimSpace r.Nonce = ""
        ∨ TrimSpace r.Signature = "") →
      ValidateTimestamp (TrimSpace r.Timestamp) a.MaxSkew now = true → r.Body = some body →
      faults.lookup = some reason →
      Authenticate a db now faults r =
        (.rejected { status := 401, contentType := "application/json",
                     body := "\x7b\"error\":\x7b\"code\":\"invalid_key\",\"message\":\"api key not found\",\"retryable\":false\x7d\x7d" },
          db)) ∧
    (∀ (faults : AuthFaults) (body : List Nat) (record : APIKeyRecord),
      ¬ (TrimSpace r.KeyId = "" ∨ TrimSpace r.Timestamp = "" ∨ TrimSpace r.Nonce = ""
        ∨ TrimSpace r.Signature = "") →
      ValidateTimestamp (TrimSpace r.Timestamp) a.MaxSkew now = true → r.Body = some body →
      GetAPIKeyByKeyID db faults.lookup (TrimSpace r.KeyId) = .ok record →
      record.RevokedAt = none →
      Verify record.Secret
        { Method := r.Method, Path := r.Path, RawQuery := r.RawQuery,
          Timestamp := TrimSpace r.Timestamp, Nonce := TrimSpace r.Nonce,
          BodyHash := SHA256Hex body } (TrimSpace r.Signature) = true →
      faults.insert = some reason →
      Authenticate a db now faults r =
        (.rejected { status := 401, contentType := "application/json",
                     body := "\x7b\"error\":\x7b\"code\":\"nonce_reused\",\"message\":\"nonce has already been used\",\"retryable\":false\x7d\x7d" },
          db)) := by
  refine ⟨rfl, ?_, ?_, ?_, ?_, ?_⟩
  · intro faults hkey hins
    simp only [runWithIdempotency, if_neg hkey, BeginIdempotency, hins, and_self]
  · intro faults hkey hins hany hsel
    simp only [runWithIdempotency, if_neg hkey, BeginIdempotency, hins, hany, hsel,
      not_true_eq_false, if_false, and_self]
  · intro faults result world1 hkey hins hany hexec hfin
    simp only [runWithIdempotency, if_neg hkey, BeginIdempotency, hins, hany, hexec,
      FinalizeIdempotency, hfin, Bool.false_eq_true, not_false_eq_true, if_true, and_self]
  · intro faults body h1 h2 hbody hlookup
    have h2n : ¬ ¬ ValidateTimestamp (TrimSpace r.Timestamp) a.MaxSkew now = true :=
      not_not_intro h2
    simp only [Authenticate, if_neg h1, if_neg h2n, hbody, GetAPIKeyByKeyID, hlookup]
    rfl
  · intro faults body record h1 h2 hbody hkey hrev hver hins
    have hc := Authenticate_checked a db now faults r body record h1 h2 hbody hkey hrev hver
    rw [hc]
    simp only [RegisterNonce, hins]
    rfl

set_option maxRecDepth 100000 in
/-- Claim C26 as stated fails in `Authenticate`: when the key lookup for the request of the
golden vector fails with a timeout of the database, the answer is 401 with the code
`invalid_key` and `retryable` false; when the `INSERT` of the nonce fails with a timeout, the
answer is 401 with the code `nonce_reused` and `retryable` false. -/
theorem C26_counterexample :
    Authenticate sampleAuthenticator sampleDB sampleNow ⟨some "timeout", none, none, none⟩
        sampleRequest =
      (.rejected { status := 401, contentType := "application/json",
                   body := "\x7b\"error\":\x7b\"code\":\"invalid_key\",\"message\":\"api key not found\",\"retryable\":false\x7d\x7d" },
        sampleDB) ∧
    (Authenticate sampleAuthenticator sampleDB sampleNow ⟨none, some "timeout", none, none⟩
        sampleRequest).1 =
      .rejected { status := 401, contentType := "application/json",
                  body := "\x7b\"error\":\x7b\"code\":\"nonce_reused\",\"message\":\"nonce has already been used\",\"retryable\":false\x7d\x7d" } := by
  refine ⟨?_, by decide!⟩
  exact Prod.ext (by decide!) rfl

/-! ### An execution that fails -/

/-- Claim C28: when `execute` returns an error in a call of `runWithIdempotency` that owns a
fresh idempotency key, the error is returned, nothing is written, and the record of the key
is neither finalized nor removed: it stays in progress. After every sequence of later calls
of `runWithIdempotency` (with any keys, payloads, operations and database failures) the
record is still that in-progress record, and a call with the same key and the same payload
does not run its operation (the state is what it was, whatever the operation), writes
nothing, leaves the table unchanged and is rejected, with `ErrIdempotencyInProgress`
(answered by `writeStoreError` with 409 `idempotency_in_progress`) when no database call
fails. -/
theorem C28_failed_execution {σ : Type} (table : List IdempotencyRow) (now : Time)
    (faults : IdempotencyFaults) (key : String) (payload : Json)
    (execute : σ → Except StoreError Json × σ) (world world1 : σ) (e : StoreError)
    (hkey : key ≠ "") (hfresh : table.find? (fun row => row.key = key) = none)
    (hins : faults.insert = none) (hexec : execute world = (.error e, world1)) :
    (runWithIdempotency table now faults key payload execute world).ok = false ∧
    (runWithIdempotency table now faults key payload execute world).err = some e ∧
    (runWithIdempotency table now faults key payload execute world).written = none ∧
    (runWithIdempotency table now faults key payload execute world).world = world1 ∧
    (runWithIdempotency table now faults key payload execute world).table =
      table ++ [{ key := key, request_hash := payloadHash payload, status := "in_progress",
                  response := none, created_at := now, updated_at := now }] ∧
    ∀ (calls : List (RunCall σ)) (later : RunCall σ), later.key = key →
      later.payload = payload →
      (runAll (runWithIdempotency table now faults key payload execute world).table world1
          calls).1.find? (fun row => row.key = key) =
        some { key := key, request_hash := payloadHash payload, status := "in_progress",
               response := none, created_at := now, updated_at := now } ∧
      (runWithIdempotency
          (runAll (runWithIdempotency table now faults key payload execute world).table world1
            calls).1
          later.now later.faults later.key later.payload later.execute
          (runAll (runWithIdempotency table now faults key payload execute world).table world1
            calls).2).world =
        (runAll (runWithIdempotency table now faults key payload execute world).table world1
          calls).2 ∧
      (runWithIdempotency
          (runAll (runWithIdempotency table now faults key payload execute world).table world1
            calls).1
          later.now later.faults later.key later.payload later.execute
          (runAll (runWithIdempotency table now faults key payload execute world).table world1
            calls).2).table =
        (runAll (runWithIdempotency table now faults key payload execute world).table world1
          calls).1 ∧
      (runWithIdempotency
          (runAll (runWithIdempotency table now faults key payload execute world).table world1
            calls).1
          later.now later.faults later.key later.payload later.execute
          (runAll (runWithIdempotency table now faults key payload execute world).table world1
            calls).2).ok = false ∧
      (runWithIdempotency
          (runAll (runWithIdempotency table now faults key payload execute world).table world1
            calls).1
          later.now later.faults later.key later.payload later.execute
          (runAll (runWithIdempotency table now faults key payload execute world).table world1
            calls).2).written = none ∧
      (later.faults.insert = none → later.faults.select = none →
        (runWithIdempotency
            (runAll (runWithIdempotency table now faults key payload execute world).table world1
              calls).1
            later.now later.faults later.key later.payload later.execute
            (runAll (runWithIdempotency table now faults key payload execute world).table
              world1 calls).2).err = some .ErrIdempotencyInProgress ∧
        writeStoreError "" .ErrIdempotencyInProgress =
          (409, { Code := "idempotency_in_progress",
                  Message := "request is already in progress", Retryable := true,
                  RequestID := "" })) := by
  have hany := any_key_eq_false_of_find?_none table key hfresh
  have hrun : runWithIdempotency table now faults key payload execute world =
      ⟨false, some e, none,
        table ++ [⟨key, payloadHash payload, "in_progress", none, now, now⟩], world1⟩ := by
    simp only [runWithIdempotency, if_neg hkey, BeginIdempotency, hins, hany, hexec,
      Bool.false_eq_true, not_false_eq_true, if_true]
  rw [hrun]
  refine ⟨rfl, rfl, rfl, rfl, rfl, ?_⟩
  intro calls later hlk hlp
  have hfind0 : (table ++ [(⟨key, payloadHash payload, "in_progress", none, now, now⟩ :
      IdempotencyRow)]).find? (fun row => row.key = key) =
      some ⟨key, payloadHash payload, "in_progress", none, now, now⟩ := by
    simp [List.find?_append, hfresh]
  have hst : (⟨key, payloadHash payload, "in_progress", none, now, now⟩ :
      IdempotencyRow).status ≠ "completed" := by
    show "in_progress" ≠ "completed"
    decide
  have hall := runAll_in_progress calls _ world1 key _ hkey hfind0 hst
  obtain ⟨-, hsame⟩ := runWithIdempotency_in_progress _ later.now later.faults later.key
    later.payload later.execute
    (runAll (table ++ [(⟨key, payloadHash payload, "in_progress", none, now, now⟩ :
      IdempotencyRow)]) world1 calls).2 key _ hkey hall hst
  obtain ⟨h1, h2, h3, h4, -, h6⟩ := hsame hlk
  refine ⟨hall, h2, h1, h3, h4, fun hi hs => ⟨h6 hi hs (by rw [hlp]), rfl⟩⟩

/-- Claim C28, witness: the operation fails after it has counted its call; the first call
under the fresh key `k` returns the error and leaves an in-progress record; after a call
under another key, a call with the key `k` and the same payload is rejected with
`ErrIdempotencyInProgress` and the count of executions stays what it was. -/
theorem C28_failed_execution_witness :
    (runWithIdempotency [] 10 .none "k" (.obj [])
        (fun n : Nat => ((.error (.database "boom") : Except StoreError Json), n + 1)) 0).err
      = some (.database "boom") ∧
    (runWithIdempotency
        (runAll
          (runWithIdempotency [] 10 .none "k" (.obj [])
            (fun n : Nat => ((.error (.database "boom") : Except StoreError Json), n + 1))
            0).table
          1 [⟨20, .none, "other", .obj [], fun n : Nat => (.ok (.obj []), n + 1)⟩]).1
        30 .none "k" (.obj []) (fun n : Nat => (.ok (.obj []), n + 1))
        (runAll
          (runWithIdempotency [] 10 .none "k" (.obj [])
            (fun n : Nat => ((.error (.database "boom") : Except StoreError Json), n + 1))
            0).table
          1 [⟨20, .none, "other", .obj [], fun n : Nat => (.ok (.obj []), n + 1)⟩]).2).err
      = some .ErrIdempotencyInProgress :=
  ⟨(C28_failed_execution [] 10 .none "k" (.obj [])
      (fun n : Nat => ((.error (.database "boom") : Except StoreError Json), n + 1)) 0 1
      (.database "boom") (by decide) rfl rfl rfl).2.1,
    ((C28_failed_execution [] 10 .none "k" (.obj [])
      (fun n : Nat => ((.error (.database "boom") : Except StoreError Json), n + 1)) 0 1
      (.database "boom") (by decide) rfl rfl rfl).2.2.2.2.2
      [⟨20, .none, "other", .obj [], fun n : Nat => (.ok (.obj []), n + 1)⟩]
      ⟨30, .none, "k", .obj [], fun n : Nat => (.ok (.obj []), n + 1)⟩ rfl rfl).2.2.2.2.2
      rfl rfl |>.1⟩

/-! ### The sort timestamp of a post -/

/-- The statement of `SetPostStatus` writes `published_at` of every row it updates: the
reading of the clock for the status `published`, `NULL` for any other status. -/
theorem SetPostStatus_published_at (posts : List PostRow) (now : Time) (id status : String)
    (updatedBy : Option String) (row : PostRow)
    (hrow : row ∈ (SetPostStatus posts now none id status updatedBy).2)
    (hid : row.id = id) (hlive : row.deleted_at = none) :
    row.published_at = if status = "published" then some now else none := by
  simp only [SetPostStatus, updateReturning, List.mem_map] at hrow
  obtain ⟨old, -, hold⟩ := hrow
  by_cases hc : old.id = id ∧ old.deleted_at = none
  · rw [if_pos hc] at hold
    rw [← hold]
  · rw [if_neg hc] at hold
    rw [hold] at hc
    exact absurd ⟨hid, hlive⟩ hc

/-- The statement of `UpdatePost` keeps `published_at` of a published post whose status the
update leaves or sets to `published`. -/
theorem UpdatePost_published_at (posts : List PostRow) (now : Time) (id : String)
    (input : UpdatePostInput) (old : PostRow) (t : Time)
    (hfind : posts.find? (fun row => row.id = id ∧ row.deleted_at = none) = some old)
    (htags : ∃ tags, parseJSONArray old.tags = .ok tags)
    (hstatus : old.status = "published") (hpub : old.published_at = some t)
    (hinput : input.Status = none ∨ input.Status = some "published") :
    ∀ row ∈ (UpdatePost posts now none none id input).2,
      row.id = id → row.deleted_at = none → row.published_at = some t := by
  obtain ⟨tags, htags⟩ := htags
  intro row hrow hid hlive
  have hget : GetPostByID posts none id = scanPost old := by
    simp only [GetPostByID, hfind]
  obtain ⟨title, slug, excerpt, content, cover, tagsIn, locale, status, updatedBy⟩ := input
  simp only at hinput
  have hscan : scanPost old =
      .ok ⟨old.id, old.slug, old.locale, old.title, old.excerpt, old.content, old.cover_url,
        some tags, "published", some t, old.created_at, old.updated_at,
        old.revision.getD 1⟩ := by
    simp only [scanPost, htags, hstatus, hpub]
  rw [hscan] at hget
  simp only [UpdatePost, hget, updateReturning, List.mem_map] at hrow
  obtain ⟨r0, -, hr0⟩ := hrow
  by_cases hc : r0.id = id ∧ r0.deleted_at = none
  · rw [if_pos hc] at hr0
    rw [← hr0]
    rcases hinput with hi | hi <;> subst hi <;> cases title <;> cases slug <;>
      cases excerpt <;> cases content <;> cases cover <;> cases tagsIn <;> cases locale <;>
      rfl
  · rw [if_neg hc] at hr0
    rw [hr0] at hc
    exact absurd ⟨hid, hlive⟩ hc

/-- Claim C25 at its failing input: the post `p1` of `samplePosts` is published and its sort
timestamp is 100. `SetPostStatus(p1, "published")` at the instant 200 succeeds and sets
`published_at`, and with it the sort timestamp, to 200; `UpdatePost` of the title at the same
instant leaves the sort timestamp at 100. -/
theorem C25_republish_restamps :
    samplePosts.map postSortAt = [100] ∧
      ((SetPostStatus samplePosts 200 none "p1" "published" none).1.toOption.map
        (fun post => post.PublishedAt)) = some (some 200) ∧
      (SetPostStatus samplePosts 200 none "p1" "published" none).2.map postSortAt = [200] ∧
      ((UpdatePost samplePosts 200 none none "p1" sampleUpdate).1.toOption.map
        (fun post => (post.Title, post.PublishedAt))) = some ("Hello again", some 100) ∧
      (UpdatePost samplePosts 200 none none "p1" sampleUpdate).2.map postSortAt = [100] := by
  refine ⟨by decide, rfl, by decide, rfl, by decide⟩

/-! ### The pattern of a filter -/

/-- Claim C30 at its failing inputs. The pattern of the filter `%` is `%`, two backslashes,
`%`, `%`: read with the backslash as the escape character it asks for a backslash, so it
matches `a\b`, which does not contain `%`, and does not match `100%`, which does. The same
holds for `_`. The pattern of the filter of one backslash is `%`, one backslash, `%`: the
backslash of the input is not escaped, it escapes the closing `%`, and the pattern matches
`100%` and does not match `a\b`. -/
theorem C30_like_pattern :
    createLikePattern "%" = "%\\\\%%" ∧
      likeMatch (createLikePattern "%").data "a\\b".data = true ∧
      containsText "a\\b".data "%".data = false ∧
      likeMatch (createLikePattern "%").data "100%".data = false ∧
      containsText "100%".data "%".data = true ∧
      createLikePattern "_" = "%\\\\_%" ∧
      likeMatch (createLikePattern "_").data "a\\b".data = true ∧
      likeMatch (createLikePattern "_").data "a_b".data = false ∧
      createLikePattern "\\" = "%\\%" ∧
      likeMatch (createLikePattern "\\").data "100%".data = true ∧
      likeMatch (createLikePattern "\\").data "a\\b".data = false := by
  decide

/-! ### Two calls at the same time -/

/-- The steps of one call, taken without another call in between, are the call: three steps
from the start give the results, the table and the state of `runWithIdempotency` when no
database call fails. -/
theorem runSteps_sequential {σ : Type} (table : List IdempotencyRow) (now : Time)
    (key : String) (payload : Json) (execute : σ → Except StoreError Json × σ) (world : σ)
    (hkey : key ≠ "") :
    runSteps key payload execute now 3 (.begin, table, world) =
      (.returned (runWithIdempotency table now .none key payload execute world).ok
          (runWithIdempotency table now .none key payload execute world).err
          (runWithIdempotency table now .none key payload execute world).written,
        (runWithIdempotency table now .none key payload execute world).table,
        (runWithIdempotency table now .none key payload execute world).world) := by
  by_cases hany : table.any (fun row => row.key = key) = true
  · have hnn : ¬ ¬ table.any (fun row => row.key = key) = true := not_not_intro hany
    cases hfind : table.find? (fun row => row.key = key) with
    | none =>
      simp only [runSteps, stepCall, runWithIdempotency, if_neg hkey, IdempotencyFaults.none,
        BeginIdempotency, hany, hfind, not_true_eq_false, if_false]
    | some row =>
      by_cases hhash : row.request_hash ≠ payloadHash payload
      · simp only [runSteps, stepCall, runWithIdempotency, if_neg hkey, IdempotencyFaults.none,
          BeginIdempotency, hany, hfind, not_true_eq_false, if_false, if_pos hhash]
      · by_cases hst : row.status = "completed"
        · cases hum : unmarshalMap (jsonbText (row.response.getD (.obj []))) with
          | error e =>
            simp only [runSteps, stepCall, runWithIdempotency, if_neg hkey,
              IdempotencyFaults.none, BeginIdempotency, hany, hfind, not_true_eq_false,
              if_false, if_neg hhash, if_pos hst, hum]
          | ok response =>
            simp only [runSteps, stepCall, runWithIdempotency, if_neg hkey,
              IdempotencyFaults.none, BeginIdempotency, hany, hfind, not_true_eq_false,
              if_false, if_neg hhash, if_pos hst, hum]
        · simp only [runSteps, stepCall, runWithIdempotency, if_neg hkey,
            IdempotencyFaults.none, BeginIdempotency, hany, hfind, not_true_eq_false,
            if_false, if_neg hhash, if_neg hst]
  · cases hexec : execute world with
    | mk res world1 =>
      cases res with
      | error e =>
        simp only [runSteps, stepCall, runWithIdempotency, if_neg hkey, IdempotencyFaults.none,
          BeginIdempotency, if_pos hany, hexec]
      | ok result =>
        simp only [runSteps, stepCall, runWithIdempotency, if_neg hkey, IdempotencyFaults.none,
          BeginIdempotency, if_pos hany, hexec, FinalizeIdempotency]

theorem Race_step_same {σ : Type} (key : String) (payload : Json)
    (execute : Bool → σ → Except StoreError Json × σ) (s : Race σ) (b : Bool) (t : Time) :
    (Race.step key payload execute s (b, t)).call b =
        (stepCall key payload (execute b) t (s.call b) s.table s.world).1 ∧
      (Race.step key payload execute s (b, t)).table =
        (stepCall key payload (execute b) t (s.call b) s.table s.world).2.1 ∧
      (Race.step key payload execute s (b, t)).world =
        (stepCall key payload (execute b) t (s.call b) s.table s.world).2.2 ∧
      (Race.step key payload execute s (b, t)).runsOf b = s.runsOf b + executes (s.call b) ∧
      (Race.step key payload execute s (b, t)).call (!b) = s.call (!b) ∧
      (Race.step key payload execute s (b, t)).runsOf (!b) = s.runsOf (!b) := by
  cases b <;> exact ⟨rfl, rfl, rfl, rfl, rfl, rfl⟩

theorem find?_key_append_row (table : List IdempotencyRow) (row : IdempotencyRow)
    (key : String) (hfresh : table.find? (fun row => row.key = key) = none)
    (hrow : row.key = key) :
    (table ++ [row]).find? (fun row => row.key = key) = some row ∧
      (table ++ [row]).any (fun row => row.key = key) = true := by
  have h1 : (table ++ [row]).find? (fun row => row.key = key) = some row := by
    simp [List.find?_append, hfresh, hrow]
  exact ⟨h1, any_key_eq_true_of_find?_some _ key row h1⟩

/-- The first move of a race on a table where the key has no record: the call that moves
inserts the record and owns the key. -/
theorem RaceInv_first {σ : Type} (key : String) (payload : Json) (table : List IdempotencyRow)
    (execute : Bool → σ → Except StoreError Json × σ) (world : σ) (w : Bool) (t : Time)
    (hfresh : table.find? (fun row => row.key = key) = none) :
    RaceInv key (payloadHash payload) table execute world w 1 0
      (Race.step key payload execute (Race.init table world) (w, t)) := by
  have hany := any_key_eq_false_of_find?_none table key hfresh
  obtain ⟨h1, h2, h3, h4, h5, h6⟩ := Race_step_same key payload execute
    (Race.init table world) w t
  have hcall : ∀ b, (Race.init table world).call b = .begin := by
    intro b
    cases b <;> rfl
  have hruns : ∀ b, (Race.init table world).runsOf b = 0 := by
    intro b
    cases b <;> rfl
  have hstep : stepCall key payload (execute w) t .begin table world =
      (.owned, table ++ [⟨key, payloadHash payload, "in_progress", none, t, t⟩], world) := by
    simp only [stepCall, hany, Bool.false_eq_true, not_false_eq_true, if_true]
  rw [hcall w] at h1 h2 h3 h4
  have ht : (Race.init table world).table = table := rfl
  have hw : (Race.init table world).world = world := rfl
  rw [ht, hw, hstep] at h1 h2 h3
  refine ⟨⟨key, payloadHash payload, "in_progress", none, t, t⟩, h2, rfl, rfl, ?_, ?_, ?_⟩
  · rw [h6, hruns]
  · refine Or.inl ⟨h1, rfl, rfl, h3, ?_⟩
    rw [h4, hruns]
    rfl
  · refine Or.inl ⟨?_, rfl⟩
    rw [h5, hcall]

/-- A move of the call that owns the key keeps the invariant. -/
theorem RaceInv_owner {σ : Type} (key : String) (payload : Json) (table : List IdempotencyRow)
    (execute : Bool → σ → Except StoreError Json × σ) (world : σ) (w : Bool) (nw no : Nat)
    (s : Race σ) (t : Time) (hfresh : table.find? (fun row => row.key = key) = none)
    (h : RaceInv key (payloadHash payload) table execute world w nw no s) :
    RaceInv key (payloadHash payload) table execute world w (nw + 1) no
      (Race.step key payload execute s (w, t)) := by
  obtain ⟨row, htab, hrk, hrh, hro, hown, hoth⟩ := h
  obtain ⟨h1, h2, h3, h4, h5, h6⟩ := Race_step_same key payload execute s w t
  rcases hown with ⟨hc, hn, hst, hwd, hr⟩ | ⟨r, hc, hn, hst, hex, hr⟩ |
    ⟨e, hc, hn, hst, hex, hr⟩ | ⟨r, hc, hn, hst, hresp, hex, hr⟩
  · -- the call of `execute`
    rw [hc, hwd] at h1 h2 h3
    rw [hc, hr] at h4
    cases hexec : execute w world with
    | mk res world1 =>
      have hother : (Race.step key payload execute s (w, t)).call (!w) = .begin ∧ no = 0 ∨
          (Race.step key payload execute s (w, t)).call (!w) = .conflict ∧ no = 1 ∨
          (Race.step key payload execute s (w, t)).call (!w) =
            .returned false (some .ErrIdempotencyInProgress) none ∧ 2 ≤ no := by
        rw [h5]
        rcases hoth with h | h | h | ⟨r, -, hcomp, -⟩
        · exact Or.inl h
        · exact Or.inr (Or.inl h)
        · exact Or.inr (Or.inr h)
        · rw [hst] at hcomp
          exact absurd hcomp (by decide)
      cases res with
      | error e =>
        simp only [stepCall, hexec] at h1 h2 h3
        refine ⟨row, by rw [h2, htab], hrk, hrh, by rw [h6, hro], ?_, ?_⟩
        · exact Or.inr (Or.inr (Or.inl ⟨e, h1, by omega, hst, by rw [h3]; exact hexec, h4⟩))
        · rcases hother with h | h | h
          · exact Or.inl h
          · exact Or.inr (Or.inl h)
          · exact Or.inr (Or.inr (Or.inl h))
      | ok result =>
        simp only [stepCall, hexec] at h1 h2 h3
        refine ⟨row, by rw [h2, htab], hrk, hrh, by rw [h6, hro], ?_, ?_⟩
        · exact Or.inr (Or.inl ⟨result, h1, by omega, hst, by rw [h3]; exact hexec, h4⟩)
        · rcases hother with h | h | h
          · exact Or.inl h
          · exact Or.inr (Or.inl h)
          · exact Or.inr (Or.inr (Or.inl h))
  · -- the `UPDATE` of `FinalizeIdempotency`
    rw [hc] at h1 h2 h3 h4
    have hfin : (FinalizeIdempotency s.table t none key (payloadHash payload) r).2 =
        table ++ [{ row with status := "completed", response := some r, updated_at := t }] := by
      have hpos : row.key = key ∧ row.request_hash = payloadHash payload := ⟨hrk, hrh⟩
      simp only [FinalizeIdempotency, htab, List.map_append, List.map_cons, List.map_nil,
        map_finalize_of_find?_none table key _ r t hfresh, if_pos hpos]
    simp only [stepCall] at h1 h2 h3
    rw [hfin] at h2
    refine ⟨{ row with status := "completed", response := some r, updated_at := t }, h2, hrk,
      hrh, by rw [h6, hro], ?_, ?_⟩
    · refine Or.inr (Or.inr (Or.inr ⟨r, h1, by omega, rfl, rfl, by rw [h3]; exact hex, ?_⟩))
      rw [h4, hr]
      rfl
    · rw [h5]
      rcases hoth with h | h | h | ⟨r2, -, hcomp, -⟩
      · exact Or.inl h
      · exact Or.inr (Or.inl h)
      · exact Or.inr (Or.inr (Or.inl h))
      · rw [hst] at hcomp
        exact absurd hcomp (by decide)
  · -- the call has returned the error of `execute`
    rw [hc] at h1 h2 h3 h4
    simp only [stepCall] at h1 h2 h3
    refine ⟨row, by rw [h2, htab], hrk, hrh, by rw [h6, hro], ?_, ?_⟩
    · refine Or.inr (Or.inr (Or.inl ⟨e, h1, by omega, hst, by rw [h3]; exact hex, ?_⟩))
      rw [h4, hr]
      rfl
    · rw [h5]
      exact hoth
  · -- the call has returned the result of `execute`
    rw [hc] at h1 h2 h3 h4
    simp only [stepCall] at h1 h2 h3
    refine ⟨row, by rw [h2, htab], hrk, hrh, by rw [h6, hro], ?_, ?_⟩
    · refine Or.inr (Or.inr (Or.inr ⟨r, h1, by omega, hst, hresp, by rw [h3]; exact hex, ?_⟩))
      rw [h4, hr]
      rfl
    · rw [h5]
      exact hoth

/-- The step of the other call from `conflict`: its `SELECT` reads the record of the key. -/
theorem stepCall_conflict {σ : Type} (key : String) (payload : Json)
    (execute : σ → Except StoreError Json × σ) (t : Time) (table : List IdempotencyRow)
    (row : IdempotencyRow) (world : σ)
    (hfresh : table.find? (fun row => row.key = key) = none) (hrk : row.key = key)
    (hrh : row.request_hash = payloadHash payload) :
    (row.status ≠ "completed" →
      stepCall key payload execute t .conflict (table ++ [row]) world =
        (.returned false (some .ErrIdempotencyInProgress) none, table ++ [row], world)) ∧
    (∀ r response, row.status = "completed" → row.response = some r →
      unmarshalMap (jsonbText r) = .ok response →
      stepCall key payload execute t .conflict (table ++ [row]) world =
        (.returned true none (some (200, response)), table ++ [row], world)) ∧
    (∀ r e, row.status = "completed" → row.response = some r → unmarshalMap (jsonbText r) = .error e →
      stepCall key payload execute t .conflict (table ++ [row]) world =
        (.returned false (some (.json e)) none, table ++ [row], world)) := by
  have hfind := (find?_key_append_row table row key hfresh hrk).1
  have hh : ¬ row.request_hash ≠ payloadHash payload := not_not_intro hrh
  refine ⟨fun hst => ?_, fun r response hst hresp hum => ?_, fun r e hst hresp hum => ?_⟩
  · simp only [stepCall, hfind, if_neg hh, if_neg hst]
  · have hum2 : unmarshalMap (jsonbText (row.response.getD (.obj []))) = .ok response := by
      rw [hresp]
      exact hum
    simp only [stepCall, hfind, if_neg hh, if_pos hst, hum2]
  · have hum2 : unmarshalMap (jsonbText (row.response.getD (.obj []))) = .error e := by
      rw [hresp]
      exact hum
    simp only [stepCall, hfind, if_neg hh, if_pos hst, hum2]

/-- A move of the other call keeps the invariant. -/
theorem RaceInv_other {σ : Type} (key : String) (payload : Json) (table : List IdempotencyRow)
    (execute : Bool → σ → Except StoreError Json × σ) (world : σ) (w : Bool) (nw no : Nat)
    (s : Race σ) (t : Time) (hfresh : table.find? (fun row => row.key = key) = none)
    (h : RaceInv key (payloadHash payload) table execute world w nw no s) :
    RaceInv key (payloadHash payload) table execute world w nw (no + 1)
      (Race.step key payload execute s (!w, t)) := by
  obtain ⟨row, htab, hrk, hrh, hro, hown, hoth⟩ := h
  obtain ⟨h1, h2, h3, h4, h5, h6⟩ := Race_step_same key payload execute s (!w) t
  rw [Bool.not_not] at h5 h6
  have hconf := stepCall_conflict key payload (execute (!w)) t table row s.world hfresh hrk hrh
  -- the table, the state and the owner stay what they are whenever the step of the other
  -- call leaves the table and the state
  have hkeep : ∀ next : CallState,
      stepCall key payload (execute (!w)) t (s.call (!w)) s.table s.world =
        (next, s.table, s.world) →
      executes (s.call (!w)) = 0 →
      ((next = .begin ∧ no + 1 = 0) ∨ (next = .conflict ∧ no + 1 = 1) ∨
        (next = .returned false (some .ErrIdempotencyInProgress) none ∧ 2 ≤ no + 1) ∨
        (∃ r, 2 ≤ no + 1 ∧ row.status = "completed" ∧ row.response = some r ∧
          ((∃ response, unmarshalMap (jsonbText r) = .ok response ∧
              next = .returned true none (some (200, response))) ∨
            (∃ e, unmarshalMap (jsonbText r) = .error e ∧
              next = .returned false (some (.json e)) none)))) →
      RaceInv key (payloadHash payload) table execute world w nw (no + 1)
        (Race.step key payload execute s (!w, t)) := by
    intro next hstep hex hnext
    rw [hstep] at h1 h2 h3
    simp only at h1 h2 h3
    refine ⟨row, by rw [h2, htab], hrk, hrh, by rw [h4, hro, hex], ?_, ?_⟩
    · rw [h5, h6, h3]
      exact hown
    · rw [h1]
      exact hnext
  rcases hoth with ⟨hc, hn⟩ | ⟨hc, hn⟩ | ⟨hc, hn⟩ | ⟨r, hn, hcomp, hresp, hrep⟩
  · -- the `INSERT` affects no row
    have hany := (find?_key_append_row table row key hfresh hrk).2
    have hnn : ¬ ¬ s.table.any (fun row => row.key = key) = true := by
      rw [htab]
      exact not_not_intro hany
    refine hkeep .conflict ?_ (by rw [hc]; rfl) (Or.inr (Or.inl ⟨rfl, by omega⟩))
    rw [hc]
    simp only [stepCall, if_neg hnn]
  · -- the `SELECT`
    by_cases hst : row.status = "completed"
    · rcases hown with ⟨-, -, hip, -⟩ | ⟨r, -, -, hip, -⟩ | ⟨e, -, -, hip, -⟩ |
        ⟨r, -, -, -, hresp, -⟩
      · rw [hip] at hst
        exact absurd hst (by decide)
      · rw [hip] at hst
        exact absurd hst (by decide)
      · rw [hip] at hst
        exact absurd hst (by decide)
      · cases hum : unmarshalMap (jsonbText r) with
        | ok response =>
          refine hkeep (.returned true none (some (200, response))) ?_ (by rw [hc]; rfl)
            (Or.inr (Or.inr (Or.inr ⟨r, by omega, hst, hresp,
              Or.inl ⟨response, hum, rfl⟩⟩)))
          rw [hc, htab]
          exact hconf.2.1 r response hst hresp hum
        | error e =>
          refine hkeep (.returned false (some (.json e)) none) ?_ (by rw [hc]; rfl)
            (Or.inr (Or.inr (Or.inr ⟨r, by omega, hst, hresp, Or.inr ⟨e, hum, rfl⟩⟩)))
          rw [hc, htab]
          exact hconf.2.2 r e hst hresp hum
    · refine hkeep (.returned false (some .ErrIdempotencyInProgress) none) ?_
        (by rw [hc]; rfl) (Or.inr (Or.inr (Or.inl ⟨rfl, by omega⟩)))
      rw [hc, htab]
      exact hconf.1 hst
  · refine hkeep (.returned false (some .ErrIdempotencyInProgress) none) ?_
      (by rw [hc]; rfl) (Or.inr (Or.inr (Or.inl ⟨rfl, by omega⟩)))
    rw [hc]
    rfl
  · rcases hrep with ⟨response, hum, hc⟩ | ⟨e, hum, hc⟩
    · refine hkeep (.returned true none (some (200, response))) ?_ (by rw [hc]; rfl)
        (Or.inr (Or.inr (Or.inr ⟨r, by omega, hcomp, hresp, Or.inl ⟨response, hum, rfl⟩⟩)))
      rw [hc]
      rfl
    · refine hkeep (.returned false (some (.json e)) none) ?_ (by rw [hc]; rfl)
        (Or.inr (Or.inr (Or.inr ⟨r, by omega, hcomp, hresp, Or.inr ⟨e, hum, rfl⟩⟩)))
      rw [hc]
      rfl

/-- The invariant holds after every schedule whose first move is of the call `w`. -/
theorem RaceInv_schedule {σ : Type} (key : String) (payload : Json)
    (table : List IdempotencyRow) (execute : Bool → σ → Except StoreError Json × σ)
    (world : σ) (w : Bool) (t0 : Time) (schedule : List (Bool × Time))
    (hfresh : table.find? (fun row => row.key = key) = none) :
    RaceInv key (payloadHash payload) table execute world w (1 + movesOf w schedule)
      (movesOf (!w) schedule)
      (runSchedule key payload execute (Race.init table world) ((w, t0) :: schedule)) := by
  induction schedule using List.reverseRecOn with
  | nil => exact RaceInv_first key payload table execute world w t0 hfresh
  | append_singleton rest move ih =>
    have hrun : runSchedule key payload execute (Race.init table world)
        ((w, t0) :: (rest ++ [move])) =
        Race.step key payload execute
          (runSchedule key payload execute (Race.init table world) ((w, t0) :: rest))
          move := by
      simp only [runSchedule, List.foldl_cons, List.foldl_append, List.foldl_nil]
    rw [hrun]
    obtain ⟨b, t⟩ := move
    by_cases hb : b = w
    · subst hb
      have h1 : movesOf b (rest ++ [(b, t)]) = movesOf b rest + 1 := by
        simp [movesOf, List.countP_append]
      have h2 : movesOf (!b) (rest ++ [(b, t)]) = movesOf (!b) rest := by
        simp [movesOf, List.countP_append]
      rw [h1, h2, ← Nat.add_assoc]
      exact RaceInv_owner key payload table execute world b _ _ _ t hfresh ih
    · have hbw : b = !w := by
        cases b <;> cases w <;> simp at hb ⊢
      subst hbw
      have h1 : movesOf w (rest ++ [(!w, t)]) = movesOf w rest := by
        simp [movesOf, List.countP_append]
      have h2 : movesOf (!w) (rest ++ [(!w, t)]) = movesOf (!w) rest + 1 := by
        simp [movesOf, List.countP_append]
      rw [h1, h2]
      exact RaceInv_other key payload table execute world w _ _ _ t hfresh ih

/-- A call that has returned stays where it is, whatever moves follow. -/
theorem Race_returned_stable {σ : Type} (key : String) (payload : Json)
    (execute : Bool → σ → Except StoreError Json × σ) (b : Bool) (ok : Bool)
    (err : Option StoreError) (written : Option (Nat × Json)) (post : List (Bool × Time))
    (s : Race σ) (h : s.call b = .returned ok err written) :
    (runSchedule key payload execute s post).call b = .returned ok err written := by
  induction post generalizing s with
  | nil => exact h
  | cons move rest ih =>
    have hrun : runSchedule key payload execute s (move :: rest) =
        runSchedule key payload execute (Race.step key payload execute s move) rest := rfl
    rw [hrun]
    apply ih
    obtain ⟨c, t⟩ := move
    obtain ⟨h1, -, -, -, h5, -⟩ := Race_step_same key payload execute s c t
    by_cases hc : c = b
    · subst hc
      rw [h1, h]
      rfl
    · have hb : b = !c := by
        cases b <;> cases c <;> simp at hc ⊢
      subst hb
      rw [h5, h]

/-- The numbers of executions after a schedule whose first move is of the call `w`: the
other call has not called `execute`; the call `w` has called it once, on the state at the
start, as soon as it has made its second move. -/
theorem Race_runs {σ : Type} (key : String) (payload : Json) (table : List IdempotencyRow)
    (execute : Bool → σ → Except StoreError Json × σ) (world : σ) (w : Bool) (t0 : Time)
    (schedule : List (Bool × Time))
    (hfresh : table.find? (fun row => row.key = key) = none) :
    (runSchedule key payload execute (Race.init table world)
        ((w, t0) :: schedule)).runsOf (!w) = 0 ∧
      (runSchedule key payload execute (Race.init table world)
        ((w, t0) :: schedule)).runsOf w ≤ 1 ∧
      (1 ≤ movesOf w schedule →
        (runSchedule key payload execute (Race.init table world)
          ((w, t0) :: schedule)).runsOf w = 1 ∧
        (runSchedule key payload execute (Race.init table world)
          ((w, t0) :: schedule)).world = (execute w world).2) := by
  obtain ⟨row, -, -, -, hro, hown, -⟩ :=
    RaceInv_schedule key payload table execute world w t0 schedule hfresh
  rcases hown with ⟨-, hn, -, -, hr⟩ | ⟨r, -, -, -, hex, hr⟩ | ⟨e, -, -, -, hex, hr⟩ |
    ⟨r, -, -, -, -, hex, hr⟩
  · exact ⟨hro, by omega, fun h => by omega⟩
  · exact ⟨hro, by omega, fun _ => ⟨hr, by rw [hex]⟩⟩
  · exact ⟨hro, by omega, fun _ => ⟨hr, by rw [hex]⟩⟩
  · exact ⟨hro, by omega, fun _ => ⟨hr, by rw [hex]⟩⟩

/-- What the call that lost the `INSERT` receives: its second move is the `SELECT` of
`BeginIdempotency`. When the owner has made its three moves before it and its `execute`
succeeded with `r`, the call writes what the `jsonb` column and `json.Unmarshal` give for
`r`, or fails with the error of `json.Unmarshal`; when the owner has made fewer moves, or
its `execute` failed, the call fails with `ErrIdempotencyInProgress`. -/
theorem Race_select {σ : Type} (key : String) (payload : Json) (table : List IdempotencyRow)
    (execute : Bool → σ → Except StoreError Json × σ) (world : σ) (w : Bool) (t0 t : Time)
    (pre post : List (Bool × Time))
    (hfresh : table.find? (fun row => row.key = key) = none)
    (hselect : movesOf (!w) pre = 1) :
    (∀ r, (execute w world).1 = .ok r → 2 ≤ movesOf w pre →
      (∃ response, unmarshalMap (jsonbText r) = .ok response ∧
        (runSchedule key payload execute (Race.init table world)
          ((w, t0) :: (pre ++ (!w, t) :: post))).call (!w) =
            .returned true none (some (200, response))) ∨
      (∃ e, unmarshalMap (jsonbText r) = .error e ∧
        (runSchedule key payload execute (Race.init table world)
          ((w, t0) :: (pre ++ (!w, t) :: post))).call (!w) =
            .returned false (some (.json e)) none)) ∧
    (movesOf w pre < 2 ∨ (∃ e, (execute w world).1 = .error e) →
      (runSchedule key payload execute (Race.init table world)
        ((w, t0) :: (pre ++ (!w, t) :: post))).call (!w) =
          .returned false (some .ErrIdempotencyInProgress) none) := by
  have hinv := RaceInv_schedule key payload table execute world w t0 pre hfresh
  have hrun : runSchedule key payload execute (Race.init table world)
      ((w, t0) :: (pre ++ (!w, t) :: post)) =
      runSchedule key payload execute
        (Race.step key payload execute
          (runSchedule key payload execute (Race.init table world) ((w, t0) :: pre))
          (!w, t)) post := by
    simp only [runSchedule, List.foldl_cons, List.foldl_append]
  rw [hrun]
  generalize runSchedule key payload execute (Race.init table world) ((w, t0) :: pre) = s
    at hinv
  obtain ⟨row, htab, hrk, hrh, -, hown, hoth⟩ := hinv
  obtain ⟨h1, -, -, -, -, -⟩ := Race_step_same key payload execute s (!w) t
  have hconf := stepCall_conflict key payload (execute (!w)) t table row s.world hfresh hrk hrh
  have hc : s.call (!w) = .conflict := by
    rcases hoth with ⟨-, hn⟩ | ⟨hc, -⟩ | ⟨-, hn⟩ | ⟨r, hn, -⟩
    · omega
    · exact hc
    · omega
    · omega
  rw [hc, htab] at h1
  refine ⟨fun r hr hmoves => ?_, fun hbefore => ?_⟩
  · have hdone : row.status = "completed" ∧ row.response = some r := by
      rcases hown with ⟨-, hn, -⟩ | ⟨r2, -, hn, -⟩ | ⟨e, -, -, -, hex, -⟩ |
        ⟨r2, -, -, hst, hresp, hex, -⟩
      · omega
      · omega
      · rw [hex] at hr
        cases hr
      · rw [hex] at hr
        cases hr
        exact ⟨hst, hresp⟩
    cases hum : unmarshalMap (jsonbText r) with
    | ok response =>
      refine Or.inl ⟨response, rfl, ?_⟩
      apply Race_returned_stable
      rw [h1, hconf.2.1 r response hdone.1 hdone.2 hum]
    | error e =>
      refine Or.inr ⟨e, rfl, ?_⟩
      apply Race_returned_stable
      rw [h1, hconf.2.2 r e hdone.1 hdone.2 hum]
  · have hst : row.status ≠ "completed" := by
      rcases hown with ⟨-, -, hst, -⟩ | ⟨r2, -, -, hst, -⟩ | ⟨e, -, -, hst, -⟩ |
        ⟨r2, -, hn, -, -, hex, -⟩
      · rw [hst]
        decide
      · rw [hst]
        decide
      · rw [hst]
        decide
      · rcases hbefore with hlt | ⟨e, he⟩
        · omega
        · rw [hex] at he
          cases he
    apply Race_returned_stable
    rw [h1, hconf.1 hst]

/-- Claim C27 (as amended): two calls of `runWithIdempotency` with the same key, which is not
empty and has no record, and the same payload, when no database call fails. The steps of one
call (the `INSERT` and the `SELECT` of `BeginIdempotency`, `execute`, the `UPDATE` of
`FinalizeIdempotency`) taken in a row are the call. In every interleaving of the steps of
the two calls, with `w` the call that makes the first move: the other call never calls
`execute`, and `w` calls it at most once, and exactly once, on the state at the start, as
soon as it has made its second move. The other call learns its outcome at its second move,
the `SELECT`. When `w` has made fewer than its three moves before it, or the `execute` of `w`
failed, the other call fails with `ErrIdempotencyInProgress`. When the three moves of `w`
come before it and the `execute` of `w` succeeded with `r`, the other call reads `r`
through the `jsonb` column and `json.Unmarshal` into a `map[string]any`: it writes what
they give with status 200, or fails with the error of `json.Unmarshal` (an `r` that is
neither an object nor `null`, a number beyond the range of `float64`); and what they give
is the stored response `r`, with the members of every object in the order of their keys,
when `r` is an object or `null`, is nested no deeper than 10000 brackets and has its
numbers written as `float64`. -/
theorem C27_concurrent_calls {σ : Type} (key : String) (payload : Json)
    (table : List IdempotencyRow) (execute : Bool → σ → Except StoreError Json × σ)
    (world : σ) (w : Bool) (t0 : Time) (schedule : List (Bool × Time)) (hkey : key ≠ "")
    (hfresh : table.find? (fun row => row.key = key) = none) :
    (∀ now, runSteps key payload (execute w) now 3 (.begin, table, world) =
      (.returned (runWithIdempotency table now .none key payload (execute w) world).ok
          (runWithIdempotency table now .none key payload (execute w) world).err
          (runWithIdempotency table now .none key payload (execute w) world).written,
        (runWithIdempotency table now .none key payload (execute w) world).table,
        (runWithIdempotency table now .none key payload (execute w) world).world)) ∧
    (runSchedule key payload execute (Race.init table world)
        ((w, t0) :: schedule)).runsOf (!w) = 0 ∧
    (runSchedule key payload execute (Race.init table world)
        ((w, t0) :: schedule)).runsOf w ≤ 1 ∧
    (1 ≤ movesOf w schedule →
      (runSchedule key payload execute (Race.init table world)
        ((w, t0) :: schedule)).runsOf w = 1 ∧
      (runSchedule key payload execute (Race.init table world)
        ((w, t0) :: schedule)).world = (execute w world).2) ∧
    (∀ pre t post, schedule = pre ++ (!w, t) :: post → movesOf (!w) pre = 1 →
      (∀ r, (execute w world).1 = .ok r → 2 ≤ movesOf w pre →
        (∃ response, unmarshalMap (jsonbText r) = .ok response ∧
          (runSchedule key payload execute (Race.init table world)
            ((w, t0) :: schedule)).call (!w) = .returned true none (some (200, response))) ∨
        (∃ e, unmarshalMap (jsonbText r) = .error e ∧
          (runSchedule key payload execute (Race.init table world)
            ((w, t0) :: schedule)).call (!w) = .returned false (some (.json e)) none)) ∧
      (movesOf w pre < 2 ∨ (∃ e, (execute w world).1 = .error e) →
        (runSchedule key payload execute (Race.init table world)
          ((w, t0) :: schedule)).call (!w) =
            .returned false (some .ErrIdempotencyInProgress) none) ∧
      (∀ r, (execute w world).1 = .ok r → 2 ≤ movesOf w pre →
        isObjectOrNull r = true → deepBracket 10000 r = none → float64Numbers r = true →
        (runSchedule key payload execute (Race.init table world)
          ((w, t0) :: schedule)).call (!w) = .returned true none (some (200, r.byKey)))) := by
  obtain ⟨hr1, hr2, hr3⟩ := Race_runs key payload table execute world w t0 schedule hfresh
  refine ⟨fun now => runSteps_sequential table now key payload (execute w) world hkey,
    hr1, hr2, hr3, ?_⟩
  intro pre t post hsched hselect
  subst hsched
  obtain ⟨hsel1, hsel2⟩ :=
    Race_select key payload table execute world w t0 t pre post hfresh hselect
  refine ⟨hsel1, hsel2, ?_⟩
  intro r hr hmoves hmap hdeep hnum
  have hd := unmarshalMap_jsonbText r hmap hdeep hnum
  rcases hsel1 r hr hmoves with ⟨response, hum, hcall⟩ | ⟨e, hum, hcall⟩
  · rw [hd] at hum
    cases hum
    exact hcall
  · rw [hd] at hum
    cases hum

/-- Claim C27, witness: the operation counts its executions and answers the object
`{"n": null}`. The first call inserts the record of the fresh key `k` at time 10; the second
call makes its two moves, at 11 and 12, before the first call executes and finalizes, and
fails with `ErrIdempotencyInProgress`; the operation has then been executed once, by the
first call. -/
theorem C27_concurrent_calls_witness :
    "k" ≠ "" ∧ ([] : List IdempotencyRow).find? (fun row => row.key = "k") = none ∧
      (runSchedule "k" (.obj [])
        (fun _ (n : Nat) => ((.ok (.obj [("n", .null)]) : Except StoreError Json), n + 1))
        (Race.init [] 0)
        [(false, 10), (true, 11), (true, 12), (false, 13), (false, 14)]).runsOf true = 0 ∧
      (runSchedule "k" (.obj [])
        (fun _ (n : Nat) => ((.ok (.obj [("n", .null)]) : Except StoreError Json), n + 1))
        (Race.init [] 0)
        [(false, 10), (true, 11), (true, 12), (false, 13), (false, 14)]).runsOf false = 1 ∧
      (runSchedule "k" (.obj [])
        (fun _ (n : Nat) => ((.ok (.obj [("n", .null)]) : Except StoreError Json), n + 1))
        (Race.init [] 0)
        [(false, 10), (true, 11), (true, 12), (false, 13), (false, 14)]).world = 1 ∧
      (runSchedule "k" (.obj [])
        (fun _ (n : Nat) => ((.ok (.obj [("n", .null)]) : Except StoreError Json), n + 1))
        (Race.init [] 0)
        [(false, 10), (true, 11), (true, 12), (false, 13), (false, 14)]).call true =
          .returned false (some .ErrIdempotencyInProgress) none :=
  have h := C27_concurrent_calls "k" (.obj []) []
    (fun _ (n : Nat) => ((.ok (.obj [("n", .null)]) : Except StoreError Json), n + 1))
    0 false 10 [(true, 11), (true, 12), (false, 13), (false, 14)] (by decide) rfl
  ⟨by decide, rfl, h.2.1, (h.2.2.2.1 (by decide)).1, (h.2.2.2.1 (by decide)).2,
    (h.2.2.2.2 [(true, 11)] 12 [(false, 13), (false, 14)] rfl (by decide)).2.1
      (Or.inl (by decide))⟩

/-- Claim C27 as stated fails when the operation succeeds with a JSON value that is not an
object: here the array `[]`. The first call makes its three moves under the fresh key `k`
and writes `[]`; the second call, whose `BeginIdempotency` runs after the `UPDATE` of
`FinalizeIdempotency`, writes no response and fails with the error of `json.Unmarshal`. -/
theorem C27_counterexample :
    (runSchedule "k" (.obj [])
        (fun _ (n : Nat) => ((.ok (.arr []) : Except StoreError Json), n + 1))
        (Race.init [] 0)
        [(false, 10), (false, 11), (false, 12), (true, 13), (true, 14)]).call false =
          .returned true none (some (200, .arr [])) ∧
      (runSchedule "k" (.obj [])
        (fun _ (n : Nat) => ((.ok (.arr []) : Except StoreError Json), n + 1))
        (Race.init [] 0)
        [(false, 10), (false, 11), (false, 12), (true, 13), (true, 14)]).call true =
          .returned false (some (.json
            "json: cannot unmarshal array into Go value of type map[string]interface {}"))
            none := by
  have h := (Race_select "k" (.obj []) []
    (fun _ (n : Nat) => ((.ok (.arr []) : Except StoreError Json), n + 1))
    0 false 10 14 [(false, 11), (false, 12), (true, 13)] [] rfl (by decide)).1
    (.arr []) rfl (by decide)
  have hd : unmarshalMap (jsonbText (.arr [])) =
      .error "json: cannot unmarshal array into Go value of type map[string]interface {}" := rfl
  refine ⟨rfl, ?_⟩
  rcases h with ⟨response, hum, -⟩ | ⟨e, hum, hcall⟩
  · rw [hd] at hum
    cases hum
  · rw [hd] at hum
    cases hum
    exact hcall

end TdpLite
